import Mathlib

/-!
launchd: the supervisor engine

A shallow embedding of `src/launchd/src/launchd.c` (job registry, job
lifecycle, control-channel dispatcher) and of the parts of
`src/liblaunch/liblaunch.c` it relies on, followed by theorems about it.

Conventions of the embedding.

* C pointers to `struct jobcb` are record identities (`jobcb.id`), handed out
  by a counter that stands for `calloc`; a record that has left the registry
  is never found again through its identity.
* The answers of the operating system that the code branches on (`fork`,
  `kevent`, `waitpid`, `gettimeofday`, `sendmsg`) come from a `World`, indexed
  by the number of answers consumed so far (`State.calls`).
* Signals sent, children forked and descriptors closed are recorded in the
  state as traces.
* `size_t` counters are naturals below `SIZE_T_MOD` whose increment and
  decrement wrap around (`size_t_succ`, `size_t_pred`).
-/

namespace Launchd

/-! ## launch_data -/

/-- The typed value tree behind `launch_data_t`.  A dictionary is the sequence
of its key/value pairs in insertion order, an array the sequence of its
elements. -/
inductive launch_data where
  | dictionary (kvs : List (String × launch_data))
  | array (xs : List launch_data)
  | fd (n : Int)
  | integer (n : Int)
  | real (bits : Nat)
  | bool (b : Bool)
  | string (s : String)
  | blob (bytes : List Nat)
  | errno (e : Nat)
  | machport (p : Nat)

/-- Values of `errno` used by the dispatcher (Darwin numbering of
`<sys/errno.h>`). -/
def ESRCH : Nat := 3
def EACCES : Nat := 13
def EEXIST : Nat := 17
def EINVAL : Nat := 22
def ENOSYS : Nat := 78

/-- Signal numbers of `<signal.h>` (Darwin numbering). -/
def SIGHUP : Nat := 1
def SIGKILL : Nat := 9
def SIGTERM : Nat := 15
def SIGSTOP : Nat := 17
def SIGCONT : Nat := 19

def LAUNCHD_MIN_JOB_RUN_TIME : Int := 10
def LAUNCHD_REWARD_JOB_RUN_TIME : Int := 60
def LAUNCHD_FAILED_EXITS_THRESHOLD : Nat := 10

/-- Modelled from the spec: `launch.h` is not among the sources.  The job keys
are the strings the specification names for them. -/
def LAUNCH_JOBKEY_LABEL : String := "Label"
def LAUNCH_JOBKEY_PROGRAMARGUMENTS : String := "ProgramArguments"
def LAUNCH_JOBKEY_ONDEMAND : String := "OnDemand"
def LAUNCH_JOBKEY_SERVICEIPC : String := "ServiceIPC"
def LAUNCH_JOBKEY_INETDCOMPATIBILITY : String := "inetdCompatibility"
def LAUNCH_JOBKEY_TIMEOUT : String := "TimeOut"
def LAUNCH_JOBKEY_DEBUG : String := "Debug"

/-- Modelled from the spec: `launch_priv.h` is not among the sources.  The
label of the batch helper job. -/
def HELPERD : String := "com.apple.launchd_helperd"

/-- Modelled from the spec: `launch.h` is not among the sources.  The command
names are those of the specification's command table. -/
def LAUNCH_KEY_SUBMITJOB : String := "SubmitJob"
def LAUNCH_KEY_REMOVEJOB : String := "RemoveJob"
def LAUNCH_KEY_STARTJOB : String := "StartJob"
def LAUNCH_KEY_STOPJOB : String := "StopJob"
def LAUNCH_KEY_GETJOB : String := "GetJob"
def LAUNCH_KEY_GETJOBWITHHANDLES : String := "GetJobWithHandles"
def LAUNCH_KEY_GETJOBS : String := "GetJobs"
def LAUNCH_KEY_CHECKIN : String := "CheckIn"
def LAUNCH_KEY_GETUSERENVIRONMENT : String := "GetUserEnvironment"
def LAUNCH_KEY_SETUSERENVIRONMENT : String := "SetUserEnvironment"
def LAUNCH_KEY_UNSETUSERENVIRONMENT : String := "UnsetUserEnvironment"
def LAUNCH_KEY_SETLOGMASK : String := "SetLogMask"
def LAUNCH_KEY_GETLOGMASK : String := "GetLogMask"
def LAUNCH_KEY_SETUMASK : String := "SetUmask"
def LAUNCH_KEY_GETUMASK : String := "GetUmask"
def LAUNCH_KEY_GETRUSAGESELF : String := "GetRUsageSelf"
def LAUNCH_KEY_GETRUSAGECHILDREN : String := "GetRUsageChildren"
def LAUNCH_KEY_SETSTDOUT : String := "SetStdOut"
def LAUNCH_KEY_SETSTDERR : String := "SetStdErr"
def LAUNCH_KEY_SETRESOURCELIMITS : String := "SetResourceLimits"
def LAUNCH_KEY_GETRESOURCELIMITS : String := "GetResourceLimits"
def LAUNCH_KEY_BATCHCONTROL : String := "BatchControl"
def LAUNCH_KEY_BATCHQUERY : String := "BatchQuery"
def LAUNCH_KEY_RELOADTTYS : String := "ReloadTTYs"
def LAUNCH_KEY_SHUTDOWN : String := "Shutdown"

/-- Modelled from the spec: `launch_data.c` is not among the sources.  Lookup
in a string-keyed dictionary returns the value of the first entry under the
key, and nothing (NULL) when there is none. -/
def dict_lookup_kvs (key : String) : List (String × launch_data) → Option launch_data
  | [] => none
  | (k, v) :: rest => if k = key then some v else dict_lookup_kvs key rest

/-- Modelled from the spec: `launch_data.c` is not among the sources.
`launch_data_dict_lookup`; a value that is not a dictionary has no entries. -/
def launch_data_dict_lookup (d : launch_data) (key : String) : Option launch_data :=
  match d with
  | .dictionary kvs => dict_lookup_kvs key kvs
  | _ => none

/-- Modelled from the spec: `launch_data.c` is not among the sources.
Insertion replaces the value of the first entry under the key and appends a
new entry when there is none. -/
def dict_insert_kvs (what : launch_data) (key : String) :
    List (String × launch_data) → List (String × launch_data)
  | [] => [(key, what)]
  | (k, v) :: rest =>
    if k = key then (key, what) :: rest else (k, v) :: dict_insert_kvs what key rest

/-- Modelled from the spec: `launch_data.c` is not among the sources.
`launch_data_dict_insert`; a value that is not a dictionary is left alone. -/
def launch_data_dict_insert (d : launch_data) (what : launch_data) (key : String) :
    launch_data :=
  match d with
  | .dictionary kvs => .dictionary (dict_insert_kvs what key kvs)
  | other => other

/-- Modelled from the spec: `launch_data.c` is not among the sources.
`launch_data_get_string`: the text of a string node, NULL for any other
node. -/
def launch_data_get_string : launch_data → Option String
  | .string s => some s
  | _ => none

/-- Modelled from the spec: `launch_data.c` is not among the sources.
`launch_data_get_bool`: the value of a boolean node, false for any other
node. -/
def launch_data_get_bool : launch_data → Bool
  | .bool b => b
  | _ => false

/-- Modelled from the spec: `launch_data.c` is not among the sources.
`launch_data_get_integer`: the value of an integer node, 0 for any other
node. -/
def launch_data_get_integer : launch_data → Int
  | .integer n => n
  | _ => 0

/-- Modelled from the spec: `launch_data.c` is not among the sources.
`launch_data_set_bool` on a node: a boolean node takes the new value, any
other node is left alone. -/
def launch_data_set_bool (b : Bool) : launch_data → launch_data
  | .bool _ => .bool b
  | other => other

/-- `launch_data_copy` (liblaunch.c): a deep copy, which on values is the
identity. -/
def launch_data_copy (o : launch_data) : launch_data := o

/-- `launch_data_new_errno` (liblaunch.c). -/
def launch_data_new_errno (e : Nat) : launch_data := .errno e

/-- `launch_data_new_integer` (liblaunch.c). -/
def launch_data_new_integer (n : Int) : launch_data := .integer n

/-- `strcmp(a, b) == 0` on two C strings; a NULL operand (a missing key, a
node that is not a string) compares unequal to everything. -/
def streq (a b : Option String) : Bool :=
  match a, b with
  | some x, some y => x == y
  | _, _ => false

/-- `job_get_string` (launchd.c). -/
def job_get_string (j : launch_data) (key : String) : Option String :=
  match launch_data_dict_lookup j key with
  | some t => launch_data_get_string t
  | none => none

/-- `job_get_bool` (launchd.c). -/
def job_get_bool (j : launch_data) (key : String) : Bool :=
  match launch_data_dict_lookup j key with
  | some t => launch_data_get_bool t
  | none => false

/-- `job_get_integer` (launchd.c). -/
def job_get_integer (j : launch_data) (key : String) : Int :=
  match launch_data_dict_lookup j key with
  | some t => launch_data_get_integer t
  | none => 0

mutual
/-- `launch_data_revoke_fds` (launchd.c): with no cookie every descriptor node
becomes -1, with a cookie only the nodes holding that descriptor do. -/
def launch_data_revoke_fds (badfd : Option Int) : launch_data → launch_data
  | .dictionary kvs => .dictionary (revoke_fds_dict badfd kvs)
  | .array xs => .array (revoke_fds_array badfd xs)
  | .fd n =>
    match badfd with
    | none => .fd (-1)
    | some b => if b = n then .fd (-1) else .fd n
  | other => other
/-- The dictionary iteration of `launch_data_revoke_fds`. -/
def revoke_fds_dict (badfd : Option Int) :
    List (String × launch_data) → List (String × launch_data)
  | [] => []
  | (k, v) :: rest => (k, launch_data_revoke_fds badfd v) :: revoke_fds_dict badfd rest
/-- The array loop of `launch_data_revoke_fds`. -/
def revoke_fds_array (badfd : Option Int) : List launch_data → List launch_data
  | [] => []
  | v :: rest => launch_data_revoke_fds badfd v :: revoke_fds_array badfd rest
end

mutual
/-- The descriptors other than -1 met by the traversal shared by
`job_watch_fds`, `job_ignore_fds` and `launch_data_close_fds` (launchd.c), in
the order the traversal meets them. -/
def live_fds : launch_data → List Int
  | .dictionary kvs => live_fds_dict kvs
  | .array xs => live_fds_array xs
  | .fd n => if n = -1 then [] else [n]
  | _ => []
/-- The dictionary iteration of `live_fds`. -/
def live_fds_dict : List (String × launch_data) → List Int
  | [] => []
  | (_, v) :: rest => live_fds v ++ live_fds_dict rest
/-- The array loop of `live_fds`. -/
def live_fds_array : List launch_data → List Int
  | [] => []
  | v :: rest => live_fds v ++ live_fds_array rest
end

/-! ## Engine state and the operating system -/

/-- The `struct timeval` of `<sys/time.h>`. -/
structure timeval where
  tv_sec : Int
  tv_usec : Int

/-- The `timersub` macro of `<sys/time.h>`. -/
def timersub (a b : timeval) : timeval :=
  if a.tv_usec - b.tv_usec < 0 then
    { tv_sec := a.tv_sec - b.tv_sec - 1, tv_usec := a.tv_usec - b.tv_usec + 1000000 }
  else
    { tv_sec := a.tv_sec - b.tv_sec, tv_usec := a.tv_usec - b.tv_usec }

/-- A wait status as the macros of `<sys/wait.h>` read it: `WIFEXITED` with
`WEXITSTATUS`, `WIFSIGNALED` with `WTERMSIG`, or stopped. -/
inductive wait_status where
  | exited (code : Nat)
  | signaled (sig : Nat)
  | stopped (sig : Nat)

/-- The kqueue filters used by the engine. -/
inductive kq_filter where
  | EVFILT_READ
  | EVFILT_WRITE
  | EVFILT_PROC
  | EVFILT_SIGNAL
  | EVFILT_FS
  deriving DecidableEq

/-- The callback tag stored as `udata` of a registration: the address of the
`kq_callback` member of a job or connection record, or of one of the static
callbacks. -/
inductive kq_callback where
  | job (id : Nat)
  | conn (fd : Int)
  | listen
  | signal
  | fs
  | mach
  | readcfg
  | simple_zombie_reaper
  deriving DecidableEq

/-- One registration in the kernel event queue. -/
structure knote where
  ident : Int
  filter : kq_filter
  udata : kq_callback

/-- The fields of `struct kevent` that the callbacks read. -/
structure kevent where
  ident : Int
  filter : kq_filter
  eof : Bool
  data : Int

/-- The `struct jobcb` of launchd.c; `id` stands for the address of the
record. -/
structure jobcb where
  id : Nat
  ldj : launch_data
  p : Int
  start_time : timeval
  failed_exits : Nat
  checkedin : Bool
  firstborn : Bool
  debug : Bool

/-- The `struct conncb` of launchd.c; the connection is known by its stream
descriptor, `j` is the job it is bound to. -/
structure conncb where
  fd : Int
  j : Option Nat
  disabled_batch : Bool

/-- What `launchd_msg_send` reports to `ipc_readmsg`: success, -1 with
`EAGAIN`, or -1 with another error. -/
inductive send_result where
  | sent
  | again
  | failed

/-- The answers of the operating system, by the number of answers already
consumed.  `fork` answers -1 or the pid of the child; the value 0 is the
answer in the child, which never returns to the event loop, so a world that
describes the supervisor does not give it. -/
structure World where
  pid : Nat
  reap_adopted : Bool
  gettimeofday : Nat → timeval
  fork : Nat → Int
  kevent : Nat → Bool
  waitpid : Nat → Option wait_status
  pid1_child_exit_status : Nat → wait_status
  socketpair : Nat → Int × Int
  msg_send : Nat → send_result
  rusage : Nat → List Nat
  rlimits : Nat → List Nat
  lstat_conf : Nat → Bool

/-- The number of values of a `size_t`. -/
def SIZE_T_MOD : Nat := 2 ^ 64

/-- The operation `x + 1` on a `size_t`: the largest value wraps around to 0. -/
def size_t_succ (x : Nat) : Nat :=
  if x + 1 = SIZE_T_MOD then 0 else x + 1

/-- The operation `x - 1` on a `size_t`: 0 wraps around to the largest value. -/
def size_t_pred (x : Nat) : Nat :=
  if x = 0 then SIZE_T_MOD - 1 else x - 1

/-- The process-wide variables of launchd.c together with the kernel event
queue and the traces of what the process did to the outside.  The last field
is a trace too: it records whether `total_children--` ever ran while the
count was 0. -/
structure State where
  jobs : List jobcb
  connections : List conncb
  helperd : Option Nat
  batch_disabler_count : Int
  total_children : Nat
  shutdown_in_progress : Bool
  readcfg_pid : Int
  pending_stdout : Option String
  pending_stderr : Option String
  kq : List knote
  next_id : Nat
  calls : Nat
  kills : List (Int × Nat)
  forked : List Int
  closed : List Int
  dup2s : List (Int × Int)
  environ : List (String × String)
  logmask : Int
  umask : Int
  rlimit_cache : Option (List Nat)
  child_count_wrapped : Bool

/-- The state at the start of `main`: no job, no connection, nothing
registered. -/
def State.init : State :=
  { jobs := [], connections := [], helperd := none, batch_disabler_count := 0,
    total_children := 0, shutdown_in_progress := false, readcfg_pid := 0,
    pending_stdout := none, pending_stderr := none, kq := [], next_id := 0,
    calls := 0, kills := [], forked := [], closed := [], dup2s := [],
    environ := [], logmask := 63, umask := 18, rlimit_cache := none,
    child_count_wrapped := false }

/-- The operating system has given `n` more answers. -/
def tick (n : Nat) (st : State) : State :=
  { st with calls := st.calls + n }

/-- The statement `total_children++`. -/
def children_inc (st : State) : State :=
  { st with total_children := size_t_succ st.total_children }

/-- The statement `total_children--`; a decrement of the count 0 is recorded
in the trace. -/
def children_dec (st : State) : State :=
  { st with total_children := size_t_pred st.total_children,
            child_count_wrapped := st.child_count_wrapped || st.total_children == 0 }

/-- A child with pid `c` has been forked. -/
def note_fork (c : Int) (st : State) : State :=
  { st with forked := st.forked ++ [c] }

/-- Removal of the registration for `(ident, filter)`, if there is one. -/
def kq_remove (ident : Int) (f : kq_filter) (kq : List knote) : List knote :=
  kq.filter (fun k => !(k.ident == ident && k.filter == f))

/-- The kernel registers `(ident, filter)` with the tag, replacing an earlier
registration of the pair. -/
def kq_add (ident : Int) (f : kq_filter) (udata : kq_callback) (st : State) : State :=
  { st with kq := kq_remove ident f st.kq ++ [{ ident := ident, filter := f, udata := udata }] }

/-- `kevent_mod` (launchd.c) with `EV_ADD`: under `PID1_REAP_ADOPTED_CHILDREN`
process 1 registers no process filter and reports success; otherwise the
kernel answers, and on success the registration for `(ident, filter)` carries
the new tag. -/
def kevent_mod_add (w : World) (ident : Int) (f : kq_filter) (udata : kq_callback)
    (st : State) : Bool × State :=
  if w.reap_adopted && f == kq_filter.EVFILT_PROC && w.pid == 1 then (true, st)
  else if w.kevent st.calls then (true, kq_add ident f udata (tick 1 st))
  else (false, tick 1 st)

/-- `kevent_mod` (launchd.c) with `EV_DELETE`; the callers ignore the result. -/
def kevent_mod_delete (w : World) (ident : Int) (f : kq_filter) (st : State) : State :=
  if w.reap_adopted && f == kq_filter.EVFILT_PROC && w.pid == 1 then st
  else { st with kq := kq_remove ident f st.kq }

/-- `close(2)`: the descriptor is recorded as closed and the kernel drops its
read and write registrations. -/
def sys_close (fd : Int) (st : State) : State :=
  { st with closed := st.closed ++ [fd],
            kq := st.kq.filter (fun k => !(k.ident == fd &&
              (k.filter == kq_filter.EVFILT_READ || k.filter == kq_filter.EVFILT_WRITE))) }

/-- `kill(2)`, recorded in the trace of signals sent. -/
def sys_kill (pid : Int) (sig : Nat) (st : State) : State :=
  { st with kills := st.kills ++ [(pid, sig)] }

/-- `setlogmask(3)`: returns the previous mask; a zero argument only queries. -/
def sys_setlogmask (m : Int) (st : State) : Int × State :=
  (st.logmask, if m = 0 then st else { st with logmask := m })

/-- `LOG_UPTO(LOG_DEBUG)`. -/
def LOG_UPTO_DEBUG : Int := 255

/-- A store through a `struct jobcb` pointer: the record with this identity in
the registry takes the new contents; a record that is no longer linked is
freed memory and the registry is unaffected. -/
def set_job (j : jobcb) (st : State) : State :=
  { st with jobs := st.jobs.map (fun x => if x.id = j.id then j else x) }

/-- A store through a `struct conncb` pointer. -/
def set_conn (c : conncb) (st : State) : State :=
  { st with connections := st.connections.map (fun x => if x.fd = c.fd then c else x) }

/-- The record a job pointer designates, when it is linked in the registry. -/
def find_job (st : State) (id : Nat) : Option jobcb :=
  st.jobs.find? (fun j => j.id == id)

/-- `launch_data_close_fds` (launchd.c): every descriptor other than -1 in the
tree is closed, in traversal order. -/
def launch_data_close_fds (o : launch_data) (st : State) : State :=
  (live_fds o).foldl (fun s fd => sys_close fd s) st

/-- `job_ignore_fds` (launchd.c): the read registration of every descriptor
other than -1 in the tree is deleted. -/
def job_ignore_fds (w : World) (o : launch_data) (st : State) : State :=
  (live_fds o).foldl (fun s fd => kevent_mod_delete w fd kq_filter.EVFILT_READ s) st

/-- `job_watch_fds` (launchd.c): every descriptor other than -1 in the tree is
registered for reading with the cookie as tag; failures are ignored. -/
def job_watch_fds (w : World) (o : launch_data) (cookie : kq_callback) (st : State) : State :=
  (live_fds o).foldl (fun s fd => (kevent_mod_add w fd kq_filter.EVFILT_READ cookie s).2) st

/-- `ipc_open` (launchd.c). -/
def ipc_open (w : World) (fd : Int) (j : Option Nat) (st : State) : State :=
  (kevent_mod_add w fd kq_filter.EVFILT_READ (kq_callback.conn fd)
    { st with connections := st.connections ++ [{ fd := fd, j := j, disabled_batch := false }] }).2

/-- `job_stop` (launchd.c). -/
def job_stop (j : jobcb) (st : State) : State :=
  if j.p ≠ 0 then sys_kill j.p SIGTERM st else st

/-- The `bad_exit` flag computed by `job_reap`. -/
def bad_exit (status : wait_status) : Bool :=
  match status with
  | .exited code => code != 0
  | .signaled s => s != SIGKILL && s != SIGTERM
  | .stopped _ => false

/-- The status `job_reap` works with: under `PID1_REAP_ADOPTED_CHILDREN`
process 1 takes the status saved by its `SIGCHLD` handler, every other
supervisor asks `waitpid`, which may fail. -/
def reap_status (w : World) (n : Nat) : Option wait_status :=
  if w.reap_adopted && w.pid == 1 then some (w.pid1_child_exit_status n) else w.waitpid n

/-- `job_reap` (launchd.c).  Returns the record as the caller's pointer sees
it afterwards. -/
def job_reap (w : World) (j : jobcb) (st : State) : jobcb × State :=
  match reap_status w st.calls with
  | none => (j, tick 1 st)
  | some s =>
    let j1 := { j with
      failed_exits := if bad_exit s then size_t_succ j.failed_exits else 0,
      p := 0, checkedin := false }
    (j1, set_job j1 (children_dec (tick 1 st)))

/-- The `TAILQ_REMOVE` of `job_remove`. -/
def unlink_job (j : jobcb) (st : State) : State :=
  { st with jobs := st.jobs.filter (fun x => x.id != j.id) }

/-- `job_remove` (launchd.c).  The record is unlinked and freed; it is
returned as the caller's (now dangling) pointer sees it. -/
def job_remove (w : World) (j : jobcb) (st : State) : jobcb × State :=
  let st1 := unlink_job j st
  let k := kevent_mod_add w j.p kq_filter.EVFILT_PROC kq_callback.simple_zombie_reaper st1
  let r : jobcb × State :=
    if j.p ≠ 0 then
      if k.1 then (j, job_stop j k.2) else job_reap w j k.2
    else (j, st1)
  (r.1, launch_data_close_fds j.ldj r.2)

/-- `job_start` (launchd.c), as seen by the supervisor. -/
def job_start (w : World) (j : jobcb) (st : State) : jobcb × State :=
  if j.p ≠ 0 then (j, st)
  else
    let sipc := job_get_bool j.ldj LAUNCH_JOBKEY_SERVICEIPC ||
      job_get_bool j.ldj LAUNCH_JOBKEY_INETDCOMPATIBILITY
    let spair := w.socketpair st.calls
    let st1 := if sipc then tick 1 st else st
    let now := w.gettimeofday st1.calls
    let tvd := timersub now j.start_time
    let j2 : jobcb := { j with
      start_time := now,
      failed_exits := if tvd.tv_sec ≥ LAUNCHD_REWARD_JOB_RUN_TIME then 0 else j.failed_exits }
    let c := w.fork (st1.calls + 1)
    let st2 := tick 2 st1
    if c = -1 then
      (j2, set_job j2 (if sipc then sys_close spair.2 (sys_close spair.1 st2) else st2))
    else if c = 0 then (j2, set_job j2 st2)
    else
      let st3 := note_fork c st2
      let st4 := if sipc then ipc_open w spair.1 (some j.id) (sys_close spair.2 st3) else st3
      let k := kevent_mod_add w c kq_filter.EVFILT_PROC (kq_callback.job j.id) st4
      if k.1 then
        let j3 := { j2 with p := c }
        (j3, set_job j3
          (if job_get_bool j.ldj LAUNCH_JOBKEY_ONDEMAND then
            job_ignore_fds w j.ldj (children_inc k.2)
          else children_inc k.2))
      else (j2, set_job j2 k.2)

/-- The store of `do_shutdown` into the node found under `OnDemand`: the value
of the first entry under the key becomes false. -/
def ondemand_off_kvs : List (String × launch_data) → List (String × launch_data)
  | [] => []
  | (k, v) :: rest =>
    if k = LAUNCH_JOBKEY_ONDEMAND then (k, launch_data_set_bool false v) :: rest
    else (k, v) :: ondemand_off_kvs rest

/-- The effect of the body of the loop of `do_shutdown` on one configuration. -/
def ondemand_off : launch_data → launch_data
  | .dictionary kvs => .dictionary (ondemand_off_kvs kvs)
  | other => other

/-- `do_shutdown` (launchd.c).  The hooks run when the supervisor is process 1
(`catatonia`, `mach_start_shutdown`) are outside the engine. -/
def do_shutdown (st : State) : State :=
  let st1 := { st with shutdown_in_progress := true,
                       jobs := st.jobs.map (fun j => { j with ldj := ondemand_off j.ldj }) }
  st.jobs.foldl (fun s j => job_stop j s) st1

/-- `notify_helperd` (launchd.c). -/
def notify_helperd (st : State) : State :=
  match st.helperd.bind (find_job st) with
  | some h => if h.p ≠ 0 && h.checkedin then sys_kill h.p SIGHUP st else st
  | none => st

/-! ## The control-channel dispatcher -/

/-- The test of the registry loops: the job's label equals the given C
string. -/
def label_is (which : Option String) (j : jobcb) : Bool :=
  streq (job_get_string j.ldj LAUNCH_JOBKEY_LABEL) which

/-- The `calloc` and `TAILQ_INSERT_TAIL` of `load_job`: the record takes the
next free identity and goes to the end of the registry. -/
def link_job (j : jobcb) (st : State) : State :=
  { st with next_id := st.next_id + 1, jobs := st.jobs ++ [j] }

/-- The configuration `load_job` stores for an accepted payload: a copy of
the payload, with `OnDemand = true` inserted when the copy has no `OnDemand`
entry. -/
def stored_config (pload : launch_data) : launch_data :=
  if (launch_data_dict_lookup (launch_data_copy pload) LAUNCH_JOBKEY_ONDEMAND).isNone then
    launch_data_dict_insert (launch_data_copy pload) (launch_data.bool true)
      LAUNCH_JOBKEY_ONDEMAND
  else launch_data_copy pload

/-- The record `load_job` sets up for an accepted payload: zeroed by `calloc`,
then given its configuration and its debug flag. -/
def new_job (id : Nat) (pload : launch_data) : jobcb :=
  { id := id, ldj := stored_config pload, p := 0, start_time := { tv_sec := 0, tv_usec := 0 },
    failed_exits := 0, checkedin := false, firstborn := false,
    debug := job_get_bool (stored_config pload) LAUNCH_JOBKEY_DEBUG }

/-- The part of `load_job` (launchd.c) after its three checks: the new record
is linked, then watched or started, and remembered as the helper when its
label says so. -/
def load_job_insert (w : World) (pload label : launch_data) (st : State) : State :=
  let j := new_job st.next_id pload
  let st1 := link_job j st
  let st2 :=
    if job_get_bool j.ldj LAUNCH_JOBKEY_ONDEMAND then
      notify_helperd (job_watch_fds w j.ldj (kq_callback.job j.id) st1)
    else (job_start w j st1).2
  if streq (launch_data_get_string label) (some HELPERD) then
    { st2 with helperd := some j.id }
  else st2

/-- `load_job` (launchd.c).  Returns the response, the payload as the caller
sees it afterwards (its descriptors are revoked once the job owns a copy) and
the new state. -/
def load_job (w : World) (pload : launch_data) (st : State) :
    launch_data × launch_data × State :=
  match launch_data_dict_lookup pload LAUNCH_JOBKEY_LABEL with
  | none => (launch_data_new_errno EINVAL, pload, st)
  | some label =>
    if st.jobs.any (label_is (launch_data_get_string label)) then
      (launch_data_new_errno EEXIST, pload, st)
    else if (launch_data_dict_lookup pload LAUNCH_JOBKEY_PROGRAMARGUMENTS).isNone then
      (launch_data_new_errno EINVAL, pload, st)
    else
      (launch_data_new_errno 0, launch_data_revoke_fds none pload,
        load_job_insert w pload label st)

/-- The loop of `ipc_readmsg2` over an array payload of `SubmitJob`: the
responses, the payload elements as left behind, and the state. -/
def load_jobs (w : World) : List launch_data → State →
    List launch_data × List launch_data × State
  | [], st => ([], [], st)
  | x :: rest, st =>
    let r := load_job w x st
    let rs := load_jobs w rest r.2.2
    (r.1 :: rs.1, r.2.1 :: rs.2.1, rs.2.2)

/-- The dictionary built by `get_jobs(NULL)`: one entry per job under its
label, inserted in registry order; a job without a label string contributes
nothing. -/
def get_jobs_all (jobs : List jobcb) : launch_data :=
  jobs.foldl
    (fun resp j =>
      match job_get_string j.ldj LAUNCH_JOBKEY_LABEL with
      | some l => launch_data_dict_insert resp (launch_data_copy j.ldj) l
      | none => resp)
    (launch_data.dictionary [])

/-- `get_jobs` (launchd.c): with a label, the copy of the configuration of the
last job in registry order that carries it, or `ESRCH`. -/
def get_jobs (which : Option String) (st : State) : launch_data :=
  match which with
  | some l =>
    match st.jobs.foldl
        (fun resp j => if label_is (some l) j then some (launch_data_copy j.ldj) else resp)
        none with
    | some r => r
    | none => launch_data_new_errno ESRCH
  | none => get_jobs_all st.jobs

/-- `batch_job_enable` (launchd.c).  Returns the connection record as
stored. -/
def batch_job_enable (e : Bool) (c : conncb) (st : State) : conncb × State :=
  let helper_pid : Int :=
    match st.helperd.bind (find_job st) with
    | some h => h.p
    | none => 0
  if e && c.disabled_batch then
    let st1 := { st with batch_disabler_count := st.batch_disabler_count - 1 }
    let c1 := { c with disabled_batch := false }
    let st2 := set_conn c1 st1
    (c1, if st1.batch_disabler_count = 0 ∧ helper_pid ≠ 0 then sys_kill helper_pid SIGCONT st2
         else st2)
  else if !e && !c.disabled_batch then
    let st1 := if st.batch_disabler_count = 0 ∧ helper_pid ≠ 0 then
      sys_kill helper_pid SIGSTOP st else st
    let c1 := { c with disabled_batch := true }
    (c1, set_conn c1 { st1 with batch_disabler_count := st1.batch_disabler_count + 1 })
  else (c, st)

/-- `ipc_close` (launchd.c). -/
def ipc_close (c : conncb) (st : State) : State :=
  let st1 := (batch_job_enable true c st).2
  sys_close c.fd { st1 with connections := st1.connections.filter (fun x => x.fd != c.fd) }

/-- `setstdio` (launchd.c). -/
def setstdio (d : Int) (o : Option launch_data) (st : State) : launch_data × State :=
  match o with
  | some (.string path) =>
    (launch_data_new_errno 0,
      if d = 1 then { st with pending_stdout := some path }
      else { st with pending_stderr := some path })
  | some (.fd n) => (launch_data_new_errno 0, { st with dup2s := st.dup2s ++ [(n, d)] })
  | _ => (launch_data_new_errno EINVAL, st)

/-- `setenv(key, value, 1)`. -/
def sys_setenv (key value : String) : List (String × String) → List (String × String)
  | [] => [(key, value)]
  | (k, v) :: rest =>
    if k = key then (key, value) :: rest else (k, v) :: sys_setenv key value rest

/-- The iteration of `set_user_env` over the payload of `SetUserEnvironment`;
an entry whose value is not a string is skipped. -/
def set_user_env (data : Option launch_data) (env : List (String × String)) :
    List (String × String) :=
  match data with
  | some (.dictionary kvs) =>
    kvs.foldl
      (fun e kv =>
        match launch_data_get_string kv.2 with
        | some v => sys_setenv kv.1 v e
        | none => e)
      env
  | _ => env

/-- `adjust_rlimits` (launchd.c), coarsely: the reply is the cached array of
limits as bytes; the cache is filled from the kernel on first use and read
back from the kernel after new limits were given. -/
def adjust_rlimits (w : World) (input : Option launch_data) (st : State) :
    launch_data × State :=
  match input, st.rlimit_cache with
  | none, some l => (launch_data.blob l, st)
  | _, _ =>
    (launch_data.blob (w.rlimits st.calls),
      tick 1 { st with rlimit_cache := some (w.rlimits st.calls) })

/-- The `struct readmsg_context` of launchd.c. -/
structure readmsg_context where
  c : conncb
  resp : Option launch_data

/-- The body of the registry loop of `StartJob`. -/
def start_matching (w : World) (which : Option String) (st : State) : State :=
  st.jobs.foldl (fun s j => if label_is which j then (job_start w j s).2 else s) st

/-- The body of the registry loop of `StopJob`. -/
def stop_matching (which : Option String) (st : State) : State :=
  st.jobs.foldl (fun s j => if label_is which j then job_stop j s else s) st

/-- The body of the registry loop of `RemoveJob`. -/
def remove_matching (w : World) (which : Option String) (st : State) : State :=
  st.jobs.foldl
    (fun s j =>
      if label_is which j then
        let s1 := if streq which (some HELPERD) then { s with helperd := none } else s
        let s2 := if job_get_bool j.ldj LAUNCH_JOBKEY_ONDEMAND then notify_helperd s1 else s1
        (job_remove w j s2).2
      else s)
    st

/-- The response of the three registry loops: 0 when some job carried the
label, `ESRCH` otherwise. -/
def found_or_esrch (which : Option String) (st : State) : launch_data :=
  if st.jobs.any (label_is which) then launch_data_new_errno 0
  else launch_data_new_errno ESRCH

/-- `ipc_readmsg2` (launchd.c).  `data` is the payload (NULL for a command
sent as a bare string); the result carries the payload as left behind, the
context and the state.  A connection whose bound job has been freed is
treated as unbound. -/
def ipc_readmsg2 (w : World) (data : Option launch_data) (cmd : String)
    (rmc : readmsg_context) (st : State) : Option launch_data × readmsg_context × State :=
  if rmc.resp.isSome then (data, rmc, st)
  else
    let which := data.bind launch_data_get_string
    let reply (r : launch_data) (s : State) : Option launch_data × readmsg_context × State :=
      (data, { rmc with resp := some r }, s)
    if cmd = LAUNCH_KEY_STARTJOB then
      reply (found_or_esrch which st) (start_matching w which st)
    else if cmd = LAUNCH_KEY_STOPJOB then
      reply (found_or_esrch which st) (stop_matching which st)
    else if cmd = LAUNCH_KEY_REMOVEJOB then
      reply (found_or_esrch which st) (remove_matching w which st)
    else if cmd = LAUNCH_KEY_SUBMITJOB then
      match data with
      | some (.array xs) =>
        let r := load_jobs w xs st
        (some (.array r.2.1), { rmc with resp := some (.array r.1) }, r.2.2)
      | some d =>
        let r := load_job w d st
        (some r.2.1, { rmc with resp := some r.1 }, r.2.2)
      | none => reply (launch_data_new_errno EINVAL) st
    else if cmd = LAUNCH_KEY_UNSETUSERENVIRONMENT then
      reply (launch_data_new_errno 0)
        { st with environ := st.environ.filter (fun kv => !(some kv.1 == which)) }
    else if cmd = LAUNCH_KEY_GETUSERENVIRONMENT then
      reply (st.environ.foldl
          (fun r kv => launch_data_dict_insert r (launch_data.string kv.2) kv.1)
          (launch_data.dictionary []))
        st
    else if cmd = LAUNCH_KEY_SETUSERENVIRONMENT then
      reply (launch_data_new_errno 0) { st with environ := set_user_env data st.environ }
    else if cmd = LAUNCH_KEY_CHECKIN then
      match rmc.c.j.bind (find_job st) with
      | some j =>
        let copy := launch_data_copy j.ldj
        let resp :=
          if (launch_data_dict_lookup copy LAUNCH_JOBKEY_TIMEOUT).isNone then
            launch_data_dict_insert copy (launch_data_new_integer LAUNCHD_MIN_JOB_RUN_TIME)
              LAUNCH_JOBKEY_TIMEOUT
          else copy
        reply resp (set_job { j with checkedin := true } st)
      | none => reply (launch_data_new_errno EACCES) st
    else if cmd = LAUNCH_KEY_RELOADTTYS then
      reply (launch_data_new_errno 0) st
    else if cmd = LAUNCH_KEY_SHUTDOWN then
      reply (launch_data_new_errno 0) (do_shutdown st)
    else if cmd = LAUNCH_KEY_GETJOBS then
      reply (launch_data_revoke_fds none (get_jobs none st)) st
    else if cmd = LAUNCH_KEY_GETRESOURCELIMITS then
      let r := adjust_rlimits w none st
      reply r.1 r.2
    else if cmd = LAUNCH_KEY_SETRESOURCELIMITS then
      let r := adjust_rlimits w data st
      reply r.1 r.2
    else if cmd = LAUNCH_KEY_GETJOB then
      reply (launch_data_revoke_fds none (get_jobs which st)) st
    else if cmd = LAUNCH_KEY_GETJOBWITHHANDLES then
      reply (get_jobs which st) st
    else if cmd = LAUNCH_KEY_SETLOGMASK then
      let r := sys_setlogmask ((data.map launch_data_get_integer).getD 0) st
      reply (launch_data_new_integer r.1) r.2
    else if cmd = LAUNCH_KEY_GETLOGMASK then
      let r := sys_setlogmask LOG_UPTO_DEBUG st
      reply (launch_data_new_integer r.1) (sys_setlogmask r.1 r.2).2
    else if cmd = LAUNCH_KEY_SETUMASK then
      reply (launch_data_new_integer st.umask)
        { st with umask := ((data.map launch_data_get_integer).getD 0) % 512 }
    else if cmd = LAUNCH_KEY_GETUMASK then
      reply (launch_data_new_integer st.umask) st
    else if cmd = LAUNCH_KEY_GETRUSAGESELF then
      reply (launch_data.blob (w.rusage st.calls)) (tick 1 st)
    else if cmd = LAUNCH_KEY_GETRUSAGECHILDREN then
      reply (launch_data.blob (w.rusage st.calls)) (tick 1 st)
    else if cmd = LAUNCH_KEY_SETSTDOUT then
      let r := setstdio 1 data st
      reply r.1 r.2
    else if cmd = LAUNCH_KEY_SETSTDERR then
      let r := setstdio 2 data st
      reply r.1 r.2
    else if cmd = LAUNCH_KEY_BATCHCONTROL then
      let r := batch_job_enable ((data.map launch_data_get_bool).getD false) rmc.c st
      (data, { c := r.1, resp := some (launch_data_new_errno 0) }, r.2)
    else if cmd = LAUNCH_KEY_BATCHQUERY then
      reply (launch_data.bool (st.batch_disabler_count == 0)) st
    else (data, rmc, st)

/-- The `launch_data_dict_iterate(msg, ipc_readmsg2, &rmc)` of `ipc_readmsg`:
every entry is offered to `ipc_readmsg2` in dictionary order; the entries are
returned as the calls left them. -/
def ipc_readmsg_dict (w : World) :
    List (String × launch_data) → readmsg_context → State →
      List (String × launch_data) × readmsg_context × State
  | [], rmc, st => ([], rmc, st)
  | (k, v) :: rest, rmc, st =>
    let r := ipc_readmsg2 w (some v) k rmc st
    let rs := ipc_readmsg_dict w rest r.2.1 r.2.2
    ((k, r.1.getD v) :: rs.1, rs.2.1, rs.2.2)

/-- The part of `ipc_readmsg` (launchd.c) that computes the response: the
message as left behind, the context with the response filled in, and the
state. -/
def ipc_readmsg_resp (w : World) (c : conncb) (msg : launch_data) (st : State) :
    launch_data × readmsg_context × State :=
  let r : launch_data × readmsg_context × State :=
    match msg with
    | .dictionary kvs =>
      let d := ipc_readmsg_dict w kvs { c := c, resp := none } st
      (launch_data.dictionary d.1, d.2.1, d.2.2)
    | .string s =>
      let d := ipc_readmsg2 w none s { c := c, resp := none } st
      (msg, d.2.1, d.2.2)
    | _ => (msg, { c := c, resp := some (launch_data_new_errno EINVAL) }, st)
  match r.2.1.resp with
  | some _ => r
  | none => (r.1, { r.2.1 with resp := some (launch_data_new_errno ENOSYS) }, r.2.2)

/-- `ipc_readmsg` (launchd.c): the one response handed to `launchd_msg_send`
and the state after the descriptors of the message were closed and the
outcome of the send was acted on. -/
def ipc_readmsg (w : World) (c : conncb) (msg : launch_data) (st : State) :
    launch_data × State :=
  let r := ipc_readmsg_resp w c msg st
  let resp := r.2.1.resp.getD (launch_data_new_errno ENOSYS)
  let st1 := launch_data_close_fds r.1 r.2.2
  let st2 := tick 1 st1
  match w.msg_send st1.calls with
  | .sent => (resp, st2)
  | .again =>
    (resp, (kevent_mod_add w c.fd kq_filter.EVFILT_WRITE (kq_callback.conn c.fd) st2).2)
  | .failed => (resp, ipc_close r.2.1.c st2)

/-! ## Job events and the event loop -/

/-- The label `out` of `job_callback` (launchd.c): for a debug job the log
mask saved on entry is restored. -/
def job_callback_out (d : Bool) (oldmask : Int) (s : State) : State :=
  if d then (sys_setlogmask oldmask s).2 else s

/-- The tail of `job_callback` (launchd.c) from the call of `job_start` on:
the job is started, a restarted helper is stopped again while batch jobs are
disabled, and control reaches `out`. -/
def job_callback_start (w : World) (d : Bool) (oldmask : Int) (r : jobcb × State) : State :=
  let r1 := job_start w r.1 r.2
  job_callback_out d oldmask
    (if r1.2.helperd = some r1.1.id ∧ r1.2.batch_disabler_count > 0 then
      sys_kill r1.1.p SIGSTOP r1.2
    else r1.2)

/-- The part of `job_callback` (launchd.c) after the debug prologue: the
dispatch on the filter of the event, for the record `j` the tag points to. -/
def job_callback_body (w : World) (j : jobcb) (kev : kevent) (d : Bool) (oldmask : Int)
    (st0 : State) : State :=
  let checkin_check := j.checkedin
  if kev.filter = kq_filter.EVFILT_PROC then
    let r := job_reap w j st0
    if r.1.firstborn then job_callback_out d oldmask (do_shutdown r.2)
    else if job_get_bool r.1.ldj LAUNCH_JOBKEY_SERVICEIPC && !checkin_check then
      job_callback_start w d oldmask (job_remove w r.1 r.2)
    else if r.1.failed_exits > LAUNCHD_FAILED_EXITS_THRESHOLD then
      job_callback_start w d oldmask (job_remove w r.1 r.2)
    else if job_get_bool r.1.ldj LAUNCH_JOBKEY_ONDEMAND then
      job_callback_out d oldmask (job_watch_fds w r.1.ldj (kq_callback.job j.id) r.2)
    else job_callback_start w d oldmask r
  else if kev.filter = kq_filter.EVFILT_READ ∧ kev.eof = true ∧ kev.data = 0 then
    let j1 := { j with ldj := launch_data_revoke_fds (some kev.ident) j.ldj }
    job_callback_start w d oldmask (j1, set_job j1 (sys_close kev.ident st0))
  else job_callback_start w d oldmask (j, st0)

/-- `job_callback` (launchd.c) for the record `j` the event's tag points to:
for a debug job the log mask is opened up for the duration of the call. -/
def job_callback (w : World) (j : jobcb) (kev : kevent) (st : State) : State :=
  job_callback_body w j kev j.debug (if j.debug then st.logmask else 0)
    (if j.debug then (sys_setlogmask LOG_UPTO_DEBUG st).2 else st)

/-- `reload_launchd_config` (launchd.c), as seen by the supervisor: when the
configuration file exists a reader is forked, bound to a fresh connection and
watched. -/
def reload_launchd_config (w : World) (st : State) : State :=
  let st1 := tick 1 st
  if w.lstat_conf st.calls then
    let spair := w.socketpair st1.calls
    let c := w.fork (st1.calls + 1)
    let st2 := tick 2 st1
    if c = 0 then st2
    else if c = -1 then { sys_close spair.2 (sys_close spair.1 st2) with readcfg_pid := 0 }
    else
      (kevent_mod_add w c kq_filter.EVFILT_PROC kq_callback.readcfg
        (ipc_open w spair.1 none (sys_close spair.2 { st2 with readcfg_pid := c }))).2
  else st1

/-- `signal_callback` (launchd.c).  Under `PID1_REAP_ADOPTED_CHILDREN` the
exits found on `SIGCHLD` reach the jobs as process events of their own. -/
def signal_callback (w : World) (sig : Nat) (st : State) : State :=
  if sig = SIGHUP then reload_launchd_config w st
  else if sig = SIGTERM then do_shutdown st
  else st

/-- What one turn of the main loop can dispatch. -/
inductive Event where
  | job (id : Nat) (kev : kevent)
  | request (fd : Int) (msg : launch_data)
  | hangup (fd : Int)
  | accept (cfd : Int)
  | signal (sig : Nat)
  | zombie (pid : Int)

/-- One turn of the main loop of `main` (launchd.c) on a delivered event.  A
process-exit registration is consumed by its delivery.  A tag that designates
no linked job record or no open connection is a dangling pointer, and the
event is dropped. -/
def step (w : World) (st : State) : Event → State
  | .job id kev =>
    let st1 :=
      if kev.filter = kq_filter.EVFILT_PROC then
        { st with kq := kq_remove kev.ident kq_filter.EVFILT_PROC st.kq }
      else st
    match find_job st1 id with
    | some j => job_callback w j kev st1
    | none => st1
  | .request fd msg =>
    match st.connections.find? (fun c => c.fd == fd) with
    | some c => (ipc_readmsg w c msg st).2
    | none => st
  | .hangup fd =>
    match st.connections.find? (fun c => c.fd == fd) with
    | some c => ipc_close c st
    | none => st
  | .accept cfd => ipc_open w cfd none st
  | .signal sig => signal_callback w sig st
  | .zombie pid =>
    tick 1 { st with kq := kq_remove pid kq_filter.EVFILT_PROC st.kq }

/-- The state after a sequence of events, from a given state. -/
def run (w : World) (st : State) (evs : List Event) : State :=
  evs.foldl (step w) st

/-- `conceive_firstborn` (launchd.c): the command line becomes a job under the
label `com.apple.launchd.firstborn`, and the first record of the registry is
marked firstborn. -/
def conceive_firstborn (w : World) (argv : List String) (st : State) : State :=
  let d := launch_data_dict_insert
    (launch_data_dict_insert (launch_data.dictionary [])
      (launch_data.array (argv.map launch_data.string)) LAUNCH_JOBKEY_PROGRAMARGUMENTS)
    (launch_data.string "com.apple.launchd.firstborn") LAUNCH_JOBKEY_LABEL
  let st1 := (load_job w d st).2.2
  match st1.jobs with
  | [] => st1
  | j :: rest => { st1 with jobs := { j with firstborn := true } :: rest }

/-- The part of `main` (launchd.c) before the event loop that touches the
engine: with a trailing command the firstborn job is created, the
configuration is reloaded, and the firstborn job is started. -/
def main_start (w : World) (argv : List String) : State :=
  if argv.isEmpty then reload_launchd_config w State.init
  else
    let st1 := reload_launchd_config w (conceive_firstborn w argv State.init)
    match st1.jobs with
    | [] => st1
    | j :: _ => (job_start w j st1).2

/-- The states the supervisor can be in: those the event loop reaches from the
start of `main`. -/
def Reachable (w : World) (st : State) : Prop :=
  ∃ argv evs, st = run w (main_start w argv) evs

/-- The label string of a job, if it has one. -/
def job_label (j : jobcb) : Option String :=
  job_get_string j.ldj LAUNCH_JOBKEY_LABEL

/-- The command names `ipc_readmsg2` compares against. -/
def recognised_commands : List String :=
  [LAUNCH_KEY_STARTJOB, LAUNCH_KEY_STOPJOB, LAUNCH_KEY_REMOVEJOB, LAUNCH_KEY_SUBMITJOB,
   LAUNCH_KEY_UNSETUSERENVIRONMENT, LAUNCH_KEY_GETUSERENVIRONMENT,
   LAUNCH_KEY_SETUSERENVIRONMENT, LAUNCH_KEY_CHECKIN, LAUNCH_KEY_RELOADTTYS,
   LAUNCH_KEY_SHUTDOWN, LAUNCH_KEY_GETJOBS, LAUNCH_KEY_GETRESOURCELIMITS,
   LAUNCH_KEY_SETRESOURCELIMITS, LAUNCH_KEY_GETJOB, LAUNCH_KEY_GETJOBWITHHANDLES,
   LAUNCH_KEY_SETLOGMASK, LAUNCH_KEY_GETLOGMASK, LAUNCH_KEY_SETUMASK, LAUNCH_KEY_GETUMASK,
   LAUNCH_KEY_GETRUSAGESELF, LAUNCH_KEY_GETRUSAGECHILDREN, LAUNCH_KEY_SETSTDOUT,
   LAUNCH_KEY_SETSTDERR, LAUNCH_KEY_BATCHCONTROL, LAUNCH_KEY_BATCHQUERY]

/-! ## Sample inputs -/

/-- A world in which every system call succeeds: the n-th answer of `fork` is
pid `100 + n`, the clock reads `1000000000 + n` seconds, every child is
reported as having exited with status 1, every send completes. -/
def World.calm : World :=
  { pid := 500, reap_adopted := false,
    gettimeofday := fun n => { tv_sec := 1000000000 + n, tv_usec := 0 },
    fork := fun n => 100 + n,
    kevent := fun _ => true,
    waitpid := fun _ => some (wait_status.exited 1),
    pid1_child_exit_status := fun _ => wait_status.exited 1,
    socketpair := fun n => (1000 + 2 * n, 1001 + 2 * n),
    msg_send := fun _ => send_result.sent,
    rusage := fun _ => [],
    rlimits := fun _ => [],
    lstat_conf := fun _ => false }

/-- The configuration with label `l`, the given program arguments and the
given further entries. -/
def sample_config (l : String) (extra : List (String × launch_data)) : launch_data :=
  launch_data.dictionary
    ([(LAUNCH_JOBKEY_LABEL, launch_data.string l),
      (LAUNCH_JOBKEY_PROGRAMARGUMENTS, launch_data.array [launch_data.string "/bin/false"])]
      ++ extra)

/-- The registry holding one idle on-demand job labelled `a`. -/
def sample_state : State :=
  (load_job World.calm (sample_config "a" []) State.init).2.2

/-- A connection that is bound to no job. -/
def sample_conn : conncb := { fd := 7, j := none, disabled_batch := false }

/-- The registry left by submitting the given configurations one after the
other, in order. -/
def registry_after (w : World) (st : State) (cfgs : List launch_data) : State :=
  cfgs.foldl (fun s x => (load_job w x s).2.2) st

/-- The reply to `GetJob` with the label string `l` on connection `c`. -/
def get_job_reply (w : World) (c : conncb) (l : String) (st : State) : Option launch_data :=
  (ipc_readmsg2 w (some (launch_data.string l)) LAUNCH_KEY_GETJOB { c := c, resp := none } st).2.1.resp

/-- The reply to `GetJobWithHandles` with the label string `l` on connection
`c`. -/
def get_job_with_handles_reply (w : World) (c : conncb) (l : String) (st : State) :
    Option launch_data :=
  (ipc_readmsg2 w (some (launch_data.string l)) LAUNCH_KEY_GETJOBWITHHANDLES
    { c := c, resp := none } st).2.1.resp

mutual
/-- Descriptor stripping as the specification words it: `Stripped a b` holds
when `b` is `a` with every descriptor node, at any depth of dictionaries and
arrays, replaced by the invalid descriptor -1, every other node, every key
and the order of entries being the same. -/
inductive Stripped : launch_data → launch_data → Prop
  | dictionary {kvs kvs2 : List (String × launch_data)} :
      StrippedDict kvs kvs2 → Stripped (.dictionary kvs) (.dictionary kvs2)
  | array {xs ys : List launch_data} :
      StrippedArray xs ys → Stripped (.array xs) (.array ys)
  | fd (n : Int) : Stripped (.fd n) (.fd (-1))
  | integer (n : Int) : Stripped (.integer n) (.integer n)
  | real (bits : Nat) : Stripped (.real bits) (.real bits)
  | bool (b : Bool) : Stripped (.bool b) (.bool b)
  | string (s : String) : Stripped (.string s) (.string s)
  | blob (bytes : List Nat) : Stripped (.blob bytes) (.blob bytes)
  | errno (e : Nat) : Stripped (.errno e) (.errno e)
  | machport (p : Nat) : Stripped (.machport p) (.machport p)
/-- Entry-wise stripping of a dictionary. -/
inductive StrippedDict : List (String × launch_data) → List (String × launch_data) → Prop
  | nil : StrippedDict [] []
  | cons {k : String} {v v2 : launch_data} {r r2 : List (String × launch_data)} :
      Stripped v v2 → StrippedDict r r2 → StrippedDict ((k, v) :: r) ((k, v2) :: r2)
/-- Element-wise stripping of an array. -/
inductive StrippedArray : List launch_data → List launch_data → Prop
  | nil : StrippedArray [] []
  | cons {v v2 : launch_data} {r r2 : List launch_data} :
      Stripped v v2 → StrippedArray r r2 → StrippedArray (v :: r) (v2 :: r2)
end

/-- The part of the state that neither the transport nor the event queue
touches: the registry, the allocator of record identities, the child count,
the trace of forks, the shutdown flag and the trace of the child count's
wrap-around. -/
def State.core (st : State) : List jobcb × Nat × Nat × List Int × Bool × Bool :=
  (st.jobs, st.next_id, st.total_children, st.forked, st.shutdown_in_progress,
    st.child_count_wrapped)

/-- The identity of a record together with its label string. -/
def job_key (j : jobcb) : Nat × Option String := (j.id, job_label j)

/-- The well-formedness of the registry: record identities are distinct and
below the allocator's counter, and no label string occurs twice. -/
def RegistryOk (st : State) : Prop :=
  (st.jobs.map (fun j => j.id)).Nodup ∧ (st.jobs.filterMap job_label).Nodup ∧
    ∀ j ∈ st.jobs, j.id < st.next_id

/-- The record a handler holds agrees on its label with the registry record
of the same identity, if there is one. -/
def InHand (j : jobcb) (st : State) : Prop :=
  ∀ x ∈ st.jobs, x.id = j.id → job_label x = job_label j

/-- The second state's registry holds some of the first state's records, in
the same order and under the same identities and labels, and nothing else. -/
def KeysSub (st st2 : State) : Prop :=
  (st2.jobs.map job_key).Sublist (st.jobs.map job_key) ∧ st2.next_id = st.next_id

/-- The kernel event delivered to job `id` when its child exits. -/
def child_exit_event (st : State) (id : Nat) : Event :=
  Event.job id
    { ident := match find_job st id with
        | some j => j.p
        | none => 0,
      filter := kq_filter.EVFILT_PROC, eof := false, data := 0 }

/-- Demand arrives for job `id`: a watched descriptor of the job becomes
readable, with data pending. -/
def demand_event (id : Nat) : Event :=
  Event.job id { ident := 0, filter := kq_filter.EVFILT_READ, eof := false, data := 1 }

/-- A job that is registered but has no child (an on-demand job that waits,
or a job whose start failed) gets demand, so that it is started again; a
running or removed job is left alone. -/
def rerun_if_idle (w : World) (id : Nat) (st : State) : State :=
  match find_job st id with
  | some j => if j.p = 0 then step w st (demand_event id) else st
  | none => st

/-- The state right after the `n`-th exit event of job `id` has been handled,
when the child of the job exits `n` times in a row: between two exits the job
runs again, started by `job_callback` itself or by demand. -/
def after_exits (w : World) (id : Nat) : Nat → State → State
  | 0, st => st
  | n + 1, st =>
    step w (rerun_if_idle w id (after_exits w id n st))
      (child_exit_event (rerun_if_idle w id (after_exits w id n st)) id)

/-- The registry holding the one job `f`, which is not on-demand and was
therefore started when it was submitted. -/
def flapping_state : State :=
  (load_job World.calm
    (sample_config "f" [(LAUNCH_JOBKEY_ONDEMAND, launch_data.bool false)]) State.init).2.2

/-- The world `World.calm` with a clock that stands still. -/
def World.frozen : World :=
  { World.calm with gettimeofday := fun _ => { tv_sec := 1000000000, tv_usec := 0 } }

/-- A running record of the job `f`, started at the time the frozen clock
shows, with no failed exit counted. -/
def flapping_job : jobcb :=
  { id := 0, ldj := sample_config "f" [(LAUNCH_JOBKEY_ONDEMAND, launch_data.bool false)],
    p := 101, start_time := { tv_sec := 1000000000, tv_usec := 0 }, failed_exits := 0,
    checkedin := false, firstborn := false, debug := false }

/-- The registry holding `flapping_job` alone, its child being the one child
of the supervisor. -/
def frozen_state : State :=
  { State.init with jobs := [flapping_job], next_id := 1, total_children := 1,
                    forked := [101] }

/-- A world like `World.calm` in which every child is reported as having
exited with status 0. -/
def World.clean : World :=
  { World.calm with waitpid := fun _ => some (wait_status.exited 0) }

/-- Job `id` is registered with configuration `ldj` and is not the firstborn
job. -/
def RegisteredAs (id : Nat) (ldj : launch_data) (st : State) : Prop :=
  ∃ j, find_job st id = some j ∧ j.ldj = ldj ∧ j.firstborn = false

/-- A running record of a job `s` that declares ServiceIPC and is not
on-demand, with the given checked-in flag. -/
def service_job (checkedin : Bool) : jobcb :=
  { id := 0,
    ldj := sample_config "s" [(LAUNCH_JOBKEY_ONDEMAND, launch_data.bool false),
      (LAUNCH_JOBKEY_SERVICEIPC, launch_data.bool true)],
    p := 101, start_time := { tv_sec := 1000000000, tv_usec := 0 }, failed_exits := 0,
    checkedin := checkedin, firstborn := false, debug := false }

/-- The registry holding `service_job` alone, its child being the one child
of the supervisor. -/
def service_state (checkedin : Bool) : State :=
  { State.init with jobs := [service_job checkedin], next_id := 1, total_children := 1,
                    forked := [101] }

/-- A running record of the firstborn job as `conceive_firstborn` and
`load_job` set it up for the command line `/bin/sh`. -/
def firstborn_job : jobcb :=
  { id := 0,
    ldj := launch_data.dictionary
      [(LAUNCH_JOBKEY_PROGRAMARGUMENTS, launch_data.array [launch_data.string "/bin/sh"]),
       (LAUNCH_JOBKEY_LABEL, launch_data.string "com.apple.launchd.firstborn"),
       (LAUNCH_JOBKEY_ONDEMAND, launch_data.bool true)],
    p := 101, start_time := { tv_sec := 1000000000, tv_usec := 0 }, failed_exits := 0,
    checkedin := false, firstborn := true, debug := false }

/-- The registry holding the running firstborn job and the running job `f`. -/
def firstborn_state : State :=
  { State.init with jobs := [firstborn_job, { flapping_job with id := 1, p := 102 }],
                    next_id := 2, total_children := 2, forked := [101, 102] }

/-- The test at the top of an iteration of the main loop of `main`
(launchd.c) that ends the process with `EXIT_SUCCESS` before waiting: the
supervisor is not process 1, its registry is not empty, shutdown is in
progress and it has no child. -/
def main_loop_exits (w : World) (st : State) : Bool :=
  w.pid != 1 && !st.jobs.isEmpty && st.shutdown_in_progress && st.total_children == 0

/-- The exits of the children of the given jobs are handled one after the
other. -/
def handle_exits (w : World) (st : State) (ids : List Nat) : State :=
  ids.foldl (fun s id => step w s (child_exit_event s id)) st

/-- A world like `World.calm` in which every child is reported as terminated
by SIGTERM. -/
def World.term : World :=
  { World.calm with waitpid := fun _ => some (wait_status.signaled SIGTERM) }

/-- The per-user supervisor with the three running jobs `a`, `b` and `c`, none
of them on-demand, and one open connection, after `Shutdown` was requested on
that connection. -/
def shutdown_state : State :=
  run World.term
    (registry_after World.term State.init
      [sample_config "a" [(LAUNCH_JOBKEY_ONDEMAND, launch_data.bool false)],
       sample_config "b" [(LAUNCH_JOBKEY_ONDEMAND, launch_data.bool false)],
       sample_config "c" [(LAUNCH_JOBKEY_ONDEMAND, launch_data.bool false)]])
    [Event.accept 7, Event.request 7 (launch_data.string LAUNCH_KEY_SHUTDOWN)]

/-- The number of registered jobs whose pid is not 0. -/
def running_jobs (st : State) : Nat :=
  (st.jobs.filter (fun j => j.p != 0)).length

/-- The number of pending one-shot reap registrations: process filters whose
tag is `simple_zombie_reaper`. -/
def zombie_registrations (st : State) : Nat :=
  (st.kq.filter (fun k => k.filter == kq_filter.EVFILT_PROC &&
    k.udata == kq_callback.simple_zombie_reaper)).length

/-- The events by which a per-user supervisor started without a command
accepts a connection, is given the job `f` (not on-demand, so started at
once), and is asked to remove it while its child runs. -/
def remove_running_events : List Event :=
  [Event.accept 7,
   Event.request 7 (launch_data.dictionary
     [(LAUNCH_KEY_SUBMITJOB,
       sample_config "f" [(LAUNCH_JOBKEY_ONDEMAND, launch_data.bool false)])]),
   Event.request 7 (launch_data.dictionary [(LAUNCH_KEY_REMOVEJOB, launch_data.string "f")])]

/-- The state after `remove_running_events`. -/
def removed_running_state : State :=
  run World.calm (main_start World.calm []) remove_running_events

/-- The number of open connections whose `disabled_batch` flag is set. -/
def batch_disablers (st : State) : Nat :=
  st.connections.countP (fun c => c.disabled_batch)

/-- The request `BatchControl` with a boolean payload. -/
def batch_control_msg (e : Bool) : launch_data :=
  launch_data.dictionary [(LAUNCH_KEY_BATCHCONTROL, launch_data.bool e)]

/-- The request `BatchQuery`, sent as a bare string. -/
def batch_query_msg : launch_data := launch_data.string LAUNCH_KEY_BATCHQUERY

/-- The states reached by `BatchControl` and `BatchQuery` requests and by
connections being opened and closed, from a state in which no connection is
open and no batch disabler is counted.  An accepted connection gets a
descriptor that no open connection has. -/
inductive BatchReachable (w : World) : State → Prop
  | start (st : State) : st.connections = [] → st.batch_disabler_count = 0 →
      BatchReachable w st
  | accept (st : State) (cfd : Int) : BatchReachable w st →
      (∀ c ∈ st.connections, c.fd ≠ cfd) → BatchReachable w (step w st (Event.accept cfd))
  | hangup (st : State) (fd : Int) : BatchReachable w st →
      BatchReachable w (step w st (Event.hangup fd))
  | control (st : State) (fd : Int) (e : Bool) : BatchReachable w st →
      BatchReachable w (step w st (Event.request fd (batch_control_msg e)))
  | query (st : State) (fd : Int) : BatchReachable w st →
      BatchReachable w (step w st (Event.request fd batch_query_msg))

/-- The part of the state the batch bookkeeping lives in: the open
connections and the batch disabler count. -/
def State.batch (st : State) : List conncb × Int :=
  (st.connections, st.batch_disabler_count)

/-- The batch disabler count equals the number of open connections that hold
batch disabled, and no two open connections have the same descriptor. -/
def BatchOk (st : State) : Prop :=
  st.batch_disabler_count = (batch_disablers st : Int) ∧
    (st.connections.map (fun c => c.fd)).Nodup

/-- The state after a connection with descriptor 7 was accepted and sent
`BatchControl(false)` twice. -/
def batch_sample : State :=
  step World.calm
    (step World.calm (step World.calm State.init (Event.accept 7))
      (Event.request 7 (batch_control_msg false)))
    (Event.request 7 (batch_control_msg false))

/-- Values of `errno` set by the transport (Darwin numbering of
`<sys/errno.h>`). -/
def EPERM : Nat := 1
def EAGAIN : Nat := 35
def ECONNABORTED : Nat := 53
def ECONNRESET : Nat := 54
def EBADRPC : Nat := 72

/-- `LAUNCH_MSG_HEADER_MAGIC` (liblaunch.c). -/
def LAUNCH_MSG_HEADER_MAGIC : Nat := 0xD2FEA02366B39A41

/-- `sizeof(struct launch_msg_header)` (liblaunch.c): two 64-bit fields. -/
def LAUNCH_MSG_HEADER_SIZE : Nat := 16

/-- Modelled from the spec: the macro `wire2host` is not among the sources.
Header fields travel in network byte order, so the value of a field is that of
its 8 bytes read most significant byte first. -/
def wire2host (bytes : List Nat) : Nat :=
  bytes.foldl (fun acc b => acc * 256 + b % 256) 0

/-- The field `magic` of the header at the start of a buffer. -/
def header_magic (buf : List Nat) : Nat := wire2host (buf.take 8)

/-- The field `len` of the header at the start of a buffer. -/
def header_len (buf : List Nat) : Nat := wire2host ((buf.drop 8).take 8)

/-- The receive side of `struct _launch` (liblaunch.c): the descriptor
`launchd_getfd` picks, the bytes received and not yet consumed (`recvbuf`,
`recvlen`) and the descriptors received and not yet consumed (`recvfds`,
`recvfdcnt`). -/
structure launch where
  fd2use : Int
  recvbuf : List Nat
  recvfds : List Int

/-- What `recvmsg(2)` reports to `launchd_msg_recv`: -1 with an `errno`, or the
bytes read (none at end of stream) with the descriptors of the control message
and the flag `MSG_CTRUNC`. -/
inductive recvmsg_result where
  | error (errno : Nat)
  | received (bytes : List Nat) (fds : List Int) (ctrunc : Bool)

/-- The outcome of a call of `launchd_msg_recv`: the value returned, `errno`
when the call set it, the handle and the callback's context afterwards, and
the messages the callback was invoked on, in order. -/
structure recv_result (σ : Type) where
  ret : Int
  errno : Option Nat
  lh : launch
  ctx : σ
  delivered : List launch_data

/-- The `while (lh->recvlen > 0)` loop of `launchd_msg_recv` (liblaunch.c),
for at most `fuel` iterations.  `unpack` stands for `launch_data_unpack`
(launch_data.c, not among the sources): from the buffer and the descriptors it
gives the message and the final `data_offset` and `fd_offset`, which lie within
the buffer, or NULL.  The callback reports whether it closed the connection
(`in_flight_msg_recv_client` is then NULL). -/
def msg_recv_loop {σ : Type} (unpack : List Nat → List Int → Option (launch_data × Nat × Nat))
    (cb : launch_data → σ → σ × Bool) :
    Nat → launch → σ → List launch_data → Option (recv_result σ)
  | 0, _, _, _ => none
  | fuel + 1, lh, ctx, acc =>
    if lh.recvbuf.length = 0 then
      some { ret := 0, errno := none, lh := lh, ctx := ctx, delivered := acc }
    else if lh.recvbuf.length < LAUNCH_MSG_HEADER_SIZE then
      some { ret := -1, errno := some EAGAIN, lh := lh, ctx := ctx, delivered := acc }
    else if header_magic lh.recvbuf ≠ LAUNCH_MSG_HEADER_MAGIC ∨
        header_len lh.recvbuf ≤ LAUNCH_MSG_HEADER_SIZE then
      some { ret := -1, errno := some EBADRPC, lh := lh, ctx := ctx, delivered := acc }
    else if lh.recvbuf.length < header_len lh.recvbuf then
      some { ret := -1, errno := some EAGAIN, lh := lh, ctx := ctx, delivered := acc }
    else
      match unpack lh.recvbuf lh.recvfds with
      | none => some { ret := -1, errno := some EBADRPC, lh := lh, ctx := ctx, delivered := acc }
      | some (rmsg, data_offset, fd_offset) =>
        let r := cb rmsg ctx
        if r.2 then
          some { ret := 0, errno := none, lh := lh, ctx := r.1, delivered := acc ++ [rmsg] }
        else
          msg_recv_loop unpack cb fuel
            { lh with recvbuf := lh.recvbuf.drop data_offset,
                      recvfds := lh.recvfds.drop fd_offset }
            r.1 (acc ++ [rmsg])

/-- `launchd_msg_recv` (liblaunch.c) on the answer of `recvmsg`.  The loop
gets one iteration more than the buffer has bytes; the result is `none` only
if that is not enough, which takes a `launch_data_unpack` that consumes
nothing. -/
def launchd_msg_recv {σ : Type}
    (unpack : List Nat → List Int → Option (launch_data × Nat × Nat)) (lh : launch)
    (rr : recvmsg_result) (cb : launch_data → σ → σ × Bool) (ctx : σ) :
    Option (recv_result σ) :=
  if lh.fd2use = -1 then
    some { ret := -1, errno := some EPERM, lh := lh, ctx := ctx, delivered := [] }
  else
    match rr with
    | .error e => some { ret := -1, errno := some e, lh := lh, ctx := ctx, delivered := [] }
    | .received bytes fds ctrunc =>
      if bytes.length = 0 then
        some { ret := -1, errno := some ECONNRESET, lh := lh, ctx := ctx, delivered := [] }
      else if ctrunc then
        some { ret := -1, errno := some ECONNABORTED, lh := lh, ctx := ctx, delivered := [] }
      else
        msg_recv_loop unpack cb (lh.recvbuf.length + bytes.length + 1)
          { lh with recvbuf := lh.recvbuf ++ bytes, recvfds := lh.recvfds ++ fds } ctx []

/-- The callback `ipc_readmsg` as `ipc_callback` hands it to
`launchd_msg_recv`, for the connection with descriptor `fd`: the request is
answered on the connection record as it stands, and the connection counts as
closed when `ipc_readmsg` has unlinked it. -/
def ipc_readmsg_cb (w : World) (fd : Int) (msg : launch_data) (st : State) : State × Bool :=
  match st.connections.find? (fun c => c.fd == fd) with
  | some c =>
    ((ipc_readmsg w c msg st).2,
      !(ipc_readmsg w c msg st).2.connections.any (fun x => x.fd == fd))
  | none => (st, true)

/-- The `ipc_close(c)` of `ipc_callback` through the pointer `c`: the record
as it stands is closed. -/
def ipc_close_fd (fd : Int) (st : State) : State :=
  match st.connections.find? (fun c => c.fd == fd) with
  | some c => ipc_close c st
  | none => st

/-- `ipc_callback` (launchd.c) for the connection with descriptor `fd` and
receive handle `lh`.  A read event runs `launchd_msg_recv` on the answer `rr`
of `recvmsg` and closes the connection when that fails with an error other
than `EAGAIN`; a write event flushes pending output (`launchd_msg_send` with
no message, as the world answers it); any other filter closes the
connection. -/
def ipc_callback (w : World)
    (unpack : List Nat → List Int → Option (launch_data × Nat × Nat)) (lh : launch) (fd : Int)
    (kev : kevent) (rr : recvmsg_result) (st : State) : Option (launch × State) :=
  if kev.filter = kq_filter.EVFILT_READ then
    match launchd_msg_recv unpack lh rr (ipc_readmsg_cb w fd) st with
    | none => none
    | some r =>
      if r.ret = -1 ∧ r.errno ≠ some EAGAIN then some (r.lh, ipc_close_fd fd r.ctx)
      else some (r.lh, r.ctx)
  else if kev.filter = kq_filter.EVFILT_WRITE then
    match w.msg_send st.calls with
    | .sent => some (lh, kevent_mod_delete w fd kq_filter.EVFILT_WRITE (tick 1 st))
    | .again => some (lh, tick 1 st)
    | .failed => some (lh, ipc_close_fd fd (tick 1 st))
  else some (lh, ipc_close_fd fd st)

/-- A header with the right magic whose length field says 16: a frame without
payload. -/
def empty_frame : List Nat :=
  [0xD2, 0xFE, 0xA0, 0x23, 0x66, 0xB3, 0x9A, 0x41, 0, 0, 0, 0, 0, 0, 0, 16]

/-- A receive handle on descriptor 7 with nothing buffered. -/
def idle_handle : launch := { fd2use := 7, recvbuf := [], recvfds := [] }

/-- The supervisor with the one open connection `sample_conn`. -/
def open_state : State := step World.calm State.init (Event.accept 7)

/-- What the main loop can hand to a callback.  The kernel reports an event
only through a registration, so an event for a job needs a registration of
its identifier and filter that carries the job's tag, and a one-shot reap
needs its registration.  Process 1 under `PID1_REAP_ADOPTED_CHILDREN`
registers no process filter: there `launchd_check_pid` (launchd.c) hands the
exit of a reaped pid to the first job whose pid it is.  The other events are
not restricted. -/
def deliverable (w : World) (st : State) : Event → Bool
  | .job id kev =>
    if kev.filter = kq_filter.EVFILT_PROC ∧ w.reap_adopted = true ∧ w.pid = 1 then
      match st.jobs.find? (fun j => j.p == kev.ident) with
      | some j => j.id == id && decide (0 < kev.ident)
      | none => false
    else
      st.kq.any (fun k => k.ident == kev.ident && k.filter == kev.filter &&
        k.udata == kq_callback.job id)
  | .zombie pid =>
    st.kq.any (fun k => k.ident == pid && k.filter == kq_filter.EVFILT_PROC &&
      k.udata == kq_callback.simple_zombie_reaper)
  | _ => true

/-- Every event of the sequence is deliverable in the state it is handled
in. -/
def Deliverable (w : World) : State → List Event → Prop
  | _, [] => True
  | st, e :: rest => deliverable w st e = true ∧ Deliverable w (step w st e) rest

/-- Every process registration tagged with a job has a tag below the
allocator's counter, and when the tagged record is registered its pid is the
registered pid and is not 0. -/
def ProcTagsOk (st : State) : Prop :=
  ∀ k ∈ st.kq, k.filter = kq_filter.EVFILT_PROC → ∀ id, k.udata = kq_callback.job id →
    id < st.next_id ∧ ∀ j, find_job st id = some j → j.p = k.ident ∧ j.p ≠ 0

/-- The child count covers the registered jobs that have a child, is covered
by the number of children forked, and never wrapped around. -/
def Credit (st : State) : Prop :=
  running_jobs st ≤ st.total_children ∧ st.total_children ≤ st.forked.length ∧
    st.child_count_wrapped = false

/-- The invariant behind the child count: the process registrations are in
order and, as long as fewer than `SIZE_T_MOD` children were forked, the count
is in credit. -/
def ChildrenOk (st : State) : Prop :=
  ProcTagsOk st ∧ (st.forked.length < SIZE_T_MOD → Credit st)

/-- The record in hand is the registry's record of its identity. -/
def Current (j : jobcb) (st : State) : Prop := find_job st j.id = some j

/-- The record in hand was unlinked from the registry (a freed record). -/
def Dangling (j : jobcb) (st : State) : Prop :=
  find_job st j.id = none ∧ j.id < st.next_id

/-- The second state's process registrations tagged with jobs are among the
first state's. -/
def ProcSub (a b : State) : Prop :=
  ∀ k ∈ b.kq, k.filter = kq_filter.EVFILT_PROC → (∃ id, k.udata = kq_callback.job id) →
    k ∈ a.kq

/-- The events by which a per-user supervisor started without a command
accepts a connection, is given the job `f` (not on-demand, so started at
once, child 103), sees that child exit and restarts the job (child 108), and
sees the second child exit and restarts the job again. -/
def two_exits_events : List Event :=
  [Event.accept 7,
   Event.request 7 (launch_data.dictionary
     [(LAUNCH_KEY_SUBMITJOB,
       sample_config "f" [(LAUNCH_JOBKEY_ONDEMAND, launch_data.bool false)])]),
   Event.job 0 { ident := 103, filter := kq_filter.EVFILT_PROC, eof := false, data := 0 },
   Event.job 0 { ident := 108, filter := kq_filter.EVFILT_PROC, eof := false, data := 0 }]

/-- The registration `job_watch_fds` makes for the descriptor `fd` of the job
with identity `id`: read-readiness, tagged with the job's callback. -/
def job_watch (id : Nat) (fd : Int) : knote :=
  { ident := fd, filter := kq_filter.EVFILT_READ, udata := kq_callback.job id }

/-- The value of `job_get_bool(j->ldj, LAUNCH_JOBKEY_ONDEMAND)`. -/
def on_demand (j : jobcb) : Bool := job_get_bool j.ldj LAUNCH_JOBKEY_ONDEMAND

/-- The invariant behind the watch rule, before shutdown.  `F` lists
descriptors no job may hold (those of the message being handled); `x` names a
job that has just been reaped and is not yet watched again. -/
structure GoodBut (P : Int → Prop) (F : List Int) (x : Option Nat) (st : State) : Prop where
  reg : RegistryOk st
  watchR : ∀ j ∈ st.jobs, ∀ fd ∈ live_fds j.ldj, job_watch j.id fd ∈ st.kq →
    on_demand j = true ∧ j.p = 0
  watchL : ∀ j ∈ st.jobs, some j.id ≠ x → on_demand j = true → j.p = 0 →
    ∀ fd ∈ live_fds j.ldj, job_watch j.id fd ∈ st.kq
  tags : ∀ k ∈ st.kq, k.filter = kq_filter.EVFILT_READ → ∀ id, k.udata = kq_callback.job id →
    ∃ j ∈ st.jobs, j.id = id ∧ k.ident ∈ live_fds j.ldj
  apart : ∀ j1 ∈ st.jobs, ∀ j2 ∈ st.jobs, j1.id ≠ j2.id →
    ∀ fd ∈ live_fds j1.ldj, fd ∉ live_fds j2.ldj
  jobfd : ∀ j ∈ st.jobs, ∀ fd ∈ live_fds j.ldj, P fd ∧ fd ∉ F
  connfd : ∀ c ∈ st.connections, ¬ P c.fd
  calm : st.shutdown_in_progress = false

/-- A request with an unknown key, then `GetJobs`, then `Shutdown`. -/
def several_keys_msg : launch_data :=
  launch_data.dictionary
    [("NoSuchCommand", launch_data.string "x"),
     (LAUNCH_KEY_GETJOBS, launch_data.string ""),
     (LAUNCH_KEY_SHUTDOWN, launch_data.string "")]

/-- The registry holding the running job `f` alone, with as many failed exits
counted as the threshold allows. -/
def threshold_state : State :=
  { frozen_state with jobs := [{ flapping_job with failed_exits := LAUNCHD_FAILED_EXITS_THRESHOLD }] }

/-- The `struct timespec` passed to `kevent` as its timeout. -/
structure timespec where
  tv_sec : Nat
  tv_nsec : Nat
deriving DecidableEq, Repr

/-- The value of `EXIT_SUCCESS`. -/
def EXIT_SUCCESS : Nat := 0

/-- The part of an iteration of the main loop of `main` (launchd.c) before
the wait: the process ends with a status, or it waits in `kevent` with the
timeout `timeoutp` (`none` is the null pointer, a wait without timeout). -/
inductive loop_wait where
  | exits (status : Nat)
  | waits (timeoutp : Option timespec) (st : State)

/-- The outcome of an iteration of the main loop: the process ends with a
status, or the loop goes on to its next iteration. -/
inductive loop_turn where
  | exited (status : Nat)
  | next (st : State)

/-- The head of an iteration of the main loop of `main` (launchd.c):
`timeoutp` starts as the null pointer; process 1 runs `init_pre_kevent`
(given as `pre`, it is not part of launchd.c) when no configuration reader is
running; any other process takes the static timeout of 30 seconds when the
registry is empty, and exits when shutdown is in progress and no child is
left. -/
def main_loop_head (w : World) (pre : State → State) (st : State) : loop_wait :=
  if w.pid == 1 then
    if st.readcfg_pid == 0 then loop_wait.waits none (pre st)
    else loop_wait.waits none st
  else
    if st.jobs.isEmpty then loop_wait.waits (some { tv_sec := 30, tv_nsec := 0 }) st
    else if st.shutdown_in_progress && st.total_children == 0 then
      loop_wait.exits EXIT_SUCCESS
    else loop_wait.waits none st

/-- The `switch` on the return value `r` of `kevent` in the main loop of
`main` (launchd.c); `ev` is the event stored in `kev` when `r` is 1. -/
def main_loop_switch (w : World) (timeoutp : Option timespec) (st : State) (r : Int)
    (ev : Event) : loop_turn :=
  if r = -1 then loop_turn.next st
  else if r = 1 then loop_turn.next (step w st ev)
  else if r = 0 then
    if timeoutp.isSome then loop_turn.exited EXIT_SUCCESS
    else loop_turn.next st
  else loop_turn.next st

/-- One iteration of the main loop of `main` (launchd.c), `kevent` returning
`r` and the event `ev`. -/
def main_loop_turn (w : World) (pre : State → State) (st : State) (r : Int) (ev : Event) :
    loop_turn :=
  match main_loop_head w pre st with
  | loop_wait.exits status => loop_turn.exited status
  | loop_wait.waits timeoutp st1 => main_loop_switch w timeoutp st1 r ev

/-- The value `tvd` that `job_start` (launchd.c) computes for a job that is
not running: the time read by `gettimeofday`, after the `socketpair` of a job
with ServiceIPC, minus the previous start time. -/
def job_start_tvd (w : World) (j : jobcb) (st : State) : timeval :=
  let sipc := job_get_bool j.ldj LAUNCH_JOBKEY_SERVICEIPC ||
    job_get_bool j.ldj LAUNCH_JOBKEY_INETDCOMPATIBILITY
  let st1 := if sipc then tick 1 st else st
  timersub (w.gettimeofday st1.calls) j.start_time

/-- The argument of the `sleep` in `case 0` of the `switch` on `fork` in
`job_start` (launchd.c), or `none` when the forked child does not sleep before
`job_start_child`: the child of a job that is not on-demand and whose `tvd` is
below `LAUNCHD_MIN_JOB_RUN_TIME` sleeps when the counter of failed exits, as
the reward left it, is positive.  The argument is converted to
`unsigned int`.  A job that is running is not started and has no such child. -/
def job_start_child_sleep (w : World) (j : jobcb) (st : State) : Option Nat :=
  if j.p ≠ 0 then none
  else
    let tvd := job_start_tvd w j st
    let failed_exits := if tvd.tv_sec ≥ LAUNCHD_REWARD_JOB_RUN_TIME then 0 else j.failed_exits
    if !job_get_bool j.ldj LAUNCH_JOBKEY_ONDEMAND && decide (tvd.tv_sec < LAUNCHD_MIN_JOB_RUN_TIME) then
      if failed_exits > 0 then
        some ((LAUNCHD_MIN_JOB_RUN_TIME - tvd.tv_sec) % 2 ^ 32).toNat
      else none
    else none

/-- An idle record of the job `f`, not on-demand, with one failed exit
counted, last started `ago` seconds before the frozen clock's time. -/
def idle_failed_job (ago : Int) : jobcb :=
  { flapping_job with p := 0, failed_exits := 1,
                      start_time := { tv_sec := 1000000000 - ago, tv_usec := 0 } }

/-- Modelled from the spec: `launch.h` is not among the sources.  The keys of
the two limit dictionaries of a job and of the nine limit kinds. -/
def LAUNCH_JOBKEY_SOFTRESOURCELIMITS : String := "SoftResourceLimits"
def LAUNCH_JOBKEY_HARDRESOURCELIMITS : String := "HardResourceLimits"
def LAUNCH_JOBKEY_RESOURCELIMIT_CORE : String := "Core"
def LAUNCH_JOBKEY_RESOURCELIMIT_CPU : String := "CPU"
def LAUNCH_JOBKEY_RESOURCELIMIT_DATA : String := "Data"
def LAUNCH_JOBKEY_RESOURCELIMIT_FSIZE : String := "FileSize"
def LAUNCH_JOBKEY_RESOURCELIMIT_MEMLOCK : String := "MemoryLock"
def LAUNCH_JOBKEY_RESOURCELIMIT_NOFILE : String := "NumberOfFiles"
def LAUNCH_JOBKEY_RESOURCELIMIT_NPROC : String := "NumberOfProcesses"
def LAUNCH_JOBKEY_RESOURCELIMIT_RSS : String := "ResidentSetSize"
def LAUNCH_JOBKEY_RESOURCELIMIT_STACK : String := "Stack"

/-- The resource kinds of `<sys/resource.h>` that `job_start_child` sets. -/
inductive rlimit_kind where
  | RLIMIT_CORE | RLIMIT_CPU | RLIMIT_DATA | RLIMIT_FSIZE | RLIMIT_MEMLOCK
  | RLIMIT_NOFILE | RLIMIT_NPROC | RLIMIT_RSS | RLIMIT_STACK
deriving DecidableEq, Repr

/-- The `struct rlimit` of `<sys/resource.h>`; `rlim_t` is an unsigned 64-bit
integer. -/
structure rlimit where
  rlim_cur : Nat
  rlim_max : Nat
deriving DecidableEq, Repr

/-- The conversion of the `long long` that `job_get_integer` returns to
`rlim_t`. -/
def to_rlim_t (n : Int) : Nat := (n % 18446744073709551616).toNat

/-- The table `limits` of `job_start_child` (launchd.c). -/
def limits : List (String × rlimit_kind) :=
  [(LAUNCH_JOBKEY_RESOURCELIMIT_CORE, rlimit_kind.RLIMIT_CORE),
   (LAUNCH_JOBKEY_RESOURCELIMIT_CPU, rlimit_kind.RLIMIT_CPU),
   (LAUNCH_JOBKEY_RESOURCELIMIT_DATA, rlimit_kind.RLIMIT_DATA),
   (LAUNCH_JOBKEY_RESOURCELIMIT_FSIZE, rlimit_kind.RLIMIT_FSIZE),
   (LAUNCH_JOBKEY_RESOURCELIMIT_MEMLOCK, rlimit_kind.RLIMIT_MEMLOCK),
   (LAUNCH_JOBKEY_RESOURCELIMIT_NOFILE, rlimit_kind.RLIMIT_NOFILE),
   (LAUNCH_JOBKEY_RESOURCELIMIT_NPROC, rlimit_kind.RLIMIT_NPROC),
   (LAUNCH_JOBKEY_RESOURCELIMIT_RSS, rlimit_kind.RLIMIT_RSS),
   (LAUNCH_JOBKEY_RESOURCELIMIT_STACK, rlimit_kind.RLIMIT_STACK)]

/-- The body of the loop over `limits` in `job_start_child` (launchd.c) for
one entry: the value handed to `setrlimit`, `rl` being what `getrlimit` read. -/
def job_start_child_limit (srl hrl : Option launch_data) (key : String) (rl : rlimit) :
    rlimit :=
  let rl1 : rlimit :=
    match hrl with
    | some h => { rl with rlim_max := to_rlim_t (job_get_integer h key) }
    | none => rl
  match srl with
  | some s => { rl1 with rlim_cur := to_rlim_t (job_get_integer s key) }
  | none => rl1

/-- The resource-limit step of `job_start_child` (launchd.c): the calls of
`setrlimit` it makes, in order, `getrlimit` giving the current bounds of each
kind. -/
def job_start_child_limits (ldj : launch_data) (getrlimit : rlimit_kind → rlimit) :
    List (rlimit_kind × rlimit) :=
  let srl := launch_data_dict_lookup ldj LAUNCH_JOBKEY_SOFTRESOURCELIMITS
  let hrl := launch_data_dict_lookup ldj LAUNCH_JOBKEY_HARDRESOURCELIMITS
  if srl.isSome || hrl.isSome then
    limits.map (fun e => (e.2, job_start_child_limit srl hrl e.1 (getrlimit e.2)))
  else []

/-- A job configuration whose soft limits provide a bound for the number of
open files only, and which has no hard limits. -/
def nofile_config : launch_data :=
  sample_config "f"
    [(LAUNCH_JOBKEY_SOFTRESOURCELIMITS,
      launch_data.dictionary
        [(LAUNCH_JOBKEY_RESOURCELIMIT_NOFILE, launch_data.integer 1024)])]

/-- Current bounds of the process: soft 256 and hard 4096 for every kind. -/
def sample_getrlimit : rlimit_kind → rlimit :=
  fun _ => { rlim_cur := 256, rlim_max := 4096 }

/-- A payload for `SubmitJob` with label `l`, the descriptors 50 and 51 as
listeners, and the extra entries `extra`. -/
def listeners_config (extra : List (String × launch_data)) : launch_data :=
  sample_config "l"
    (("Sockets",
      launch_data.array [launch_data.fd 50, launch_data.fd (-1), launch_data.fd 51]) :: extra)

/-- The kernel event for job `id`: its descriptor `d` is readable, at end of
file, with no byte pending. -/
def eof_event (id : Nat) (d : Int) : Event :=
  Event.job id { ident := d, filter := kq_filter.EVFILT_READ, eof := true, data := 0 }

/-- The record and the state that `job_start` leaves when `job_callback` runs
on the end-of-file event for descriptor `d` of the job `j`: the descriptor is
closed and revoked in the configuration, then the job is started. -/
def eof_start (w : World) (j : jobcb) (d : Int) (st : State) : jobcb × State :=
  job_start w { j with ldj := launch_data_revoke_fds (some d) j.ldj }
    (set_job { j with ldj := launch_data_revoke_fds (some d) j.ldj }
      (sys_close d (if j.debug = true then (sys_setlogmask LOG_UPTO_DEBUG st).2 else st)))

/-- The registry holding one idle on-demand job with the listeners 50 and
51. -/
def listeners_state : State :=
  (load_job World.calm (listeners_config []) State.init).2.2

/-- Modelled from the spec: the macro `host2wire` is not among the sources.
A 64-bit header field travels in network byte order: its 8 bytes, most
significant byte first. -/
def host2wire (n : Nat) : List Nat :=
  [n / 256 ^ 7 % 256, n / 256 ^ 6 % 256, n / 256 ^ 5 % 256, n / 256 ^ 4 % 256,
   n / 256 ^ 3 % 256, n / 256 ^ 2 % 256, n / 256 % 256, n % 256]

/-- The send side of `struct _launch` (liblaunch.c): the descriptor
`launchd_getfd` picks, the bytes packed and not yet written (`sendbuf`,
`sendlen`) and the descriptors to pass with them (`sendfds`, `sendfdcnt`). -/
structure launch_out where
  fd2use : Int
  sendbuf : List Nat
  sendfds : List Int

/-- What `sendmsg(2)` reports to `launchd_msg_send`: -1 with an `errno`, or the
number of bytes it accepted, with whether `msg_controllen` is still the length
that was set. -/
inductive sendmsg_result where
  | error (errno : Nat)
  | accepted (r : Nat) (ctrl_kept : Bool)

/-- How a call of `launchd_msg_send` ends: it returns a value, with `errno`
when it set it; its `assert` fails and the process aborts; or its `memmove`
reads before the start of the buffer. -/
inductive send_end where
  | returned (ret : Int) (errno : Option Nat)
  | assertion_failed
  | out_of_bounds
deriving DecidableEq

/-- The outcome of a call of `launchd_msg_send`: how it ended, the handle
afterwards, and the bytes and descriptors the socket accepted. -/
structure send_outcome where
  status : send_end
  lh : launch_out
  written : List Nat
  passed : List Int

/-- The value of `ENOMEM` (Darwin numbering of `<sys/errno.h>`). -/
def ENOMEM : Nat := 12

/-- The 16 bytes of `struct launch_msg_header` as `launchd_msg_send` fills it
for a payload of `sendlen` bytes: the magic, then the length of payload plus
header. -/
def msg_header (sendlen : Nat) : List Nat :=
  host2wire LAUNCH_MSG_HEADER_MAGIC ++ host2wire (sendlen + LAUNCH_MSG_HEADER_SIZE)

/-- The part of `launchd_msg_send` (liblaunch.c) from `sendmsg` on.  `hdr` is
the header put in front of the buffer when a message is sent (`d` not NULL),
and is empty otherwise; `sm` is the answer of `sendmsg` to the bytes `hdr`
followed by the buffer.  With a message the header size is subtracted from the
count `r` of accepted bytes; when that leaves a negative `r`, `sendlen` grows
and `memmove` copies from before the buffer. -/
def msg_send_write (lh : launch_out) (hdr : List Nat) (sm : sendmsg_result) : send_outcome :=
  match sm with
  | .error e => { status := .returned (-1) (some e), lh := lh, written := [], passed := [] }
  | .accepted r ctrl_kept =>
    if r = 0 then
      { status := .returned (-1) (some ECONNRESET), lh := lh, written := [], passed := [] }
    else if !ctrl_kept then
      { status := .returned (-1) (some ECONNRESET), lh := lh,
        written := (hdr ++ lh.sendbuf).take r, passed := lh.sendfds }
    else if r < hdr.length then
      { status := .out_of_bounds, lh := lh,
        written := (hdr ++ lh.sendbuf).take r, passed := lh.sendfds }
    else
      let lh1 : launch_out :=
        { lh with sendbuf := lh.sendbuf.drop (r - hdr.length), sendfds := [] }
      { status := if lh1.sendbuf.length > 0 then .returned (-1) (some EAGAIN)
                  else .returned 0 none,
        lh := lh1, written := (hdr ++ lh.sendbuf).take r, passed := lh.sendfds }

/-- `launchd_msg_send` (liblaunch.c) on the answer `sm` of `sendmsg`.  `pack`
stands for `launch_data_pack` (launch_data.c, not among the sources): the
packed bytes and the descriptors of a message.  A message may only be sent
with nothing pending, and a flush (`d` NULL) only with something pending: the
`assert` says so. -/
def launchd_msg_send (pack : launch_data → List Nat × List Int) (lh : launch_out)
    (d : Option launch_data) (sm : sendmsg_result) : send_outcome :=
  if lh.fd2use = -1 then
    { status := .returned (-1) (some EPERM), lh := lh, written := [], passed := [] }
  else
    match d with
    | some msg =>
      if lh.sendbuf.length ≠ 0 then
        { status := .assertion_failed, lh := lh, written := [], passed := [] }
      else
        let lh1 : launch_out := { lh with sendbuf := (pack msg).1, sendfds := lh.sendfds }
        if lh1.sendbuf.length = 0 then
          { status := .returned (-1) (some ENOMEM), lh := lh1, written := [], passed := [] }
        else
          msg_send_write { lh1 with sendfds := (pack msg).2 } (msg_header lh1.sendbuf.length) sm
    | none =>
      if lh.sendbuf.length = 0 then
        { status := .assertion_failed, lh := lh, written := [], passed := [] }
      else msg_send_write lh [] sm

/-- The framed reply for a message: header, then the packed bytes. -/
def framed (pack : launch_data → List Nat × List Int) (d : launch_data) : List Nat :=
  msg_header (pack d).1.length ++ (pack d).1

/-- A sample of `launch_data_pack`, which is not among the sources: an errno
node is the tag 9 and its value, a descriptor node the tag 2 with the
descriptor in the control message, a string the tag 1, its length and its
characters, anything else the tag 0. -/
def sample_pack : launch_data → List Nat × List Int
  | .errno e => ([9, e % 256], [])
  | .fd n => ([2], [n])
  | .string s => (1 :: s.length % 256 :: s.toList.map (fun c => c.toNat % 256), [])
  | _ => ([0], [])

/-- A send handle on descriptor 7 with nothing pending. -/
def idle_out : launch_out := { fd2use := 7, sendbuf := [], sendfds := [] }

/-- A sample of `launch_data_unpack`, which is not among the sources, for the
encoding of `sample_pack`: the value is read from offset 16 on, and the
offsets returned are those behind the bytes and descriptors it took. -/
def sample_unpack (buf : List Nat) (fds : List Int) : Option (launch_data × Nat × Nat) :=
  match buf.drop 16 with
  | 9 :: e :: _ => some (launch_data.errno e, 18, 0)
  | 2 :: _ =>
    match fds with
    | fd :: _ => some (launch_data.fd fd, 17, 1)
    | [] => none
  | 1 :: n :: rest =>
    if n ≤ rest.length then
      some (launch_data.string (String.mk ((rest.take n).map Char.ofNat)), 18 + n, 0)
    else none
  | _ => none

/-- A world like `World.calm` in which the socket of a connection does not
take a whole reply: every `launchd_msg_send` ends with `EAGAIN`. -/
def World.congested : World :=
  { World.calm with msg_send := fun _ => send_result.again }

/-- The request `GetJobs` as a frame of the sample encoding. -/
def getjobs_frame : List Nat := framed sample_pack (launch_data.string LAUNCH_KEY_GETJOBS)

/-- The first reply of the failing run: the socket takes 16 of the 17 bytes of
the framed reply to `GetJobs`. -/
def first_reply_send : send_outcome :=
  launchd_msg_send sample_pack idle_out (some (launch_data.dictionary []))
    (sendmsg_result.accepted 16 true)

/-- A frame of a byte stream: its bytes (header and payload), the descriptors
that travel with it, and the message it carries. -/
structure frame where
  bytes : List Nat
  fds : List Int
  msg : launch_data

/-- A complete valid frame for `launch_data_unpack`: more than a header long,
with the magic and with its own length in the header, and unpacked to its
message, consuming exactly its bytes and its descriptors, whatever follows it
in the buffers. -/
def ValidFrame (unpack : List Nat → List Int → Option (launch_data × Nat × Nat))
    (f : frame) : Prop :=
  LAUNCH_MSG_HEADER_SIZE < f.bytes.length ∧
  header_magic f.bytes = LAUNCH_MSG_HEADER_MAGIC ∧
  header_len f.bytes = f.bytes.length ∧
  ∀ (rest : List Nat) (more : List Int),
    unpack (f.bytes ++ rest) (f.fds ++ more) = some (f.msg, f.bytes.length, f.fds.length)

/-- The bytes of a sequence of frames. -/
def stream_bytes : List frame → List Nat
  | [] => []
  | f :: fs => f.bytes ++ stream_bytes fs

/-- The descriptors of a sequence of frames. -/
def stream_fds : List frame → List Int
  | [] => []
  | f :: fs => f.fds ++ stream_fds fs

/-- The bytes of a sequence of reads: each read is what one `recvmsg` brings,
bytes and descriptors. -/
def reads_bytes : List (List Nat × List Int) → List Nat
  | [] => []
  | c :: cs => c.1 ++ reads_bytes cs

/-- The descriptors of a sequence of reads. -/
def reads_fds : List (List Nat × List Int) → List Int
  | [] => []
  | c :: cs => c.2 ++ reads_fds cs

/-- The outcome of successive calls of `launchd_msg_recv` on one handle: the
handle and the context at the end, the messages the callback was invoked on,
in order, and the value and `errno` of each call. -/
structure reads_result (σ : Type) where
  lh : launch
  ctx : σ
  delivered : List launch_data
  returns : List (Int × Option Nat)

/-- Successive calls of `launchd_msg_recv` on one handle, as `ipc_callback`
makes them on successive read events, each `recvmsg` bringing the next read
of the list. -/
def recv_reads {σ : Type} (unpack : List Nat → List Int → Option (launch_data × Nat × Nat))
    (cb : launch_data → σ → σ × Bool) :
    launch → σ → List (List Nat × List Int) → Option (reads_result σ)
  | lh, ctx, [] => some { lh := lh, ctx := ctx, delivered := [], returns := [] }
  | lh, ctx, c :: cs =>
    match launchd_msg_recv unpack lh (recvmsg_result.received c.1 c.2 false) cb ctx with
    | none => none
    | some r =>
      match recv_reads unpack cb r.lh r.ctx cs with
      | none => none
      | some q =>
        some { lh := q.lh, ctx := q.ctx, delivered := r.delivered ++ q.delivered,
               returns := (r.ret, r.errno) :: q.returns }

/-- A world like `World.calm` in which the peer of a connection has gone:
every `launchd_msg_send` fails with an error other than `EAGAIN`. -/
def World.broken : World :=
  { World.calm with msg_send := fun _ => send_result.failed }

/-- The request `GetJobs` as a frame of the sample encoding. -/
def getjobs_request : frame :=
  { bytes := getjobs_frame, fds := [], msg := launch_data.string LAUNCH_KEY_GETJOBS }

/-- A message that is the descriptor 50, as a frame of the sample encoding:
17 bytes and one descriptor. -/
def fd_request : frame :=
  { bytes := framed sample_pack (launch_data.fd 50), fds := [50], msg := launch_data.fd 50 }

/-- The stream of `getjobs_request` followed by `fd_request`, 42 bytes, cut
into three reads of 10, 20 and 12 bytes; the descriptor comes with the second
read. -/
def sample_reads : List (List Nat × List Int) :=
  [((stream_bytes [getjobs_request, fd_request]).take 10, []),
   (((stream_bytes [getjobs_request, fd_request]).drop 10).take 20, [50]),
   ((stream_bytes [getjobs_request, fd_request]).drop 30, [])]

/-- The whole seconds from the start time recorded for job `id` in state `a`
to the start time recorded for it in state `b`, when the job is registered in
both.  `job_start` stores the time of each start in the record, so between two
states with one start of the job in between this is the interval between that
start and the previous one, and it is 0 when the job was not started. -/
def start_interval (id : Nat) (a b : State) : Option Int :=
  match find_job a id, find_job b id with
  | some j1, some j2 => some (timersub j2.start_time j1.start_time).tv_sec
  | _, _ => none

/-- From state `a` to state `b` no interval between consecutive starts of job
`id` reaches `LAUNCHD_REWARD_JOB_RUN_TIME`. -/
def short_interval (id : Nat) (a b : State) : Bool :=
  match start_interval id a b with
  | some t => decide (t < LAUNCHD_REWARD_JOB_RUN_TIME)
  | none => true

/-- Job `id` is registered with configuration `ldj`, is not the firstborn job
and has `k` failed exits on its counter. -/
def Counted (id : Nat) (ldj : launch_data) (k : Nat) (st : State) : Prop :=
  ∃ j, find_job st id = some j ∧ j.ldj = ldj ∧ j.firstborn = false ∧ j.failed_exits = k

/-! ## Basic facts -/

theorem label_is_iff (l : String) (j : jobcb) :
    label_is (some l) j = true ↔ job_label j = some l := by
  unfold label_is job_label streq
  cases h : job_get_string j.ldj LAUNCH_JOBKEY_LABEL <;> simp

theorem label_is_none (j : jobcb) : label_is none j = false := by
  unfold label_is streq
  cases h : job_get_string j.ldj LAUNCH_JOBKEY_LABEL <;> simp

theorem any_label_is_iff (l : String) (jobs : List jobcb) :
    jobs.any (label_is (some l)) = true ↔ ∃ j ∈ jobs, job_label j = some l := by
  simp [List.any_eq_true, label_is_iff]

theorem lookup_array_none (xs : List launch_data) (key : String) :
    launch_data_dict_lookup (launch_data.array xs) key = none := rfl

theorem registry_after_append (w : World) (st : State) (pre : List launch_data)
    (x : launch_data) :
    registry_after w st (pre ++ [x]) = (load_job w x (registry_after w st pre)).2.2 := by
  simp [registry_after, List.foldl_append]

theorem load_jobs_state (w : World) (xs : List launch_data) (st : State) :
    (load_jobs w xs st).2.2 = registry_after w st xs := by
  induction xs generalizing st with
  | nil => rfl
  | cons x rest ih => simp [load_jobs, registry_after, ih]

theorem load_jobs_resp (w : World) (st : State) (xs pre : List launch_data) :
    (load_jobs w xs (registry_after w st pre)).1 =
      (xs.enumFrom pre.length).map
        (fun ix => (load_job w ix.2 (registry_after w st ((pre ++ xs).take ix.1))).1) := by
  induction xs generalizing pre with
  | nil => rfl
  | cons x rest ih =>
    have h := ih (pre ++ [x])
    rw [registry_after_append] at h
    simp only [load_jobs, List.enumFrom_cons, List.map_cons, h]
    simp

theorem foldl_no_match (p : jobcb → Bool) (f : jobcb → State → State)
    (js : List jobcb) (st : State) (h : ∀ j ∈ js, p j = false) :
    js.foldl (fun s j => if p j = true then f j s else s) st = st := by
  induction js generalizing st with
  | nil => rfl
  | cons x rest ih =>
    have hx : p x = false := h x (List.mem_cons_self _ _)
    simp only [List.foldl_cons, hx, Bool.false_eq_true, if_false]
    exact ih st (fun j hj => h j (List.mem_cons_of_mem _ hj))

theorem no_label_is (l : String) (js : List jobcb)
    (h : ¬ ∃ j ∈ js, job_label j = some l) : ∀ j ∈ js, label_is (some l) j = false := by
  intro j hj
  cases hb : label_is (some l) j with
  | false => rfl
  | true => exact absurd ⟨j, hj, (label_is_iff l j).1 hb⟩ h

theorem job_stop_frame (j : jobcb) (st : State) :
    ∃ ks, job_stop j st = { st with kills := ks } := by
  unfold job_stop sys_kill
  split
  · exact ⟨_, rfl⟩
  · exact ⟨st.kills, rfl⟩

theorem stop_fold_frame (which : Option String) (js : List jobcb) (st : State) :
    ∃ ks, js.foldl (fun s j => if label_is which j = true then job_stop j s else s) st =
      { st with kills := ks } := by
  induction js generalizing st with
  | nil => exact ⟨st.kills, rfl⟩
  | cons x rest ih =>
    simp only [List.foldl_cons]
    by_cases hx : label_is which x = true
    · simp only [hx, if_true]
      obtain ⟨k1, h1⟩ := job_stop_frame x st
      obtain ⟨k2, h2⟩ := ih (job_stop x st)
      rw [h2, h1]
      exact ⟨k2, rfl⟩
    · simp only [hx, if_false]
      exact ih st

/-! ### What the primitives leave alone -/

theorem foldl_keeps {α β : Type} (proj : State → β) (f : State → α → State)
    (h : ∀ s a, proj (f s a) = proj s) (l : List α) (st : State) :
    proj (l.foldl f st) = proj st := by
  induction l generalizing st with
  | nil => rfl
  | cons x rest ih => simp only [List.foldl_cons, ih, h]

@[simp] theorem kevent_mod_add_jobs (w : World) (i : Int) (f : kq_filter) (u : kq_callback)
    (st : State) : (kevent_mod_add w i f u st).2.jobs = st.jobs := by
  unfold kevent_mod_add
  split
  · rfl
  · split <;> rfl

@[simp] theorem kevent_mod_delete_jobs (w : World) (i : Int) (f : kq_filter) (st : State) :
    (kevent_mod_delete w i f st).jobs = st.jobs := by
  unfold kevent_mod_delete
  split <;> rfl

@[simp] theorem sys_close_jobs (fd : Int) (st : State) : (sys_close fd st).jobs = st.jobs := rfl

@[simp] theorem sys_kill_jobs (p : Int) (sig : Nat) (st : State) :
    (sys_kill p sig st).jobs = st.jobs := rfl

@[simp] theorem sys_setlogmask_jobs (m : Int) (st : State) :
    (sys_setlogmask m st).2.jobs = st.jobs := by
  unfold sys_setlogmask
  split <;> rfl

@[simp] theorem set_conn_jobs (c : conncb) (st : State) : (set_conn c st).jobs = st.jobs := rfl

@[simp] theorem job_stop_jobs (j : jobcb) (st : State) : (job_stop j st).jobs = st.jobs := by
  unfold job_stop
  split <;> rfl

@[simp] theorem notify_helperd_jobs (st : State) : (notify_helperd st).jobs = st.jobs := by
  unfold notify_helperd
  split
  · split <;> rfl
  · rfl

@[simp] theorem launch_data_close_fds_jobs (o : launch_data) (st : State) :
    (launch_data_close_fds o st).jobs = st.jobs :=
  foldl_keeps State.jobs (fun s fd => sys_close fd s) (fun _ _ => rfl) (live_fds o) st

@[simp] theorem job_ignore_fds_jobs (w : World) (o : launch_data) (st : State) :
    (job_ignore_fds w o st).jobs = st.jobs :=
  foldl_keeps State.jobs (fun s fd => kevent_mod_delete w fd kq_filter.EVFILT_READ s)
    (fun s a => kevent_mod_delete_jobs w a _ s) (live_fds o) st

@[simp] theorem job_watch_fds_jobs (w : World) (o : launch_data) (u : kq_callback)
    (st : State) : (job_watch_fds w o u st).jobs = st.jobs :=
  foldl_keeps State.jobs (fun s fd => (kevent_mod_add w fd kq_filter.EVFILT_READ u s).2)
    (fun s a => kevent_mod_add_jobs w a _ u s) (live_fds o) st

@[simp] theorem ipc_open_jobs (w : World) (fd : Int) (j : Option Nat) (st : State) :
    (ipc_open w fd j st).jobs = st.jobs := by
  unfold ipc_open
  simp

@[simp] theorem batch_job_enable_jobs (e : Bool) (c : conncb) (st : State) :
    (batch_job_enable e c st).2.jobs = st.jobs := by
  unfold batch_job_enable
  simp only
  split
  · split <;> rfl
  · split
    · split <;> rfl
    · rfl

@[simp] theorem ipc_close_jobs (c : conncb) (st : State) : (ipc_close c st).jobs = st.jobs := by
  unfold ipc_close
  simp

@[simp] theorem tick_jobs (n : Nat) (st : State) : (tick n st).jobs = st.jobs := rfl
@[simp] theorem children_inc_jobs (st : State) : (children_inc st).jobs = st.jobs := rfl
@[simp] theorem children_dec_jobs (st : State) : (children_dec st).jobs = st.jobs := rfl
@[simp] theorem note_fork_jobs (c : Int) (st : State) : (note_fork c st).jobs = st.jobs := rfl
@[simp] theorem kq_add_jobs (i : Int) (f : kq_filter) (u : kq_callback) (st : State) :
    (kq_add i f u st).jobs = st.jobs := rfl

theorem set_job_jobs (j : jobcb) (st : State) :
    (set_job j st).jobs = st.jobs.map (fun x => if x.id = j.id then j else x) := rfl

theorem job_start_jobs (w : World) (j : jobcb) (st : State) :
    ((job_start w j st).1.id = j.id ∧ (job_start w j st).1.ldj = j.ldj ∧
      (job_start w j st).1.firstborn = j.firstborn ∧
      (job_start w j st).1.debug = j.debug) ∧
    ((job_start w j st).2.jobs = st.jobs ∨
      (job_start w j st).2.jobs =
        st.jobs.map (fun x => if x.id = j.id then (job_start w j st).1 else x)) := by
  unfold job_start
  by_cases hp : j.p ≠ 0
  · simp [hp]
  · simp only [hp, if_false]
    split_ifs <;> exact ⟨⟨rfl, rfl, rfl, rfl⟩, Or.inr (by simp [set_job_jobs])⟩

mutual
theorem revoke_all_stripped : ∀ d : launch_data, Stripped d (launch_data_revoke_fds none d)
  | .dictionary kvs => by
    simp only [launch_data_revoke_fds]
    exact Stripped.dictionary (revoke_dict_stripped kvs)
  | .array xs => by
    simp only [launch_data_revoke_fds]
    exact Stripped.array (revoke_array_stripped xs)
  | .fd n => by simp only [launch_data_revoke_fds]; exact Stripped.fd n
  | .integer n => by simp only [launch_data_revoke_fds]; exact Stripped.integer n
  | .real n => by simp only [launch_data_revoke_fds]; exact Stripped.real n
  | .bool n => by simp only [launch_data_revoke_fds]; exact Stripped.bool n
  | .string n => by simp only [launch_data_revoke_fds]; exact Stripped.string n
  | .blob n => by simp only [launch_data_revoke_fds]; exact Stripped.blob n
  | .errno n => by simp only [launch_data_revoke_fds]; exact Stripped.errno n
  | .machport n => by simp only [launch_data_revoke_fds]; exact Stripped.machport n
theorem revoke_dict_stripped :
    ∀ kvs : List (String × launch_data), StrippedDict kvs (revoke_fds_dict none kvs)
  | [] => by simp only [revoke_fds_dict]; exact StrippedDict.nil
  | (k, v) :: rest => by
    simp only [revoke_fds_dict]
    exact StrippedDict.cons (revoke_all_stripped v) (revoke_dict_stripped rest)
theorem revoke_array_stripped :
    ∀ xs : List launch_data, StrippedArray xs (revoke_fds_array none xs)
  | [] => by simp only [revoke_fds_array]; exact StrippedArray.nil
  | v :: rest => by
    simp only [revoke_fds_array]
    exact StrippedArray.cons (revoke_all_stripped v) (revoke_array_stripped rest)
end

theorem dict_lookup_insert_ne (what : launch_data) (key k : String) (h : k ≠ key)
    (kvs : List (String × launch_data)) :
    dict_lookup_kvs k (dict_insert_kvs what key kvs) = dict_lookup_kvs k kvs := by
  induction kvs with
  | nil => simp [dict_insert_kvs, dict_lookup_kvs, h.symm]
  | cons kv rest ih =>
    obtain ⟨k2, v2⟩ := kv
    by_cases h2 : k2 = key
    · subst h2
      simp [dict_insert_kvs, dict_lookup_kvs, h.symm]
    · by_cases h3 : k2 = k
      · subst h3
        simp [dict_insert_kvs, dict_lookup_kvs, h2]
      · simp [dict_insert_kvs, dict_lookup_kvs, h2, h3, ih]

theorem dict_insert_absent (what : launch_data) (key : String)
    (kvs : List (String × launch_data)) (h : dict_lookup_kvs key kvs = none) :
    dict_insert_kvs what key kvs = kvs ++ [(key, what)] := by
  induction kvs with
  | nil => rfl
  | cons kv rest ih =>
    obtain ⟨k2, v2⟩ := kv
    by_cases h2 : k2 = key
    · simp [dict_lookup_kvs, h2] at h
    · simp only [dict_lookup_kvs, h2, if_false] at h
      simp [dict_insert_kvs, h2, ih h]

theorem stored_config_label (pload : launch_data) :
    launch_data_dict_lookup (stored_config pload) LAUNCH_JOBKEY_LABEL =
      launch_data_dict_lookup pload LAUNCH_JOBKEY_LABEL := by
  unfold stored_config launch_data_copy
  split
  · cases pload with
    | dictionary kvs =>
      simp only [launch_data_dict_insert, launch_data_dict_lookup]
      exact dict_lookup_insert_ne _ _ _ (by decide) kvs
    | _ => rfl
  · rfl

@[simp] theorem link_job_jobs (j : jobcb) (st : State) : (link_job j st).jobs = st.jobs ++ [j] := rfl

theorem errno_ne_zero_EINVAL : launch_data_new_errno EINVAL ≠ launch_data_new_errno 0 := by
  simp [launch_data_new_errno, EINVAL]

theorem errno_ne_zero_EEXIST : launch_data_new_errno EEXIST ≠ launch_data_new_errno 0 := by
  simp [launch_data_new_errno, EEXIST]

theorem load_job_insert_jobs (w : World) (st : State) (pload label : launch_data) :
    ∃ pre j, (load_job_insert w pload label st).jobs = pre ++ [j] ∧
      j.ldj = stored_config pload ∧ j.id = st.next_id ∧ pre.length = st.jobs.length := by
  have key : ∀ s : State, (∃ pre j, s.jobs = pre ++ [j] ∧ j.ldj = stored_config pload ∧
      j.id = st.next_id ∧ pre.length = st.jobs.length) →
      ∃ pre j, (if streq (launch_data_get_string label) (some HELPERD) = true then
        { s with helperd := some (new_job st.next_id pload).id } else s).jobs = pre ++ [j] ∧
        j.ldj = stored_config pload ∧ j.id = st.next_id ∧ pre.length = st.jobs.length := by
    intro s hs
    split <;> exact hs
  unfold load_job_insert
  apply key
  split
  · exact ⟨st.jobs, new_job st.next_id pload, by simp, rfl, rfl, rfl⟩
  · have hs := job_start_jobs w (new_job st.next_id pload) (link_job (new_job st.next_id pload) st)
    rcases hs.2 with h2 | h2
    · rw [h2]
      exact ⟨st.jobs, new_job st.next_id pload, by simp, rfl, rfl, rfl⟩
    · rw [h2]
      refine ⟨st.jobs.map _, _, by simp; rfl, ?_, ?_, by simp⟩
      · exact hs.1.2.1
      · exact hs.1.1

/-- An accepted payload: what `load_job` checked and what it left in the
registry. -/
theorem load_job_accepted (w : World) (st : State) (pload : launch_data)
    (h : (load_job w pload st).1 = launch_data_new_errno 0) :
    ∃ label, launch_data_dict_lookup pload LAUNCH_JOBKEY_LABEL = some label ∧
      st.jobs.any (label_is (launch_data_get_string label)) = false ∧
      launch_data_dict_lookup pload LAUNCH_JOBKEY_PROGRAMARGUMENTS ≠ none ∧
      load_job w pload st =
        (launch_data_new_errno 0, launch_data_revoke_fds none pload,
          load_job_insert w pload label st) := by
  unfold load_job at h ⊢
  cases hl : launch_data_dict_lookup pload LAUNCH_JOBKEY_LABEL with
  | none => simp [hl, errno_ne_zero_EINVAL] at h
  | some label =>
    simp only [hl] at h ⊢
    by_cases ha : st.jobs.any (label_is (launch_data_get_string label)) = true
    · simp [ha, errno_ne_zero_EEXIST] at h
    · simp only [ha, if_false] at h ⊢
      by_cases hpa : (launch_data_dict_lookup pload LAUNCH_JOBKEY_PROGRAMARGUMENTS).isNone = true
      · simp [hpa, errno_ne_zero_EINVAL] at h
      · simp only [hpa, if_false] at h ⊢
        refine ⟨label, rfl, by simpa using ha, ?_, rfl⟩
        intro hn
        simp [hn] at hpa

theorem get_jobs_last (l : String) (pre : List jobcb) (j : jobcb) (st : State)
    (hj : st.jobs = pre ++ [j]) (hl : job_label j = some l) :
    get_jobs (some l) st = j.ldj := by
  unfold get_jobs
  simp [hj, List.foldl_append, (label_is_iff l j).2 hl, launch_data_copy]

theorem get_jobs_fold_no_match (l : String) (js : List jobcb) (acc : Option launch_data)
    (h : ∀ x ∈ js, label_is (some l) x = false) :
    js.foldl (fun resp j => if label_is (some l) j = true then some (launch_data_copy j.ldj)
      else resp) acc = acc := by
  induction js generalizing acc with
  | nil => rfl
  | cons x rest ih =>
    simp only [List.foldl_cons, h x (List.mem_cons_self _ _), Bool.false_eq_true, if_false]
    exact ih acc (fun y hy => h y (List.mem_cons_of_mem _ hy))

theorem get_jobs_unique (l : String) (j : jobcb) (st : State) (hj : j ∈ st.jobs)
    (hl : job_label j = some l) (hu : (st.jobs.filterMap job_label).Nodup) :
    get_jobs (some l) st = j.ldj := by
  obtain ⟨pre, post, hsplit⟩ := List.append_of_mem hj
  rw [hsplit, List.filterMap_append, List.filterMap_cons, hl] at hu
  have hnot : some l ∉ (post.filterMap job_label).map some := by
    intro hmem
    rw [List.mem_map] at hmem
    obtain ⟨a, ha, hal⟩ := hmem
    have hal2 : a = l := Option.some.inj hal
    subst hal2
    have := (List.nodup_append.1 hu).2.1
    exact (List.nodup_cons.1 this).1 ha
  have hpost : ∀ x ∈ post, label_is (some l) x = false := by
    intro x hx
    cases hb : label_is (some l) x with
    | false => rfl
    | true =>
      exfalso
      apply hnot
      rw [List.mem_map]
      exact ⟨l, List.mem_filterMap.2 ⟨x, hx, (label_is_iff l x).1 hb⟩, rfl⟩
  unfold get_jobs
  simp only [hsplit, List.foldl_append, List.foldl_cons, (label_is_iff l j).2 hl, if_true]
  rw [get_jobs_fold_no_match l post _ hpost]
  rfl

theorem get_jobs_absent (l : String) (st : State)
    (h : ¬ ∃ j ∈ st.jobs, job_label j = some l) :
    get_jobs (some l) st = launch_data_new_errno ESRCH := by
  unfold get_jobs
  simp only
  rw [get_jobs_fold_no_match l st.jobs none (no_label_is l st.jobs h)]

theorem ipc_readmsg2_getjob (w : World) (data : Option launch_data) (c : conncb) (st : State) :
    ipc_readmsg2 w data LAUNCH_KEY_GETJOB { c := c, resp := none } st =
      (data, { c := c, resp := some (launch_data_revoke_fds none
        (get_jobs (data.bind launch_data_get_string) st)) }, st) := by
  simp [ipc_readmsg2, LAUNCH_KEY_GETJOB, LAUNCH_KEY_STARTJOB, LAUNCH_KEY_STOPJOB,
    LAUNCH_KEY_REMOVEJOB, LAUNCH_KEY_SUBMITJOB, LAUNCH_KEY_UNSETUSERENVIRONMENT,
    LAUNCH_KEY_GETUSERENVIRONMENT, LAUNCH_KEY_SETUSERENVIRONMENT, LAUNCH_KEY_CHECKIN,
    LAUNCH_KEY_RELOADTTYS, LAUNCH_KEY_SHUTDOWN, LAUNCH_KEY_GETJOBS,
    LAUNCH_KEY_GETRESOURCELIMITS, LAUNCH_KEY_SETRESOURCELIMITS]

theorem ipc_readmsg2_getjobwithhandles (w : World) (data : Option launch_data) (c : conncb)
    (st : State) :
    ipc_readmsg2 w data LAUNCH_KEY_GETJOBWITHHANDLES { c := c, resp := none } st =
      (data, { c := c, resp := some (get_jobs (data.bind launch_data_get_string) st) }, st) := by
  simp [ipc_readmsg2, LAUNCH_KEY_GETJOBWITHHANDLES, LAUNCH_KEY_GETJOB, LAUNCH_KEY_STARTJOB,
    LAUNCH_KEY_STOPJOB,
    LAUNCH_KEY_REMOVEJOB, LAUNCH_KEY_SUBMITJOB, LAUNCH_KEY_UNSETUSERENVIRONMENT,
    LAUNCH_KEY_GETUSERENVIRONMENT, LAUNCH_KEY_SETUSERENVIRONMENT, LAUNCH_KEY_CHECKIN,
    LAUNCH_KEY_RELOADTTYS, LAUNCH_KEY_SHUTDOWN, LAUNCH_KEY_GETJOBS,
    LAUNCH_KEY_GETRESOURCELIMITS, LAUNCH_KEY_SETRESOURCELIMITS]

theorem get_job_reply_eq (w : World) (c : conncb) (l : String) (st : State) :
    get_job_reply w c l st = some (launch_data_revoke_fds none (get_jobs (some l) st)) := by
  unfold get_job_reply
  rw [ipc_readmsg2_getjob]
  rfl

theorem get_job_with_handles_reply_eq (w : World) (c : conncb) (l : String) (st : State) :
    get_job_with_handles_reply w c l st = some (get_jobs (some l) st) := by
  unfold get_job_with_handles_reply
  rw [ipc_readmsg2_getjobwithhandles]
  rfl

theorem ipc_readmsg2_checkin (w : World) (data : Option launch_data) (c : conncb)
    (st : State) :
    ipc_readmsg2 w data LAUNCH_KEY_CHECKIN { c := c, resp := none } st =
      match c.j.bind (find_job st) with
      | some j =>
        (data,
          { c := c,
            resp := some (if (launch_data_dict_lookup (launch_data_copy j.ldj)
                LAUNCH_JOBKEY_TIMEOUT).isNone then
              launch_data_dict_insert (launch_data_copy j.ldj)
                (launch_data_new_integer LAUNCHD_MIN_JOB_RUN_TIME) LAUNCH_JOBKEY_TIMEOUT
              else launch_data_copy j.ldj) },
          set_job { j with checkedin := true } st)
      | none => (data, { c := c, resp := some (launch_data_new_errno EACCES) }, st) := by
  cases h : c.j.bind (find_job st) <;>
  simp [ipc_readmsg2, h, LAUNCH_KEY_CHECKIN, LAUNCH_KEY_STARTJOB, LAUNCH_KEY_STOPJOB,
    LAUNCH_KEY_REMOVEJOB, LAUNCH_KEY_SUBMITJOB, LAUNCH_KEY_UNSETUSERENVIRONMENT,
    LAUNCH_KEY_GETUSERENVIRONMENT, LAUNCH_KEY_SETUSERENVIRONMENT]

theorem find_map_set (js : List jobcb) (id : Nat) (j j2 : jobcb)
    (h : js.find? (fun j => j.id == id) = some j) (hid : j2.id = id) :
    (js.map (fun x => if x.id = j2.id then j2 else x)).find? (fun j => j.id == id) =
      some j2 := by
  induction js with
  | nil => simp at h
  | cons x rest ih =>
    simp only [List.map_cons, List.find?_cons] at h ⊢
    by_cases hx : x.id = id
    · have hx4 : x.id = j2.id := by rw [hid]; exact hx
      simp [hx4, hid]
    · have hx2 : (x.id == id) = false := by simpa using hx
      have hx3 : ¬ x.id = j2.id := by rw [hid]; exact hx
      simp only [hx2] at h
      simp only [hx3, if_false, hx2]
      exact ih h

theorem find_job_set_job (st : State) (id : Nat) (j j2 : jobcb) (h : find_job st id = some j)
    (hid : j2.id = id) : find_job (set_job j2 st) id = some j2 :=
  find_map_set st.jobs id j j2 h hid

@[simp] theorem tick_core (n : Nat) (st : State) : (tick n st).core = st.core := rfl

@[simp] theorem kq_add_core (i : Int) (f : kq_filter) (u : kq_callback) (st : State) :
    (kq_add i f u st).core = st.core := rfl

@[simp] theorem kevent_mod_add_core (w : World) (i : Int) (f : kq_filter) (u : kq_callback)
    (st : State) : (kevent_mod_add w i f u st).2.core = st.core := by
  unfold kevent_mod_add
  split
  · rfl
  · split <;> rfl

@[simp] theorem kevent_mod_delete_core (w : World) (i : Int) (f : kq_filter) (st : State) :
    (kevent_mod_delete w i f st).core = st.core := by
  unfold kevent_mod_delete
  split <;> rfl

@[simp] theorem sys_close_core (fd : Int) (st : State) : (sys_close fd st).core = st.core := rfl

@[simp] theorem sys_kill_core (p : Int) (sig : Nat) (st : State) :
    (sys_kill p sig st).core = st.core := rfl

@[simp] theorem sys_setlogmask_core (m : Int) (st : State) :
    (sys_setlogmask m st).2.core = st.core := by
  unfold sys_setlogmask
  split <;> rfl

@[simp] theorem set_conn_core (c : conncb) (st : State) : (set_conn c st).core = st.core := rfl

@[simp] theorem job_stop_core (j : jobcb) (st : State) : (job_stop j st).core = st.core := by
  unfold job_stop
  split <;> rfl

@[simp] theorem notify_helperd_core (st : State) : (notify_helperd st).core = st.core := by
  unfold notify_helperd
  split
  · split <;> rfl
  · rfl

@[simp] theorem launch_data_close_fds_core (o : launch_data) (st : State) :
    (launch_data_close_fds o st).core = st.core :=
  foldl_keeps State.core (fun s fd => sys_close fd s) (fun _ _ => rfl) (live_fds o) st

@[simp] theorem job_ignore_fds_core (w : World) (o : launch_data) (st : State) :
    (job_ignore_fds w o st).core = st.core :=
  foldl_keeps State.core (fun s fd => kevent_mod_delete w fd kq_filter.EVFILT_READ s)
    (fun s a => kevent_mod_delete_core w a _ s) (live_fds o) st

@[simp] theorem job_watch_fds_core (w : World) (o : launch_data) (u : kq_callback)
    (st : State) : (job_watch_fds w o u st).core = st.core :=
  foldl_keeps State.core (fun s fd => (kevent_mod_add w fd kq_filter.EVFILT_READ u s).2)
    (fun s a => kevent_mod_add_core w a _ u s) (live_fds o) st

@[simp] theorem ipc_open_core (w : World) (fd : Int) (j : Option Nat) (st : State) :
    (ipc_open w fd j st).core = st.core := by
  unfold ipc_open
  rw [kevent_mod_add_core]
  rfl

@[simp] theorem batch_job_enable_core (e : Bool) (c : conncb) (st : State) :
    (batch_job_enable e c st).2.core = st.core := by
  unfold batch_job_enable
  simp only
  split
  · split <;> rfl
  · split
    · split <;> rfl
    · rfl

@[simp] theorem ipc_close_core (c : conncb) (st : State) : (ipc_close c st).core = st.core := by
  unfold ipc_close
  simp only [sys_close_core]
  exact batch_job_enable_core true c st

theorem core_jobs {a b : State} (h : a.core = b.core) : a.jobs = b.jobs :=
  congrArg (fun x => x.1) h

theorem core_total_children {a b : State} (h : a.core = b.core) :
    a.total_children = b.total_children :=
  congrArg (fun x => x.2.2.1) h

theorem core_forked {a b : State} (h : a.core = b.core) : a.forked = b.forked :=
  congrArg (fun x => x.2.2.2.1) h

theorem core_next_id {a b : State} (h : a.core = b.core) : a.next_id = b.next_id :=
  congrArg (fun x => x.2.1) h

theorem ipc_readmsg2_unknown (w : World) (data : Option launch_data) (cmd : String)
    (rmc : readmsg_context) (st : State) (h : cmd ∉ recognised_commands) :
    ipc_readmsg2 w data cmd rmc st = (data, rmc, st) := by
  simp only [recognised_commands, List.mem_cons, List.mem_singleton, not_or,
    List.not_mem_nil, not_false_eq_true, and_true] at h
  obtain ⟨h1, h2, h3, h4, h5, h6, h7, h8, h9, h10, h11, h12, h13, h14, h15, h16, h17, h18,
    h19, h20, h21, h22, h23, h24, h25⟩ := h
  unfold ipc_readmsg2
  simp only [h1, h2, h3, h4, h5, h6, h7, h8, h9, h10, h11, h12, h13, h14, h15, h16, h17, h18,
    h19, h20, h21, h22, h23, h24, h25, if_false]
  split <;> rfl

theorem ipc_readmsg_dict_unknown (w : World) (kvs : List (String × launch_data))
    (rmc : readmsg_context) (st : State) (h : ∀ kv ∈ kvs, kv.1 ∉ recognised_commands) :
    ipc_readmsg_dict w kvs rmc st = (kvs, rmc, st) := by
  induction kvs with
  | nil => rfl
  | cons kv rest ih =>
    obtain ⟨k, v⟩ := kv
    have hk : k ∉ recognised_commands := h (k, v) (List.mem_cons_self _ _)
    have hr := ih (fun x hx => h x (List.mem_cons_of_mem _ hx))
    simp only [ipc_readmsg_dict, ipc_readmsg2_unknown w (some v) k rmc st hk, hr,
      Option.getD_some]

theorem ipc_readmsg_core (w : World) (c : conncb) (msg : launch_data) (st : State) :
    (ipc_readmsg w c msg st).2.core = (ipc_readmsg_resp w c msg st).2.2.core := by
  unfold ipc_readmsg
  simp only
  split <;> simp

theorem ipc_readmsg_reply (w : World) (c : conncb) (msg : launch_data) (st : State) :
    some (ipc_readmsg w c msg st).1 = (ipc_readmsg_resp w c msg st).2.1.resp := by
  have h : ∃ r, (ipc_readmsg_resp w c msg st).2.1.resp = some r := by
    unfold ipc_readmsg_resp
    simp only
    split
    · rename_i r hr
      exact ⟨r, hr⟩
    · exact ⟨_, rfl⟩
  obtain ⟨r, hr⟩ := h
  unfold ipc_readmsg
  simp only [hr]
  split <;> rfl

theorem KeysSub.refl (st : State) : KeysSub st st := ⟨List.Sublist.refl _, rfl⟩

theorem KeysSub.trans {a b c : State} (h1 : KeysSub a b) (h2 : KeysSub b c) : KeysSub a c :=
  ⟨h2.1.trans h1.1, h2.2.trans h1.2⟩

theorem KeysSub.of_core {a b : State} (h : b.core = a.core) : KeysSub a b := by
  unfold KeysSub
  rw [core_jobs h, core_next_id h]
  exact ⟨List.Sublist.refl _, rfl⟩

theorem map_id_eq_map_key (js : List jobcb) :
    js.map (fun j => j.id) = (js.map job_key).map Prod.fst := by
  simp [job_key, List.map_map, Function.comp_def]

theorem filterMap_label_eq (js : List jobcb) :
    js.filterMap job_label = (js.map job_key).filterMap Prod.snd := by
  simp [job_key, List.filterMap_map, Function.comp_def]

theorem RegistryOk.ok_of_keysSub {a b : State} (h : KeysSub a b) (ha : RegistryOk a) :
    RegistryOk b := by
  obtain ⟨hid, hlab, hlt⟩ := ha
  refine ⟨?_, ?_, ?_⟩
  · rw [map_id_eq_map_key] at hid ⊢
    exact (h.1.map Prod.fst).nodup hid
  · rw [filterMap_label_eq] at hlab ⊢
    exact (h.1.filterMap Prod.snd).nodup hlab
  · intro j hj
    have hk : job_key j ∈ a.jobs.map job_key := h.1.subset (List.mem_map_of_mem _ hj)
    obtain ⟨x, hx, hxk⟩ := List.mem_map.1 hk
    have : x.id = j.id := congrArg Prod.fst hxk
    rw [h.2, ← this]
    exact hlt x hx

theorem InHand.hand_of_keysSub {a b : State} {j : jobcb} (h : KeysSub a b) (hj : InHand j a) :
    InHand j b := by
  intro x hx hid
  have hk : job_key x ∈ a.jobs.map job_key := h.1.subset (List.mem_map_of_mem _ hx)
  obtain ⟨y, hy, hyk⟩ := List.mem_map.1 hk
  have h1 : y.id = x.id := congrArg Prod.fst hyk
  have h2 : job_label y = job_label x := congrArg Prod.snd hyk
  rw [← h2]
  exact hj y hy (h1.trans hid)

theorem InHand.of_key {a : State} {j j2 : jobcb} (h : job_key j2 = job_key j)
    (hj : InHand j a) : InHand j2 a := by
  intro x hx hid
  have h1 : j2.id = j.id := congrArg Prod.fst h
  have h2 : job_label j2 = job_label j := congrArg Prod.snd h
  rw [h2]
  exact hj x hx (hid.trans h1)

theorem InHand.of_mem {st : State} {j : jobcb} (hok : RegistryOk st) (hj : j ∈ st.jobs) :
    InHand j st := by
  intro x hx hid
  have := List.inj_on_of_nodup_map hok.1 hx hj hid
  rw [this]

theorem set_job_keys (j j2 : jobcb) (st : State) (hj : InHand j st)
    (hk : job_key j2 = job_key j) :
    (set_job j2 st).jobs.map job_key = st.jobs.map job_key := by
  rw [set_job_jobs, List.map_map]
  apply List.map_congr_left
  intro x hx
  simp only [Function.comp]
  have h1 : j2.id = j.id := congrArg Prod.fst hk
  by_cases hxid : x.id = j2.id
  · rw [if_pos hxid, hk]
    unfold job_key
    rw [hj x hx (hxid.trans h1), hxid, h1]
  · rw [if_neg hxid]

theorem set_job_keysSub (j j2 : jobcb) (st st2 : State) (hj : InHand j st)
    (hk : job_key j2 = job_key j) (hs : KeysSub st st2) : KeysSub st (set_job j2 st2) := by
  refine ⟨?_, hs.2⟩
  rw [set_job_keys j j2 st2 (hj.hand_of_keysSub hs) hk]
  exact hs.1

theorem job_key_eq {j j2 : jobcb} (h1 : j2.id = j.id) (h2 : j2.ldj = j.ldj) :
    job_key j2 = job_key j := by
  unfold job_key job_label
  rw [h1, h2]

theorem core_fst (st : State) : st.core.1 = st.jobs := rfl
theorem core_snd_fst (st : State) : st.core.2.1 = st.next_id := rfl
@[simp] theorem children_inc_core_fst (st : State) : (children_inc st).core.1 = st.core.1 := rfl
@[simp] theorem children_dec_core_fst (st : State) : (children_dec st).core.1 = st.core.1 := rfl
@[simp] theorem note_fork_core_fst (c : Int) (st : State) :
    (note_fork c st).core.1 = st.core.1 := rfl
@[simp] theorem children_inc_core_snd (st : State) :
    (children_inc st).core.2.1 = st.core.2.1 := rfl
@[simp] theorem children_dec_core_snd (st : State) :
    (children_dec st).core.2.1 = st.core.2.1 := rfl
@[simp] theorem note_fork_core_snd (c : Int) (st : State) :
    (note_fork c st).core.2.1 = st.core.2.1 := rfl

theorem KeysSub.of_eq {a b : State} (h1 : b.core.1 = a.core.1) (h2 : b.core.2.1 = a.core.2.1) :
    KeysSub a b := by
  simp only [core_fst, core_snd_fst] at h1 h2
  unfold KeysSub
  rw [h1, h2]
  exact ⟨List.Sublist.refl _, rfl⟩

theorem job_start_keys (w : World) (j : jobcb) (st : State) (hj : InHand j st) :
    KeysSub st (job_start w j st).2 ∧ job_key (job_start w j st).1 = job_key j := by
  unfold job_start
  by_cases hp : j.p ≠ 0
  · rw [if_pos hp]
    exact ⟨KeysSub.refl st, rfl⟩
  · rw [if_neg hp]
    simp only
    split_ifs <;>
      exact ⟨set_job_keysSub j _ st _ hj (job_key_eq rfl rfl) (KeysSub.of_eq (by simp) (by simp)),
        job_key_eq rfl rfl⟩

theorem job_reap_keys (w : World) (j : jobcb) (st : State) (hj : InHand j st) :
    KeysSub st (job_reap w j st).2 ∧ job_key (job_reap w j st).1 = job_key j := by
  unfold job_reap
  simp only
  split
  · exact ⟨KeysSub.of_eq (by simp) (by simp), rfl⟩
  · exact ⟨set_job_keysSub j _ st _ hj (job_key_eq rfl rfl) (KeysSub.of_eq (by simp) (by simp)),
      job_key_eq rfl rfl⟩

theorem unlink_job_keysSub (j : jobcb) (st : State) : KeysSub st (unlink_job j st) := by
  refine ⟨?_, rfl⟩
  unfold unlink_job
  simp only
  exact (List.filter_sublist _).map job_key

theorem job_remove_keys (w : World) (j : jobcb) (st : State) (hj : InHand j st) :
    KeysSub st (job_remove w j st).2 ∧ job_key (job_remove w j st).1 = job_key j := by
  have hu := unlink_job_keysSub j st
  unfold job_remove
  simp only
  split_ifs
  · exact ⟨hu.trans (KeysSub.of_eq (by simp) (by simp)), rfl⟩
  · have hk : KeysSub (unlink_job j st)
        (kevent_mod_add w j.p kq_filter.EVFILT_PROC kq_callback.simple_zombie_reaper
          (unlink_job j st)).2 := KeysSub.of_eq (by simp) (by simp)
    have hr := job_reap_keys w j _ ((hj.hand_of_keysSub hu).hand_of_keysSub hk)
    exact ⟨(hu.trans (hk.trans hr.1)).trans (KeysSub.of_eq (by simp) (by simp)), hr.2⟩
  · exact ⟨hu.trans (KeysSub.of_eq (by simp) (by simp)), rfl⟩

theorem ondemand_off_lookup_label (kvs : List (String × launch_data)) :
    dict_lookup_kvs LAUNCH_JOBKEY_LABEL (ondemand_off_kvs kvs) =
      dict_lookup_kvs LAUNCH_JOBKEY_LABEL kvs := by
  induction kvs with
  | nil => rfl
  | cons kv rest ih =>
    obtain ⟨k, v⟩ := kv
    by_cases hk : k = LAUNCH_JOBKEY_ONDEMAND
    · subst hk
      simp [ondemand_off_kvs, dict_lookup_kvs, LAUNCH_JOBKEY_ONDEMAND, LAUNCH_JOBKEY_LABEL]
    · simp only [ondemand_off_kvs, hk, if_false, dict_lookup_kvs, ih]

theorem ondemand_off_label (j : jobcb) :
    job_label { j with ldj := ondemand_off j.ldj } = job_label j := by
  unfold job_label job_get_string
  cases h : j.ldj with
  | dictionary kvs =>
    simp only [ondemand_off, launch_data_dict_lookup, ondemand_off_lookup_label]
  | _ => rfl

theorem revoke_get_string (b : Option Int) (v : launch_data) :
    launch_data_get_string (launch_data_revoke_fds b v) = launch_data_get_string v := by
  cases v with
  | fd n =>
    cases b with
    | none => rfl
    | some x =>
      simp only [launch_data_revoke_fds]
      split <;> rfl
  | dictionary kvs => simp [launch_data_revoke_fds, launch_data_get_string]
  | array xs => simp [launch_data_revoke_fds, launch_data_get_string]
  | _ => rfl

theorem revoke_lookup (b : Option Int) (key : String) (kvs : List (String × launch_data)) :
    dict_lookup_kvs key (revoke_fds_dict b kvs) =
      (dict_lookup_kvs key kvs).map (launch_data_revoke_fds b) := by
  induction kvs with
  | nil => rfl
  | cons kv rest ih =>
    obtain ⟨k, v⟩ := kv
    by_cases hk : k = key
    · simp [revoke_fds_dict, dict_lookup_kvs, hk]
    · simp [revoke_fds_dict, dict_lookup_kvs, hk, ih]

theorem revoke_label (b : Option Int) (j : jobcb) :
    job_label { j with ldj := launch_data_revoke_fds b j.ldj } = job_label j := by
  unfold job_label job_get_string
  cases h : j.ldj with
  | dictionary kvs =>
    simp only [launch_data_revoke_fds, launch_data_dict_lookup, revoke_lookup]
    cases dict_lookup_kvs LAUNCH_JOBKEY_LABEL kvs with
    | none => rfl
    | some v => simp [revoke_get_string]
  | fd n =>
    cases b with
    | none => rfl
    | some x =>
      simp only [launch_data_revoke_fds]
      by_cases hx : x = n
      · rw [if_pos hx]
        rfl
      · rw [if_neg hx]
  | array xs => simp [launch_data_revoke_fds, launch_data_dict_lookup]
  | _ => rfl

theorem do_shutdown_keysSub (st : State) : KeysSub st (do_shutdown st) := by
  unfold do_shutdown
  simp only
  have h : ∀ (js : List jobcb) (s : State),
      (js.foldl (fun s j => job_stop j s) s).core = s.core :=
    fun js s => foldl_keeps State.core (fun s j => job_stop j s)
      (fun s a => job_stop_core a s) js s
  refine KeysSub.trans ?_ (KeysSub.of_core (h st.jobs _))
  refine ⟨?_, rfl⟩
  simp only [List.map_map]
  have : (job_key ∘ fun j : jobcb => { j with ldj := ondemand_off j.ldj }) = job_key := by
    funext j
    simp only [Function.comp, job_key, ondemand_off_label]
  rw [this]

@[simp] theorem job_callback_out_core (d : Bool) (m : Int) (s : State) :
    (job_callback_out d m s).core = s.core := by
  unfold job_callback_out
  split
  · exact sys_setlogmask_core m s
  · rfl

theorem job_callback_start_keys (w : World) (d : Bool) (m : Int) (r : jobcb × State)
    (st : State) (hj : InHand r.1 st) (hs : KeysSub st r.2) :
    KeysSub st (job_callback_start w d m r) := by
  unfold job_callback_start
  simp only
  have h1 := (job_start_keys w r.1 r.2 (hj.hand_of_keysSub hs)).1
  split_ifs <;>
    exact hs.trans (h1.trans (KeysSub.of_eq (by simp) (by simp)))

theorem job_callback_body_keysSub (w : World) (j : jobcb) (kev : kevent) (d : Bool) (m : Int)
    (st st0 : State) (hj : InHand j st) (h0 : KeysSub st st0) :
    KeysSub st (job_callback_body w j kev d m st0) := by
  unfold job_callback_body
  simp only
  have hr := job_reap_keys w j _ (hj.hand_of_keysSub h0)
  have hr1 : InHand (job_reap w j st0).1 st := hj.of_key hr.2
  have hsr := h0.trans hr.1
  have hrm := job_remove_keys w _ _ (hr1.hand_of_keysSub hsr)
  split_ifs
  · exact (hsr.trans (do_shutdown_keysSub _)).trans (KeysSub.of_core (by simp))
  · exact job_callback_start_keys w _ _ _ st (hr1.of_key hrm.2) (hsr.trans hrm.1)
  · exact job_callback_start_keys w _ _ _ st (hr1.of_key hrm.2) (hsr.trans hrm.1)
  · exact hsr.trans (KeysSub.of_core (by simp))
  · exact job_callback_start_keys w _ _ _ st hr1 hsr
  · refine job_callback_start_keys w _ _ (_, _) st ?_ ?_
    · exact hj.of_key (by unfold job_key; rw [revoke_label])
    · refine set_job_keysSub j _ st _ hj (by unfold job_key; rw [revoke_label]) ?_
      exact h0.trans (KeysSub.of_eq (by simp) (by simp))
  · exact job_callback_start_keys w _ _ (_, _) st hj h0

theorem job_callback_keysSub (w : World) (j : jobcb) (kev : kevent) (st : State)
    (hj : InHand j st) : KeysSub st (job_callback w j kev st) := by
  unfold job_callback
  apply job_callback_body_keysSub w j kev _ _ st _ hj
  split
  · exact KeysSub.of_core (by simp)
  · exact KeysSub.refl st

theorem foldl_matching_keysSub (p : jobcb → Bool) (f : jobcb → State → State) (st : State)
    (hok : RegistryOk st) (hf : ∀ j s, InHand j s → KeysSub s (f j s))
    (js : List jobcb) (hjs : ∀ j ∈ js, j ∈ st.jobs) (s : State) (hs : KeysSub st s) :
    KeysSub st (js.foldl (fun s j => if p j = true then f j s else s) s) := by
  induction js generalizing s with
  | nil => exact hs
  | cons x rest ih =>
    simp only [List.foldl_cons]
    apply ih (fun j hj => hjs j (List.mem_cons_of_mem _ hj))
    split
    · have hx : InHand x s := (InHand.of_mem hok (hjs x (List.mem_cons_self _ _))).hand_of_keysSub hs
      exact hs.trans (hf x s hx)
    · exact hs

theorem start_matching_keysSub (w : World) (which : Option String) (st : State)
    (hok : RegistryOk st) : KeysSub st (start_matching w which st) :=
  foldl_matching_keysSub (label_is which) (fun j s => (job_start w j s).2) st hok
    (fun j s hj => (job_start_keys w j s hj).1) st.jobs (fun _ h => h) st (KeysSub.refl st)

theorem stop_matching_keysSub (which : Option String) (st : State) (hok : RegistryOk st) :
    KeysSub st (stop_matching which st) :=
  foldl_matching_keysSub (label_is which) (fun j s => job_stop j s) st hok
    (fun j s _ => KeysSub.of_core (job_stop_core j s)) st.jobs (fun _ h => h) st
    (KeysSub.refl st)

theorem remove_matching_keysSub (w : World) (which : Option String) (st : State)
    (hok : RegistryOk st) : KeysSub st (remove_matching w which st) := by
  refine foldl_matching_keysSub (label_is which)
    (fun j s => (job_remove w j
      (if job_get_bool j.ldj LAUNCH_JOBKEY_ONDEMAND = true then
        notify_helperd (if streq which (some HELPERD) = true then { s with helperd := none } else s)
      else (if streq which (some HELPERD) = true then { s with helperd := none } else s))).2)
    st hok ?_ st.jobs (fun _ h => h) st (KeysSub.refl st)
  intro j s hj
  have h1 : KeysSub s (if streq which (some HELPERD) = true then { s with helperd := none }
      else s) := by
    split
    · exact ⟨List.Sublist.refl _, rfl⟩
    · exact KeysSub.refl s
  have h2 : KeysSub s (if job_get_bool j.ldj LAUNCH_JOBKEY_ONDEMAND = true then
        notify_helperd (if streq which (some HELPERD) = true then { s with helperd := none } else s)
      else (if streq which (some HELPERD) = true then { s with helperd := none } else s)) := by
    split
    · exact h1.trans (KeysSub.of_core (notify_helperd_core _))
    · exact h1
  exact h2.trans (job_remove_keys w j _ (hj.hand_of_keysSub h2)).1

theorem load_job_insert_ok (w : World) (pload label : launch_data) (st : State)
    (hok : RegistryOk st)
    (hnew : st.jobs.any (label_is (launch_data_get_string label)) = false)
    (hlab : launch_data_dict_lookup pload LAUNCH_JOBKEY_LABEL = some label) :
    RegistryOk (load_job_insert w pload label st) := by
  have hlabel : job_label (new_job st.next_id pload) = launch_data_get_string label := by
    unfold job_label job_get_string new_job
    simp only [stored_config_label, hlab]
  have hlink : RegistryOk (link_job (new_job st.next_id pload) st) := by
    obtain ⟨hid, hl, hlt⟩ := hok
    refine ⟨?_, ?_, ?_⟩
    · simp only [link_job_jobs, List.map_append, List.map_cons, List.map_nil]
      rw [List.nodup_append]
      refine ⟨hid, List.nodup_singleton _, ?_⟩
      intro a ha hb
      obtain ⟨x, hx, hxa⟩ := List.mem_map.1 ha
      have := hlt x hx
      rw [List.mem_singleton] at hb
      rw [hxa, hb] at this
      exact Nat.lt_irrefl _ this
    · simp only [link_job_jobs, List.filterMap_append, List.filterMap_cons, List.filterMap_nil]
      rw [hlabel]
      cases hs : launch_data_get_string label with
      | none => simpa using hl
      | some l =>
        simp only [List.nodup_append]
        refine ⟨hl, List.nodup_singleton _, ?_⟩
        intro a ha hb
        rw [List.mem_singleton] at hb
        subst hb
        obtain ⟨x, hx, hxa⟩ := List.mem_filterMap.1 ha
        rw [hs, List.any_eq_false] at hnew
        exact hnew x hx ((label_is_iff a x).2 hxa)
    · intro j hj
      simp only [link_job_jobs, List.mem_append, List.mem_singleton] at hj
      show j.id < st.next_id + 1
      rcases hj with hj | hj
      · exact Nat.lt_succ_of_lt (hlt j hj)
      · rw [hj]
        exact Nat.lt_succ_self _
  unfold load_job_insert
  simp only
  have hmem : new_job st.next_id pload ∈ (link_job (new_job st.next_id pload) st).jobs := by
    simp
  have h2 : RegistryOk (if job_get_bool (new_job st.next_id pload).ldj LAUNCH_JOBKEY_ONDEMAND = true
      then notify_helperd (job_watch_fds w (new_job st.next_id pload).ldj
        (kq_callback.job (new_job st.next_id pload).id) (link_job (new_job st.next_id pload) st))
      else (job_start w (new_job st.next_id pload) (link_job (new_job st.next_id pload) st)).2) := by
    split
    · exact hlink.ok_of_keysSub (KeysSub.of_core (by simp))
    · exact hlink.ok_of_keysSub (job_start_keys w _ _ (InHand.of_mem hlink hmem)).1
  split
  · exact h2.ok_of_keysSub ⟨List.Sublist.refl _, rfl⟩
  · exact h2

theorem load_job_ok (w : World) (pload : launch_data) (st : State) (hok : RegistryOk st) :
    RegistryOk (load_job w pload st).2.2 := by
  unfold load_job
  cases hl : launch_data_dict_lookup pload LAUNCH_JOBKEY_LABEL with
  | none => exact hok
  | some label =>
    simp only
    split_ifs with h1 h2
    · exact hok
    · exact hok
    · exact load_job_insert_ok w pload label st hok (by simpa using h1) hl

theorem load_jobs_ok (w : World) (xs : List launch_data) (st : State) (hok : RegistryOk st) :
    RegistryOk (load_jobs w xs st).2.2 := by
  induction xs generalizing st with
  | nil => exact hok
  | cons x rest ih =>
    simp only [load_jobs]
    exact ih _ (load_job_ok w x st hok)

theorem find_job_mem {st : State} {id : Nat} {j : jobcb} (h : find_job st id = some j) :
    j ∈ st.jobs ∧ j.id = id := by
  unfold find_job at h
  exact ⟨List.mem_of_find?_eq_some h, by simpa using List.find?_some h⟩

@[simp] theorem adjust_rlimits_core (w : World) (input : Option launch_data) (st : State) :
    (adjust_rlimits w input st).2.core = st.core := by
  unfold adjust_rlimits
  split <;> rfl

@[simp] theorem setstdio_core (d : Int) (o : Option launch_data) (st : State) :
    (setstdio d o st).2.core = st.core := by
  unfold setstdio
  split
  · split <;> rfl
  · rfl
  · rfl

theorem ipc_readmsg2_ok (w : World) (data : Option launch_data) (cmd : String)
    (rmc : readmsg_context) (st : State) (hok : RegistryOk st) :
    RegistryOk (ipc_readmsg2 w data cmd rmc st).2.2 := by
  unfold ipc_readmsg2
  by_cases h0 : rmc.resp.isSome = true
  · rw [if_pos h0]
    exact hok
  rw [if_neg h0]
  by_cases h1 : cmd = LAUNCH_KEY_STARTJOB
  · simp only [h1, if_true]
    exact hok.ok_of_keysSub (start_matching_keysSub w _ st hok)
  simp only [h1, if_false]
  by_cases h2 : cmd = LAUNCH_KEY_STOPJOB
  · simp only [h2, if_true]
    exact hok.ok_of_keysSub (stop_matching_keysSub _ st hok)
  simp only [h2, if_false]
  by_cases h3 : cmd = LAUNCH_KEY_REMOVEJOB
  · simp only [h3, if_true]
    exact hok.ok_of_keysSub (remove_matching_keysSub w _ st hok)
  simp only [h3, if_false]
  by_cases h4 : cmd = LAUNCH_KEY_SUBMITJOB
  · simp only [h4, if_true]
    split
    · exact load_jobs_ok w _ st hok
    · exact load_job_ok w _ st hok
    · exact hok
  simp only [h4, if_false]
  by_cases h5 : cmd = LAUNCH_KEY_UNSETUSERENVIRONMENT
  · simp only [h5, if_true]
    exact hok.ok_of_keysSub ⟨List.Sublist.refl _, rfl⟩
  simp only [h5, if_false]
  by_cases h6 : cmd = LAUNCH_KEY_GETUSERENVIRONMENT
  · simp only [h6, if_true]
    exact hok
  simp only [h6, if_false]
  by_cases h7 : cmd = LAUNCH_KEY_SETUSERENVIRONMENT
  · simp only [h7, if_true]
    exact hok.ok_of_keysSub ⟨List.Sublist.refl _, rfl⟩
  simp only [h7, if_false]
  by_cases h8 : cmd = LAUNCH_KEY_CHECKIN
  · simp only [h8, if_true]
    split
    · rename_i j hj
      have hb : ∃ id, find_job st id = some j := by
        cases hc : rmc.c.j with
        | none => simp [hc] at hj
        | some id => exact ⟨id, by simpa [hc] using hj⟩
      obtain ⟨id, hf⟩ := hb
      exact hok.ok_of_keysSub (set_job_keysSub j _ st st (InHand.of_mem hok (find_job_mem hf).1)
        (job_key_eq rfl rfl) (KeysSub.refl st))
    · exact hok
  simp only [h8, if_false]
  by_cases h9 : cmd = LAUNCH_KEY_RELOADTTYS
  · simp only [h9, if_true]
    exact hok
  simp only [h9, if_false]
  by_cases h10 : cmd = LAUNCH_KEY_SHUTDOWN
  · simp only [h10, if_true]
    exact hok.ok_of_keysSub (do_shutdown_keysSub st)
  simp only [h10, if_false]
  by_cases h11 : cmd = LAUNCH_KEY_GETJOBS
  · simp only [h11, if_true]
    exact hok
  simp only [h11, if_false]
  by_cases h12 : cmd = LAUNCH_KEY_GETRESOURCELIMITS
  · simp only [h12, if_true]
    exact hok.ok_of_keysSub (KeysSub.of_core (adjust_rlimits_core w _ st))
  simp only [h12, if_false]
  by_cases h13 : cmd = LAUNCH_KEY_SETRESOURCELIMITS
  · simp only [h13, if_true]
    exact hok.ok_of_keysSub (KeysSub.of_core (adjust_rlimits_core w _ st))
  simp only [h13, if_false]
  by_cases h14 : cmd = LAUNCH_KEY_GETJOB
  · simp only [h14, if_true]
    exact hok
  simp only [h14, if_false]
  by_cases h15 : cmd = LAUNCH_KEY_GETJOBWITHHANDLES
  · simp only [h15, if_true]
    exact hok
  simp only [h15, if_false]
  by_cases h16 : cmd = LAUNCH_KEY_SETLOGMASK
  · simp only [h16, if_true]
    exact hok.ok_of_keysSub (KeysSub.of_core (sys_setlogmask_core _ st))
  simp only [h16, if_false]
  by_cases h17 : cmd = LAUNCH_KEY_GETLOGMASK
  · simp only [h17, if_true]
    exact hok.ok_of_keysSub (KeysSub.of_core (by simp))
  simp only [h17, if_false]
  by_cases h18 : cmd = LAUNCH_KEY_SETUMASK
  · simp only [h18, if_true]
    exact hok.ok_of_keysSub ⟨List.Sublist.refl _, rfl⟩
  simp only [h18, if_false]
  by_cases h19 : cmd = LAUNCH_KEY_GETUMASK
  · simp only [h19, if_true]
    exact hok
  simp only [h19, if_false]
  by_cases h20 : cmd = LAUNCH_KEY_GETRUSAGESELF
  · simp only [h20, if_true]
    exact hok.ok_of_keysSub (KeysSub.of_core (tick_core 1 st))
  simp only [h20, if_false]
  by_cases h21 : cmd = LAUNCH_KEY_GETRUSAGECHILDREN
  · simp only [h21, if_true]
    exact hok.ok_of_keysSub (KeysSub.of_core (tick_core 1 st))
  simp only [h21, if_false]
  by_cases h22 : cmd = LAUNCH_KEY_SETSTDOUT
  · simp only [h22, if_true]
    exact hok.ok_of_keysSub (KeysSub.of_core (setstdio_core _ _ st))
  simp only [h22, if_false]
  by_cases h23 : cmd = LAUNCH_KEY_SETSTDERR
  · simp only [h23, if_true]
    exact hok.ok_of_keysSub (KeysSub.of_core (setstdio_core _ _ st))
  simp only [h23, if_false]
  by_cases h24 : cmd = LAUNCH_KEY_BATCHCONTROL
  · simp only [h24, if_true]
    exact hok.ok_of_keysSub (KeysSub.of_core (batch_job_enable_core _ _ st))
  simp only [h24, if_false]
  by_cases h25 : cmd = LAUNCH_KEY_BATCHQUERY
  · simp only [h25, if_true]
    exact hok
  simp only [h25, if_false]
  exact hok

theorem RegistryOk.ok_of_core {a b : State} (h : b.core = a.core) (ha : RegistryOk a) :
    RegistryOk b := ha.ok_of_keysSub (KeysSub.of_core h)

theorem ipc_readmsg_dict_ok (w : World) (kvs : List (String × launch_data))
    (rmc : readmsg_context) (st : State) (hok : RegistryOk st) :
    RegistryOk (ipc_readmsg_dict w kvs rmc st).2.2 := by
  induction kvs generalizing rmc st with
  | nil => exact hok
  | cons kv rest ih =>
    obtain ⟨k, v⟩ := kv
    simp only [ipc_readmsg_dict]
    exact ih _ _ (ipc_readmsg2_ok w (some v) k rmc st hok)

theorem ipc_readmsg_resp_ok (w : World) (c : conncb) (msg : launch_data) (st : State)
    (hok : RegistryOk st) : RegistryOk (ipc_readmsg_resp w c msg st).2.2 := by
  have h : RegistryOk (match msg with
      | .dictionary kvs =>
        (launch_data.dictionary (ipc_readmsg_dict w kvs { c := c, resp := none } st).1,
          (ipc_readmsg_dict w kvs { c := c, resp := none } st).2.1,
          (ipc_readmsg_dict w kvs { c := c, resp := none } st).2.2)
      | .string s =>
        (msg, (ipc_readmsg2 w none s { c := c, resp := none } st).2.1,
          (ipc_readmsg2 w none s { c := c, resp := none } st).2.2)
      | _ => (msg, ({ c := c, resp := some (launch_data_new_errno EINVAL) } : readmsg_context),
          st)).2.2 := by
    split
    · exact ipc_readmsg_dict_ok w _ _ st hok
    · exact ipc_readmsg2_ok w none _ _ st hok
    · exact hok
  unfold ipc_readmsg_resp
  simp only
  split
  · exact h
  · exact h

theorem ipc_readmsg_ok (w : World) (c : conncb) (msg : launch_data) (st : State)
    (hok : RegistryOk st) : RegistryOk (ipc_readmsg w c msg st).2 :=
  (ipc_readmsg_resp_ok w c msg st hok).ok_of_core (ipc_readmsg_core w c msg st)

@[simp] theorem reload_launchd_config_core (w : World) (st : State) :
    (reload_launchd_config w st).core = st.core := by
  unfold reload_launchd_config
  simp only
  split_ifs
  · rfl
  · rfl
  · simp
    rfl
  · rfl

theorem signal_callback_ok (w : World) (sig : Nat) (st : State) (hok : RegistryOk st) :
    RegistryOk (signal_callback w sig st) := by
  unfold signal_callback
  split_ifs
  · exact hok.ok_of_core (reload_launchd_config_core w st)
  · exact hok.ok_of_keysSub (do_shutdown_keysSub st)
  · exact hok

theorem step_ok (w : World) (st : State) (e : Event) (hok : RegistryOk st) :
    RegistryOk (step w st e) := by
  cases e with
  | job id kev =>
    simp only [step]
    have h1 : KeysSub st (if kev.filter = kq_filter.EVFILT_PROC then
        { st with kq := kq_remove kev.ident kq_filter.EVFILT_PROC st.kq } else st) := by
      split
      · exact ⟨List.Sublist.refl _, rfl⟩
      · exact KeysSub.refl st
    have hok1 := hok.ok_of_keysSub h1
    split
    · rename_i j hj
      exact hok1.ok_of_keysSub (job_callback_keysSub w j kev _ (InHand.of_mem hok1 (find_job_mem hj).1))
    · exact hok1
  | request fd msg =>
    simp only [step]
    split
    · exact ipc_readmsg_ok w _ msg st hok
    · exact hok
  | hangup fd =>
    simp only [step]
    split
    · exact hok.ok_of_core (ipc_close_core _ st)
    · exact hok
  | accept cfd => exact hok.ok_of_core (ipc_open_core w cfd none st)
  | signal sig => exact signal_callback_ok w sig st hok
  | zombie pid => exact hok.ok_of_keysSub ⟨List.Sublist.refl _, rfl⟩

theorem run_ok (w : World) (evs : List Event) (st : State) (hok : RegistryOk st) :
    RegistryOk (run w st evs) := by
  unfold run
  induction evs generalizing st with
  | nil => exact hok
  | cons e rest ih => exact ih _ (step_ok w st e hok)

theorem init_ok : RegistryOk State.init :=
  ⟨List.nodup_nil, List.nodup_nil, fun _ h => absurd h (List.not_mem_nil _)⟩

theorem conceive_firstborn_ok (w : World) (argv : List String) (st : State)
    (hok : RegistryOk st) : RegistryOk (conceive_firstborn w argv st) := by
  unfold conceive_firstborn
  simp only
  have h1 := load_job_ok w (launch_data_dict_insert
    (launch_data_dict_insert (launch_data.dictionary [])
      (launch_data.array (argv.map launch_data.string)) LAUNCH_JOBKEY_PROGRAMARGUMENTS)
    (launch_data.string "com.apple.launchd.firstborn") LAUNCH_JOBKEY_LABEL) st hok
  split
  · exact h1
  · rename_i j rest hj
    refine RegistryOk.ok_of_keysSub ?_ h1
    refine ⟨?_, rfl⟩
    rw [hj]
    exact List.Sublist.refl _

theorem main_start_ok (w : World) (argv : List String) : RegistryOk (main_start w argv) := by
  unfold main_start
  split
  · exact init_ok.ok_of_core (reload_launchd_config_core w _)
  · simp only
    have h1 : RegistryOk (reload_launchd_config w (conceive_firstborn w argv State.init)) :=
      (conceive_firstborn_ok w argv _ init_ok).ok_of_core (reload_launchd_config_core w _)
    split
    · exact h1
    · rename_i j rest hj
      exact h1.ok_of_keysSub (job_start_keys w j _ (InHand.of_mem h1 (by rw [hj]; simp))).1

theorem size_t_succ_small (k : Nat) (h : k < 1000) : size_t_succ k = k + 1 := by
  unfold size_t_succ SIZE_T_MOD
  rw [if_neg]
  omega

theorem find_job_congr {a b : State} (h : a.jobs = b.jobs) (id : Nat) :
    find_job a id = find_job b id := by
  unfold find_job
  rw [h]

theorem find_set_of_jobs (j jX : jobcb) (st sX : State) (h : find_job st j.id = some j)
    (hid : jX.id = j.id) (hjobs : sX.jobs = st.jobs) :
    find_job (set_job jX sX) j.id = some jX :=
  find_job_set_job sX j.id j jX ((find_job_congr hjobs j.id).trans h) hid

theorem find_set_none (jX : jobcb) (st sX : State) (id : Nat) (h : find_job st id = none)
    (hjobs : sX.jobs = st.jobs) : find_job (set_job jX sX) id = none := by
  unfold find_job at h ⊢
  rw [set_job_jobs, hjobs]
  rw [List.find?_eq_none] at h ⊢
  intro y hy
  obtain ⟨x, hx, hxy⟩ := List.mem_map.1 hy
  have hxid := h x hx
  by_cases hc : x.id = jX.id
  · rw [if_pos hc] at hxy
    rw [← hxy, ← hc]
    exact hxid
  · rw [if_neg hc] at hxy
    rw [← hxy]
    exact hxid

theorem job_start_find (w : World) (j : jobcb) (st : State) (h : find_job st j.id = some j) :
    find_job (job_start w j st).2 j.id = some (job_start w j st).1 := by
  unfold job_start
  by_cases hp : j.p ≠ 0
  · rw [if_pos hp]
    exact h
  · rw [if_neg hp]
    simp only
    split_ifs <;> exact find_set_of_jobs j _ st _ h rfl (by simp)

theorem job_start_find_none (w : World) (j : jobcb) (st : State) (id : Nat)
    (h : find_job st id = none) : find_job (job_start w j st).2 id = none := by
  unfold job_start
  by_cases hp : j.p ≠ 0
  · rw [if_pos hp]
    exact h
  · rw [if_neg hp]
    simp only
    split_ifs <;> exact find_set_none _ st _ id h (by simp)

theorem job_reap_bad (w : World) (j : jobcb) (st : State) (s : wait_status)
    (hs : reap_status w st.calls = some s) (hb : bad_exit s = true) :
    job_reap w j st =
      ({ j with failed_exits := size_t_succ j.failed_exits, p := 0, checkedin := false },
        set_job { j with failed_exits := size_t_succ j.failed_exits, p := 0, checkedin := false }
          (children_dec (tick 1 st))) := by
  unfold job_reap
  rw [hs]
  simp only [hb, if_true]

@[simp] theorem job_callback_out_jobs (d : Bool) (m : Int) (s : State) :
    (job_callback_out d m s).jobs = s.jobs := core_jobs (job_callback_out_core d m s)

theorem find_job_unlink (j : jobcb) (st : State) : find_job (unlink_job j st) j.id = none := by
  unfold find_job unlink_job
  rw [List.find?_eq_none]
  intro x hx
  simp only [List.mem_filter] at hx
  simpa using hx.2

theorem callback_start_gone (w : World) (d : Bool) (m : Int) (r : jobcb × State) (id : Nat)
    (hf : find_job r.2 id = none) : find_job (job_callback_start w d m r) id = none := by
  unfold job_callback_start
  simp only
  rw [← job_start_find_none w r.1 r.2 id hf]
  apply find_job_congr
  split_ifs <;> simp

theorem job_remove_gone (w : World) (j : jobcb) (st : State) (hp : j.p = 0) :
    find_job (job_remove w j st).2 j.id = none := by
  unfold job_remove
  simp only [hp, ne_eq, not_true_eq_false, if_false]
  rw [← find_job_unlink j st]
  apply find_job_congr
  simp

theorem job_callback_prologue_find (j : jobcb) (st : State) (id : Nat) :
    find_job (if j.debug = true then (sys_setlogmask LOG_UPTO_DEBUG st).2 else st) id =
      find_job st id := by
  apply find_job_congr
  split <;> simp

theorem job_reap_bad_facts (w : World) (j : jobcb) (s : State)
    (hbad : ∀ n, ∃ x, reap_status w n = some x ∧ bad_exit x = true) :
    ∃ j1 s1, job_reap w j s = (j1, s1) ∧ j1.id = j.id ∧ j1.ldj = j.ldj ∧
      j1.firstborn = j.firstborn ∧ j1.failed_exits = size_t_succ j.failed_exits ∧ j1.p = 0 ∧
      j1.start_time = j.start_time ∧
      (find_job s j.id = some j → find_job s1 j.id = some j1) := by
  obtain ⟨x, hx, hxb⟩ := hbad s.calls
  refine ⟨_, _, job_reap_bad w j s x hx hxb, rfl, rfl, rfl, rfl, rfl, rfl, ?_⟩
  intro hf
  exact find_set_of_jobs j _ s _ hf rfl (by simp)

theorem exit_body_gone (w : World) (j : jobcb) (kev : kevent) (d : Bool) (m : Int)
    (s : State)
    (hbad : ∀ n, ∃ x, reap_status w n = some x ∧ bad_exit x = true)
    (hkev : kev.filter = kq_filter.EVFILT_PROC)
    (hfb : j.firstborn = false)
    (hipc : job_get_bool j.ldj LAUNCH_JOBKEY_SERVICEIPC = false)
    (hk : j.failed_exits = 10) :
    find_job (job_callback_body w j kev d m s) j.id = none := by
  obtain ⟨j1, s1, hr, hid, hldj, hfb1, hcnt, hp, hst, hfind⟩ := job_reap_bad_facts w j s hbad
  have hsucc : j1.failed_exits = 11 := by
    rw [hcnt, hk]
    exact size_t_succ_small 10 (by omega)
  have hgt : 11 > LAUNCHD_FAILED_EXITS_THRESHOLD := by
    unfold LAUNCHD_FAILED_EXITS_THRESHOLD
    omega
  unfold job_callback_body
  simp only [hkev, if_true, hr, hfb1, hfb, hldj, hipc, hsucc, hgt, Bool.false_eq_true,
    if_false, Bool.false_and]
  rw [← hid]
  exact callback_start_gone w d m _ j1.id (job_remove_gone w j1 s1 hp)

theorem exit_event_filter (st : State) (id : Nat) :
    ∃ kev, child_exit_event st id = Event.job id kev ∧ kev.filter = kq_filter.EVFILT_PROC :=
  ⟨_, rfl, rfl⟩

theorem step_job_eq (w : World) (st : State) (id : Nat) (kev : kevent) (j : jobcb)
    (hf : find_job st id = some j) :
    ∃ s0, step w st (Event.job id kev) =
        job_callback_body w j kev j.debug (if j.debug = true then s0.logmask else 0)
          (if j.debug = true then (sys_setlogmask LOG_UPTO_DEBUG s0).2 else s0) ∧
      s0.jobs = st.jobs := by
  by_cases hk : kev.filter = kq_filter.EVFILT_PROC
  · refine ⟨{ st with kq := kq_remove kev.ident kq_filter.EVFILT_PROC st.kq }, ?_, rfl⟩
    have hf2 : find_job { st with kq := kq_remove kev.ident kq_filter.EVFILT_PROC st.kq } id =
        some j := hf
    simp only [step, hk, if_true, hf2]
    rfl
  · refine ⟨st, ?_, rfl⟩
    simp only [step, hk, if_false, hf]
    rfl

theorem step_job_keysSub (w : World) (st : State) (id : Nat) (kev : kevent)
    (hok : RegistryOk st) : KeysSub st (step w st (Event.job id kev)) := by
  simp only [step]
  have h1 : KeysSub st (if kev.filter = kq_filter.EVFILT_PROC then
      { st with kq := kq_remove kev.ident kq_filter.EVFILT_PROC st.kq } else st) := by
    split
    · exact ⟨List.Sublist.refl _, rfl⟩
    · exact KeysSub.refl st
  have hok1 := hok.ok_of_keysSub h1
  split
  · rename_i j hj
    exact h1.trans (job_callback_keysSub w j kev _ (InHand.of_mem hok1 (find_job_mem hj).1))
  · exact h1

theorem rerun_keysSub (w : World) (id : Nat) (st : State) (hok : RegistryOk st) :
    KeysSub st (rerun_if_idle w id st) := by
  unfold rerun_if_idle
  split
  · split
    · exact step_job_keysSub w st id _ hok
    · exact KeysSub.refl st
  · exact KeysSub.refl st

theorem after_exits_keysSub (w : World) (id : Nat) (n : Nat) (st : State)
    (hok : RegistryOk st) : KeysSub st (after_exits w id n st) := by
  induction n with
  | zero => exact KeysSub.refl st
  | succ n ih =>
    simp only [after_exits]
    have h1 := hok.ok_of_keysSub ih
    have h2 := rerun_keysSub w id _ h1
    exact (ih.trans h2).trans (step_job_keysSub w _ id _ (h1.ok_of_keysSub h2))

theorem label_unique_mem (js : List jobcb) (l : String) (x y : jobcb)
    (hu : (js.filterMap job_label).Nodup) (hx : x ∈ js) (hy : y ∈ js)
    (hlx : job_label x = some l) (hly : job_label y = some l) : x = y := by
  induction js with
  | nil => exact absurd hx (List.not_mem_nil _)
  | cons a rest ih =>
    have hmem : ∀ z ∈ rest, job_label z = some l → l ∈ rest.filterMap job_label :=
      fun z hz hlz => List.mem_filterMap.2 ⟨z, hz, hlz⟩
    rcases List.mem_cons.1 hx with hxa | hxr <;> rcases List.mem_cons.1 hy with hya | hyr
    · rw [hxa, hya]
    · exfalso
      rw [List.filterMap_cons, ← hxa, hlx] at hu
      exact (List.nodup_cons.1 hu).1 (hmem y hyr hly)
    · exfalso
      rw [List.filterMap_cons, ← hya, hly] at hu
      exact (List.nodup_cons.1 hu).1 (hmem x hxr hlx)
    · apply ih _ hxr hyr
      rw [List.filterMap_cons] at hu
      cases hla : job_label a with
      | none => simpa [hla] using hu
      | some v =>
        rw [hla] at hu
        exact (List.nodup_cons.1 hu).2

theorem frozen_state_ok : RegistryOk frozen_state := by
  refine ⟨?_, ?_, ?_⟩
  · exact List.nodup_singleton _
  · exact List.nodup_singleton _
  · intro j hj
    rw [List.mem_singleton.1 hj]
    exact Nat.lt_succ_self 0

theorem bad_exit_iff (s : wait_status) :
    bad_exit s = true ↔
      (∃ code, s = wait_status.exited code ∧ code ≠ 0) ∨
      (∃ sig, s = wait_status.signaled sig ∧ sig ≠ SIGTERM ∧ sig ≠ SIGKILL) := by
  cases s with
  | exited code => simp [bad_exit]
  | signaled sig => simp [bad_exit, and_comm]
  | stopped sig => simp [bad_exit]

theorem job_reap_some (w : World) (j : jobcb) (st : State) (s : wait_status)
    (hs : reap_status w st.calls = some s) :
    job_reap w j st =
      ({ j with failed_exits := if bad_exit s then size_t_succ j.failed_exits else 0,
                p := 0, checkedin := false },
        set_job { j with failed_exits := if bad_exit s then size_t_succ j.failed_exits else 0,
                         p := 0, checkedin := false }
          (children_dec (tick 1 st))) := by
  unfold job_reap
  rw [hs]

theorem job_reap_good_facts (w : World) (j : jobcb) (s : State)
    (hgood : ∀ n, ∃ x, reap_status w n = some x ∧ bad_exit x = false) :
    ∃ j1 s1, job_reap w j s = (j1, s1) ∧ j1.id = j.id ∧ j1.ldj = j.ldj ∧
      j1.firstborn = j.firstborn ∧ j1.failed_exits = 0 ∧ j1.p = 0 ∧
      (find_job s j.id = some j → find_job s1 j.id = some j1) := by
  obtain ⟨x, hx, hxb⟩ := hgood s.calls
  refine ⟨_, _, job_reap_some w j s x hx, rfl, rfl, rfl, ?_, rfl, ?_⟩
  · simp [hxb]
  · intro hf
    exact find_set_of_jobs j _ s _ hf rfl (by simp)

theorem job_start_counter_zero (w : World) (j : jobcb) (st : State) (h : j.failed_exits = 0) :
    (job_start w j st).1.failed_exits = 0 := by
  unfold job_start
  by_cases hp : j.p ≠ 0
  · rw [if_pos hp]
    exact h
  · rw [if_neg hp]
    simp only
    split_ifs <;> first | rfl | exact h

theorem callback_start_registered (w : World) (d : Bool) (m : Int) (j : jobcb) (s : State)
    (hf : find_job s j.id = some j) (hfb : j.firstborn = false) :
    ∃ j2, find_job (job_callback_start w d m (j, s)) j.id = some j2 ∧ j2.ldj = j.ldj ∧
      j2.firstborn = false ∧ (j.failed_exits = 0 → j2.failed_exits = 0) := by
  have hs := job_start_jobs w j s
  refine ⟨(job_start w j s).1, ?_, hs.1.2.1, hs.1.2.2.1.trans hfb,
    job_start_counter_zero w j s⟩
  unfold job_callback_start
  simp only
  rw [← job_start_find w j s hf]
  apply find_job_congr
  split_ifs <;> simp

theorem exit_body_kept (w : World) (j : jobcb) (kev : kevent) (d : Bool) (m : Int)
    (s : State)
    (hgood : ∀ n, ∃ x, reap_status w n = some x ∧ bad_exit x = false)
    (hkev : kev.filter = kq_filter.EVFILT_PROC)
    (hf : find_job s j.id = some j) (hfb : j.firstborn = false)
    (hipc : job_get_bool j.ldj LAUNCH_JOBKEY_SERVICEIPC = false) :
    ∃ j2, find_job (job_callback_body w j kev d m s) j.id = some j2 ∧ j2.ldj = j.ldj ∧
      j2.firstborn = false ∧ j2.failed_exits = 0 := by
  obtain ⟨j1, s1, hr, hid, hldj, hfb1, hcnt, hp, hfind⟩ := job_reap_good_facts w j s hgood
  have hf1 := hfind hf
  rw [← hid] at hf1
  have hnot : ¬ 0 > LAUNCHD_FAILED_EXITS_THRESHOLD := by
    unfold LAUNCHD_FAILED_EXITS_THRESHOLD
    omega
  unfold job_callback_body
  simp only [hkev, if_true, hr, hfb1, hfb, hldj, hipc, hcnt, hnot, Bool.false_eq_true,
    if_false, Bool.false_and]
  rw [← hid, ← hldj]
  split
  · refine ⟨j1, ?_, rfl, hfb1.trans hfb, hcnt⟩
    rw [← hf1]
    apply find_job_congr
    simp
  · obtain ⟨j2, h1, h2, h3, h4⟩ := callback_start_registered w d m j1 s1 hf1 (hfb1.trans hfb)
    exact ⟨j2, h1, h2, h3, h4 hcnt⟩

theorem exit_kept (w : World) (id : Nat) (ldj : launch_data) (s : State)
    (hgood : ∀ n, ∃ x, reap_status w n = some x ∧ bad_exit x = false)
    (hipc : job_get_bool ldj LAUNCH_JOBKEY_SERVICEIPC = false)
    (hc : RegisteredAs id ldj s) :
    ∃ j2, find_job (step w s (child_exit_event s id)) id = some j2 ∧ j2.ldj = ldj ∧
      j2.firstborn = false ∧ j2.failed_exits = 0 := by
  obtain ⟨j, hf, hldj, hfb⟩ := hc
  obtain ⟨kev, hev, hkev⟩ := exit_event_filter s id
  obtain ⟨s0, hstep, hjobs⟩ := step_job_eq w s id kev j hf
  have hid : j.id = id := (find_job_mem hf).2
  rw [hev, hstep]
  subst hid
  subst hldj
  apply exit_body_kept w j kev _ _ _ hgood hkev _ hfb hipc
  rw [job_callback_prologue_find, find_job_congr hjobs]
  exact hf

theorem rerun_kept (w : World) (id : Nat) (ldj : launch_data) (s : State)
    (hc : RegisteredAs id ldj s) : RegisteredAs id ldj (rerun_if_idle w id s) := by
  obtain ⟨j, hf, hldj, hfb⟩ := hc
  unfold rerun_if_idle
  rw [hf]
  simp only
  split
  · obtain ⟨s0, hstep, hjobs⟩ := step_job_eq w s id
      { ident := 0, filter := kq_filter.EVFILT_READ, eof := false, data := 1 } j hf
    have hid : j.id = id := (find_job_mem hf).2
    unfold demand_event
    rw [hstep]
    subst hid
    subst hldj
    unfold job_callback_body
    simp only [reduceCtorEq, if_false, Bool.false_eq_true, false_and, and_false]
    have hf0 : find_job (if j.debug = true then (sys_setlogmask LOG_UPTO_DEBUG s0).2 else s0)
        j.id = some j := by
      rw [job_callback_prologue_find, find_job_congr hjobs]
      exact hf
    obtain ⟨j2, h1, h2, h3, _⟩ := callback_start_registered w j.debug
      (if j.debug = true then s0.logmask else 0) j _ hf0 hfb
    exact ⟨j2, h1, h2, h3⟩
  · exact ⟨j, hf, hldj, hfb⟩

theorem after_exits_kept (w : World) (id : Nat) (ldj : launch_data) (st : State)
    (hgood : ∀ n, ∃ x, reap_status w n = some x ∧ bad_exit x = false)
    (hipc : job_get_bool ldj LAUNCH_JOBKEY_SERVICEIPC = false)
    (h0 : RegisteredAs id ldj st) (k : Nat) :
    ∃ j2, find_job (after_exits w id k st) id = some j2 ∧ j2.ldj = ldj ∧
      j2.firstborn = false ∧ (0 < k → j2.failed_exits = 0) := by
  induction k with
  | zero =>
    obtain ⟨j, hf, hldj, hfb⟩ := h0
    exact ⟨j, hf, hldj, hfb, fun h => absurd h (Nat.lt_irrefl 0)⟩
  | succ k ih =>
    obtain ⟨j1, h1, h2, h3, _⟩ := ih
    simp only [after_exits]
    obtain ⟨j2, g1, g2, g3, g4⟩ := exit_kept w id ldj _ hgood hipc
      (rerun_kept w id ldj _ ⟨j1, h1, h2, h3⟩)
    exact ⟨j2, g1, g2, g3, fun _ => g4⟩

theorem job_reap_find_none (w : World) (j : jobcb) (s : State) (id : Nat)
    (h : find_job s id = none) : find_job (job_reap w j s).2 id = none := by
  unfold job_reap
  split
  · rw [← h]
    apply find_job_congr
    simp
  · exact find_set_none _ s _ id h (by simp)

theorem job_remove_absent (w : World) (j : jobcb) (st : State) :
    find_job (job_remove w j st).2 j.id = none ∧ (job_remove w j st).1.id = j.id := by
  have hu := find_job_unlink j st
  have hk2 : find_job (kevent_mod_add w j.p kq_filter.EVFILT_PROC
      kq_callback.simple_zombie_reaper (unlink_job j st)).2 j.id = none := by
    rw [← hu]
    apply find_job_congr
    simp
  have hr := job_reap_find_none w j _ j.id hk2
  have hrid : (job_reap w j (kevent_mod_add w j.p kq_filter.EVFILT_PROC
      kq_callback.simple_zombie_reaper (unlink_job j st)).2).1.id = j.id := by
    unfold job_reap
    split <;> rfl
  unfold job_remove
  simp only
  split_ifs with hp hk
  · refine ⟨?_, rfl⟩
    rw [← hu]
    apply find_job_congr
    simp
  · refine ⟨?_, hrid⟩
    rw [← hr]
    apply find_job_congr
    simp
  · refine ⟨?_, rfl⟩
    rw [← hu]
    apply find_job_congr
    simp

theorem job_reap_fields (w : World) (j : jobcb) (s : State) :
    (job_reap w j s).1.id = j.id ∧ (job_reap w j s).1.ldj = j.ldj ∧
      (job_reap w j s).1.firstborn = j.firstborn ∧ (job_reap w j s).1.debug = j.debug ∧
      (find_job s j.id = some j → find_job (job_reap w j s).2 j.id = some (job_reap w j s).1) := by
  unfold job_reap
  split
  · refine ⟨rfl, rfl, rfl, rfl, fun hf => ?_⟩
    rw [← hf]
    apply find_job_congr
    simp
  · exact ⟨rfl, rfl, rfl, rfl, fun hf => find_set_of_jobs j _ s _ hf rfl (by simp)⟩

theorem job_reap_fst_congr (w : World) (j : jobcb) (s s2 : State) (h : s.calls = s2.calls) :
    (job_reap w j s).1 = (job_reap w j s2).1 := by
  unfold job_reap
  rw [h]
  split <;> rfl

theorem exit_body_unchecked (w : World) (j : jobcb) (kev : kevent) (d : Bool) (m : Int)
    (s : State) (hkev : kev.filter = kq_filter.EVFILT_PROC) (hfb : j.firstborn = false)
    (hipc : job_get_bool j.ldj LAUNCH_JOBKEY_SERVICEIPC = true) (hci : j.checkedin = false) :
    find_job (job_callback_body w j kev d m s) j.id = none := by
  obtain ⟨hid, hldj, hfb1, _, _⟩ := job_reap_fields w j s
  obtain ⟨hgone, hrid⟩ := job_remove_absent w (job_reap w j s).1 (job_reap w j s).2
  unfold job_callback_body
  simp only [hkev, if_true, hfb1, hfb, hldj, hipc, hci, Bool.false_eq_true, if_false,
    Bool.not_false, Bool.and_self]
  rw [← hid]
  exact callback_start_gone w d m _ _ hgone

theorem exit_body_checked (w : World) (j : jobcb) (kev : kevent) (d : Bool) (m : Int)
    (s : State) (hkev : kev.filter = kq_filter.EVFILT_PROC) (hfb : j.firstborn = false)
    (hci : j.checkedin = true) (hf : find_job s j.id = some j) :
    (find_job (job_callback_body w j kev d m s) j.id = none ↔
      (job_reap w j s).1.failed_exits > LAUNCHD_FAILED_EXITS_THRESHOLD) := by
  obtain ⟨hid, hldj, hfb1, _, hfind⟩ := job_reap_fields w j s
  obtain ⟨hgone, hrid⟩ := job_remove_absent w (job_reap w j s).1 (job_reap w j s).2
  have hf1 := hfind hf
  rw [← hid] at hf1
  unfold job_callback_body
  simp only [hkev, if_true, hfb1, hfb, hci, Bool.false_eq_true, if_false,
    Bool.not_true, Bool.and_false]
  rw [← hid]
  split_ifs with hgt hod
  · exact ⟨fun _ => hgt, fun _ => callback_start_gone w d m _ _ hgone⟩
  · refine ⟨fun h => ?_, fun h => absurd h hgt⟩
    exfalso
    have : find_job (job_callback_out d m (job_watch_fds w (job_reap w j s).1.ldj
        (kq_callback.job (job_reap w j s).1.id) (job_reap w j s).2)) (job_reap w j s).1.id =
        some (job_reap w j s).1 := by
      rw [← hf1]
      apply find_job_congr
      simp
    rw [this] at h
    exact Option.some_ne_none _ h
  · refine ⟨fun h => ?_, fun h => absurd h hgt⟩
    exfalso
    obtain ⟨j2, h1, _⟩ := callback_start_registered w d m (job_reap w j s).1 (job_reap w j s).2
      hf1 (hfb1.trans hfb)
    rw [h1] at h
    exact Option.some_ne_none _ h

theorem gone_label_absent (st st2 : State) (j : jobcb) (l : String) (hok : RegistryOk st)
    (hsub : KeysSub st st2) (hj : find_job st j.id = some j) (hl : job_label j = some l)
    (hgone : find_job st2 j.id = none) : ∀ x ∈ st2.jobs, job_label x ≠ some l := by
  intro x hx hlx
  have hkx : job_key x ∈ st.jobs.map job_key := hsub.1.subset (List.mem_map_of_mem _ hx)
  obtain ⟨y, hy, hyk⟩ := List.mem_map.1 hkx
  have hyl : job_label y = some l := (congrArg Prod.snd hyk).trans hlx
  have hyj : y = j := label_unique_mem st.jobs l y j hok.2.1 hy (find_job_mem hj).1 hyl hl
  have hxid : x.id = j.id := by
    rw [← hyj]
    exact (congrArg Prod.fst hyk).symm
  unfold find_job at hgone
  rw [List.find?_eq_none] at hgone
  exact hgone x hx (by simpa using hxid)

theorem step_exit_eq (w : World) (st : State) (j : jobcb) (hf : find_job st j.id = some j) :
    ∃ kev s0, kev.filter = kq_filter.EVFILT_PROC ∧ s0.jobs = st.jobs ∧ s0.calls = st.calls ∧
      find_job s0 j.id = some j ∧
      step w st (child_exit_event st j.id) = job_callback_body w j kev j.debug
        (if j.debug = true then s0.logmask else 0)
        (if j.debug = true then (sys_setlogmask LOG_UPTO_DEBUG s0).2 else s0) ∧
      (if j.debug = true then (sys_setlogmask LOG_UPTO_DEBUG s0).2 else s0).calls = st.calls ∧
      find_job (if j.debug = true then (sys_setlogmask LOG_UPTO_DEBUG s0).2 else s0) j.id
        = some j := by
  refine ⟨{ ident := j.p, filter := kq_filter.EVFILT_PROC, eof := false, data := 0 },
    { st with kq := kq_remove j.p kq_filter.EVFILT_PROC st.kq }, rfl, rfl, rfl, hf, ?_, ?_, ?_⟩
  · unfold child_exit_event
    rw [hf]
    have hf2 : find_job { st with kq := kq_remove j.p kq_filter.EVFILT_PROC st.kq } j.id =
        some j := hf
    simp only [step, if_true, hf2]
    rfl
  · split <;> rfl
  · rw [job_callback_prologue_find]
    exact hf

theorem service_state_ok (b : Bool) : RegistryOk (service_state b) := by
  refine ⟨?_, ?_, ?_⟩
  · exact List.nodup_singleton _
  · exact List.nodup_singleton _
  · intro j hj
    rw [List.mem_singleton.1 hj]
    exact Nat.lt_succ_self 0

theorem stop_all_fields (js : List jobcb) (s : State) :
    (js.foldl (fun s j => job_stop j s) s).core = s.core ∧
    (js.foldl (fun s j => job_stop j s) s).kills =
      s.kills ++ (js.filter (fun x => x.p != 0)).map (fun x => (x.p, SIGTERM)) := by
  induction js generalizing s with
  | nil => exact ⟨rfl, by simp⟩
  | cons x rest ih =>
    simp only [List.foldl_cons]
    obtain ⟨h1, h2⟩ := ih (job_stop x s)
    refine ⟨h1.trans (job_stop_core x s), ?_⟩
    rw [h2]
    unfold job_stop sys_kill
    by_cases hp : x.p = 0
    · simp [hp]
    · simp [hp]

theorem do_shutdown_fields (s : State) :
    (do_shutdown s).shutdown_in_progress = true ∧
    (do_shutdown s).jobs = s.jobs.map (fun j => { j with ldj := ondemand_off j.ldj }) ∧
    (do_shutdown s).forked = s.forked ∧
    (do_shutdown s).total_children = s.total_children ∧
    (do_shutdown s).kills =
      s.kills ++ (s.jobs.filter (fun x => x.p != 0)).map (fun x => (x.p, SIGTERM)) := by
  unfold do_shutdown
  simp only
  obtain ⟨h1, h2⟩ := stop_all_fields s.jobs
    { s with shutdown_in_progress := true,
             jobs := s.jobs.map (fun j => { j with ldj := ondemand_off j.ldj }) }
  have g1 := congrArg (fun x => x.2.2.2.2.1) h1
  have g2 := core_jobs h1
  have g3 := core_forked h1
  have g4 := core_total_children h1
  exact ⟨g1, g2, g3, g4, h2⟩

theorem ondemand_off_kvs_lookup (kvs : List (String × launch_data)) :
    (match dict_lookup_kvs LAUNCH_JOBKEY_ONDEMAND (ondemand_off_kvs kvs) with
      | some t => launch_data_get_bool t
      | none => false) = false := by
  induction kvs with
  | nil => rfl
  | cons kv rest ih =>
    obtain ⟨k, v⟩ := kv
    by_cases hk : k = LAUNCH_JOBKEY_ONDEMAND
    · simp only [ondemand_off_kvs, hk, if_true, dict_lookup_kvs]
      cases v <;> rfl
    · simp only [ondemand_off_kvs, hk, if_false, dict_lookup_kvs]
      exact ih

theorem ondemand_off_get_bool (ldj : launch_data) :
    job_get_bool (ondemand_off ldj) LAUNCH_JOBKEY_ONDEMAND = false := by
  unfold job_get_bool
  cases ldj with
  | dictionary kvs =>
    simp only [ondemand_off, launch_data_dict_lookup]
    exact ondemand_off_kvs_lookup kvs
  | _ => rfl

theorem job_reap_traces (w : World) (j : jobcb) (s : State) :
    (job_reap w j s).2.kills = s.kills ∧ (job_reap w j s).2.forked = s.forked ∧
      (job_reap w j s).2.shutdown_in_progress = s.shutdown_in_progress := by
  unfold job_reap
  split <;> exact ⟨rfl, rfl, rfl⟩

theorem job_reap_jobs_congr (w : World) (j : jobcb) (s s2 : State) (h1 : s.jobs = s2.jobs)
    (h2 : s.calls = s2.calls) : (job_reap w j s).2.jobs = (job_reap w j s2).2.jobs := by
  unfold job_reap
  rw [h2]
  split
  · exact h1
  · simp only [set_job_jobs, children_dec_jobs, tick_jobs, h1]

theorem job_callback_out_traces (d : Bool) (m : Int) (s : State) :
    (job_callback_out d m s).kills = s.kills ∧
      (job_callback_out d m s).shutdown_in_progress = s.shutdown_in_progress := by
  unfold job_callback_out sys_setlogmask
  split
  · split <;> exact ⟨rfl, rfl⟩
  · exact ⟨rfl, rfl⟩

theorem step_exit_pre (w : World) (st : State) (j : jobcb) (hf : find_job st j.id = some j) :
    ∃ kev s0, kev.filter = kq_filter.EVFILT_PROC ∧ s0.jobs = st.jobs ∧ s0.calls = st.calls ∧
      s0.kills = st.kills ∧ s0.forked = st.forked ∧ s0.total_children = st.total_children ∧
      find_job s0 j.id = some j ∧
      step w st (child_exit_event st j.id) = job_callback_body w j kev j.debug
        (if j.debug = true then st.logmask else 0) s0 := by
  refine ⟨{ ident := j.p, filter := kq_filter.EVFILT_PROC, eof := false, data := 0 },
    (if j.debug = true then (sys_setlogmask LOG_UPTO_DEBUG
      { st with kq := kq_remove j.p kq_filter.EVFILT_PROC st.kq }).2
     else { st with kq := kq_remove j.p kq_filter.EVFILT_PROC st.kq }),
    rfl, ?_, ?_, ?_, ?_, ?_, ?_, ?_⟩
  · split <;> rfl
  · split <;> rfl
  · split <;> rfl
  · split <;> rfl
  · split <;> rfl
  · rw [job_callback_prologue_find]
    exact hf
  · unfold child_exit_event
    rw [hf]
    have hf2 : find_job { st with kq := kq_remove j.p kq_filter.EVFILT_PROC st.kq } j.id =
        some j := hf
    simp only [step, if_true, hf2]
    rfl

theorem set_job_ids (j : jobcb) (st : State) :
    (set_job j st).jobs.map (fun x => x.id) = st.jobs.map (fun x => x.id) := by
  rw [set_job_jobs, List.map_map]
  apply List.map_congr_left
  intro x _
  simp only [Function.comp]
  split
  · rename_i h
    exact h.symm
  · rfl

theorem job_reap_ids (w : World) (j : jobcb) (s : State) :
    (job_reap w j s).2.jobs.map (fun x => x.id) = s.jobs.map (fun x => x.id) := by
  unfold job_reap
  split
  · rfl
  · exact set_job_ids _ _

theorem find_job_ondemand_off (js : List jobcb) (id : Nat) (j : jobcb)
    (h : js.find? (fun x => x.id == id) = some j) :
    (js.map (fun x => { x with ldj := ondemand_off x.ldj })).find? (fun x => x.id == id) =
      some { j with ldj := ondemand_off j.ldj } := by
  rw [List.find?_map]
  have : ((fun x : jobcb => x.id == id) ∘ fun x => { x with ldj := ondemand_off x.ldj }) =
      (fun x : jobcb => x.id == id) := rfl
  rw [this, h]
  rfl

theorem firstborn_body (w : World) (j : jobcb) (kev : kevent) (d : Bool) (m : Int) (s : State)
    (hkev : kev.filter = kq_filter.EVFILT_PROC) (hfb : j.firstborn = true) :
    job_callback_body w j kev d m s = job_callback_out d m (do_shutdown (job_reap w j s).2) := by
  obtain ⟨_, _, hfb1, _, _⟩ := job_reap_fields w j s
  unfold job_callback_body
  simp only [hkev, if_true, hfb1, hfb]

theorem start_running_fold (w : World) (which : Option String) (js : List jobcb) (s : State)
    (h : ∀ x ∈ js, label_is which x = true → x.p ≠ 0) :
    js.foldl (fun s j => if label_is which j = true then (job_start w j s).2 else s) s = s := by
  induction js generalizing s with
  | nil => rfl
  | cons x rest ih =>
    simp only [List.foldl_cons]
    have hrest := fun s2 => ih s2 (fun y hy => h y (List.mem_cons_of_mem _ hy))
    by_cases hx : label_is which x = true
    · have hp := h x (List.mem_cons_self _ _) hx
      simp only [hx, if_true]
      unfold job_start
      rw [if_pos hp]
      exact hrest s
    · simp only [hx, Bool.false_eq_true, if_false]
      exact hrest s

@[simp] theorem tick_batch (n : Nat) (st : State) : (tick n st).batch = st.batch := rfl
@[simp] theorem sys_kill_batch (p : Int) (sig : Nat) (st : State) :
    (sys_kill p sig st).batch = st.batch := rfl
@[simp] theorem sys_close_batch (fd : Int) (st : State) : (sys_close fd st).batch = st.batch := rfl
@[simp] theorem kevent_mod_add_batch (w : World) (i : Int) (f : kq_filter) (u : kq_callback)
    (st : State) : (kevent_mod_add w i f u st).2.batch = st.batch := by
  unfold kevent_mod_add
  split
  · rfl
  · split <;> rfl

@[simp] theorem launch_data_close_fds_batch (o : launch_data) (st : State) :
    (launch_data_close_fds o st).batch = st.batch := by
  unfold launch_data_close_fds
  exact foldl_keeps State.batch (fun s fd => sys_close fd s) (fun s a => sys_close_batch a s) _ st

theorem BatchOk.of_batch {a b : State} (h : b.batch = a.batch) (ha : BatchOk a) : BatchOk b := by
  have h1 : b.connections = a.connections := congrArg Prod.fst h
  have h2 : b.batch_disabler_count = a.batch_disabler_count := congrArg Prod.snd h
  unfold BatchOk batch_disablers at *
  rw [h1, h2]
  exact ha

theorem countP_set_conn (cs : List conncb) (c c1 : conncb)
    (hn : (cs.map (fun c => c.fd)).Nodup) (hc : c ∈ cs) (hfd : c1.fd = c.fd) :
    (cs.map (fun x => if x.fd = c1.fd then c1 else x)).countP (fun c => c.disabled_batch) +
        (if c.disabled_batch then 1 else 0) =
      cs.countP (fun c => c.disabled_batch) + (if c1.disabled_batch then 1 else 0) := by
  induction cs with
  | nil => exact absurd hc (List.not_mem_nil _)
  | cons x rest ih =>
    rw [List.map_cons, List.nodup_cons] at hn
    have hrest : ∀ y ∈ rest, y.fd ≠ x.fd := by
      intro y hy hyx
      exact hn.1 (hyx ▸ List.mem_map_of_mem (fun c => c.fd) hy)
    rcases List.mem_cons.1 hc with hx | hr
    · subst hx
      have hsame : rest.map (fun x => if x.fd = c1.fd then c1 else x) = rest := by
        conv_rhs => rw [← List.map_id rest]
        apply List.map_congr_left
        intro y hy
        rw [if_neg (by rw [hfd]; exact hrest y hy)]
        rfl
      rw [List.map_cons, hsame, if_pos hfd.symm, List.countP_cons, List.countP_cons]
      omega
    · have hx : x.fd ≠ c1.fd := by
        rw [hfd]
        exact fun h => hrest c hr h.symm
      have := ih hn.2 hr
      rw [List.map_cons, if_neg hx, List.countP_cons, List.countP_cons]
      omega

theorem set_conn_fds (c1 : conncb) (st : State) :
    (set_conn c1 st).connections.map (fun c => c.fd) = st.connections.map (fun c => c.fd) := by
  unfold set_conn
  simp only [List.map_map]
  apply List.map_congr_left
  intro x _
  simp only [Function.comp]
  split
  · rename_i h
    exact h.symm
  · rfl

theorem set_conn_mem (c c1 : conncb) (st : State) (hc : c ∈ st.connections)
    (hfd : c1.fd = c.fd) : c1 ∈ (set_conn c1 st).connections := by
  unfold set_conn
  simp only
  refine List.mem_map.2 ⟨c, hc, ?_⟩
  rw [if_pos hfd.symm]

theorem batch_disablers_set_conn (c c1 : conncb) (st : State) (b b1 : Bool)
    (hn : (st.connections.map (fun c => c.fd)).Nodup) (hc : c ∈ st.connections)
    (hfd : c1.fd = c.fd) (hb : c.disabled_batch = b) (hb1 : c1.disabled_batch = b1) :
    batch_disablers (set_conn c1 st) + b.toNat = batch_disablers st + b1.toNat := by
  have h := countP_set_conn st.connections c c1 hn hc hfd
  rw [hb, hb1] at h
  unfold batch_disablers set_conn
  cases b <;> cases b1 <;> simpa using h

theorem batch_job_enable_ok (e : Bool) (c : conncb) (st : State) (hok : BatchOk st)
    (hc : c ∈ st.connections) :
    BatchOk (batch_job_enable e c st).2 ∧
    (batch_job_enable e c st).1 ∈ (batch_job_enable e c st).2.connections ∧
    (batch_job_enable e c st).1.fd = c.fd ∧
    (e = true → (batch_job_enable e c st).1.disabled_batch = false) := by
  obtain ⟨hcount, hnodup⟩ := hok
  unfold batch_job_enable
  simp only
  by_cases h1 : (e && c.disabled_batch) = true
  · rw [if_pos h1]
    simp only [Bool.and_eq_true] at h1
    have hcnt : batch_disablers (set_conn { c with disabled_batch := false }
        { st with batch_disabler_count := st.batch_disabler_count - 1 }) + 1 =
        batch_disablers st + 0 :=
      batch_disablers_set_conn c { c with disabled_batch := false }
        { st with batch_disabler_count := st.batch_disabler_count - 1 } true false hnodup hc rfl
        h1.2 rfl
    have hok2 : BatchOk (set_conn { c with disabled_batch := false }
        { st with batch_disabler_count := st.batch_disabler_count - 1 }) := by
      refine ⟨?_, ?_⟩
      · show st.batch_disabler_count - 1 = _
        omega
      · rw [set_conn_fds]
        exact hnodup
    have hmem := set_conn_mem c { c with disabled_batch := false }
      { st with batch_disabler_count := st.batch_disabler_count - 1 } hc rfl
    refine ⟨?_, ?_, rfl, fun _ => rfl⟩
    · split
      · exact hok2.of_batch (by simp)
      · exact hok2
    · split
      · exact hmem
      · exact hmem
  · rw [if_neg h1]
    by_cases h2 : (!e && !c.disabled_batch) = true
    · rw [if_pos h2]
      simp only [Bool.and_eq_true, Bool.not_eq_true'] at h2
      have hgen : ∀ s1 : State, s1.batch = st.batch →
          BatchOk (set_conn { c with disabled_batch := true }
            { s1 with batch_disabler_count := s1.batch_disabler_count + 1 }) ∧
          ({ c with disabled_batch := true } : conncb) ∈
            (set_conn { c with disabled_batch := true }
              { s1 with batch_disabler_count := s1.batch_disabler_count + 1 }).connections := by
        intro s1 hs1
        have hconn : s1.connections = st.connections := congrArg Prod.fst hs1
        have hcnt1 : s1.batch_disabler_count = st.batch_disabler_count := congrArg Prod.snd hs1
        have hc1 : c ∈ ({ s1 with batch_disabler_count := s1.batch_disabler_count + 1 } :
            State).connections := by
          show c ∈ s1.connections
          rw [hconn]
          exact hc
        have hn1 : (({ s1 with batch_disabler_count := s1.batch_disabler_count + 1 } :
            State).connections.map (fun c => c.fd)).Nodup := by
          show (s1.connections.map (fun c => c.fd)).Nodup
          rw [hconn]
          exact hnodup
        have hcnt : batch_disablers (set_conn { c with disabled_batch := true }
            { s1 with batch_disabler_count := s1.batch_disabler_count + 1 }) + 0 =
            batch_disablers { s1 with batch_disabler_count := s1.batch_disabler_count + 1 } + 1 :=
          batch_disablers_set_conn c { c with disabled_batch := true } _ false true hn1 hc1 rfl
            h2.2 rfl
        have hbs : batch_disablers { s1 with batch_disabler_count :=
            s1.batch_disabler_count + 1 } = batch_disablers st := by
          unfold batch_disablers
          show List.countP _ s1.connections = _
          rw [hconn]
        refine ⟨⟨?_, ?_⟩, set_conn_mem c _ _ hc1 rfl⟩
        · show s1.batch_disabler_count + 1 = _
          omega
        · rw [set_conn_fds]
          exact hn1
      have hst1 : ∀ (q : Prop) [Decidable q] (pid : Int),
          (if q then sys_kill pid SIGSTOP st else st).batch = st.batch := by
        intro q _ pid
        split <;> rfl
      refine ⟨(hgen _ (hst1 _ _)).1, (hgen _ (hst1 _ _)).2, rfl, fun he => ?_⟩
      rw [he] at h2
      exact absurd h2.1 (by decide)
    · rw [if_neg h2]
      refine ⟨⟨hcount, hnodup⟩, hc, rfl, fun he => ?_⟩
      rw [he] at h1
      simpa using h1

theorem countP_drop_fd (cs : List conncb) (c : conncb)
    (hn : (cs.map (fun c => c.fd)).Nodup) (hc : c ∈ cs) (hd : c.disabled_batch = false) :
    (cs.filter (fun x => x.fd != c.fd)).countP (fun c => c.disabled_batch) =
      cs.countP (fun c => c.disabled_batch) := by
  induction cs with
  | nil => rfl
  | cons x rest ih =>
    rw [List.map_cons, List.nodup_cons] at hn
    rcases List.mem_cons.1 hc with hx | hr
    · subst hx
      have hrest : rest.filter (fun x => x.fd != c.fd) = rest := by
        rw [List.filter_eq_self]
        intro y hy
        have : y.fd ≠ c.fd := fun h => hn.1 (h ▸ List.mem_map_of_mem (fun c => c.fd) hy)
        simpa using this
      rw [List.filter_cons]
      simp only [bne_self_eq_false, Bool.false_eq_true, if_false, hrest, List.countP_cons, hd,
        add_zero]
    · have hx : x.fd ≠ c.fd := fun h => hn.1 (h ▸ List.mem_map_of_mem (fun c => c.fd) hr)
      have hx2 : (x.fd != c.fd) = true := by simpa using hx
      rw [List.filter_cons, if_pos hx2, List.countP_cons, List.countP_cons, ih hn.2 hr]

theorem ipc_close_ok (c : conncb) (st : State) (hok : BatchOk st) (hc : c ∈ st.connections) :
    BatchOk (ipc_close c st) := by
  obtain ⟨⟨h1, h1n⟩, h2, h3, h4⟩ := batch_job_enable_ok true c st hok hc
  unfold ipc_close
  simp only
  have hok2 : BatchOk { (batch_job_enable true c st).2 with
      connections := (batch_job_enable true c st).2.connections.filter
        (fun x => x.fd != c.fd) } := by
    refine ⟨?_, ?_⟩
    · show (batch_job_enable true c st).2.batch_disabler_count = _
      rw [h1]
      unfold batch_disablers
      show _ = ((List.countP _ ((batch_job_enable true c st).2.connections.filter
        (fun x => x.fd != c.fd)) : Nat) : Int)
      rw [← h3, countP_drop_fd _ _ h1n h2 (h4 rfl)]
    · exact (List.filter_sublist _).map _ |>.nodup h1n
  exact hok2.of_batch rfl

theorem ipc_open_ok (w : World) (fd : Int) (j : Option Nat) (st : State) (hok : BatchOk st)
    (hfresh : ∀ c ∈ st.connections, c.fd ≠ fd) : BatchOk (ipc_open w fd j st) := by
  unfold ipc_open
  refine BatchOk.of_batch (kevent_mod_add_batch w _ _ _ _) ?_
  obtain ⟨h1, h2⟩ := hok
  refine ⟨?_, ?_⟩
  · show st.batch_disabler_count = _
    rw [h1]
    unfold batch_disablers
    show _ = ((List.countP _ (st.connections ++ [_]) : Nat) : Int)
    rw [List.countP_append]
    simp
  · show ((st.connections ++ [_]).map (fun c : conncb => c.fd)).Nodup
    rw [List.map_append, List.nodup_append]
    refine ⟨h2, List.nodup_singleton _, ?_⟩
    intro a ha hb
    obtain ⟨x, hx, hxa⟩ := List.mem_map.1 ha
    simp only [List.map_cons, List.map_nil, List.mem_singleton] at hb
    exact hfresh x hx (hxa.trans hb)

theorem ipc_readmsg2_batchcontrol (w : World) (data : Option launch_data) (c : conncb)
    (st : State) :
    ipc_readmsg2 w data LAUNCH_KEY_BATCHCONTROL { c := c, resp := none } st =
      (data,
        { c := (batch_job_enable ((data.map launch_data_get_bool).getD false) c st).1,
          resp := some (launch_data_new_errno 0) },
        (batch_job_enable ((data.map launch_data_get_bool).getD false) c st).2) := by
  simp [ipc_readmsg2, LAUNCH_KEY_BATCHCONTROL, LAUNCH_KEY_CHECKIN, LAUNCH_KEY_STARTJOB,
    LAUNCH_KEY_STOPJOB, LAUNCH_KEY_REMOVEJOB, LAUNCH_KEY_SUBMITJOB,
    LAUNCH_KEY_UNSETUSERENVIRONMENT, LAUNCH_KEY_GETUSERENVIRONMENT,
    LAUNCH_KEY_SETUSERENVIRONMENT, LAUNCH_KEY_RELOADTTYS, LAUNCH_KEY_SHUTDOWN,
    LAUNCH_KEY_GETJOBS, LAUNCH_KEY_GETRESOURCELIMITS, LAUNCH_KEY_SETRESOURCELIMITS,
    LAUNCH_KEY_GETJOB, LAUNCH_KEY_GETJOBWITHHANDLES, LAUNCH_KEY_SETLOGMASK,
    LAUNCH_KEY_GETLOGMASK, LAUNCH_KEY_SETUMASK, LAUNCH_KEY_GETUMASK, LAUNCH_KEY_GETRUSAGESELF,
    LAUNCH_KEY_GETRUSAGECHILDREN, LAUNCH_KEY_SETSTDOUT, LAUNCH_KEY_SETSTDERR]

theorem ipc_readmsg2_batchquery (w : World) (data : Option launch_data) (c : conncb)
    (st : State) :
    ipc_readmsg2 w data LAUNCH_KEY_BATCHQUERY { c := c, resp := none } st =
      (data, { c := c, resp := some (launch_data.bool (st.batch_disabler_count == 0)) }, st) := by
  simp [ipc_readmsg2, LAUNCH_KEY_BATCHQUERY, LAUNCH_KEY_BATCHCONTROL, LAUNCH_KEY_CHECKIN,
    LAUNCH_KEY_STARTJOB,
    LAUNCH_KEY_STOPJOB, LAUNCH_KEY_REMOVEJOB, LAUNCH_KEY_SUBMITJOB,
    LAUNCH_KEY_UNSETUSERENVIRONMENT, LAUNCH_KEY_GETUSERENVIRONMENT,
    LAUNCH_KEY_SETUSERENVIRONMENT, LAUNCH_KEY_RELOADTTYS, LAUNCH_KEY_SHUTDOWN,
    LAUNCH_KEY_GETJOBS, LAUNCH_KEY_GETRESOURCELIMITS, LAUNCH_KEY_SETRESOURCELIMITS,
    LAUNCH_KEY_GETJOB, LAUNCH_KEY_GETJOBWITHHANDLES, LAUNCH_KEY_SETLOGMASK,
    LAUNCH_KEY_GETLOGMASK, LAUNCH_KEY_SETUMASK, LAUNCH_KEY_GETUMASK, LAUNCH_KEY_GETRUSAGESELF,
    LAUNCH_KEY_GETRUSAGECHILDREN, LAUNCH_KEY_SETSTDOUT, LAUNCH_KEY_SETSTDERR]

theorem ipc_readmsg_resp_batchcontrol (w : World) (c : conncb) (e : Bool) (st : State) :
    ipc_readmsg_resp w c (batch_control_msg e) st =
      (batch_control_msg e,
        { c := (batch_job_enable e c st).1, resp := some (launch_data_new_errno 0) },
        (batch_job_enable e c st).2) := by
  unfold ipc_readmsg_resp batch_control_msg
  simp only [ipc_readmsg_dict, ipc_readmsg2_batchcontrol]
  rfl

theorem ipc_readmsg_resp_batchquery (w : World) (c : conncb) (st : State) :
    ipc_readmsg_resp w c batch_query_msg st =
      (batch_query_msg,
        { c := c, resp := some (launch_data.bool (st.batch_disabler_count == 0)) }, st) := by
  unfold ipc_readmsg_resp batch_query_msg
  simp only [ipc_readmsg2_batchquery]

theorem ipc_readmsg_batch_ok (w : World) (c : conncb) (msg : launch_data) (st : State)
    (hok : BatchOk (ipc_readmsg_resp w c msg st).2.2)
    (hc : (ipc_readmsg_resp w c msg st).2.1.c ∈ (ipc_readmsg_resp w c msg st).2.2.connections) :
    BatchOk (ipc_readmsg w c msg st).2 := by
  unfold ipc_readmsg
  simp only
  have hb : (tick 1 (launch_data_close_fds (ipc_readmsg_resp w c msg st).1
      (ipc_readmsg_resp w c msg st).2.2)).batch = (ipc_readmsg_resp w c msg st).2.2.batch := by
    simp
  have hok1 := hok.of_batch hb
  split
  · exact hok1
  · exact hok1.of_batch (by simp)
  · apply ipc_close_ok _ _ hok1
    have : (tick 1 (launch_data_close_fds (ipc_readmsg_resp w c msg st).1
      (ipc_readmsg_resp w c msg st).2.2)).connections =
        (ipc_readmsg_resp w c msg st).2.2.connections := congrArg Prod.fst hb
    rw [this]
    exact hc

theorem find_conn_mem {cs : List conncb} {fd : Int} {c : conncb}
    (h : cs.find? (fun c => c.fd == fd) = some c) : c ∈ cs :=
  List.mem_of_find?_eq_some h

theorem batch_reachable_ok (w : World) (st : State) (h : BatchReachable w st) : BatchOk st := by
  induction h with
  | start st h1 h2 =>
    refine ⟨?_, ?_⟩
    · unfold batch_disablers
      rw [h1, h2]
      rfl
    · rw [h1]
      exact List.nodup_nil
  | accept st cfd _ hfresh ih => exact ipc_open_ok w cfd none st ih hfresh
  | hangup st fd _ ih =>
    simp only [step]
    split
    · rename_i c hc
      exact ipc_close_ok c st ih (find_conn_mem hc)
    · exact ih
  | control st fd e _ ih =>
    simp only [step]
    split
    · rename_i c hc
      obtain ⟨h1, h2, _, _⟩ := batch_job_enable_ok e c st ih (find_conn_mem hc)
      apply ipc_readmsg_batch_ok
      · rw [ipc_readmsg_resp_batchcontrol]
        exact h1
      · rw [ipc_readmsg_resp_batchcontrol]
        exact h2
    · exact ih
  | query st fd _ ih =>
    simp only [step]
    split
    · rename_i c hc
      apply ipc_readmsg_batch_ok
      · rw [ipc_readmsg_resp_batchquery]
        exact ih
      · rw [ipc_readmsg_resp_batchquery]
        exact find_conn_mem hc
    · exact ih

theorem batch_disablers_zero_iff (st : State) :
    batch_disablers st = 0 ↔ ∀ x ∈ st.connections, x.disabled_batch = false := by
  unfold batch_disablers
  rw [List.countP_eq_zero]
  simp

theorem batch_disable_again (c : conncb) (st : State) (hd : c.disabled_batch = true) :
    batch_job_enable false c st = (c, st) := by
  unfold batch_job_enable
  simp [hd]

theorem batch_disable_fields (c : conncb) (st : State) :
    (batch_job_enable false c st).1.disabled_batch = true ∧
    (batch_job_enable false c st).2.batch_disabler_count =
      st.batch_disabler_count + (if c.disabled_batch then 0 else 1) := by
  cases hd : c.disabled_batch
  · unfold batch_job_enable
    simp only [hd, Bool.false_and, Bool.false_eq_true, if_false, Bool.not_false, Bool.and_self,
      if_true]
    refine ⟨trivial, ?_⟩
    split_ifs <;> simp [set_conn, sys_kill]
  · rw [batch_disable_again c st hd]
    exact ⟨hd, by simp⟩

theorem batch_enable_idle (c : conncb) (st : State) (hd : c.disabled_batch = false) :
    batch_job_enable true c st = (c, st) := by
  unfold batch_job_enable
  simp [hd]

theorem ipc_close_count (c : conncb) (st : State) (hd : c.disabled_batch = true) :
    (ipc_close c st).batch_disabler_count = st.batch_disabler_count - 1 := by
  unfold ipc_close batch_job_enable
  simp only [hd, Bool.and_self, if_true]
  split <;> rfl

theorem msg_recv_loop_bad {σ : Type}
    (unpack : List Nat → List Int → Option (launch_data × Nat × Nat))
    (cb : launch_data → σ → σ × Bool) (fuel : Nat) (lh : launch) (ctx : σ)
    (acc : List launch_data) (hlen : LAUNCH_MSG_HEADER_SIZE ≤ lh.recvbuf.length)
    (hbad : header_magic lh.recvbuf ≠ LAUNCH_MSG_HEADER_MAGIC ∨
      header_len lh.recvbuf ≤ LAUNCH_MSG_HEADER_SIZE) :
    msg_recv_loop unpack cb (fuel + 1) lh ctx acc =
      some { ret := -1, errno := some EBADRPC, lh := lh, ctx := ctx, delivered := acc } := by
  have h16 : LAUNCH_MSG_HEADER_SIZE = 16 := rfl
  have h0 : ¬ lh.recvbuf.length = 0 := by omega
  have h1 : ¬ lh.recvbuf.length < LAUNCH_MSG_HEADER_SIZE := by omega
  simp only [msg_recv_loop, h0, h1, hbad, if_true, if_false]

theorem ipc_close_gone (c : conncb) (st : State) :
    (∀ x ∈ (ipc_close c st).connections, x.fd ≠ c.fd) ∧ c.fd ∈ (ipc_close c st).closed := by
  unfold ipc_close sys_close
  simp only
  refine ⟨?_, ?_⟩
  · intro x hx
    have := (List.mem_filter.1 hx).2
    simpa using this
  · simp

theorem ProcSub.same (a : State) : ProcSub a a := fun _ hk _ _ => hk

theorem ProcSub.chain {a b c : State} (h1 : ProcSub a b) (h2 : ProcSub b c) : ProcSub a c :=
  fun k hk hf ht => h1 k (h2 k hk hf ht) hf ht

theorem ProcSub.of_kq {a b : State} (h : b.kq = a.kq) : ProcSub a b := by
  intro k hk _ _
  rw [h] at hk
  exact hk

theorem ProcSub.of_filter {a b : State} (p : knote → Bool) (h : b.kq = a.kq.filter p) :
    ProcSub a b := by
  intro k hk _ _
  rw [h] at hk
  exact (List.mem_filter.1 hk).1

theorem kq_add_procSub (i : Int) (f : kq_filter) (u : kq_callback) (st : State)
    (h : f = kq_filter.EVFILT_PROC → ∀ id, u ≠ kq_callback.job id) :
    ProcSub st (kq_add i f u st) := by
  intro k hk hf ht
  unfold kq_add at hk
  simp only [List.mem_append, List.mem_singleton] at hk
  rcases hk with hk | hk
  · unfold kq_remove at hk
    exact (List.mem_filter.1 hk).1
  · exfalso
    obtain ⟨id, hid⟩ := ht
    rw [hk] at hf hid
    exact h hf id hid

theorem kevent_mod_add_procSub (w : World) (i : Int) (f : kq_filter) (u : kq_callback)
    (st : State) (h : f = kq_filter.EVFILT_PROC → ∀ id, u ≠ kq_callback.job id) :
    ProcSub st (kevent_mod_add w i f u st).2 := by
  unfold kevent_mod_add
  split
  · exact ProcSub.same st
  · split
    · exact (ProcSub.of_kq rfl : ProcSub st (tick 1 st)).chain (kq_add_procSub i f u _ h)
    · exact ProcSub.of_kq rfl

theorem kevent_mod_delete_procSub (w : World) (i : Int) (f : kq_filter) (st : State) :
    ProcSub st (kevent_mod_delete w i f st) := by
  unfold kevent_mod_delete
  split
  · exact ProcSub.same st
  · exact ProcSub.of_filter _ rfl

theorem sys_close_procSub (fd : Int) (st : State) : ProcSub st (sys_close fd st) :=
  ProcSub.of_filter _ rfl

theorem foldl_procSub {α : Type} (f : State → α → State) (h : ∀ s a, ProcSub s (f s a))
    (l : List α) (st : State) : ProcSub st (l.foldl f st) := by
  induction l generalizing st with
  | nil => exact ProcSub.same st
  | cons x rest ih => exact (h st x).chain (ih (f st x))

theorem launch_data_close_fds_procSub (o : launch_data) (st : State) :
    ProcSub st (launch_data_close_fds o st) :=
  foldl_procSub _ (fun s fd => sys_close_procSub fd s) _ st

theorem job_ignore_fds_procSub (w : World) (o : launch_data) (st : State) :
    ProcSub st (job_ignore_fds w o st) :=
  foldl_procSub _ (fun s fd => kevent_mod_delete_procSub w fd _ s) _ st

theorem job_watch_fds_procSub (w : World) (o : launch_data) (u : kq_callback) (st : State) :
    ProcSub st (job_watch_fds w o u st) :=
  foldl_procSub _ (fun s fd => kevent_mod_add_procSub w fd _ u s (fun h => by cases h)) _ st

theorem ipc_open_procSub (w : World) (fd : Int) (j : Option Nat) (st : State) :
    ProcSub st (ipc_open w fd j st) := by
  unfold ipc_open
  exact (ProcSub.of_kq rfl : ProcSub st _).chain
    (kevent_mod_add_procSub w fd _ _ _ (fun h => by cases h))

theorem batch_job_enable_kq (e : Bool) (c : conncb) (st : State) :
    (batch_job_enable e c st).2.kq = st.kq := by
  unfold batch_job_enable
  simp only
  split_ifs <;> rfl

theorem ipc_close_procSub (c : conncb) (st : State) : ProcSub st (ipc_close c st) := by
  unfold ipc_close
  exact (ProcSub.of_kq (batch_job_enable_kq true c st)).chain
    ((ProcSub.of_kq rfl : ProcSub (batch_job_enable true c st).2 _).chain
      (sys_close_procSub c.fd _))

theorem job_stop_kq (j : jobcb) (st : State) : (job_stop j st).kq = st.kq := by
  unfold job_stop
  split <;> rfl

theorem notify_helperd_kq (st : State) : (notify_helperd st).kq = st.kq := by
  unfold notify_helperd
  split
  · split <;> rfl
  · rfl

theorem job_callback_out_kq (d : Bool) (m : Int) (s : State) :
    (job_callback_out d m s).kq = s.kq := by
  unfold job_callback_out sys_setlogmask
  split
  · split <;> rfl
  · rfl

theorem reload_launchd_config_procSub (w : World) (st : State) :
    ProcSub st (reload_launchd_config w st) := by
  unfold reload_launchd_config
  simp only
  split_ifs
  · exact ProcSub.of_kq rfl
  · exact (ProcSub.of_kq rfl : ProcSub st (tick 2 (tick 1 st))).chain
      ((sys_close_procSub _ _).chain ((sys_close_procSub _ _).chain (ProcSub.of_kq rfl)))
  · refine (ProcSub.of_kq rfl : ProcSub st (tick 2 (tick 1 st))).chain ?_
    refine ProcSub.chain ?_ (kevent_mod_add_procSub w _ _ _ _ (fun _ id h => by cases h))
    refine ProcSub.chain ?_ (ipc_open_procSub w _ _ _)
    exact (ProcSub.of_kq rfl : ProcSub (tick 2 (tick 1 st)) _).chain (sys_close_procSub _ _)
  · exact ProcSub.of_kq rfl

theorem ProcTagsOk.transfer {a b : State} (hsub : ProcSub a b) (hn : a.next_id ≤ b.next_id)
    (hrec : ∀ id j2, find_job b id = some j2 →
      (∃ j, find_job a id = some j ∧ j.p = j2.p) ∨ a.next_id ≤ id)
    (h : ProcTagsOk a) : ProcTagsOk b := by
  intro k hk hf id hid
  obtain ⟨h1, h2⟩ := h k (hsub k hk hf ⟨id, hid⟩) hf id hid
  refine ⟨Nat.lt_of_lt_of_le h1 hn, ?_⟩
  intro j2 hj2
  rcases hrec id j2 hj2 with ⟨j, hj, hp⟩ | hge
  · rw [← hp]
    exact h2 j hj
  · omega

theorem running_jobs_eq (st : State) :
    running_jobs st = st.jobs.countP (fun j => j.p != 0) := by
  unfold running_jobs
  rw [List.countP_eq_length_filter]

theorem countP_set_job (js : List jobcb) (j j2 : jobcb)
    (hn : (js.map (fun x => x.id)).Nodup) (hj : j ∈ js) (hid : j2.id = j.id) :
    (js.map (fun x => if x.id = j2.id then j2 else x)).countP (fun x => x.p != 0) +
        (if j.p ≠ 0 then 1 else 0) =
      js.countP (fun x => x.p != 0) + (if j2.p ≠ 0 then 1 else 0) := by
  induction js with
  | nil => exact absurd hj (List.not_mem_nil _)
  | cons x rest ih =>
    rw [List.map_cons, List.nodup_cons] at hn
    have hrest : ∀ y ∈ rest, y.id ≠ x.id := by
      intro y hy hyx
      exact hn.1 (hyx ▸ List.mem_map_of_mem (fun c => c.id) hy)
    rcases List.mem_cons.1 hj with hx | hr
    · subst hx
      have hsame : rest.map (fun x => if x.id = j2.id then j2 else x) = rest := by
        conv_rhs => rw [← List.map_id rest]
        apply List.map_congr_left
        intro y hy
        rw [if_neg (by rw [hid]; exact hrest y hy)]
        rfl
      rw [List.map_cons, hsame, if_pos hid.symm, List.countP_cons, List.countP_cons]
      by_cases h1 : j.p = 0 <;> by_cases h2 : j2.p = 0 <;> simp [h1, h2]
    · have hx : x.id ≠ j2.id := by
        rw [hid]
        exact fun h => hrest j hr h.symm
      have := ih hn.2 hr
      rw [List.map_cons, if_neg hx, List.countP_cons, List.countP_cons]
      omega

theorem running_set_job (j j2 : jobcb) (st : State)
    (hn : (st.jobs.map (fun x => x.id)).Nodup) (hj : find_job st j.id = some j)
    (hid : j2.id = j.id) :
    running_jobs (set_job j2 st) + (if j.p ≠ 0 then 1 else 0) =
      running_jobs st + (if j2.p ≠ 0 then 1 else 0) := by
  rw [running_jobs_eq, running_jobs_eq, set_job_jobs]
  exact countP_set_job st.jobs j j2 hn (find_job_mem hj).1 hid

theorem set_job_dangling (j2 : jobcb) (st : State) (h : find_job st j2.id = none) :
    (set_job j2 st).jobs = st.jobs := by
  rw [set_job_jobs]
  conv_rhs => rw [← List.map_id st.jobs]
  apply List.map_congr_left
  intro x hx
  unfold find_job at h
  rw [List.find?_eq_none] at h
  have := h x hx
  rw [if_neg (by simpa using this)]
  rfl

theorem countP_unlink (js : List jobcb) (j : jobcb)
    (hn : (js.map (fun x => x.id)).Nodup) (hj : j ∈ js) :
    (js.filter (fun x => x.id != j.id)).countP (fun x => x.p != 0) +
        (if j.p ≠ 0 then 1 else 0) = js.countP (fun x => x.p != 0) := by
  induction js with
  | nil => exact absurd hj (List.not_mem_nil _)
  | cons x rest ih =>
    rw [List.map_cons, List.nodup_cons] at hn
    rcases List.mem_cons.1 hj with hx | hr
    · subst hx
      have hrest : rest.filter (fun x => x.id != j.id) = rest := by
        rw [List.filter_eq_self]
        intro y hy
        have : y.id ≠ j.id := fun h => hn.1 (h ▸ List.mem_map_of_mem (fun c => c.id) hy)
        simpa using this
      rw [List.filter_cons]
      simp only [bne_self_eq_false, Bool.false_eq_true, if_false, hrest, List.countP_cons]
      by_cases h1 : j.p = 0 <;> simp [h1]
    · have hx : x.id ≠ j.id := fun h => hn.1 (h ▸ List.mem_map_of_mem (fun c => c.id) hr)
      have hx2 : (x.id != j.id) = true := by simpa using hx
      have := ih hn.2 hr
      rw [List.filter_cons, if_pos hx2, List.countP_cons, List.countP_cons]
      omega

theorem running_unlink (j : jobcb) (st : State)
    (hn : (st.jobs.map (fun x => x.id)).Nodup) (hj : find_job st j.id = some j) :
    running_jobs (unlink_job j st) + (if j.p ≠ 0 then 1 else 0) = running_jobs st := by
  rw [running_jobs_eq, running_jobs_eq]
  exact countP_unlink st.jobs j hn (find_job_mem hj).1

theorem running_congr {a b : State} (h : b.jobs = a.jobs) : running_jobs b = running_jobs a := by
  unfold running_jobs
  rw [h]

theorem Credit.credit_of_core {a b : State} (h : b.core = a.core) (ha : Credit a) : Credit b := by
  have h1 : b.jobs = a.jobs := core_jobs h
  have h2 : b.total_children = a.total_children := core_total_children h
  have h3 : b.forked = a.forked := core_forked h
  have h4 : b.child_count_wrapped = a.child_count_wrapped := congrArg (fun x => x.2.2.2.2.2) h
  unfold Credit
  rw [running_congr h1, h2, h3, h4]
  exact ha

theorem ChildrenOk.of_quiet {a b : State} (h : b.core = a.core) (hs : ProcSub a b)
    (ha : ChildrenOk a) : ChildrenOk b := by
  have h1 : b.jobs = a.jobs := core_jobs h
  have h3 : b.forked = a.forked := core_forked h
  refine ⟨ha.1.transfer hs (Nat.le_of_eq (core_next_id h).symm) ?_, ?_⟩
  · intro id j2 hj2
    exact Or.inl ⟨j2, by rw [← find_job_congr h1 id]; exact hj2, rfl⟩
  · intro hb
    rw [h3] at hb
    exact (ha.2 hb).credit_of_core h

theorem core_fields {a b : State} (h : a.core = b.core) :
    a.jobs = b.jobs ∧ a.next_id = b.next_id ∧ a.total_children = b.total_children ∧
      a.forked = b.forked ∧ a.shutdown_in_progress = b.shutdown_in_progress ∧
      a.child_count_wrapped = b.child_count_wrapped :=
  ⟨congrArg (fun x => x.1) h, congrArg (fun x => x.2.1) h, congrArg (fun x => x.2.2.1) h,
    congrArg (fun x => x.2.2.2.1) h, congrArg (fun x => x.2.2.2.2.1) h,
    congrArg (fun x => x.2.2.2.2.2) h⟩

theorem kevent_mod_add_mem (w : World) (i : Int) (f : kq_filter) (u : kq_callback) (st : State) :
    ∀ k ∈ (kevent_mod_add w i f u st).2.kq,
      k ∈ st.kq ∨ (k.ident = i ∧ k.filter = f ∧ k.udata = u) := by
  intro k hk
  unfold kevent_mod_add at hk
  split at hk
  · exact Or.inl hk
  · split at hk
    · unfold kq_add at hk
      simp only [List.mem_append, List.mem_singleton] at hk
      rcases hk with hk | hk
      · unfold kq_remove at hk
        exact Or.inl (List.mem_filter.1 hk).1
      · rw [hk]
        exact Or.inr ⟨rfl, rfl, rfl⟩
    · exact Or.inl hk

theorem kevent_mod_add_failed (w : World) (i : Int) (f : kq_filter) (u : kq_callback)
    (st : State) (h : ¬ (kevent_mod_add w i f u st).1 = true) :
    (kevent_mod_add w i f u st).2.kq = st.kq := by
  unfold kevent_mod_add at h ⊢
  split
  · rfl
  · split
    · rename_i h1 h2
      simp [h1, h2] at h
    · rfl

theorem job_start_shape (w : World) (j : jobcb) (st : State) (hp : j.p = 0) :
    ∃ j2 s, job_start w j st = (j2, set_job j2 s) ∧ j2.id = j.id ∧ s.jobs = st.jobs ∧
      s.next_id = st.next_id ∧ s.child_count_wrapped = st.child_count_wrapped ∧
      ((j2.p = 0 ∧ s.total_children = st.total_children ∧
          st.forked.length ≤ s.forked.length ∧ ProcSub st s) ∨
       (j2.p ≠ 0 ∧ s.total_children = size_t_succ st.total_children ∧
          s.forked.length = st.forked.length + 1 ∧
          ∀ k ∈ s.kq, k.filter = kq_filter.EVFILT_PROC →
            (∃ id, k.udata = kq_callback.job id) →
            k ∈ st.kq ∨ (k.ident = j2.p ∧ k.udata = kq_callback.job j.id))) := by
  unfold job_start
  rw [if_neg (by simp [hp])]
  lift_lets
  intro sipc spair st1 now tvd j2 c st2 st3 st4 k j3
  have h1 : st1.core = st.core ∧ st1.kq = st.kq := by
    show (if sipc = true then tick 1 st else st).core = st.core ∧
      (if sipc = true then tick 1 st else st).kq = st.kq
    split <;> exact ⟨rfl, rfl⟩
  have h2 : st2.core = st.core ∧ st2.kq = st.kq := h1
  have h3 : st3.jobs = st.jobs ∧ st3.next_id = st.next_id ∧
      st3.total_children = st.total_children ∧ st3.forked = st.forked ++ [c] ∧
      st3.child_count_wrapped = st.child_count_wrapped ∧ st3.kq = st.kq :=
    ⟨(show st3.jobs = st2.jobs from rfl).trans (core_jobs h2.1),
      (show st3.next_id = st2.next_id from rfl).trans (core_next_id h2.1),
      (show st3.total_children = st2.total_children from rfl).trans (core_total_children h2.1),
      congrArg (fun l => l ++ [c]) (core_forked h2.1),
      (show st3.child_count_wrapped = st2.child_count_wrapped from rfl).trans
        (congrArg (fun x => x.2.2.2.2.2) h2.1), h2.2⟩
  have h4 : st4.core = st3.core ∧ ProcSub st3 st4 := by
    show (if sipc = true then ipc_open w spair.1 (some j.id) (sys_close spair.2 st3)
      else st3).core = st3.core ∧ ProcSub st3 (if sipc = true then
        ipc_open w spair.1 (some j.id) (sys_close spair.2 st3) else st3)
    split
    · exact ⟨by simp, (sys_close_procSub _ _).chain (ipc_open_procSub w _ _ _)⟩
    · exact ⟨rfl, ProcSub.same _⟩
  have h34 : ProcSub st st4 := (ProcSub.of_kq h3.2.2.2.2.2).chain h4.2
  have hk : k.2.core = st4.core := kevent_mod_add_core w c _ _ st4
  have hkjobs : k.2.jobs = st.jobs := (core_jobs hk).trans ((core_jobs h4.1).trans h3.1)
  have hknext : k.2.next_id = st.next_id :=
    (core_next_id hk).trans ((core_next_id h4.1).trans h3.2.1)
  have hktot : k.2.total_children = st.total_children :=
    (core_total_children hk).trans ((core_total_children h4.1).trans h3.2.2.1)
  have hkfork : k.2.forked = st.forked ++ [c] :=
    (core_forked hk).trans ((core_forked h4.1).trans h3.2.2.2.1)
  have hkwrap : k.2.child_count_wrapped = st.child_count_wrapped :=
    (congrArg (fun x => x.2.2.2.2.2) hk).trans
      ((congrArg (fun x => x.2.2.2.2.2) h4.1).trans h3.2.2.2.2.1)
  split_ifs with hc1 hs hc0 hk1 hod
  · refine ⟨j2, _, rfl, rfl, ?_, ?_, ?_, Or.inl ⟨hp, ?_, ?_, ?_⟩⟩
    · exact core_jobs h2.1
    · exact core_next_id h2.1
    · exact congrArg (fun x => x.2.2.2.2.2) h2.1
    · exact core_total_children h2.1
    · exact Nat.le_of_eq (congrArg List.length (core_forked h2.1)).symm
    · exact (ProcSub.of_kq h2.2).chain ((sys_close_procSub _ _).chain (sys_close_procSub _ _))
  · exact ⟨j2, st2, rfl, rfl, core_jobs h2.1, core_next_id h2.1,
      congrArg (fun x => x.2.2.2.2.2) h2.1, Or.inl ⟨hp, core_total_children h2.1,
        Nat.le_of_eq (congrArg List.length (core_forked h2.1)).symm, ProcSub.of_kq h2.2⟩⟩
  · exact ⟨j2, st2, rfl, rfl, core_jobs h2.1, core_next_id h2.1,
      congrArg (fun x => x.2.2.2.2.2) h2.1, Or.inl ⟨hp, core_total_children h2.1,
        Nat.le_of_eq (congrArg List.length (core_forked h2.1)).symm, ProcSub.of_kq h2.2⟩⟩
  · obtain ⟨e1, e2, e4, e5, _, e3⟩ :=
      core_fields (job_ignore_fds_core w j.ldj (children_inc k.2))
    refine ⟨j3, _, rfl, rfl, e1.trans hkjobs, e2.trans hknext, e3.trans hkwrap,
      Or.inr ⟨hc0, ?_, ?_, ?_⟩⟩
    · rw [e4]
      show size_t_succ k.2.total_children = _
      rw [hktot]
    · rw [e5]
      show k.2.forked.length = _
      rw [hkfork]
      simp
    · intro x hx hf ht
      have hx2 := job_ignore_fds_procSub w j.ldj _ x hx hf ht
      rcases kevent_mod_add_mem w c _ _ st4 x hx2 with hx3 | ⟨e1, _, e3⟩
      · exact Or.inl (h34 x hx3 hf ht)
      · exact Or.inr ⟨e1, e3⟩
  · refine ⟨j3, _, rfl, rfl, hkjobs, hknext, hkwrap, Or.inr ⟨hc0, ?_, ?_, ?_⟩⟩
    · show size_t_succ k.2.total_children = _
      rw [hktot]
    · show k.2.forked.length = _
      rw [hkfork]
      simp
    · intro x hx hf ht
      rcases kevent_mod_add_mem w c _ _ st4 x hx with hx3 | ⟨e1, _, e3⟩
      · exact Or.inl (h34 x hx3 hf ht)
      · exact Or.inr ⟨e1, e3⟩
  · refine ⟨j2, _, rfl, rfl, hkjobs, hknext, hkwrap, Or.inl ⟨hp, hktot, ?_, ?_⟩⟩
    · rw [hkfork]
      simp
    · exact h34.chain (ProcSub.of_kq (kevent_mod_add_failed w c _ _ st4 hk1))

theorem find_job_set_other (j2 : jobcb) (s : State) (id : Nat) (h : id ≠ j2.id) :
    find_job (set_job j2 s) id = find_job s id := by
  unfold find_job
  rw [set_job_jobs]
  induction s.jobs with
  | nil => rfl
  | cons x rest ih =>
    rw [List.map_cons, List.find?_cons, List.find?_cons]
    by_cases hx : x.id = j2.id
    · rw [if_pos hx]
      have h1 : (j2.id == id) = false := by simpa using fun e => h e.symm
      have h2 : (x.id == id) = false := by rw [hx]; exact h1
      rw [h1, h2]
      exact ih
    · rw [if_neg hx]
      cases hxi : x.id == id
      · exact ih
      · rfl

theorem held_lt (j : jobcb) (st : State) (hok : RegistryOk st)
    (hj : Current j st ∨ Dangling j st) : j.id < st.next_id := by
  rcases hj with hc | hd
  · exact hok.2.2 j (find_job_mem hc).1
  · exact hd.2

theorem held_find_set (j j2 : jobcb) (st s : State) (hj : Current j st ∨ Dangling j st)
    (hid : j2.id = j.id) (hjobs : s.jobs = st.jobs) (id : Nat) (x : jobcb)
    (hx : find_job (set_job j2 s) id = some x) :
    (id = j.id ∧ x = j2 ∧ Current j st) ∨ (id ≠ j.id ∧ find_job st id = some x) := by
  by_cases hi : id = j.id
  · refine Or.inl ⟨hi, ?_⟩
    rcases hj with hc | hd
    · have := find_set_of_jobs j j2 st s hc hid hjobs
      rw [hi, this] at hx
      exact ⟨(Option.some.inj hx).symm, hc⟩
    · have := find_set_none j2 st s j.id hd.1 hjobs
      rw [hi, this] at hx
      cases hx
  · refine Or.inr ⟨hi, ?_⟩
    rw [find_job_set_other j2 s id (by rw [hid]; exact hi), find_job_congr hjobs] at hx
    exact hx

theorem held_running (j j2 : jobcb) (st s : State) (hok : RegistryOk st)
    (hj : Current j st ∨ Dangling j st) (hid : j2.id = j.id) (hjobs : s.jobs = st.jobs)
    (hp : j.p = 0) :
    running_jobs (set_job j2 s) ≤ running_jobs st + (if j2.p ≠ 0 then 1 else 0) := by
  rcases hj with hc | hd
  · have hn : (s.jobs.map (fun x => x.id)).Nodup := by rw [hjobs]; exact hok.1
    have hf : find_job s j.id = some j := by rw [find_job_congr hjobs]; exact hc
    have := running_set_job j j2 s hn hf hid
    rw [running_congr hjobs, if_neg (by simp [hp])] at this
    omega
  · have h1 : find_job s j2.id = none := by rw [hid, find_job_congr hjobs]; exact hd.1
    have := running_congr (set_job_dangling j2 s h1)
    rw [this, running_congr hjobs]
    omega

theorem job_start_children (w : World) (j : jobcb) (st : State) (hok : RegistryOk st)
    (hI : ChildrenOk st) (hj : Current j st ∨ Dangling j st) :
    ChildrenOk (job_start w j st).2 := by
  by_cases hp : j.p = 0
  swap
  · unfold job_start
    rw [if_pos hp]
    exact hI
  obtain ⟨j2, s, heq, hid, hjobs, hnext, hwrap, hcase⟩ := job_start_shape w j st hp
  rw [heq]
  have hlt := held_lt j st hok hj
  rcases hcase with ⟨hp2, htot, hfork, hsub⟩ | ⟨hp2, htot, hfork, hkq⟩
  · refine ⟨?_, ?_⟩
    · refine hI.1.transfer (hsub.chain (ProcSub.of_kq rfl)) (Nat.le_of_eq hnext.symm) ?_
      intro id x hx
      rcases held_find_set j j2 st s hj hid hjobs id x hx with ⟨hi, hx2, hc⟩ | ⟨_, hf⟩
      · exact Or.inl ⟨j, by rw [hi]; exact hc, by rw [hx2, hp2, hp]⟩
      · exact Or.inl ⟨x, hf, rfl⟩
    · intro hb
      have hb2 : st.forked.length < SIZE_T_MOD := Nat.lt_of_le_of_lt hfork hb
      obtain ⟨c1, c2, c3⟩ := hI.2 hb2
      have hr := held_running j j2 st s hok hj hid hjobs hp
      rw [if_neg (by simp [hp2])] at hr
      refine ⟨?_, ?_, ?_⟩
      · show running_jobs (set_job j2 s) ≤ s.total_children
        omega
      · show s.total_children ≤ s.forked.length
        omega
      · exact hwrap.trans c3
  · refine ⟨?_, ?_⟩
    · intro k hk hf id hid2
      rcases hkq k hk hf ⟨id, hid2⟩ with hold | ⟨e1, e2⟩
      · obtain ⟨g1, g2⟩ := hI.1 k hold hf id hid2
        refine ⟨by show id < s.next_id; omega, ?_⟩
        intro x hx
        rcases held_find_set j j2 st s hj hid hjobs id x hx with ⟨hi, _, hc⟩ | ⟨_, hfx⟩
        · exfalso
          rw [hi] at g2
          exact (g2 j hc).2 hp
        · exact g2 x hfx
      · have hi : id = j.id := by
          rw [hid2] at e2
          exact kq_callback.job.inj e2
        refine ⟨by show id < s.next_id; omega, ?_⟩
        intro x hx
        rcases held_find_set j j2 st s hj hid hjobs id x hx with ⟨_, hx2, _⟩ | ⟨hne, _⟩
        · rw [hx2]
          exact ⟨e1.symm, hp2⟩
        · exact absurd hi hne
    · intro hb
      have hb1 : s.forked.length < SIZE_T_MOD := hb
      have hb2 : st.forked.length < SIZE_T_MOD := by omega
      obtain ⟨c1, c2, c3⟩ := hI.2 hb2
      have hr := held_running j j2 st s hok hj hid hjobs hp
      rw [if_pos hp2] at hr
      have hsucc : size_t_succ st.total_children = st.total_children + 1 := by
        unfold size_t_succ
        rw [if_neg (by omega)]
      refine ⟨?_, ?_, ?_⟩
      · show running_jobs (set_job j2 s) ≤ s.total_children
        omega
      · show s.total_children ≤ s.forked.length
        omega
      · exact hwrap.trans c3

theorem running_pos (j : jobcb) (st : State) (hc : find_job st j.id = some j) (hp : j.p ≠ 0) :
    1 ≤ running_jobs st := by
  rw [running_jobs_eq]
  exact List.countP_pos_iff.2 ⟨j, (find_job_mem hc).1, by simpa using hp⟩

theorem size_t_pred_pos (x : Nat) (h : 1 ≤ x) : size_t_pred x = x - 1 := by
  unfold size_t_pred
  rw [if_neg (by omega)]

theorem job_reap_none (w : World) (j : jobcb) (st : State)
    (hs : reap_status w st.calls = none) : job_reap w j st = (j, tick 1 st) := by
  unfold job_reap
  rw [hs]

theorem children_dec_credit (s : State) (n : Nat) (hb : s.forked.length < SIZE_T_MOD → 
    n + 1 ≤ s.total_children ∧ s.total_children ≤ s.forked.length ∧
      s.child_count_wrapped = false) :
    (children_dec s).forked.length < SIZE_T_MOD →
      n ≤ (children_dec s).total_children ∧
      (children_dec s).total_children ≤ (children_dec s).forked.length ∧
      (children_dec s).child_count_wrapped = false := by
  intro hlt
  obtain ⟨h1, h2, h3⟩ := hb hlt
  refine ⟨?_, ?_, ?_⟩
  · show n ≤ size_t_pred s.total_children
    rw [size_t_pred_pos _ (by omega)]
    omega
  · show size_t_pred s.total_children ≤ s.forked.length
    rw [size_t_pred_pos _ (by omega)]
    omega
  · show (s.child_count_wrapped || s.total_children == 0) = false
    rw [h3]
    have : (s.total_children == 0) = false := by
      simp
      omega
    rw [this]
    rfl

/-- The reap of the child of a registered, running job whose process
registrations are gone. -/
theorem job_reap_children (w : World) (j : jobcb) (st : State) (hok : RegistryOk st)
    (hI : ChildrenOk st) (hc : Current j st) (hp : j.p ≠ 0)
    (hnotag : ∀ k ∈ st.kq, k.filter = kq_filter.EVFILT_PROC → k.udata ≠ kq_callback.job j.id) :
    ChildrenOk (job_reap w j st).2 := by
  cases hs : reap_status w st.calls with
  | none =>
    rw [job_reap_none w j st hs]
    exact hI.of_quiet (tick_core 1 st) (ProcSub.of_kq rfl)
  | some s =>
    obtain ⟨j1, hj1, hid1, hp1⟩ : ∃ j1, job_reap w j st =
        (j1, set_job j1 (children_dec (tick 1 st))) ∧ j1.id = j.id ∧ j1.p = 0 :=
      ⟨_, job_reap_some w j st s hs, rfl, rfl⟩
    rw [hj1]
    refine ⟨?_, ?_⟩
    · intro k hk hf id hid
      have hk2 : k ∈ st.kq := hk
      obtain ⟨g1, g2⟩ := hI.1 k hk2 hf id hid
      refine ⟨g1, ?_⟩
      intro x hx
      rcases held_find_set j j1 st (children_dec (tick 1 st)) (Or.inl hc) hid1 rfl id x hx with
        ⟨hi, _, _⟩ | ⟨_, hfx⟩
      · exfalso
        rw [hi] at hid
        exact hnotag k hk2 hf hid
      · exact g2 x hfx
    · have hn : ((children_dec (tick 1 st)).jobs.map (fun x => x.id)).Nodup := hok.1
      have hrun := running_set_job j j1 (children_dec (tick 1 st)) hn hc hid1
      rw [if_pos hp, if_neg (by simp [hp1])] at hrun
      have hrun2 : running_jobs (children_dec (tick 1 st)) = running_jobs st := rfl
      rw [hrun2] at hrun
      have hdec := children_dec_credit (tick 1 st) (running_jobs st - 1) (by
        intro hb
        obtain ⟨c1, c2, c3⟩ := hI.2 hb
        have := running_pos j st hc hp
        exact ⟨by show running_jobs st - 1 + 1 ≤ st.total_children; omega, c2, c3⟩)
      intro hb
      obtain ⟨d1, d2, d3⟩ := hdec hb
      refine ⟨?_, d2, d3⟩
      show running_jobs (set_job j1 (children_dec (tick 1 st))) ≤
        (children_dec (tick 1 st)).total_children
      omega

theorem find_filter_other (js : List jobcb) (jid id : Nat) (x : jobcb)
    (h : (js.filter (fun y => y.id != jid)).find? (fun y => y.id == id) = some x) :
    js.find? (fun y => y.id == id) = some x := by
  induction js with
  | nil => simp at h
  | cons y rest ih =>
    rw [List.filter_cons] at h
    by_cases hy : y.id = jid
    · have hy2 : (y.id != jid) = false := by simpa using hy
      rw [hy2] at h
      simp only [Bool.false_eq_true, if_false] at h
      have hx := ih h
      have hxid : x.id ≠ jid := by
        have hm := List.mem_of_find?_eq_some h
        have := (List.mem_filter.1 hm).2
        simpa using this
      have hxi : x.id = id := by simpa using List.find?_some hx
      rw [List.find?_cons]
      have : (y.id == id) = false := by
        rw [hy, ← hxi]
        simpa using fun e => hxid e.symm
      rw [this]
      exact hx
    · have hy2 : (y.id != jid) = true := by simpa using hy
      rw [hy2] at h
      simp only [if_true, List.find?_cons] at h
      rw [List.find?_cons]
      cases hyi : y.id == id
      · rw [hyi] at h
        exact ih h
      · rw [hyi] at h
        exact h

theorem find_job_unlink_other (j : jobcb) (st : State) (id : Nat) (x : jobcb)
    (h : find_job (unlink_job j st) id = some x) : find_job st id = some x :=
  find_filter_other st.jobs j.id id x h

/-- The invariant right after a record was unlinked: the count still covers
the child of the unlinked job, if it has one. -/
theorem unlink_children (j : jobcb) (st s : State) (hok : RegistryOk st) (hI : ChildrenOk st)
    (hc : Current j st) (hcore : s.core = (unlink_job j st).core)
    (hsub : ProcSub st s) :
    ProcTagsOk s ∧ (s.forked.length < SIZE_T_MOD →
      running_jobs s + (if j.p ≠ 0 then 1 else 0) ≤ s.total_children ∧
      s.total_children ≤ s.forked.length ∧ s.child_count_wrapped = false) := by
  obtain ⟨e1, e2, e3, e4, _, e6⟩ := core_fields hcore
  refine ⟨?_, ?_⟩
  · refine hI.1.transfer hsub (Nat.le_of_eq e2.symm) ?_
    intro id x hx
    rw [find_job_congr e1] at hx
    exact Or.inl ⟨x, find_job_unlink_other j st id x hx, rfl⟩
  · intro hb
    rw [e4] at hb
    obtain ⟨c1, c2, c3⟩ := hI.2 hb
    have hr := running_unlink j st hok.1 hc
    rw [running_congr e1, e3, e4, e6]
    exact ⟨by show running_jobs (unlink_job j st) + _ ≤ st.total_children; omega, c2, c3⟩

theorem job_reap_dangling_children (w : World) (j : jobcb) (K : State) (u1 : ProcTagsOk K)
    (u2 : K.forked.length < SIZE_T_MOD →
      running_jobs K + 1 ≤ K.total_children ∧
      K.total_children ≤ K.forked.length ∧ K.child_count_wrapped = false)
    (hd : find_job K j.id = none) :
    ProcTagsOk (job_reap w j K).2 ∧ ((job_reap w j K).2.forked.length < SIZE_T_MOD →
      running_jobs (job_reap w j K).2 ≤ (job_reap w j K).2.total_children ∧
      (job_reap w j K).2.total_children ≤ (job_reap w j K).2.forked.length ∧
      (job_reap w j K).2.child_count_wrapped = false) := by
  cases hs : reap_status w K.calls with
  | none =>
    rw [job_reap_none w j _ hs]
    have hsub : ProcSub K (tick 1 K) := ProcSub.of_kq rfl
    exact ⟨u1.transfer hsub (Nat.le_refl _) (fun id x hx => Or.inl ⟨x, hx, rfl⟩),
      fun hb => ⟨Nat.le_trans (Nat.le_add_right _ _) (u2 hb).1, (u2 hb).2⟩⟩
  | some s =>
    obtain ⟨j1, hj1, hid1, hp1⟩ : ∃ j1, job_reap w j K =
        (j1, set_job j1 (children_dec (tick 1 K))) ∧ j1.id = j.id ∧ j1.p = 0 :=
      ⟨_, job_reap_some w j _ s hs, rfl, rfl⟩
    rw [hj1]
    have hd2 : find_job (children_dec (tick 1 K)) j1.id = none := by
      rw [hid1]
      exact hd
    have hjobs := set_job_dangling j1 _ hd2
    have hsub : ProcSub K (set_job j1 (children_dec (tick 1 K))) := ProcSub.of_kq rfl
    have hn : K.next_id ≤ (set_job j1 (children_dec (tick 1 K))).next_id := Nat.le_refl _
    refine ⟨u1.transfer hsub hn ?_, ?_⟩
    · intro id x hx
      rw [find_job_congr hjobs] at hx
      exact Or.inl ⟨x, hx, rfl⟩
    · have hdec := children_dec_credit (tick 1 K) (running_jobs K) u2
      intro hb
      obtain ⟨d1, d2, d3⟩ := hdec hb
      refine ⟨?_, d2, d3⟩
      rw [running_congr hjobs]
      exact d1

theorem job_remove_children (w : World) (j : jobcb) (st : State) (hok : RegistryOk st)
    (hI : ChildrenOk st) (hc : Current j st) :
    ChildrenOk (job_remove w j st).2 := by
  have hfin : ∀ s : State, ProcTagsOk s → (s.forked.length < SIZE_T_MOD →
      running_jobs s ≤ s.total_children ∧
      s.total_children ≤ s.forked.length ∧ s.child_count_wrapped = false) →
      ChildrenOk (launch_data_close_fds j.ldj s) := by
    intro s h1 h2
    exact ChildrenOk.of_quiet (launch_data_close_fds_core j.ldj s)
      (launch_data_close_fds_procSub j.ldj s) ⟨h1, h2⟩
  have hk := kevent_mod_add_core w j.p kq_filter.EVFILT_PROC kq_callback.simple_zombie_reaper
    (unlink_job j st)
  have hksub : ProcSub st (kevent_mod_add w j.p kq_filter.EVFILT_PROC
      kq_callback.simple_zombie_reaper (unlink_job j st)).2 :=
    (ProcSub.of_kq rfl : ProcSub st (unlink_job j st)).chain
      (kevent_mod_add_procSub w _ _ _ _ (fun _ id h => by cases h))
  unfold job_remove
  simp only
  split_ifs with hp hk1
  · obtain ⟨u1, u2⟩ := unlink_children j st (job_stop j (kevent_mod_add w j.p
      kq_filter.EVFILT_PROC kq_callback.simple_zombie_reaper (unlink_job j st)).2) hok hI hc
      ((job_stop_core j _).trans hk) (hksub.chain (ProcSub.of_kq (job_stop_kq j _)))
    exact hfin _ u1 (fun hb => ⟨Nat.le_trans (Nat.le_add_right _ _) (u2 hb).1, (u2 hb).2⟩)
  · obtain ⟨u1, u2⟩ := unlink_children j st (kevent_mod_add w j.p
      kq_filter.EVFILT_PROC kq_callback.simple_zombie_reaper (unlink_job j st)).2 hok hI hc
      hk hksub
    have hd : find_job (kevent_mod_add w j.p kq_filter.EVFILT_PROC
        kq_callback.simple_zombie_reaper (unlink_job j st)).2 j.id = none := by
      rw [← find_job_unlink j st]
      apply find_job_congr
      simp
    obtain ⟨r1, r2⟩ := job_reap_dangling_children w j _ u1 (fun hb => by
      have a := u2 hb
      rw [if_pos hp] at a
      exact a) hd
    exact hfin _ r1 r2
  · obtain ⟨u1, u2⟩ := unlink_children j st (unlink_job j st) hok hI hc rfl (ProcSub.of_kq rfl)
    exact hfin _ u1 (fun hb => ⟨Nat.le_trans (Nat.le_add_right _ _) (u2 hb).1, (u2 hb).2⟩)

theorem find_of_mem_nodup (js : List jobcb) (j : jobcb)
    (hn : (js.map (fun x => x.id)).Nodup) (hj : j ∈ js) :
    js.find? (fun x => x.id == j.id) = some j := by
  induction js with
  | nil => exact absurd hj (List.not_mem_nil _)
  | cons x rest ih =>
    rw [List.map_cons, List.nodup_cons] at hn
    rw [List.find?_cons]
    rcases List.mem_cons.1 hj with hx | hr
    · subst hx
      simp
    · have hx : x.id ≠ j.id := fun h => hn.1 (h ▸ List.mem_map_of_mem (fun c => c.id) hr)
      have : (x.id == j.id) = false := by simpa using hx
      rw [this]
      exact ih hn.2 hr

theorem current_of_mem {st : State} {j : jobcb} (hok : RegistryOk st) (hj : j ∈ st.jobs) :
    Current j st := find_of_mem_nodup st.jobs j hok.1 hj

theorem find_map_same_id (js : List jobcb) (f : jobcb → jobcb) (hf : ∀ x, (f x).id = x.id)
    (id : Nat) :
    (js.map f).find? (fun x => x.id == id) = (js.find? (fun x => x.id == id)).map f := by
  induction js with
  | nil => rfl
  | cons x rest ih =>
    rw [List.map_cons, List.find?_cons, List.find?_cons, hf x]
    cases x.id == id
    · exact ih
    · rfl

theorem countP_map_same_p (js : List jobcb) (f : jobcb → jobcb) (hf : ∀ x, (f x).p = x.p) :
    (js.map f).countP (fun x => x.p != 0) = js.countP (fun x => x.p != 0) := by
  induction js with
  | nil => rfl
  | cons x rest ih =>
    rw [List.map_cons, List.countP_cons, List.countP_cons, ih, hf x]

/-- A state whose registry is the old one with every record rewritten in a
way that keeps identity and pid, and which is otherwise quiet, keeps the
invariant. -/
theorem ChildrenOk.of_map {a b : State} (f : jobcb → jobcb) (hid : ∀ x, (f x).id = x.id)
    (hp : ∀ x, (f x).p = x.p) (hjobs : b.jobs = a.jobs.map f) (hn : b.next_id = a.next_id)
    (ht : b.total_children = a.total_children) (hfk : b.forked = a.forked)
    (hw : b.child_count_wrapped = a.child_count_wrapped) (hs : ProcSub a b)
    (ha : ChildrenOk a) : ChildrenOk b := by
  refine ⟨ha.1.transfer hs (Nat.le_of_eq hn.symm) ?_, ?_⟩
  · intro id j2 hj2
    unfold find_job at hj2
    rw [hjobs, find_map_same_id _ f hid] at hj2
    cases hfa : a.jobs.find? (fun x => x.id == id) with
    | none => rw [hfa] at hj2; cases hj2
    | some j =>
      rw [hfa] at hj2
      have : f j = j2 := Option.some.inj hj2
      exact Or.inl ⟨j, hfa, by rw [← this, hp]⟩
  · intro hb
    rw [hfk] at hb
    obtain ⟨c1, c2, c3⟩ := ha.2 hb
    refine ⟨?_, ?_, ?_⟩
    · rw [running_jobs_eq, hjobs, countP_map_same_p _ f hp, ← running_jobs_eq, ht]
      exact c1
    · rw [ht, hfk]
      exact c2
    · rw [hw]
      exact c3

theorem do_shutdown_children (st : State) (hI : ChildrenOk st) : ChildrenOk (do_shutdown st) := by
  have h : ∀ (js : List jobcb) (s : State),
      (js.foldl (fun s j => job_stop j s) s).core = s.core ∧
      (js.foldl (fun s j => job_stop j s) s).kq = s.kq := by
    intro js s
    exact ⟨foldl_keeps State.core (fun s j => job_stop j s) (fun s a => job_stop_core a s) js s,
      foldl_keeps State.kq (fun s j => job_stop j s) (fun s a => job_stop_kq a s) js s⟩
  have hm : ChildrenOk ({ st with shutdown_in_progress := true,
                                  jobs := st.jobs.map (fun j => { j with ldj := ondemand_off j.ldj }) } : State) :=
    ChildrenOk.of_map (fun j => { j with ldj := ondemand_off j.ldj }) (fun _ => rfl)
      (fun _ => rfl) rfl rfl rfl rfl rfl (ProcSub.of_kq rfl) hI
  unfold do_shutdown
  exact hm.of_quiet (h st.jobs _).1 (ProcSub.of_kq (h st.jobs _).2)

/-- Writing back a record that keeps the identity and the pid of the current
one. -/
theorem set_job_children (j j2 : jobcb) (st s : State) (hok : RegistryOk st)
    (hI : ChildrenOk st) (hc : Current j st) (hid : j2.id = j.id) (hp : j2.p = j.p)
    (hcore : s.core = st.core) (hsub : ProcSub st s) : ChildrenOk (set_job j2 s) := by
  have hI2 := hI.of_quiet hcore hsub
  have hjobs : s.jobs = st.jobs := core_jobs hcore
  have hc2 : find_job s j.id = some j := by rw [find_job_congr hjobs]; exact hc
  have hsub2 : ProcSub s (set_job j2 s) := ProcSub.of_kq rfl
  have hn2 : s.next_id ≤ (set_job j2 s).next_id := Nat.le_refl _
  refine ⟨hI2.1.transfer hsub2 hn2 ?_, ?_⟩
  · intro id x hx
    rcases held_find_set j j2 s s (Or.inl hc2) hid rfl id x hx with ⟨hi, hx2, _⟩ | ⟨_, hf⟩
    · exact Or.inl ⟨j, by rw [hi]; exact hc2, by rw [hx2, hp]⟩
    · exact Or.inl ⟨x, hf, rfl⟩
  · intro hb
    obtain ⟨c1, c2, c3⟩ := hI2.2 hb
    have hn : (s.jobs.map (fun x => x.id)).Nodup := by rw [hjobs]; exact hok.1
    have hr := running_set_job j j2 s hn hc2 hid
    rw [hp] at hr
    exact ⟨by show running_jobs (set_job j2 s) ≤ s.total_children; omega, c2, c3⟩

theorem link_job_ok (pload label : launch_data) (st : State) (hok : RegistryOk st)
    (hnew : st.jobs.any (label_is (launch_data_get_string label)) = false)
    (hlab : launch_data_dict_lookup pload LAUNCH_JOBKEY_LABEL = some label) :
    RegistryOk (link_job (new_job st.next_id pload) st) := by
  have hlabel : job_label (new_job st.next_id pload) = launch_data_get_string label := by
    unfold job_label job_get_string new_job
    simp only [stored_config_label, hlab]
  obtain ⟨hid, hl, hlt⟩ := hok
  refine ⟨?_, ?_, ?_⟩
  · simp only [link_job_jobs, List.map_append, List.map_cons, List.map_nil]
    rw [List.nodup_append]
    refine ⟨hid, List.nodup_singleton _, ?_⟩
    intro a ha hb
    obtain ⟨x, hx, hxa⟩ := List.mem_map.1 ha
    have := hlt x hx
    rw [List.mem_singleton] at hb
    rw [hxa, hb] at this
    exact Nat.lt_irrefl _ this
  · simp only [link_job_jobs, List.filterMap_append, List.filterMap_cons, List.filterMap_nil]
    rw [hlabel]
    cases hs : launch_data_get_string label with
    | none => simpa using hl
    | some l =>
      simp only [List.nodup_append]
      refine ⟨hl, List.nodup_singleton _, ?_⟩
      intro a ha hb
      rw [List.mem_singleton] at hb
      subst hb
      obtain ⟨x, hx, hxa⟩ := List.mem_filterMap.1 ha
      rw [hs, List.any_eq_false] at hnew
      exact hnew x hx ((label_is_iff a x).2 hxa)
  · intro j hj
    simp only [link_job_jobs, List.mem_append, List.mem_singleton] at hj
    show j.id < st.next_id + 1
    rcases hj with hj | hj
    · exact Nat.lt_succ_of_lt (hlt j hj)
    · rw [hj]
      exact Nat.lt_succ_self _

/-- Linking a fresh record without a child keeps the invariant. -/
theorem link_job_children (j : jobcb) (st : State) (hI : ChildrenOk st)
    (hid : j.id = st.next_id) (hp : j.p = 0) : ChildrenOk (link_job j st) := by
  have hsub : ProcSub st (link_job j st) := ProcSub.of_kq rfl
  have hn : st.next_id ≤ (link_job j st).next_id := Nat.le_succ _
  refine ⟨hI.1.transfer hsub hn ?_, ?_⟩
  · intro id x hx
    unfold find_job at hx
    rw [link_job_jobs, List.find?_append] at hx
    cases hf : st.jobs.find? (fun y => y.id == id) with
    | some y =>
      rw [hf] at hx
      exact Or.inl ⟨y, hf, by rw [← Option.some.inj hx]⟩
    | none =>
      rw [hf] at hx
      have hx2 : [j].find? (fun y => y.id == id) = some x := hx
      have hm := List.mem_of_find?_eq_some hx2
      have he : x.id = id := by simpa using List.find?_some hx2
      rw [List.mem_singleton] at hm
      rw [hm, hid] at he
      exact Or.inr (Nat.le_of_eq he)
  · intro hb
    obtain ⟨c1, c2, c3⟩ := hI.2 hb
    refine ⟨?_, c2, c3⟩
    show running_jobs (link_job j st) ≤ st.total_children
    rw [running_jobs_eq, link_job_jobs, List.countP_append, ← running_jobs_eq]
    have : [j].countP (fun x => x.p != 0) = 0 := by simp [hp]
    omega

theorem load_job_insert_children (w : World) (pload label : launch_data) (st : State)
    (hok : RegistryOk st) (hI : ChildrenOk st)
    (hnew : st.jobs.any (label_is (launch_data_get_string label)) = false)
    (hlab : launch_data_dict_lookup pload LAUNCH_JOBKEY_LABEL = some label) :
    ChildrenOk (load_job_insert w pload label st) := by
  have hlink := link_job_ok pload label st hok hnew hlab
  have hI1 := link_job_children (new_job st.next_id pload) st hI rfl rfl
  have hmem : new_job st.next_id pload ∈ (link_job (new_job st.next_id pload) st).jobs := by
    simp
  unfold load_job_insert
  simp only
  have h2 : ChildrenOk (if job_get_bool (new_job st.next_id pload).ldj LAUNCH_JOBKEY_ONDEMAND = true
      then notify_helperd (job_watch_fds w (new_job st.next_id pload).ldj
        (kq_callback.job (new_job st.next_id pload).id) (link_job (new_job st.next_id pload) st))
      else (job_start w (new_job st.next_id pload) (link_job (new_job st.next_id pload) st)).2) := by
    split
    · exact hI1.of_quiet (by simp)
        ((job_watch_fds_procSub w _ _ _).chain (ProcSub.of_kq (notify_helperd_kq _)))
    · exact job_start_children w _ _ hlink hI1 (Or.inl (current_of_mem hlink hmem))
  split
  · exact h2.of_quiet rfl (ProcSub.of_kq rfl)
  · exact h2

theorem load_job_children (w : World) (pload : launch_data) (st : State) (hok : RegistryOk st)
    (hI : ChildrenOk st) : ChildrenOk (load_job w pload st).2.2 := by
  unfold load_job
  cases hl : launch_data_dict_lookup pload LAUNCH_JOBKEY_LABEL with
  | none => exact hI
  | some label =>
    simp only
    split_ifs with h1 h2
    · exact hI
    · exact hI
    · exact load_job_insert_children w pload label st hok hI (by simpa using h1) hl

theorem load_jobs_children (w : World) (xs : List launch_data) (st : State)
    (hok : RegistryOk st) (hI : ChildrenOk st) : ChildrenOk (load_jobs w xs st).2.2 := by
  induction xs generalizing st with
  | nil => exact hI
  | cons x rest ih =>
    simp only [load_jobs]
    exact ih _ (load_job_ok w x st hok) (load_job_children w x st hok hI)

theorem job_start_other (w : World) (j : jobcb) (st : State) (id : Nat) (h : id ≠ j.id) :
    find_job (job_start w j st).2 id = find_job st id := by
  obtain ⟨⟨hid, _⟩, hj | hj⟩ := job_start_jobs w j st
  · exact find_job_congr hj id
  · have : (job_start w j st).2.jobs = (set_job (job_start w j st).1 st).jobs := by
      rw [hj, set_job_jobs, hid]
    rw [find_job_congr this]
    exact find_job_set_other _ st id (by rw [hid]; exact h)

theorem find_filter_ne (js : List jobcb) (jid id : Nat) (h : id ≠ jid) :
    (js.filter (fun y => y.id != jid)).find? (fun y => y.id == id) =
      js.find? (fun y => y.id == id) := by
  induction js with
  | nil => rfl
  | cons y rest ih =>
    rw [List.filter_cons, List.find?_cons]
    by_cases hy : y.id = jid
    · have hy2 : (y.id != jid) = false := by simpa using hy
      have hy3 : (y.id == id) = false := by
        rw [hy]
        simpa using fun e => h e.symm
      rw [hy2, hy3]
      exact ih
    · have hy2 : (y.id != jid) = true := by simpa using hy
      rw [hy2]
      simp only [if_true, List.find?_cons]
      rw [ih]

theorem job_remove_jobs (w : World) (j : jobcb) (st : State) :
    (job_remove w j st).2.jobs = (unlink_job j st).jobs := by
  have hfin : ∀ s : State, (launch_data_close_fds j.ldj s).jobs = s.jobs :=
    fun s => core_jobs (launch_data_close_fds_core j.ldj s)
  have hk : (kevent_mod_add w j.p kq_filter.EVFILT_PROC kq_callback.simple_zombie_reaper
      (unlink_job j st)).2.jobs = (unlink_job j st).jobs :=
    core_jobs (kevent_mod_add_core w _ _ _ _)
  unfold job_remove
  simp only
  split_ifs with hp hk1
  · rw [hfin]
    exact (core_jobs (job_stop_core j _)).trans hk
  · rw [hfin]
    refine Eq.trans ?_ hk
    have hd : find_job (kevent_mod_add w j.p kq_filter.EVFILT_PROC
        kq_callback.simple_zombie_reaper (unlink_job j st)).2 j.id = none := by
      rw [find_job_congr hk]
      exact find_job_unlink j st
    cases hs : reap_status w (kevent_mod_add w j.p kq_filter.EVFILT_PROC
        kq_callback.simple_zombie_reaper (unlink_job j st)).2.calls with
    | none =>
      rw [job_reap_none w j _ hs]
      rfl
    | some s =>
      rw [job_reap_some w j _ s hs]
      exact set_job_dangling _ _ hd
  · rw [hfin]

theorem job_remove_other (w : World) (j : jobcb) (st : State) (id : Nat) (h : id ≠ j.id) :
    find_job (job_remove w j st).2 id = find_job st id := by
  rw [find_job_congr (job_remove_jobs w j st)]
  exact find_filter_ne st.jobs j.id id h

/-- A registry loop whose body keeps the invariant for the record it is
given, and leaves the other records alone, keeps the invariant. -/
theorem foldl_matching_children (p : jobcb → Bool) (f : jobcb → State → State)
    (hf : ∀ j s, RegistryOk s → ChildrenOk s → Current j s →
      RegistryOk (f j s) ∧ ChildrenOk (f j s) ∧
        ∀ id, id ≠ j.id → find_job (f j s) id = find_job s id)
    (js : List jobcb) (hn : (js.map (fun x => x.id)).Nodup) (s : State)
    (hcur : ∀ x ∈ js, Current x s) (hok : RegistryOk s) (hI : ChildrenOk s) :
    ChildrenOk (js.foldl (fun s j => if p j = true then f j s else s) s) := by
  induction js generalizing s with
  | nil => exact hI
  | cons x rest ih =>
    rw [List.map_cons, List.nodup_cons] at hn
    simp only [List.foldl_cons]
    by_cases hp : p x = true
    · rw [if_pos hp]
      obtain ⟨h1, h2, h3⟩ := hf x s hok hI (hcur x (List.mem_cons_self _ _))
      refine ih hn.2 _ ?_ h1 h2
      intro y hy
      have hne : y.id ≠ x.id := fun h => hn.1 (h ▸ List.mem_map_of_mem (fun c => c.id) hy)
      show find_job (f x s) y.id = some y
      rw [h3 y.id hne]
      exact hcur y (List.mem_cons_of_mem _ hy)
    · rw [if_neg hp]
      exact ih hn.2 s (fun y hy => hcur y (List.mem_cons_of_mem _ hy)) hok hI

theorem start_matching_children (w : World) (which : Option String) (st : State)
    (hok : RegistryOk st) (hI : ChildrenOk st) : ChildrenOk (start_matching w which st) :=
  foldl_matching_children (label_is which) (fun j s => (job_start w j s).2)
    (fun j s h1 h2 hc =>
      ⟨h1.ok_of_keysSub (job_start_keys w j s (InHand.of_mem h1 (find_job_mem hc).1)).1,
        job_start_children w j s h1 h2 (Or.inl hc), fun id hne => job_start_other w j s id hne⟩)
    st.jobs hok.1 st (fun _ hx => current_of_mem hok hx) hok hI

theorem stop_matching_children (which : Option String) (st : State)
    (hI : ChildrenOk st) : ChildrenOk (stop_matching which st) := by
  obtain ⟨ks, h⟩ := stop_fold_frame which st.jobs st
  unfold stop_matching
  rw [h]
  exact hI.of_quiet rfl (ProcSub.of_kq rfl)

theorem remove_matching_children (w : World) (which : Option String) (st : State)
    (hok : RegistryOk st) (hI : ChildrenOk st) : ChildrenOk (remove_matching w which st) := by
  refine foldl_matching_children (label_is which)
    (fun j s => (job_remove w j
      (if job_get_bool j.ldj LAUNCH_JOBKEY_ONDEMAND = true then
        notify_helperd (if streq which (some HELPERD) = true then { s with helperd := none } else s)
      else (if streq which (some HELPERD) = true then { s with helperd := none } else s))).2)
    ?_ st.jobs hok.1 st (fun _ hx => current_of_mem hok hx) hok hI
  intro j s h1 h2 hc
  have q1 : (if streq which (some HELPERD) = true then { s with helperd := none } else s).core =
      s.core ∧ (if streq which (some HELPERD) = true then { s with helperd := none } else s).kq =
      s.kq := by
    split
    · exact ⟨rfl, rfl⟩
    · exact ⟨rfl, rfl⟩
  have q2 : (if job_get_bool j.ldj LAUNCH_JOBKEY_ONDEMAND = true then
        notify_helperd (if streq which (some HELPERD) = true then { s with helperd := none } else s)
      else (if streq which (some HELPERD) = true then { s with helperd := none } else s)).core =
      s.core ∧ (if job_get_bool j.ldj LAUNCH_JOBKEY_ONDEMAND = true then
        notify_helperd (if streq which (some HELPERD) = true then { s with helperd := none } else s)
      else (if streq which (some HELPERD) = true then { s with helperd := none } else s)).kq =
      s.kq := by
    split
    · exact ⟨(notify_helperd_core _).trans q1.1, (notify_helperd_kq _).trans q1.2⟩
    · exact q1
  have hok2 := h1.ok_of_core q2.1
  have hI2 := h2.of_quiet q2.1 (ProcSub.of_kq q2.2)
  have hc2 : Current j (if job_get_bool j.ldj LAUNCH_JOBKEY_ONDEMAND = true then
        notify_helperd (if streq which (some HELPERD) = true then { s with helperd := none } else s)
      else (if streq which (some HELPERD) = true then { s with helperd := none } else s)) := by
    show find_job _ j.id = some j
    rw [find_job_congr (core_jobs q2.1)]
    exact hc
  refine ⟨hok2.ok_of_keysSub (job_remove_keys w j _ (InHand.of_mem hok2 (find_job_mem hc2).1)).1,
    job_remove_children w j _ hok2 hI2 hc2, ?_⟩
  intro id hne
  rw [job_remove_other w j _ id hne]
  exact find_job_congr (core_jobs q2.1) id

theorem sys_setlogmask_kq (m : Int) (st : State) : (sys_setlogmask m st).2.kq = st.kq := by
  unfold sys_setlogmask
  split <;> rfl

theorem adjust_rlimits_kq (w : World) (input : Option launch_data) (st : State) :
    (adjust_rlimits w input st).2.kq = st.kq := by
  unfold adjust_rlimits
  split <;> rfl

theorem setstdio_kq (d : Int) (o : Option launch_data) (st : State) :
    (setstdio d o st).2.kq = st.kq := by
  unfold setstdio
  split
  · split <;> rfl
  · rfl
  · rfl

theorem ipc_readmsg2_children (w : World) (data : Option launch_data) (cmd : String)
    (rmc : readmsg_context) (st : State) (hok : RegistryOk st) (hI : ChildrenOk st) :
    ChildrenOk (ipc_readmsg2 w data cmd rmc st).2.2 := by
  unfold ipc_readmsg2
  by_cases h0 : rmc.resp.isSome = true
  · rw [if_pos h0]
    exact hI
  rw [if_neg h0]
  by_cases h1 : cmd = LAUNCH_KEY_STARTJOB
  · simp only [h1, if_true]
    exact start_matching_children w _ st hok hI
  simp only [h1, if_false]
  by_cases h2 : cmd = LAUNCH_KEY_STOPJOB
  · simp only [h2, if_true]
    exact stop_matching_children _ st hI
  simp only [h2, if_false]
  by_cases h3 : cmd = LAUNCH_KEY_REMOVEJOB
  · simp only [h3, if_true]
    exact remove_matching_children w _ st hok hI
  simp only [h3, if_false]
  by_cases h4 : cmd = LAUNCH_KEY_SUBMITJOB
  · simp only [h4, if_true]
    split
    · exact load_jobs_children w _ st hok hI
    · exact load_job_children w _ st hok hI
    · exact hI
  simp only [h4, if_false]
  by_cases h5 : cmd = LAUNCH_KEY_UNSETUSERENVIRONMENT
  · simp only [h5, if_true]
    exact hI.of_quiet rfl (ProcSub.of_kq rfl)
  simp only [h5, if_false]
  by_cases h6 : cmd = LAUNCH_KEY_GETUSERENVIRONMENT
  · simp only [h6, if_true]
    exact hI
  simp only [h6, if_false]
  by_cases h7 : cmd = LAUNCH_KEY_SETUSERENVIRONMENT
  · simp only [h7, if_true]
    exact hI.of_quiet rfl (ProcSub.of_kq rfl)
  simp only [h7, if_false]
  by_cases h8 : cmd = LAUNCH_KEY_CHECKIN
  · simp only [h8, if_true]
    split
    · rename_i j hj
      have hb : ∃ id, find_job st id = some j := by
        cases hc : rmc.c.j with
        | none => simp [hc] at hj
        | some id => exact ⟨id, by simpa [hc] using hj⟩
      obtain ⟨id, hf⟩ := hb
      have hc : Current j st := by
        have := (find_job_mem hf).2
        show find_job st j.id = some j
        rw [this]
        exact hf
      exact set_job_children j _ st st hok hI hc rfl rfl rfl (ProcSub.of_kq rfl)
    · exact hI
  simp only [h8, if_false]
  by_cases h9 : cmd = LAUNCH_KEY_RELOADTTYS
  · simp only [h9, if_true]
    exact hI
  simp only [h9, if_false]
  by_cases h10 : cmd = LAUNCH_KEY_SHUTDOWN
  · simp only [h10, if_true]
    exact do_shutdown_children st hI
  simp only [h10, if_false]
  by_cases h11 : cmd = LAUNCH_KEY_GETJOBS
  · simp only [h11, if_true]
    exact hI
  simp only [h11, if_false]
  by_cases h12 : cmd = LAUNCH_KEY_GETRESOURCELIMITS
  · simp only [h12, if_true]
    exact hI.of_quiet (adjust_rlimits_core w _ st) (ProcSub.of_kq (adjust_rlimits_kq w _ st))
  simp only [h12, if_false]
  by_cases h13 : cmd = LAUNCH_KEY_SETRESOURCELIMITS
  · simp only [h13, if_true]
    exact hI.of_quiet (adjust_rlimits_core w _ st) (ProcSub.of_kq (adjust_rlimits_kq w _ st))
  simp only [h13, if_false]
  by_cases h14 : cmd = LAUNCH_KEY_GETJOB
  · simp only [h14, if_true]
    exact hI
  simp only [h14, if_false]
  by_cases h15 : cmd = LAUNCH_KEY_GETJOBWITHHANDLES
  · simp only [h15, if_true]
    exact hI
  simp only [h15, if_false]
  by_cases h16 : cmd = LAUNCH_KEY_SETLOGMASK
  · simp only [h16, if_true]
    exact hI.of_quiet (sys_setlogmask_core _ st) (ProcSub.of_kq (sys_setlogmask_kq _ st))
  simp only [h16, if_false]
  by_cases h17 : cmd = LAUNCH_KEY_GETLOGMASK
  · simp only [h17, if_true]
    exact hI.of_quiet (by simp) (ProcSub.of_kq (by rw [sys_setlogmask_kq, sys_setlogmask_kq]))
  simp only [h17, if_false]
  by_cases h18 : cmd = LAUNCH_KEY_SETUMASK
  · simp only [h18, if_true]
    exact hI.of_quiet rfl (ProcSub.of_kq rfl)
  simp only [h18, if_false]
  by_cases h19 : cmd = LAUNCH_KEY_GETUMASK
  · simp only [h19, if_true]
    exact hI
  simp only [h19, if_false]
  by_cases h20 : cmd = LAUNCH_KEY_GETRUSAGESELF
  · simp only [h20, if_true]
    exact hI.of_quiet rfl (ProcSub.of_kq rfl)
  simp only [h20, if_false]
  by_cases h21 : cmd = LAUNCH_KEY_GETRUSAGECHILDREN
  · simp only [h21, if_true]
    exact hI.of_quiet rfl (ProcSub.of_kq rfl)
  simp only [h21, if_false]
  by_cases h22 : cmd = LAUNCH_KEY_SETSTDOUT
  · simp only [h22, if_true]
    exact hI.of_quiet (setstdio_core _ _ st) (ProcSub.of_kq (setstdio_kq _ _ st))
  simp only [h22, if_false]
  by_cases h23 : cmd = LAUNCH_KEY_SETSTDERR
  · simp only [h23, if_true]
    exact hI.of_quiet (setstdio_core _ _ st) (ProcSub.of_kq (setstdio_kq _ _ st))
  simp only [h23, if_false]
  by_cases h24 : cmd = LAUNCH_KEY_BATCHCONTROL
  · simp only [h24, if_true]
    exact hI.of_quiet (batch_job_enable_core _ _ st) (ProcSub.of_kq (batch_job_enable_kq _ _ st))
  simp only [h24, if_false]
  by_cases h25 : cmd = LAUNCH_KEY_BATCHQUERY
  · simp only [h25, if_true]
    exact hI
  simp only [h25, if_false]
  exact hI

theorem ipc_readmsg_dict_children (w : World) (kvs : List (String × launch_data))
    (rmc : readmsg_context) (st : State) (hok : RegistryOk st) (hI : ChildrenOk st) :
    ChildrenOk (ipc_readmsg_dict w kvs rmc st).2.2 := by
  induction kvs generalizing rmc st with
  | nil => exact hI
  | cons kv rest ih =>
    obtain ⟨k, v⟩ := kv
    simp only [ipc_readmsg_dict]
    exact ih _ _ (ipc_readmsg2_ok w (some v) k rmc st hok)
      (ipc_readmsg2_children w (some v) k rmc st hok hI)

theorem ipc_readmsg_resp_children (w : World) (c : conncb) (msg : launch_data) (st : State)
    (hok : RegistryOk st) (hI : ChildrenOk st) :
    ChildrenOk (ipc_readmsg_resp w c msg st).2.2 := by
  have h : ChildrenOk (match msg with
      | .dictionary kvs =>
        (launch_data.dictionary (ipc_readmsg_dict w kvs { c := c, resp := none } st).1,
          (ipc_readmsg_dict w kvs { c := c, resp := none } st).2.1,
          (ipc_readmsg_dict w kvs { c := c, resp := none } st).2.2)
      | .string s =>
        (msg, (ipc_readmsg2 w none s { c := c, resp := none } st).2.1,
          (ipc_readmsg2 w none s { c := c, resp := none } st).2.2)
      | _ => (msg, ({ c := c, resp := some (launch_data_new_errno EINVAL) } : readmsg_context),
          st)).2.2 := by
    split
    · exact ipc_readmsg_dict_children w _ _ st hok hI
    · exact ipc_readmsg2_children w none _ _ st hok hI
    · exact hI
  unfold ipc_readmsg_resp
  simp only
  split
  · exact h
  · exact h

theorem ipc_readmsg_children (w : World) (c : conncb) (msg : launch_data) (st : State)
    (hok : RegistryOk st) (hI : ChildrenOk st) : ChildrenOk (ipc_readmsg w c msg st).2 := by
  have h := ipc_readmsg_resp_children w c msg st hok hI
  have hc := launch_data_close_fds_procSub (ipc_readmsg_resp w c msg st).1
    (ipc_readmsg_resp w c msg st).2.2
  have ht : ProcSub (ipc_readmsg_resp w c msg st).2.2
      (tick 1 (launch_data_close_fds (ipc_readmsg_resp w c msg st).1
        (ipc_readmsg_resp w c msg st).2.2)) := hc.chain (ProcSub.of_kq rfl)
  refine h.of_quiet (ipc_readmsg_core w c msg st) ?_
  unfold ipc_readmsg
  simp only
  split
  · exact ht
  · exact ht.chain (kevent_mod_add_procSub w _ _ _ _ (fun h => by cases h))
  · exact ht.chain (ipc_close_procSub _ _)

theorem job_callback_start_children (w : World) (d : Bool) (m : Int) (r : jobcb × State)
    (hok : RegistryOk r.2) (hI : ChildrenOk r.2) (hj : Current r.1 r.2 ∨ Dangling r.1 r.2) :
    ChildrenOk (job_callback_start w d m r) := by
  have h1 := job_start_children w r.1 r.2 hok hI hj
  unfold job_callback_start
  simp only
  split_ifs
  · exact (h1.of_quiet (sys_kill_core _ _ _) (ProcSub.of_kq rfl)).of_quiet
      (job_callback_out_core d m _) (ProcSub.of_kq (job_callback_out_kq d m _))
  · exact h1.of_quiet (job_callback_out_core d m _) (ProcSub.of_kq (job_callback_out_kq d m _))

theorem job_reap_current (w : World) (j : jobcb) (st : State) (hc : Current j st) :
    Current (job_reap w j st).1 (job_reap w j st).2 ∧ (job_reap w j st).1.id = j.id := by
  cases hs : reap_status w st.calls with
  | none =>
    rw [job_reap_none w j st hs]
    exact ⟨hc, rfl⟩
  | some s =>
    obtain ⟨j1, hj1, hid1⟩ : ∃ j1, job_reap w j st =
        (j1, set_job j1 (children_dec (tick 1 st))) ∧ j1.id = j.id :=
      ⟨_, job_reap_some w j st s hs, rfl⟩
    rw [hj1]
    refine ⟨?_, hid1⟩
    show find_job (set_job j1 (children_dec (tick 1 st))) j1.id = some j1
    rw [hid1]
    exact find_set_of_jobs j j1 st _ hc hid1 rfl

theorem job_remove_dangling (w : World) (j : jobcb) (st : State) (hok : RegistryOk st)
    (hc : Current j st) : Dangling (job_remove w j st).1 (job_remove w j st).2 := by
  obtain ⟨h1, h2⟩ := job_remove_absent w j st
  have hk := (job_remove_keys w j st (InHand.of_mem hok (find_job_mem hc).1)).1
  refine ⟨by rw [h2]; exact h1, ?_⟩
  rw [h2, hk.2]
  exact hok.2.2 j (find_job_mem hc).1

theorem job_callback_body_children (w : World) (j : jobcb) (kev : kevent) (d : Bool) (m : Int)
    (st0 : State) (hok : RegistryOk st0) (hI : ChildrenOk st0) (hc : Current j st0)
    (hproc : kev.filter = kq_filter.EVFILT_PROC → j.p ≠ 0 ∧
      ∀ k ∈ st0.kq, k.filter = kq_filter.EVFILT_PROC → k.udata ≠ kq_callback.job j.id) :
    ChildrenOk (job_callback_body w j kev d m st0) := by
  have hin : InHand j st0 := InHand.of_mem hok (find_job_mem hc).1
  unfold job_callback_body
  simp only
  by_cases hf : kev.filter = kq_filter.EVFILT_PROC
  · rw [if_pos hf]
    obtain ⟨hp, hnotag⟩ := hproc hf
    have hrI := job_reap_children w j st0 hok hI hc hp hnotag
    have hrk := job_reap_keys w j st0 hin
    have hrok : RegistryOk (job_reap w j st0).2 := hok.ok_of_keysSub hrk.1
    obtain ⟨hrc, hrid⟩ := job_reap_current w j st0 hc
    have hin2 : InHand (job_reap w j st0).1 (job_reap w j st0).2 :=
      InHand.of_mem hrok (find_job_mem hrc).1
    have hrm : ChildrenOk (job_callback_start w d m
        (job_remove w (job_reap w j st0).1 (job_reap w j st0).2)) :=
      job_callback_start_children w d m _
        (hrok.ok_of_keysSub (job_remove_keys w _ _ hin2).1)
        (job_remove_children w _ _ hrok hrI hrc)
        (Or.inr (job_remove_dangling w _ _ hrok hrc))
    split_ifs
    · exact (do_shutdown_children _ hrI).of_quiet (job_callback_out_core d m _)
        (ProcSub.of_kq (job_callback_out_kq d m _))
    · exact hrm
    · exact hrm
    · exact (hrI.of_quiet (job_watch_fds_core w _ _ _) (job_watch_fds_procSub w _ _ _)).of_quiet
        (job_callback_out_core d m _) (ProcSub.of_kq (job_callback_out_kq d m _))
    · exact job_callback_start_children w d m _ hrok hrI (Or.inl hrc)
  · rw [if_neg hf]
    split_ifs
    · refine job_callback_start_children w d m (_, _) ?_ ?_ ?_
      · refine hok.ok_of_keysSub ?_
        refine set_job_keysSub j _ st0 _ hin (by unfold job_key; rw [revoke_label]) ?_
        exact KeysSub.of_eq (by simp) (by simp)
      · exact set_job_children j _ st0 _ hok hI hc rfl rfl (sys_close_core _ _)
          (sys_close_procSub _ _)
      · exact Or.inl (find_set_of_jobs j _ st0 _ hc rfl rfl)
    · exact job_callback_start_children w d m (_, _) hok hI (Or.inl hc)

theorem job_callback_children (w : World) (j : jobcb) (kev : kevent) (st : State)
    (hok : RegistryOk st) (hI : ChildrenOk st) (hc : Current j st)
    (hproc : kev.filter = kq_filter.EVFILT_PROC → j.p ≠ 0 ∧
      ∀ k ∈ st.kq, k.filter = kq_filter.EVFILT_PROC → k.udata ≠ kq_callback.job j.id) :
    ChildrenOk (job_callback w j kev st) := by
  have hq : (if j.debug then (sys_setlogmask LOG_UPTO_DEBUG st).2 else st).core = st.core ∧
      (if j.debug then (sys_setlogmask LOG_UPTO_DEBUG st).2 else st).kq = st.kq := by
    split
    · exact ⟨sys_setlogmask_core _ _, sys_setlogmask_kq _ _⟩
    · exact ⟨rfl, rfl⟩
  unfold job_callback
  refine job_callback_body_children w j kev _ _ _ (hok.ok_of_core hq.1)
    (hI.of_quiet hq.1 (ProcSub.of_kq hq.2)) ?_ ?_
  · show find_job _ j.id = some j
    rw [find_job_congr (core_jobs hq.1)]
    exact hc
  · intro hf
    rw [hq.2]
    exact hproc hf

theorem signal_callback_children (w : World) (sig : Nat) (st : State) (hI : ChildrenOk st) :
    ChildrenOk (signal_callback w sig st) := by
  unfold signal_callback
  split_ifs
  · exact hI.of_quiet (reload_launchd_config_core w st) (reload_launchd_config_procSub w st)
  · exact do_shutdown_children st hI
  · exact hI

theorem mem_kq_remove {k : knote} {i : Int} {f : kq_filter} {kq : List knote}
    (h : k ∈ kq_remove i f kq) : k ∈ kq ∧ ¬ (k.ident = i ∧ k.filter = f) := by
  unfold kq_remove at h
  obtain ⟨h1, h2⟩ := List.mem_filter.1 h
  exact ⟨h1, fun hh => by simp [hh.1, hh.2] at h2⟩

/-- What a deliverable process event tells about the job it is handed to. -/
theorem deliverable_proc (w : World) (st : State) (id : Nat) (kev : kevent) (j : jobcb)
    (hok : RegistryOk st) (hI : ChildrenOk st)
    (hd : deliverable w st (Event.job id kev) = true)
    (hf : kev.filter = kq_filter.EVFILT_PROC) (hj : find_job st id = some j) :
    j.p = kev.ident ∧ j.p ≠ 0 := by
  simp only [deliverable] at hd
  split_ifs at hd with h1
  · cases hx : st.jobs.find? (fun j => j.p == kev.ident) with
    | none => rw [hx] at hd; cases hd
    | some x =>
      rw [hx] at hd
      simp only [Bool.and_eq_true, beq_iff_eq, decide_eq_true_eq] at hd
      have hxc : find_job st x.id = some x := current_of_mem hok (List.mem_of_find?_eq_some hx)
      rw [hd.1, hj] at hxc
      have hxj : j = x := Option.some.inj hxc
      have hp : x.p = kev.ident := by simpa using List.find?_some hx
      rw [hxj, hp]
      exact ⟨rfl, by omega⟩
  · rw [List.any_eq_true] at hd
    obtain ⟨k, hk, hkk⟩ := hd
    simp only [Bool.and_eq_true, beq_iff_eq] at hkk
    obtain ⟨⟨e1, e2⟩, e3⟩ := hkk
    obtain ⟨_, g⟩ := hI.1 k hk (e2.trans hf) id e3
    rw [← e1]
    exact g j hj

theorem step_children (w : World) (st : State) (e : Event) (hok : RegistryOk st)
    (hI : ChildrenOk st) (hd : deliverable w st e = true) : ChildrenOk (step w st e) := by
  cases e with
  | job id kev =>
    simp only [step]
    have hq : (if kev.filter = kq_filter.EVFILT_PROC then
        { st with kq := kq_remove kev.ident kq_filter.EVFILT_PROC st.kq } else st).core =
        st.core := by
      split <;> rfl
    have hs : ProcSub st (if kev.filter = kq_filter.EVFILT_PROC then
        { st with kq := kq_remove kev.ident kq_filter.EVFILT_PROC st.kq } else st) := by
      split
      · exact ProcSub.of_filter _ rfl
      · exact ProcSub.of_kq rfl
    have hok1 := hok.ok_of_core hq
    have hI1 := hI.of_quiet hq hs
    split
    · rename_i j hj
      have hj0 : find_job st id = some j := by
        rw [← find_job_congr (core_jobs hq) id]
        exact hj
      have hid : j.id = id := (find_job_mem hj).2
      refine job_callback_children w j kev _ hok1 hI1 (by show find_job _ j.id = some j; rw [hid]; exact hj) ?_
      intro hf
      obtain ⟨hp, hp0⟩ := deliverable_proc w st id kev j hok hI hd hf hj0
      refine ⟨hp0, ?_⟩
      intro k hk hkf hku
      rw [if_pos hf] at hk
      obtain ⟨hk1, hk2⟩ := mem_kq_remove hk
      have := (hI.1 k hk1 hkf j.id hku).2 j (by rw [hid]; exact hj0)
      exact hk2 ⟨by rw [← this.1, hp], hkf⟩
    · exact hI1
  | request fd msg =>
    simp only [step]
    split
    · exact ipc_readmsg_children w _ msg st hok hI
    · exact hI
  | hangup fd =>
    simp only [step]
    split
    · exact hI.of_quiet (ipc_close_core _ st) (ipc_close_procSub _ st)
    · exact hI
  | accept cfd => exact hI.of_quiet (ipc_open_core w cfd none st) (ipc_open_procSub w cfd none st)
  | signal sig => exact signal_callback_children w sig st hI
  | zombie pid =>
    have hs : ProcSub st (tick 1 { st with kq := kq_remove pid kq_filter.EVFILT_PROC st.kq }) :=
      ProcSub.of_filter _ rfl
    have hc : (tick 1 { st with kq := kq_remove pid kq_filter.EVFILT_PROC st.kq }).core = st.core := rfl
    exact ChildrenOk.of_quiet hc hs hI

theorem run_children (w : World) (evs : List Event) (st : State) (hok : RegistryOk st)
    (hI : ChildrenOk st) (hd : Deliverable w st evs) : ChildrenOk (run w st evs) := by
  unfold run
  induction evs generalizing st with
  | nil => exact hI
  | cons e rest ih =>
    exact ih _ (step_ok w st e hok) (step_children w st e hok hI hd.1) hd.2

theorem init_children : ChildrenOk State.init :=
  ⟨fun _ hk => absurd hk (List.not_mem_nil _), fun _ => ⟨Nat.le_refl _, Nat.le_refl _, rfl⟩⟩

theorem conceive_firstborn_children (w : World) (argv : List String) (st : State)
    (hok : RegistryOk st) (hI : ChildrenOk st) : ChildrenOk (conceive_firstborn w argv st) := by
  unfold conceive_firstborn
  simp only
  have h0 := load_job_ok w (launch_data_dict_insert
    (launch_data_dict_insert (launch_data.dictionary [])
      (launch_data.array (argv.map launch_data.string)) LAUNCH_JOBKEY_PROGRAMARGUMENTS)
    (launch_data.string "com.apple.launchd.firstborn") LAUNCH_JOBKEY_LABEL) st hok
  have h1 := load_job_children w (launch_data_dict_insert
    (launch_data_dict_insert (launch_data.dictionary [])
      (launch_data.array (argv.map launch_data.string)) LAUNCH_JOBKEY_PROGRAMARGUMENTS)
    (launch_data.string "com.apple.launchd.firstborn") LAUNCH_JOBKEY_LABEL) st hok hI
  generalize (load_job w (launch_data_dict_insert
    (launch_data_dict_insert (launch_data.dictionary [])
      (launch_data.array (argv.map launch_data.string)) LAUNCH_JOBKEY_PROGRAMARGUMENTS)
    (launch_data.string "com.apple.launchd.firstborn") LAUNCH_JOBKEY_LABEL) st).2.2 = S at h0 h1 ⊢
  split
  · exact h1
  · rename_i j rest hj
    refine @ChildrenOk.of_map S _ (fun x => if x.id = j.id then { x with firstborn := true } else x)
      ?_ ?_ ?_ rfl rfl rfl rfl (ProcSub.of_kq rfl) h1
    · intro x
      dsimp only
      split <;> rfl
    · intro x
      dsimp only
      split <;> rfl
    · show _ :: rest = _
      have hn := h0.1
      rw [hj, List.map_cons, List.nodup_cons] at hn
      rw [hj, List.map_cons, if_pos rfl]
      congr 1
      conv_lhs => rw [← List.map_id rest]
      apply List.map_congr_left
      intro y hy
      have : y.id ≠ j.id := fun h => hn.1 (h ▸ List.mem_map_of_mem (fun c => c.id) hy)
      rw [if_neg this]
      rfl

theorem main_start_children (w : World) (argv : List String) :
    ChildrenOk (main_start w argv) := by
  unfold main_start
  split
  · exact init_children.of_quiet (reload_launchd_config_core w _)
      (reload_launchd_config_procSub w _)
  · simp only
    have h0 : RegistryOk (reload_launchd_config w (conceive_firstborn w argv State.init)) :=
      (conceive_firstborn_ok w argv _ init_ok).ok_of_core (reload_launchd_config_core w _)
    have h1 : ChildrenOk (reload_launchd_config w (conceive_firstborn w argv State.init)) :=
      (conceive_firstborn_children w argv _ init_ok init_children).of_quiet
        (reload_launchd_config_core w _) (reload_launchd_config_procSub w _)
    split
    · exact h1
    · rename_i j rest hj
      exact job_start_children w j _ h0 h1 (Or.inl (current_of_mem h0 (by rw [hj]; simp)))

theorem mem_kq_remove_iff {k : knote} {i : Int} {f : kq_filter} {kq : List knote} :
    k ∈ kq_remove i f kq ↔ k ∈ kq ∧ ¬ (k.ident = i ∧ k.filter = f) := by
  unfold kq_remove
  rw [List.mem_filter]
  simp only [Bool.not_eq_true', Bool.and_eq_false_iff, beq_eq_false_iff_ne, ne_eq,
    not_and_or]

theorem mem_sys_close_iff {k : knote} {fd : Int} {st : State} :
    k ∈ (sys_close fd st).kq ↔ k ∈ st.kq ∧ ¬ (k.ident = fd ∧
      (k.filter = kq_filter.EVFILT_READ ∨ k.filter = kq_filter.EVFILT_WRITE)) := by
  unfold sys_close
  simp only [List.mem_filter]
  simp only [Bool.not_eq_true', Bool.and_eq_false_iff, Bool.or_eq_false_iff,
    beq_eq_false_iff_ne, ne_eq, not_and_or, not_or]

theorem GoodBut.exempt {P : Int → Prop} {F : List Int} {x : Option Nat} {a : State}
    (ha : GoodBut P F none a) : GoodBut P F x a :=
  ⟨ha.reg, ha.watchR, fun j hj _ => ha.watchL j hj (fun e => by cases e), ha.tags, ha.apart,
    ha.jobfd, ha.connfd, ha.calm⟩

theorem kevent_mod_add_read_kq (w : World) (hk : ∀ n, w.kevent n = true) (fd : Int)
    (u : kq_callback) (s : State) :
    (kevent_mod_add w fd kq_filter.EVFILT_READ u s).2.kq =
      kq_remove fd kq_filter.EVFILT_READ s.kq ++
        [{ ident := fd, filter := kq_filter.EVFILT_READ, udata := u }] := by
  unfold kevent_mod_add
  have h1 : (w.reap_adopted && kq_filter.EVFILT_READ == kq_filter.EVFILT_PROC && w.pid == 1) =
      false := by
    have : (kq_filter.EVFILT_READ == kq_filter.EVFILT_PROC) = false := by decide
    rw [this]
    simp
  rw [h1, hk]
  rfl

theorem kevent_mod_delete_read_kq (w : World) (fd : Int) (s : State) :
    (kevent_mod_delete w fd kq_filter.EVFILT_READ s).kq =
      kq_remove fd kq_filter.EVFILT_READ s.kq := by
  unfold kevent_mod_delete
  have h1 : (w.reap_adopted && kq_filter.EVFILT_READ == kq_filter.EVFILT_PROC && w.pid == 1) =
      false := by
    have : (kq_filter.EVFILT_READ == kq_filter.EVFILT_PROC) = false := by decide
    rw [this]
    simp
  rw [h1]
  rfl

theorem watch_fold_mem (w : World) (hk : ∀ n, w.kevent n = true) (u : kq_callback)
    (l : List Int) (s : State) (i : Int)
    (h : ({ ident := i, filter := kq_filter.EVFILT_READ, udata := u } : knote) ∈ s.kq ∨ i ∈ l) :
    ({ ident := i, filter := kq_filter.EVFILT_READ, udata := u } : knote) ∈
      (l.foldl (fun s fd => (kevent_mod_add w fd kq_filter.EVFILT_READ u s).2) s).kq := by
  induction l generalizing s with
  | nil =>
    rcases h with h | h
    · exact h
    · exact absurd h (List.not_mem_nil _)
  | cons x rest ih =>
    simp only [List.foldl_cons]
    apply ih
    by_cases e : i = x
    · left
      rw [kevent_mod_add_read_kq w hk, e]
      exact List.mem_append_right _ (List.mem_singleton_self _)
    · rcases h with h | h
      · left
        rw [kevent_mod_add_read_kq w hk]
        exact List.mem_append_left _ (mem_kq_remove_iff.2 ⟨h, fun hh => e hh.1⟩)
      · right
        rcases List.mem_cons.1 h with h | h
        · exact absurd h e
        · exact h

theorem watch_fold_sub (w : World) (hk : ∀ n, w.kevent n = true) (u : kq_callback)
    (l : List Int) (s : State) (k : knote)
    (h : k ∈ (l.foldl (fun s fd => (kevent_mod_add w fd kq_filter.EVFILT_READ u s).2) s).kq) :
    k ∈ s.kq ∨ (k.filter = kq_filter.EVFILT_READ ∧ k.udata = u ∧ k.ident ∈ l) := by
  induction l generalizing s with
  | nil => exact Or.inl h
  | cons x rest ih =>
    simp only [List.foldl_cons] at h
    rcases ih _ h with h1 | ⟨h1, h2, h3⟩
    · rw [kevent_mod_add_read_kq w hk] at h1
      rcases List.mem_append.1 h1 with h1 | h1
      · exact Or.inl (mem_kq_remove_iff.1 h1).1
      · rw [List.mem_singleton] at h1
        subst h1
        exact Or.inr ⟨rfl, rfl, List.mem_cons_self _ _⟩
    · exact Or.inr ⟨h1, h2, List.mem_cons_of_mem _ h3⟩

/-- After `job_watch_fds` every descriptor of the tree is registered with the
cookie. -/
theorem job_watch_fds_mem (w : World) (hk : ∀ n, w.kevent n = true) (d : launch_data)
    (id : Nat) (s : State) (fd : Int) (h : fd ∈ live_fds d) :
    job_watch id fd ∈ (job_watch_fds w d (kq_callback.job id) s).kq :=
  watch_fold_mem w hk (kq_callback.job id) (live_fds d) s fd (Or.inr h)

theorem job_watch_fds_sub (w : World) (hk : ∀ n, w.kevent n = true) (d : launch_data)
    (u : kq_callback) (s : State) (k : knote) (h : k ∈ (job_watch_fds w d u s).kq) :
    k ∈ s.kq ∨ (k.filter = kq_filter.EVFILT_READ ∧ k.udata = u ∧ k.ident ∈ live_fds d) :=
  watch_fold_sub w hk u (live_fds d) s k h

theorem ignore_fold_sub (w : World) (l : List Int) (s : State) (k : knote)
    (h : k ∈ (l.foldl (fun s fd => kevent_mod_delete w fd kq_filter.EVFILT_READ s) s).kq) :
    k ∈ s.kq ∧ ¬ (k.filter = kq_filter.EVFILT_READ ∧ k.ident ∈ l) := by
  induction l generalizing s with
  | nil => exact ⟨h, fun hh => absurd hh.2 (List.not_mem_nil _)⟩
  | cons x rest ih =>
    simp only [List.foldl_cons] at h
    obtain ⟨h1, h2⟩ := ih _ h
    rw [kevent_mod_delete_read_kq] at h1
    obtain ⟨h3, h4⟩ := mem_kq_remove_iff.1 h1
    refine ⟨h3, ?_⟩
    rintro ⟨e1, e2⟩
    rcases List.mem_cons.1 e2 with e | e
    · exact h4 ⟨e, e1⟩
    · exact h2 ⟨e1, e⟩

/-- After `job_ignore_fds` no descriptor of the tree has a read
registration. -/
theorem job_ignore_fds_sub (w : World) (d : launch_data) (s : State) (k : knote)
    (h : k ∈ (job_ignore_fds w d s).kq) :
    k ∈ s.kq ∧ ¬ (k.filter = kq_filter.EVFILT_READ ∧ k.ident ∈ live_fds d) :=
  ignore_fold_sub w (live_fds d) s k h

mutual
theorem live_fds_revoke_none : ∀ d : launch_data, live_fds (launch_data_revoke_fds none d) = []
  | .dictionary kvs => by
    simp only [launch_data_revoke_fds, live_fds]
    exact live_fds_dict_revoke_none kvs
  | .array xs => by
    simp only [launch_data_revoke_fds, live_fds]
    exact live_fds_array_revoke_none xs
  | .fd n => by simp [launch_data_revoke_fds, live_fds]
  | .integer n => by simp [launch_data_revoke_fds, live_fds]
  | .real n => by simp [launch_data_revoke_fds, live_fds]
  | .bool n => by simp [launch_data_revoke_fds, live_fds]
  | .string n => by simp [launch_data_revoke_fds, live_fds]
  | .blob n => by simp [launch_data_revoke_fds, live_fds]
  | .errno n => by simp [launch_data_revoke_fds, live_fds]
  | .machport n => by simp [launch_data_revoke_fds, live_fds]
theorem live_fds_dict_revoke_none :
    ∀ kvs : List (String × launch_data), live_fds_dict (revoke_fds_dict none kvs) = []
  | [] => by simp [revoke_fds_dict, live_fds_dict]
  | (k, v) :: rest => by
    simp only [revoke_fds_dict, live_fds_dict]
    rw [live_fds_revoke_none v, live_fds_dict_revoke_none rest]
    rfl
theorem live_fds_array_revoke_none :
    ∀ xs : List launch_data, live_fds_array (revoke_fds_array none xs) = []
  | [] => by simp [revoke_fds_array, live_fds_array]
  | v :: rest => by
    simp only [revoke_fds_array, live_fds_array]
    rw [live_fds_revoke_none v, live_fds_array_revoke_none rest]
    rfl
end

mutual
theorem live_fds_revoke_some (b : Int) : ∀ d : launch_data,
    live_fds (launch_data_revoke_fds (some b) d) = (live_fds d).filter (fun fd => fd != b)
  | .dictionary kvs => by
    simp only [launch_data_revoke_fds, live_fds]
    exact live_fds_dict_revoke_some b kvs
  | .array xs => by
    simp only [launch_data_revoke_fds, live_fds]
    exact live_fds_array_revoke_some b xs
  | .fd n => by
    simp only [launch_data_revoke_fds]
    by_cases h : b = n
    · rw [if_pos h]
      subst h
      by_cases hb : b = -1 <;> simp [live_fds, hb]
    · rw [if_neg h]
      simp only [live_fds]
      split
      · rfl
      · simp [Ne.symm h]
  | .integer n => by simp [launch_data_revoke_fds, live_fds]
  | .real n => by simp [launch_data_revoke_fds, live_fds]
  | .bool n => by simp [launch_data_revoke_fds, live_fds]
  | .string n => by simp [launch_data_revoke_fds, live_fds]
  | .blob n => by simp [launch_data_revoke_fds, live_fds]
  | .errno n => by simp [launch_data_revoke_fds, live_fds]
  | .machport n => by simp [launch_data_revoke_fds, live_fds]
theorem live_fds_dict_revoke_some (b : Int) : ∀ kvs : List (String × launch_data),
    live_fds_dict (revoke_fds_dict (some b) kvs) =
      (live_fds_dict kvs).filter (fun fd => fd != b)
  | [] => by simp [revoke_fds_dict, live_fds_dict]
  | (k, v) :: rest => by
    simp only [revoke_fds_dict, live_fds_dict]
    rw [live_fds_revoke_some b v, live_fds_dict_revoke_some b rest, List.filter_append]
theorem live_fds_array_revoke_some (b : Int) : ∀ xs : List launch_data,
    live_fds_array (revoke_fds_array (some b) xs) =
      (live_fds_array xs).filter (fun fd => fd != b)
  | [] => by simp [revoke_fds_array, live_fds_array]
  | v :: rest => by
    simp only [revoke_fds_array, live_fds_array]
    rw [live_fds_revoke_some b v, live_fds_array_revoke_some b rest, List.filter_append]
end

theorem mem_live_fds_revoke (b : Int) (d : launch_data) (fd : Int) :
    fd ∈ live_fds (launch_data_revoke_fds (some b) d) ↔ fd ∈ live_fds d ∧ fd ≠ b := by
  rw [live_fds_revoke_some, List.mem_filter]
  simp

theorem revoke_get_bool (b : Option Int) (v : launch_data) :
    launch_data_get_bool (launch_data_revoke_fds b v) = launch_data_get_bool v := by
  cases v with
  | fd n =>
    cases b with
    | none => rfl
    | some x =>
      simp only [launch_data_revoke_fds]
      split <;> rfl
  | dictionary kvs => simp [launch_data_revoke_fds, launch_data_get_bool]
  | array xs => simp [launch_data_revoke_fds, launch_data_get_bool]
  | _ => rfl

theorem revoke_job_get_bool (b : Option Int) (d : launch_data) (key : String) :
    job_get_bool (launch_data_revoke_fds b d) key = job_get_bool d key := by
  unfold job_get_bool
  cases d with
  | dictionary kvs =>
    simp only [launch_data_revoke_fds, launch_data_dict_lookup, revoke_lookup]
    cases dict_lookup_kvs key kvs with
    | none => rfl
    | some v => simp [revoke_get_bool]
  | fd n =>
    cases b with
    | none => rfl
    | some x => by_cases hx : x = n <;> simp [launch_data_revoke_fds, hx, launch_data_dict_lookup]
  | array xs => simp [launch_data_revoke_fds, launch_data_dict_lookup]
  | _ => rfl

theorem ipc_readmsg2_recognised (w : World) (data : Option launch_data) (cmd : String)
    (rmc : readmsg_context) (st : State) (h0 : rmc.resp = none)
    (h : cmd ∈ recognised_commands) :
    (ipc_readmsg2 w data cmd rmc st).2.1.resp.isSome = true := by
  unfold ipc_readmsg2
  rw [if_neg (by rw [h0]; simp)]
  by_cases h1 : cmd = LAUNCH_KEY_STARTJOB
  · simp only [h1, if_true]
    rfl
  simp only [h1, if_false]
  by_cases h2 : cmd = LAUNCH_KEY_STOPJOB
  · simp only [h2, if_true]
    rfl
  simp only [h2, if_false]
  by_cases h3 : cmd = LAUNCH_KEY_REMOVEJOB
  · simp only [h3, if_true]
    rfl
  simp only [h3, if_false]
  by_cases h4 : cmd = LAUNCH_KEY_SUBMITJOB
  · simp only [h4, if_true]
    split <;> rfl
  simp only [h4, if_false]
  by_cases h5 : cmd = LAUNCH_KEY_UNSETUSERENVIRONMENT
  · simp only [h5, if_true]
    rfl
  simp only [h5, if_false]
  by_cases h6 : cmd = LAUNCH_KEY_GETUSERENVIRONMENT
  · simp only [h6, if_true]
    rfl
  simp only [h6, if_false]
  by_cases h7 : cmd = LAUNCH_KEY_SETUSERENVIRONMENT
  · simp only [h7, if_true]
    rfl
  simp only [h7, if_false]
  by_cases h8 : cmd = LAUNCH_KEY_CHECKIN
  · simp only [h8, if_true]
    split <;> rfl
  simp only [h8, if_false]
  by_cases h9 : cmd = LAUNCH_KEY_RELOADTTYS
  · simp only [h9, if_true]
    rfl
  simp only [h9, if_false]
  by_cases h10 : cmd = LAUNCH_KEY_SHUTDOWN
  · simp only [h10, if_true]
    rfl
  simp only [h10, if_false]
  by_cases h11 : cmd = LAUNCH_KEY_GETJOBS
  · simp only [h11, if_true]
    rfl
  simp only [h11, if_false]
  by_cases h12 : cmd = LAUNCH_KEY_GETRESOURCELIMITS
  · simp only [h12, if_true]
    rfl
  simp only [h12, if_false]
  by_cases h13 : cmd = LAUNCH_KEY_SETRESOURCELIMITS
  · simp only [h13, if_true]
    rfl
  simp only [h13, if_false]
  by_cases h14 : cmd = LAUNCH_KEY_GETJOB
  · simp only [h14, if_true]
    rfl
  simp only [h14, if_false]
  by_cases h15 : cmd = LAUNCH_KEY_GETJOBWITHHANDLES
  · simp only [h15, if_true]
    rfl
  simp only [h15, if_false]
  by_cases h16 : cmd = LAUNCH_KEY_SETLOGMASK
  · simp only [h16, if_true]
    rfl
  simp only [h16, if_false]
  by_cases h17 : cmd = LAUNCH_KEY_GETLOGMASK
  · simp only [h17, if_true]
    rfl
  simp only [h17, if_false]
  by_cases h18 : cmd = LAUNCH_KEY_SETUMASK
  · simp only [h18, if_true]
    rfl
  simp only [h18, if_false]
  by_cases h19 : cmd = LAUNCH_KEY_GETUMASK
  · simp only [h19, if_true]
    rfl
  simp only [h19, if_false]
  by_cases h20 : cmd = LAUNCH_KEY_GETRUSAGESELF
  · simp only [h20, if_true]
    rfl
  simp only [h20, if_false]
  by_cases h21 : cmd = LAUNCH_KEY_GETRUSAGECHILDREN
  · simp only [h21, if_true]
    rfl
  simp only [h21, if_false]
  by_cases h22 : cmd = LAUNCH_KEY_SETSTDOUT
  · simp only [h22, if_true]
    rfl
  simp only [h22, if_false]
  by_cases h23 : cmd = LAUNCH_KEY_SETSTDERR
  · simp only [h23, if_true]
    rfl
  simp only [h23, if_false]
  by_cases h24 : cmd = LAUNCH_KEY_BATCHCONTROL
  · simp only [h24, if_true]
    rfl
  simp only [h24, if_false]
  by_cases h25 : cmd = LAUNCH_KEY_BATCHQUERY
  · simp only [h25, if_true]
    rfl
  simp only [h25, if_false]
  exfalso
  simp only [recognised_commands, List.mem_cons, List.mem_singleton, List.not_mem_nil,
    or_false] at h
  simp only [h1, h2, h3, h4, h5, h6, h7, h8, h9, h10, h11, h12, h13, h14, h15, h16, h17, h18, h19, h20, h21, h22, h23, h24, h25, or_self] at h

theorem ipc_readmsg2_done (w : World) (data : Option launch_data) (cmd : String)
    (rmc : readmsg_context) (st : State) (h : rmc.resp.isSome = true) :
    ipc_readmsg2 w data cmd rmc st = (data, rmc, st) := by
  unfold ipc_readmsg2
  rw [if_pos h]

theorem ipc_readmsg_dict_done (w : World) (kvs : List (String × launch_data))
    (rmc : readmsg_context) (st : State) (h : rmc.resp.isSome = true) :
    ipc_readmsg_dict w kvs rmc st = (kvs, rmc, st) := by
  induction kvs with
  | nil => rfl
  | cons kv rest ih =>
    obtain ⟨k, v⟩ := kv
    simp only [ipc_readmsg_dict, ipc_readmsg2_done w (some v) k rmc st h, ih,
      Option.getD_some]

theorem ipc_readmsg_dict_first (w : World) (pre post : List (String × launch_data))
    (k : String) (v : launch_data) (rmc : readmsg_context) (st : State)
    (hpre : ∀ kv ∈ pre, kv.1 ∉ recognised_commands) (h0 : rmc.resp = none)
    (hk : k ∈ recognised_commands) :
    ipc_readmsg_dict w (pre ++ (k, v) :: post) rmc st =
      (pre ++ (k, (ipc_readmsg2 w (some v) k rmc st).1.getD v) :: post,
        (ipc_readmsg2 w (some v) k rmc st).2.1, (ipc_readmsg2 w (some v) k rmc st).2.2) := by
  induction pre with
  | nil =>
    simp only [List.nil_append, ipc_readmsg_dict]
    rw [ipc_readmsg_dict_done w post _ _ (ipc_readmsg2_recognised w (some v) k rmc st h0 hk)]
  | cons kv rest ih =>
    obtain ⟨k2, v2⟩ := kv
    have hk2 : k2 ∉ recognised_commands := hpre (k2, v2) (List.mem_cons_self _ _)
    simp only [List.cons_append, ipc_readmsg_dict, ipc_readmsg2_unknown w (some v2) k2 rmc st hk2,
      Option.getD_some]
    have e := ih (fun x hx => hpre x (List.mem_cons_of_mem _ hx))
    rw [show rest.append ((k, v) :: post) = rest ++ (k, v) :: post from rfl, e]

theorem job_start_failed_exits (w : World) (j : jobcb) (st : State) (hp : j.p = 0) :
    (job_start w j st).1.failed_exits =
      if (job_start_tvd w j st).tv_sec ≥ LAUNCHD_REWARD_JOB_RUN_TIME then 0
      else j.failed_exits := by
  unfold job_start job_start_tvd
  rw [if_neg (by simp [hp])]
  simp only
  split_ifs <;> rfl

theorem dict_lookup_insert_self (what : launch_data) (key : String)
    (kvs : List (String × launch_data)) :
    dict_lookup_kvs key (dict_insert_kvs what key kvs) = some what := by
  induction kvs with
  | nil => simp [dict_insert_kvs, dict_lookup_kvs]
  | cons kv rest ih =>
    obtain ⟨k2, v2⟩ := kv
    by_cases h2 : k2 = key
    · simp [dict_insert_kvs, dict_lookup_kvs, h2]
    · simp [dict_insert_kvs, dict_lookup_kvs, h2, ih]

theorem stored_config_default (pload label : launch_data)
    (hl : launch_data_dict_lookup pload LAUNCH_JOBKEY_LABEL = some label)
    (h : launch_data_dict_lookup pload LAUNCH_JOBKEY_ONDEMAND = none) :
    job_get_bool (stored_config pload) LAUNCH_JOBKEY_ONDEMAND = true := by
  cases pload with
  | dictionary kvs =>
    unfold stored_config launch_data_copy
    rw [h]
    simp only [Option.isNone_none, if_true, launch_data_dict_insert, job_get_bool,
      launch_data_dict_lookup, dict_lookup_insert_self]
    rfl
  | _ => simp [launch_data_dict_lookup] at hl

theorem stored_config_given (pload v : launch_data)
    (h : launch_data_dict_lookup pload LAUNCH_JOBKEY_ONDEMAND = some v) :
    stored_config pload = pload := by
  unfold stored_config launch_data_copy
  rw [h]
  rfl

theorem load_job_insert_on_demand (w : World) (hk : ∀ n, w.kevent n = true)
    (pload label : launch_data) (st : State)
    (hod : on_demand (new_job st.next_id pload) = true) :
    (load_job_insert w pload label st).jobs = st.jobs ++ [new_job st.next_id pload] ∧
    (load_job_insert w pload label st).forked = st.forked ∧
    (load_job_insert w pload label st).total_children = st.total_children ∧
    ∀ fd ∈ live_fds (new_job st.next_id pload).ldj,
      job_watch st.next_id fd ∈ (load_job_insert w pload label st).kq := by
  have hod2 : job_get_bool (new_job st.next_id pload).ldj LAUNCH_JOBKEY_ONDEMAND = true := hod
  unfold load_job_insert
  simp only [hod2, if_true]
  have hc : (notify_helperd (job_watch_fds w (new_job st.next_id pload).ldj
      (kq_callback.job (new_job st.next_id pload).id)
      (link_job (new_job st.next_id pload) st))).core =
      (link_job (new_job st.next_id pload) st).core := by
    rw [notify_helperd_core, job_watch_fds_core]
  have hq : ∀ fd ∈ live_fds (new_job st.next_id pload).ldj, job_watch st.next_id fd ∈
      (notify_helperd (job_watch_fds w (new_job st.next_id pload).ldj
        (kq_callback.job (new_job st.next_id pload).id)
        (link_job (new_job st.next_id pload) st))).kq := by
    intro fd hfd
    rw [notify_helperd_kq]
    exact job_watch_fds_mem w hk _ st.next_id _ fd hfd
  have hf := core_fields hc
  split
  · exact ⟨hf.1, hf.2.2.2.1, hf.2.2.1, hq⟩
  · exact ⟨hf.1, hf.2.2.2.1, hf.2.2.1, hq⟩

theorem kevent_mod_add_ok (w : World) (hk : ∀ n, w.kevent n = true) (i : Int) (f : kq_filter)
    (u : kq_callback) (st : State) : (kevent_mod_add w i f u st).1 = true := by
  unfold kevent_mod_add
  split
  · rfl
  · rw [if_pos (hk _)]

theorem ipc_open_mem (w : World) (fd : Int) (j : Option Nat) (st : State) :
    ∀ k ∈ (ipc_open w fd j st).kq, k ∈ st.kq ∨ k.udata = kq_callback.conn fd := by
  intro k hk
  unfold ipc_open at hk
  rcases kevent_mod_add_mem w _ _ _ _ k hk with h | h
  · exact Or.inl h
  · exact Or.inr h.2.2

/-- A start that succeeds: the record gets the pid `fork` returned, one child is
forked and counted, and the registrations afterwards are old ones, process
registrations or registrations of a connection. -/
theorem job_start_forks (w : World) (hk : ∀ n, w.kevent n = true)
    (hfork : ∀ n, w.fork n ≠ -1 ∧ w.fork n ≠ 0) (j : jobcb) (st : State) (hp : j.p = 0) :
    (job_start w j st).1.p ≠ 0 ∧ (job_start w j st).1.ldj = j.ldj ∧
    (job_start w j st).1.id = j.id ∧ (job_start w j st).1.firstborn = j.firstborn ∧
    (job_start w j st).1.checkedin = j.checkedin ∧
    (job_start w j st).1.failed_exits ≤ j.failed_exits ∧
    (job_start w j st).2.forked = st.forked ++ [(job_start w j st).1.p] ∧
    (job_start w j st).2.total_children = size_t_succ st.total_children ∧
    (∀ k ∈ (job_start w j st).2.kq, k ∈ st.kq ∨ k.filter = kq_filter.EVFILT_PROC ∨
      ∃ fd, k.udata = kq_callback.conn fd) := by
  unfold job_start
  rw [if_neg (by simp [hp])]
  lift_lets
  intro sipc spair st1 now tvd j2 c st2 st3 st4 k j3
  have hc := hfork (st1.calls + 1)
  have hk1 : k.1 = true := kevent_mod_add_ok w hk _ _ _ _
  rw [if_neg hc.1, if_neg hc.2, if_pos hk1]
  have h1 : st1.core = st.core ∧ st1.kq = st.kq := by
    show (if sipc = true then tick 1 st else st).core = st.core ∧
      (if sipc = true then tick 1 st else st).kq = st.kq
    split <;> exact ⟨rfl, rfl⟩
  have h3 : st3.total_children = st.total_children ∧ st3.forked = st.forked ++ [c] ∧
      st3.kq = st.kq :=
    ⟨(show st3.total_children = st1.total_children from rfl).trans (core_total_children h1.1),
      congrArg (fun l => l ++ [c]) (core_forked h1.1), h1.2⟩
  have h4 : st4.total_children = st.total_children ∧ st4.forked = st.forked ++ [c] ∧
      ∀ x ∈ st4.kq, x ∈ st.kq ∨ ∃ fd, x.udata = kq_callback.conn fd := by
    show (if sipc = true then ipc_open w spair.1 (some j.id) (sys_close spair.2 st3) else st3).total_children = _ ∧
      (if sipc = true then ipc_open w spair.1 (some j.id) (sys_close spair.2 st3) else st3).forked = _ ∧
      ∀ x ∈ (if sipc = true then ipc_open w spair.1 (some j.id) (sys_close spair.2 st3) else st3).kq, _
    split
    · have hco : (ipc_open w spair.1 (some j.id) (sys_close spair.2 st3)).core = st3.core := by
        rw [ipc_open_core]
        rfl
      refine ⟨(core_total_children hco).trans h3.1, (core_forked hco).trans h3.2.1, ?_⟩
      intro x hx
      rcases ipc_open_mem w _ _ _ x hx with h | h
      · rw [mem_sys_close_iff, h3.2.2] at h
        exact Or.inl h.1
      · exact Or.inr ⟨_, h⟩
    · exact ⟨h3.1, h3.2.1, fun x hx => Or.inl (h3.2.2 ▸ hx)⟩
  have h5 : k.2.total_children = st.total_children ∧ k.2.forked = st.forked ++ [c] ∧
      ∀ x ∈ k.2.kq, x ∈ st.kq ∨ x.filter = kq_filter.EVFILT_PROC ∨
        ∃ fd, x.udata = kq_callback.conn fd := by
    have hco : k.2.core = st4.core := kevent_mod_add_core w _ _ _ _
    refine ⟨(core_total_children hco).trans h4.1, (core_forked hco).trans h4.2.1, ?_⟩
    intro x hx
    rcases kevent_mod_add_mem w _ _ _ _ x hx with h | h
    · rcases h4.2.2 x h with h | h
      · exact Or.inl h
      · exact Or.inr (Or.inr h)
    · exact Or.inr (Or.inl h.2.1)
  refine ⟨hc.2, rfl, rfl, rfl, rfl, ?_, ?_, ?_, ?_⟩
  · show (if tvd.tv_sec ≥ LAUNCHD_REWARD_JOB_RUN_TIME then 0 else j.failed_exits) ≤ _
    split
    · exact Nat.zero_le _
    · exact Nat.le_refl _
  · split
    · have hco : (job_ignore_fds w j.ldj (children_inc k.2)).core = (children_inc k.2).core :=
        job_ignore_fds_core w _ _
      exact (core_forked hco).trans h5.2.1
    · exact h5.2.1
  · split
    · have hco : (job_ignore_fds w j.ldj (children_inc k.2)).core = (children_inc k.2).core :=
        job_ignore_fds_core w _ _
      exact (core_total_children hco).trans (congrArg size_t_succ h5.1)
    · exact congrArg size_t_succ h5.1
  · intro x hx
    split at hx
    · exact h5.2.2 x (job_ignore_fds_sub w _ _ x hx).1
    · exact h5.2.2 x hx

theorem step_eof_eq (w : World) (st : State) (j : jobcb) (d : Int)
    (hf : find_job st j.id = some j) :
    (step w st (eof_event j.id d)).core = (eof_start w j d st).2.core ∧
    (step w st (eof_event j.id d)).kq = (eof_start w j d st).2.kq := by
  have he : step w st (eof_event j.id d) =
      job_callback_start w j.debug (if j.debug = true then st.logmask else 0)
        ({ j with ldj := launch_data_revoke_fds (some d) j.ldj },
          set_job { j with ldj := launch_data_revoke_fds (some d) j.ldj }
            (sys_close d
              (if j.debug = true then (sys_setlogmask LOG_UPTO_DEBUG st).2 else st))) := by
    unfold eof_event
    have h1 : ¬ (kq_filter.EVFILT_READ = kq_filter.EVFILT_PROC) := by decide
    simp only [step, h1, if_false, hf, job_callback, job_callback_body, true_and, and_self,
      if_true]
  rw [he]
  unfold job_callback_start eof_start
  simp only
  have hite : ∀ (c : Prop) [Decidable c] (p : Int) (x : State),
      (if c then sys_kill p SIGSTOP x else x).core = x.core ∧
      (if c then sys_kill p SIGSTOP x else x).kq = x.kq := by
    intro c _ p x
    split <;> exact ⟨rfl, rfl⟩
  constructor
  · rw [job_callback_out_core]
    exact (hite _ _ _).1
  · rw [job_callback_out_kq]
    exact (hite _ _ _).2

theorem eof_start_facts (w : World) (hk : ∀ n, w.kevent n = true)
    (hfork : ∀ n, w.fork n ≠ -1 ∧ w.fork n ≠ 0) (st : State) (j : jobcb) (d : Int)
    (hf : find_job st j.id = some j) (hp : j.p = 0) :
    find_job (eof_start w j d st).2 j.id = some (eof_start w j d st).1 ∧
    (eof_start w j d st).1.p ≠ 0 ∧
    (eof_start w j d st).1.ldj = launch_data_revoke_fds (some d) j.ldj ∧
    (eof_start w j d st).1.id = j.id ∧
    (eof_start w j d st).1.firstborn = j.firstborn ∧
    (eof_start w j d st).1.failed_exits ≤ j.failed_exits ∧
    (eof_start w j d st).2.forked = st.forked ++ [(eof_start w j d st).1.p] ∧
    (eof_start w j d st).2.total_children = size_t_succ st.total_children ∧
    (∀ k ∈ (eof_start w j d st).2.kq, k.filter = kq_filter.EVFILT_READ →
      (∃ id, k.udata = kq_callback.job id) → k.ident ≠ d) := by
  have hf0 : find_job (if j.debug = true then (sys_setlogmask LOG_UPTO_DEBUG st).2 else st)
      j.id = some j := (job_callback_prologue_find j st j.id).trans hf
  have hf1 : find_job (set_job { j with ldj := launch_data_revoke_fds (some d) j.ldj }
      (sys_close d (if j.debug = true then (sys_setlogmask LOG_UPTO_DEBUG st).2 else st)))
      j.id = some { j with ldj := launch_data_revoke_fds (some d) j.ldj } :=
    find_set_of_jobs j _ _ _ hf0 rfl rfl
  have hs := job_start_forks w hk hfork { j with ldj := launch_data_revoke_fds (some d) j.ldj }
    (set_job { j with ldj := launch_data_revoke_fds (some d) j.ldj }
      (sys_close d (if j.debug = true then (sys_setlogmask LOG_UPTO_DEBUG st).2 else st))) hp
  have hfk : (set_job { j with ldj := launch_data_revoke_fds (some d) j.ldj }
      (sys_close d (if j.debug = true then (sys_setlogmask LOG_UPTO_DEBUG st).2
        else st))).forked = st.forked := by
    show (if j.debug = true then (sys_setlogmask LOG_UPTO_DEBUG st).2 else st).forked = _
    split
    · unfold sys_setlogmask
      split <;> rfl
    · rfl
  have htc : (set_job { j with ldj := launch_data_revoke_fds (some d) j.ldj }
      (sys_close d (if j.debug = true then (sys_setlogmask LOG_UPTO_DEBUG st).2
        else st))).total_children = st.total_children := by
    show (if j.debug = true then (sys_setlogmask LOG_UPTO_DEBUG st).2
      else st).total_children = _
    split
    · unfold sys_setlogmask
      split <;> rfl
    · rfl
  refine ⟨job_start_find w _ _ hf1, hs.1, hs.2.1, hs.2.2.1, hs.2.2.2.1, hs.2.2.2.2.2.1, ?_, ?_,
    ?_⟩
  · exact hs.2.2.2.2.2.2.1.trans (by rw [hfk]; rfl)
  · exact hs.2.2.2.2.2.2.2.1.trans (by rw [htc])
  · intro k hk1 hr ⟨id, hu⟩ hid
    rcases hs.2.2.2.2.2.2.2.2 k hk1 with h | h | ⟨fd, h⟩
    · have h2 : k ∈ (sys_close d
          (if j.debug = true then (sys_setlogmask LOG_UPTO_DEBUG st).2 else st)).kq := h
      rw [mem_sys_close_iff] at h2
      exact h2.2 ⟨hid, Or.inl hr⟩
    · rw [hr] at h
      exact absurd h (by decide)
    · rw [hu] at h
      exact absurd h (by simp)

theorem step_exit_kq (w : World) (st : State) (j : jobcb) (hf : find_job st j.id = some j) :
    ∃ kev s0, kev.filter = kq_filter.EVFILT_PROC ∧ s0.core = st.core ∧
      (∀ k ∈ s0.kq, k ∈ st.kq) ∧ find_job s0 j.id = some j ∧
      step w st (child_exit_event st j.id) = job_callback_body w j kev j.debug
        (if j.debug = true then st.logmask else 0) s0 := by
  refine ⟨{ ident := j.p, filter := kq_filter.EVFILT_PROC, eof := false, data := 0 },
    (if j.debug = true then (sys_setlogmask LOG_UPTO_DEBUG
      { st with kq := kq_remove j.p kq_filter.EVFILT_PROC st.kq }).2
     else { st with kq := kq_remove j.p kq_filter.EVFILT_PROC st.kq }),
    rfl, ?_, ?_, ?_, ?_⟩
  · split
    · rw [sys_setlogmask_core]
      rfl
    · rfl
  · intro k hk
    have h2 : k ∈ kq_remove j.p kq_filter.EVFILT_PROC st.kq := by
      split at hk
      · rw [sys_setlogmask_kq] at hk
        exact hk
      · exact hk
    exact (mem_kq_remove_iff.1 h2).1
  · rw [job_callback_prologue_find]
    exact hf
  · unfold child_exit_event
    rw [hf]
    have hf2 : find_job { st with kq := kq_remove j.p kq_filter.EVFILT_PROC st.kq } j.id =
        some j := hf
    simp only [step, if_true, hf2]
    rfl

theorem job_reap_counter_le (w : World) (j : jobcb) (s : State) (h : j.failed_exits < 1000) :
    (job_reap w j s).1.failed_exits ≤ j.failed_exits + 1 := by
  unfold job_reap
  split
  · exact Nat.le_succ _
  · show (if _ then size_t_succ j.failed_exits else 0) ≤ _
    split
    · rw [size_t_succ_small _ h]
    · exact Nat.zero_le _

theorem job_reap_same_kq (w : World) (j : jobcb) (s : State) : (job_reap w j s).2.kq = s.kq := by
  unfold job_reap
  split <;> rfl

/-- The exit of the child of an on-demand job that is kept: no child is
forked, the record keeps its configuration, every live descriptor of the
configuration is watched, and every registration afterwards is an old one or
such a watch. -/
theorem exit_rearms (w : World) (hk : ∀ n, w.kevent n = true) (st : State) (j : jobcb)
    (hf : find_job st j.id = some j) (hfb : j.firstborn = false)
    (hipc : job_get_bool j.ldj LAUNCH_JOBKEY_SERVICEIPC = false)
    (hfe : j.failed_exits < LAUNCHD_FAILED_EXITS_THRESHOLD)
    (hod : job_get_bool j.ldj LAUNCH_JOBKEY_ONDEMAND = true) :
    (step w st (child_exit_event st j.id)).forked = st.forked ∧
    (∃ j2, find_job (step w st (child_exit_event st j.id)) j.id = some j2 ∧ j2.ldj = j.ldj) ∧
    (∀ fd ∈ live_fds j.ldj, job_watch j.id fd ∈ (step w st (child_exit_event st j.id)).kq) ∧
    (∀ k ∈ (step w st (child_exit_event st j.id)).kq, k ∈ st.kq ∨
      (k.filter = kq_filter.EVFILT_READ ∧ k.udata = kq_callback.job j.id ∧
        k.ident ∈ live_fds j.ldj)) := by
  obtain ⟨kev, s0, hkev, hco, hsub, hf0, he⟩ := step_exit_kq w st j hf
  obtain ⟨hid, hldj, hfb1, _, hfind⟩ := job_reap_fields w j s0
  have hle := job_reap_counter_le w j s0 (by unfold LAUNCHD_FAILED_EXITS_THRESHOLD at hfe; omega)
  have hnot : ¬ (job_reap w j s0).1.failed_exits > LAUNCHD_FAILED_EXITS_THRESHOLD := by
    unfold LAUNCHD_FAILED_EXITS_THRESHOLD at hfe ⊢
    omega
  have hb : step w st (child_exit_event st j.id) =
      job_callback_out j.debug (if j.debug = true then st.logmask else 0)
        (job_watch_fds w j.ldj (kq_callback.job j.id) (job_reap w j s0).2) := by
    rw [he]
    unfold job_callback_body
    simp only [hkev, if_true, hfb1, hfb, hldj, hipc, hod, hnot, Bool.false_eq_true, if_false,
      Bool.false_and]
  rw [hb]
  have hc : (job_callback_out j.debug (if j.debug = true then st.logmask else 0)
      (job_watch_fds w j.ldj (kq_callback.job j.id) (job_reap w j s0).2)).core =
      (job_reap w j s0).2.core := by
    rw [job_callback_out_core, job_watch_fds_core]
  refine ⟨?_, ⟨(job_reap w j s0).1, ?_, hldj⟩, ?_, ?_⟩
  · rw [core_forked hc, (job_reap_traces w j s0).2.1]
    exact core_forked hco
  · rw [find_job_congr (core_jobs hc)]
    exact hfind hf0
  · intro fd hfd
    rw [job_callback_out_kq]
    exact job_watch_fds_mem w hk _ _ _ fd hfd
  · intro k hk1
    rw [job_callback_out_kq] at hk1
    rcases job_watch_fds_sub w hk _ _ _ k hk1 with h | h
    · rw [job_reap_same_kq] at h
      exact Or.inl (hsub k h)
    · exact Or.inr h

theorem msg_send_pending (pack : launch_data → List Nat × List Int) (lh : launch_out)
    (d : launch_data) (sm : sendmsg_result) (hfd : lh.fd2use ≠ -1) (hp : lh.sendbuf ≠ []) :
    launchd_msg_send pack lh (some d) sm =
      { status := send_end.assertion_failed, lh := lh, written := [], passed := [] } := by
  have hl : lh.sendbuf.length ≠ 0 := fun h => hp (List.length_eq_zero.1 h)
  unfold launchd_msg_send
  rw [if_neg hfd]
  simp only [hl, ne_eq, not_false_eq_true, if_true]

theorem msg_send_partial (pack : launch_data → List Nat × List Int) (lh : launch_out)
    (d : launch_data) (r : Nat) (hfd : lh.fd2use ≠ -1) (hp : lh.sendbuf = [])
    (h1 : 16 ≤ r) (h2 : r < 16 + (pack d).1.length) :
    (launchd_msg_send pack lh (some d) (sendmsg_result.accepted r true)).status =
      send_end.returned (-1) (some EAGAIN) ∧
    (launchd_msg_send pack lh (some d) (sendmsg_result.accepted r true)).written =
      (framed pack d).take r ∧
    (launchd_msg_send pack lh (some d) (sendmsg_result.accepted r true)).lh.sendbuf =
      (pack d).1.drop (r - 16) ∧
    (launchd_msg_send pack lh (some d) (sendmsg_result.accepted r true)).lh.sendbuf ≠ [] := by
  have hlen : (msg_header (pack d).1.length).length = 16 := rfl
  have hne : ¬ (pack d).1.length = 0 := by omega
  have hr0 : ¬ r = 0 := by omega
  have hr1 : ¬ r < 16 := by omega
  have hpos : ((pack d).1.drop (r - 16)).length > 0 := by
    rw [List.length_drop]
    omega
  unfold launchd_msg_send
  rw [if_neg hfd]
  simp only [hp, List.length_nil, ne_eq, not_true_eq_false, if_false, hne, msg_send_write, hr0,
    Bool.not_true, Bool.false_eq_true, hlen, hr1, hpos, if_true]
  refine ⟨trivial, rfl, trivial, ?_⟩
  intro h
  rw [h] at hpos
  exact absurd hpos (by decide)

theorem header_magic_append (a b : List Nat) (h : 8 ≤ a.length) :
    header_magic (a ++ b) = header_magic a := by
  unfold header_magic
  rw [List.take_append_of_le_length h]

theorem header_len_append (a b : List Nat) (h : 16 ≤ a.length) :
    header_len (a ++ b) = header_len a := by
  unfold header_len
  rw [List.drop_append_of_le_length (by omega), List.take_append_of_le_length]
  rw [List.length_drop]
  omega

theorem stream_bytes_append (a b : List frame) :
    stream_bytes (a ++ b) = stream_bytes a ++ stream_bytes b := by
  induction a with
  | nil => rfl
  | cons f fs ih => simp [stream_bytes, ih]

theorem stream_fds_append (a b : List frame) :
    stream_fds (a ++ b) = stream_fds a ++ stream_fds b := by
  induction a with
  | nil => rfl
  | cons f fs ih => simp [stream_fds, ih]

theorem reads_bytes_append (a b : List (List Nat × List Int)) :
    reads_bytes (a ++ b) = reads_bytes a ++ reads_bytes b := by
  induction a with
  | nil => rfl
  | cons f fs ih => simp [reads_bytes, ih]

theorem reads_fds_append (a b : List (List Nat × List Int)) :
    reads_fds (a ++ b) = reads_fds a ++ reads_fds b := by
  induction a with
  | nil => rfl
  | cons f fs ih => simp [reads_fds, ih]

/-- The loop of `launchd_msg_recv` on a buffer that holds complete valid frames
followed by nothing or by the start of another valid frame, with a callback
that does not close the connection. -/
theorem msg_recv_loop_frames {σ : Type}
    (unpack : List Nat → List Int → Option (launch_data × Nat × Nat))
    (cb : launch_data → σ → σ × Bool) (hcb : ∀ m c, (cb m c).2 = false)
    (gs : List frame) (hv : ∀ g ∈ gs, ValidFrame unpack g) (P : List Nat) (Q : List Int)
    (hP : P = [] ∨ ∃ h t, ValidFrame unpack h ∧ t ≠ [] ∧ h.bytes = P ++ t)
    (fd : Int) (fuel : Nat) (hfuel : gs.length < fuel) (ctx : σ) (acc : List launch_data) :
    msg_recv_loop unpack cb fuel
        { fd2use := fd, recvbuf := stream_bytes gs ++ P, recvfds := stream_fds gs ++ Q } ctx acc =
      some { ret := if P = [] then 0 else -1,
             errno := if P = [] then none else some EAGAIN,
             lh := { fd2use := fd, recvbuf := P, recvfds := Q },
             ctx := gs.foldl (fun c g => (cb g.msg c).1) ctx,
             delivered := acc ++ gs.map (fun g => g.msg) } := by
  have h16 : LAUNCH_MSG_HEADER_SIZE = 16 := rfl
  induction gs generalizing fuel ctx acc with
  | nil =>
    obtain ⟨n, rfl⟩ : ∃ n, fuel = n + 1 := ⟨fuel - 1, by simp at hfuel; omega⟩
    simp only [stream_bytes, stream_fds, List.nil_append, List.foldl_nil, List.map_nil,
      List.append_nil]
    by_cases hp : P = []
    · subst hp
      simp [msg_recv_loop]
    · rcases hP with hP | ⟨h, t, hvh, ht, hb⟩
      · exact absurd hP hp
      · have hl0 : ¬ P.length = 0 := fun h0 => hp (List.length_eq_zero.1 h0)
        have htl : 0 < t.length := List.length_pos.2 ht
        have hlen : h.bytes.length = P.length + t.length := by rw [hb, List.length_append]
        by_cases hs : P.length < LAUNCH_MSG_HEADER_SIZE
        · simp [msg_recv_loop, hl0, hs, hp]
        · have hm : header_magic P = LAUNCH_MSG_HEADER_MAGIC := by
            rw [← hvh.2.1, hb, header_magic_append P t (by omega)]
          have hL : header_len P = P.length + t.length := by
            rw [← hlen, ← hvh.2.2.1, hb, header_len_append P t (by omega)]
          have hnb : ¬ (header_magic P ≠ LAUNCH_MSG_HEADER_MAGIC ∨
              header_len P ≤ LAUNCH_MSG_HEADER_SIZE) := by
            rw [hm, hL]
            intro hh
            rcases hh with hh | hh
            · exact hh rfl
            · omega
          have hlt : P.length < header_len P := by rw [hL]; omega
          simp only [msg_recv_loop, hl0, hs, hnb, hlt, if_true, if_false, hp]
  | cons g gs ih =>
    obtain ⟨n, rfl⟩ : ∃ n, fuel = n + 1 := ⟨fuel - 1, by simp at hfuel; omega⟩
    obtain ⟨hg1, hg2, hg3, hg4⟩ := hv g (List.mem_cons_self _ _)
    have hbuf : stream_bytes (g :: gs) ++ P = g.bytes ++ (stream_bytes gs ++ P) := by
      simp [stream_bytes]
    have hfds : stream_fds (g :: gs) ++ Q = g.fds ++ (stream_fds gs ++ Q) := by
      simp [stream_fds]
    rw [hbuf, hfds]
    have hl : (g.bytes ++ (stream_bytes gs ++ P)).length =
        g.bytes.length + (stream_bytes gs ++ P).length := List.length_append _ _
    have hl0 : ¬ (g.bytes ++ (stream_bytes gs ++ P)).length = 0 := by omega
    have hs : ¬ (g.bytes ++ (stream_bytes gs ++ P)).length < LAUNCH_MSG_HEADER_SIZE := by omega
    have hm : header_magic (g.bytes ++ (stream_bytes gs ++ P)) = LAUNCH_MSG_HEADER_MAGIC := by
      rw [header_magic_append _ _ (by omega), hg2]
    have hL : header_len (g.bytes ++ (stream_bytes gs ++ P)) = g.bytes.length := by
      rw [header_len_append _ _ (by omega), hg3]
    have hnb : ¬ (header_magic (g.bytes ++ (stream_bytes gs ++ P)) ≠ LAUNCH_MSG_HEADER_MAGIC ∨
        header_len (g.bytes ++ (stream_bytes gs ++ P)) ≤ LAUNCH_MSG_HEADER_SIZE) := by
      rw [hm, hL]
      intro hh
      rcases hh with hh | hh
      · exact hh rfl
      · omega
    have hlt : ¬ (g.bytes ++ (stream_bytes gs ++ P)).length <
        header_len (g.bytes ++ (stream_bytes gs ++ P)) := by rw [hL]; omega
    have hih := ih (fun x hx => hv x (List.mem_cons_of_mem _ hx)) n
      (by simp at hfuel; omega) (cb g.msg ctx).1 (acc ++ [g.msg])
    simp only [msg_recv_loop, hl0, hs, hnb, hlt, if_false, hg4, hcb, Bool.false_eq_true,
      List.drop_left, hih, List.foldl_cons, List.map_cons, List.append_assoc,
      List.singleton_append]

theorem stream_bytes_length_ge {unpack : List Nat → List Int → Option (launch_data × Nat × Nat)}
    (gs : List frame) (hv : ∀ g ∈ gs, ValidFrame unpack g) :
    gs.length ≤ (stream_bytes gs).length := by
  induction gs with
  | nil => exact Nat.le_refl _
  | cons g gs ih =>
    have h1 := (hv g (List.mem_cons_self _ _)).1
    have h2 := ih (fun x hx => hv x (List.mem_cons_of_mem _ hx))
    have h16 : LAUNCH_MSG_HEADER_SIZE = 16 := rfl
    simp only [stream_bytes, List.length_append, List.length_cons]
    omega

/-- One call of `launchd_msg_recv` after which the buffer holds complete valid
frames followed by nothing or by the start of another valid frame. -/
theorem launchd_msg_recv_frames {σ : Type}
    (unpack : List Nat → List Int → Option (launch_data × Nat × Nat))
    (cb : launch_data → σ → σ × Bool) (hcb : ∀ m c, (cb m c).2 = false)
    (lh : launch) (hfd : lh.fd2use ≠ -1) (bytes : List Nat) (fds : List Int)
    (hb : bytes ≠ []) (gs : List frame) (hv : ∀ g ∈ gs, ValidFrame unpack g)
    (P : List Nat) (Q : List Int)
    (hP : P = [] ∨ ∃ h t, ValidFrame unpack h ∧ t ≠ [] ∧ h.bytes = P ++ t)
    (h1 : lh.recvbuf ++ bytes = stream_bytes gs ++ P)
    (h2 : lh.recvfds ++ fds = stream_fds gs ++ Q) (ctx : σ) :
    launchd_msg_recv unpack lh (recvmsg_result.received bytes fds false) cb ctx =
      some { ret := if P = [] then 0 else -1,
             errno := if P = [] then none else some EAGAIN,
             lh := { fd2use := lh.fd2use, recvbuf := P, recvfds := Q },
             ctx := gs.foldl (fun c g => (cb g.msg c).1) ctx,
             delivered := gs.map (fun g => g.msg) } := by
  have hb0 : ¬ bytes.length = 0 := fun h => hb (List.length_eq_zero.1 h)
  have hlen : gs.length < lh.recvbuf.length + bytes.length + 1 := by
    have h3 := stream_bytes_length_ge gs hv
    have h4 : (lh.recvbuf ++ bytes).length = (stream_bytes gs ++ P).length := by rw [h1]
    simp only [List.length_append] at h4
    omega
  unfold launchd_msg_recv
  simp only [hfd, hb0, if_false, Bool.false_eq_true]
  have h5 := msg_recv_loop_frames unpack cb hcb gs hv P Q hP lh.fd2use
    (lh.recvbuf.length + bytes.length + 1) hlen ctx []
  rw [← h1, ← h2] at h5
  simpa using h5

theorem append_split_left {α : Type} (a b c d : List α) (h : a ++ b = c ++ d)
    (hl : c.length ≤ a.length) : ∃ t, a = c ++ t ∧ t ++ b = d := by
  rcases List.append_eq_append_iff.1 h with ⟨t, h1, h2⟩ | ⟨t, h1, h2⟩
  · have : t = [] := by
      have h3 : c.length = a.length + t.length := by rw [h1, List.length_append]
      exact List.length_eq_zero.1 (by omega)
    subst this
    exact ⟨[], by simpa using h1.symm, by simpa using h2⟩
  · exact ⟨t, h1, h2.symm⟩

theorem append_split_short {α : Type} (a b c d : List α) (h : a ++ b = c ++ d)
    (hl : a.length < c.length) : ∃ t, t ≠ [] ∧ c = a ++ t := by
  rcases List.append_eq_append_iff.1 h with ⟨t, h1, _⟩ | ⟨t, h1, _⟩
  · refine ⟨t, ?_, h1⟩
    intro ht
    rw [h1, ht] at hl
    simp at hl
  · have h3 : a.length = c.length + t.length := by rw [h1, List.length_append]
    omega

/-- A prefix of the bytes of a sequence of frames is the bytes of the first
frames followed by less than the next frame. -/
theorem stream_prefix_split {unpack : List Nat → List Int → Option (launch_data × Nat × Nat)}
    (fs : List frame) (hv : ∀ f ∈ fs, ValidFrame unpack f) (X Y : List Nat)
    (h : X ++ Y = stream_bytes fs) :
    ∃ gs hs P, fs = gs ++ hs ∧ X = stream_bytes gs ++ P ∧
      (∀ f ∈ hs.head?, P.length < f.bytes.length) ∧ (hs = [] → P = []) := by
  induction fs generalizing X with
  | nil =>
    have hx : X = [] := (List.append_eq_nil.1 h).1
    exact ⟨[], [], [], rfl, by simp [hx, stream_bytes], by simp, fun _ => rfl⟩
  | cons f fs ih =>
    by_cases hlt : X.length < f.bytes.length
    · refine ⟨[], f :: fs, X, rfl, by simp [stream_bytes], ?_, ?_⟩
      · intro g hg
        simp only [List.head?_cons, Option.mem_def, Option.some.injEq] at hg
        rw [← hg]
        exact hlt
      · intro h0
        exact absurd h0 (List.cons_ne_nil _ _)
    · have h2 : X ++ Y = f.bytes ++ stream_bytes fs := h
      obtain ⟨t, ht1, ht2⟩ := append_split_left X Y f.bytes (stream_bytes fs) h2 (by omega)
      obtain ⟨gs, hs, P, e1, e2, e3, e4⟩ :=
        ih (fun x hx => hv x (List.mem_cons_of_mem _ hx)) t ht2
      refine ⟨f :: gs, hs, P, by rw [e1]; rfl, ?_, e3, e4⟩
      rw [ht1, e2]
      simp [stream_bytes]

theorem recv_reads_frames {σ : Type}
    (unpack : List Nat → List Int → Option (launch_data × Nat × Nat))
    (cb : launch_data → σ → σ × Bool) (hcb : ∀ m c, (cb m c).2 = false)
    (cs : List (List Nat × List Int)) :
    ∀ (fs : List frame) (lh : launch) (ctx : σ), lh.fd2use ≠ -1 →
      (∀ f ∈ fs, ValidFrame unpack f) → (∀ c ∈ cs, c.1 ≠ []) →
      lh.recvbuf ++ reads_bytes cs = stream_bytes fs →
      lh.recvfds ++ reads_fds cs = stream_fds fs →
      (∀ f ∈ fs.head?, lh.recvbuf.length < f.bytes.length) →
      (∀ cs1 cs2, cs = cs1 ++ cs2 → ∀ k,
        (stream_bytes (fs.take k)).length ≤ lh.recvbuf.length + (reads_bytes cs1).length →
        (stream_fds (fs.take k)).length ≤ lh.recvfds.length + (reads_fds cs1).length) →
      ∃ q, recv_reads unpack cb lh ctx cs = some q ∧
        q.delivered = fs.map (fun f => f.msg) ∧
        q.ctx = fs.foldl (fun c f => (cb f.msg c).1) ctx ∧
        q.lh = { fd2use := lh.fd2use, recvbuf := [], recvfds := [] } ∧
        q.returns.length = cs.length ∧
        ∀ x ∈ q.returns, x = (0, none) ∨ x = (-1, some EAGAIN) := by
  induction cs with
  | nil =>
    intro fs lh ctx _ hv _ hb hf hinc _
    simp only [reads_bytes, reads_fds, List.append_nil] at hb hf
    have hfs : fs = [] := by
      cases fs with
      | nil => rfl
      | cons f fs =>
        exfalso
        have h1 := hinc f (by simp)
        rw [hb] at h1
        simp [stream_bytes] at h1
    subst hfs
    refine ⟨{ lh := lh, ctx := ctx, delivered := [], returns := [] }, rfl, rfl, rfl, ?_, rfl, ?_⟩
    · cases lh
      simp only [stream_bytes, stream_fds] at hb hf
      simp only [launch.mk.injEq, true_and]
      exact ⟨hb, hf⟩
    · intro x hx
      exact absurd hx (List.not_mem_nil _)
  | cons c cs ih =>
    intro fs lh ctx hfd hv hne hb hf hinc htime
    have hb1 : (lh.recvbuf ++ c.1) ++ reads_bytes cs = stream_bytes fs := by
      rw [List.append_assoc]
      exact hb
    obtain ⟨gs, hs, P, e1, e2, e3, e4⟩ := stream_prefix_split fs hv (lh.recvbuf ++ c.1) _ hb1
    have hvg : ∀ g ∈ gs, ValidFrame unpack g := fun g hg =>
      hv g (by rw [e1]; exact List.mem_append_left _ hg)
    have hvh : ∀ g ∈ hs, ValidFrame unpack g := fun g hg =>
      hv g (by rw [e1]; exact List.mem_append_right _ hg)
    -- the bytes left for the later reads
    have hb2 : P ++ reads_bytes cs = stream_bytes hs := by
      have h3 := hb1
      rw [e2, e1, stream_bytes_append, List.append_assoc] at h3
      exact List.append_cancel_left h3
    -- the descriptors of the complete frames have arrived
    have hlenX : (stream_bytes gs).length + P.length = lh.recvbuf.length + c.1.length := by
      have := congrArg List.length e2
      simp only [List.length_append] at this
      omega
    have htk : fs.take gs.length = gs := by
      rw [e1]
      exact List.take_left _ _
    have hfl : (stream_fds gs).length ≤ (lh.recvfds ++ c.2).length := by
      have h4 := htime [c] cs rfl gs.length
      rw [htk] at h4
      simp only [reads_bytes, reads_fds, List.append_nil] at h4
      rw [List.length_append]
      exact h4 (by omega)
    have hf1 : (lh.recvfds ++ c.2) ++ reads_fds cs = stream_fds gs ++ stream_fds hs := by
      rw [List.append_assoc, ← stream_fds_append, ← e1]
      exact hf
    obtain ⟨Q, hq1, hq2⟩ := append_split_left _ _ _ _ hf1 hfl
    have hP : P = [] ∨ ∃ h t, ValidFrame unpack h ∧ t ≠ [] ∧ h.bytes = P ++ t := by
      cases hs with
      | nil => exact Or.inl (e4 rfl)
      | cons h hs2 =>
        right
        have h5 : P ++ reads_bytes cs = h.bytes ++ stream_bytes hs2 := hb2
        obtain ⟨t, ht1, ht2⟩ := append_split_short _ _ _ _ h5 (e3 h (by simp))
        exact ⟨h, t, hvh h (List.mem_cons_self _ _), ht1, ht2⟩
    have hcall := launchd_msg_recv_frames unpack cb hcb lh hfd c.1 c.2
      (hne c (List.mem_cons_self _ _)) gs hvg P Q hP e2 hq1 ctx
    have hlenQ : (stream_fds gs).length + Q.length = lh.recvfds.length + c.2.length := by
      have := congrArg List.length hq1
      simp only [List.length_append] at this
      omega
    obtain ⟨q, r1, r2, r3, r4, r5, r6⟩ := ih hs
      { fd2use := lh.fd2use, recvbuf := P, recvfds := Q }
      (gs.foldl (fun c g => (cb g.msg c).1) ctx) hfd hvh
      (fun x hx => hne x (List.mem_cons_of_mem _ hx)) hb2 hq2 e3
      (by
        intro cs1 cs2 hcs k hk
        have h6 := htime (c :: cs1) cs2 (by rw [hcs]; rfl) (gs.length + k)
        have htk2 : fs.take (gs.length + k) = gs ++ hs.take k := by
          rw [e1]
          exact List.take_append _
        rw [htk2, stream_bytes_append, stream_fds_append] at h6
        simp only [reads_bytes, reads_fds, List.length_append] at h6
        simp only at hk ⊢
        have := h6 (by omega)
        omega)
    refine ⟨{ lh := q.lh, ctx := q.ctx,
              delivered := gs.map (fun g => g.msg) ++ q.delivered,
              returns := (if P = [] then 0 else -1, if P = [] then none else some EAGAIN) ::
                q.returns }, ?_, ?_, ?_, r4, ?_, ?_⟩
    · simp only [recv_reads, hcall, r1]
    · simp only [r2, e1, List.map_append]
    · simp only [r3, e1, List.foldl_append]
    · simp only [List.length_cons, r5]
    · intro x hx
      rcases List.mem_cons.1 hx with h7 | h7
      · rw [h7]
        by_cases hp : P = []
        · left
          simp [hp]
        · right
          simp [hp]
      · exact r6 x h7

theorem getjobs_request_valid : ValidFrame sample_unpack getjobs_request := by
  refine ⟨by decide, by decide, by decide, ?_⟩
  intro rest more
  have h7 : "GetJobs".length % 256 = 7 := by decide
  simp [getjobs_request, getjobs_frame, framed, msg_header, host2wire, sample_pack,
    sample_unpack, LAUNCH_KEY_GETJOBS, LAUNCH_MSG_HEADER_MAGIC, LAUNCH_MSG_HEADER_SIZE, h7]

theorem fd_request_valid : ValidFrame sample_unpack fd_request := by
  refine ⟨by decide, by decide, by decide, ?_⟩
  intro rest more
  simp [fd_request, framed, msg_header, host2wire, sample_pack,
    sample_unpack, LAUNCH_MSG_HEADER_MAGIC, LAUNCH_MSG_HEADER_SIZE]

theorem job_start_counter_gap (w : World) (j : jobcb) (st : State)
    (hgap : (timersub (job_start w j st).1.start_time j.start_time).tv_sec <
      LAUNCHD_REWARD_JOB_RUN_TIME) :
    (job_start w j st).1.failed_exits = j.failed_exits := by
  unfold job_start at hgap ⊢
  by_cases hp : j.p ≠ 0
  · rw [if_pos hp]
  · rw [if_neg hp] at hgap ⊢
    simp only at hgap ⊢
    split_ifs at hgap ⊢ <;> first | rfl | (simp only [ge_iff_le] at *; omega)

theorem short_interval_lt (id : Nat) (a b : State) (j1 j2 : jobcb)
    (h : short_interval id a b = true) (h1 : find_job a id = some j1)
    (h2 : find_job b id = some j2) :
    (timersub j2.start_time j1.start_time).tv_sec < LAUNCHD_REWARD_JOB_RUN_TIME := by
  unfold short_interval start_interval at h
  rw [h1, h2] at h
  simpa using h

theorem callback_start_find (w : World) (d : Bool) (m : Int) (j : jobcb) (s : State)
    (hf : find_job s j.id = some j) :
    find_job (job_callback_start w d m (j, s)) j.id = some (job_start w j s).1 := by
  unfold job_callback_start
  simp only
  rw [← job_start_find w j s hf]
  apply find_job_congr
  split_ifs <;> simp

theorem rerun_counted_gap (w : World) (id : Nat) (ldj : launch_data) (k : Nat) (s : State)
    (hgap : short_interval id s (rerun_if_idle w id s) = true)
    (hc : Counted id ldj k s) : Counted id ldj k (rerun_if_idle w id s) := by
  obtain ⟨j, hf, hldj, hfb, hk⟩ := hc
  have hid : j.id = id := (find_job_mem hf).2
  by_cases hp : j.p = 0
  · obtain ⟨s0, hstep, hjobs⟩ := step_job_eq w s id
      { ident := 0, filter := kq_filter.EVFILT_READ, eof := false, data := 1 } j hf
    have he : rerun_if_idle w id s = job_callback_start w j.debug
        (if j.debug = true then s0.logmask else 0)
        (j, if j.debug = true then (sys_setlogmask LOG_UPTO_DEBUG s0).2 else s0) := by
      unfold rerun_if_idle
      rw [hf]
      simp only [hp, if_true]
      unfold demand_event
      rw [hstep]
      unfold job_callback_body
      simp only [reduceCtorEq, if_false, Bool.false_eq_true, false_and, and_false]
    have hf0 : find_job (if j.debug = true then (sys_setlogmask LOG_UPTO_DEBUG s0).2 else s0)
        j.id = some j := by
      rw [job_callback_prologue_find, find_job_congr hjobs, hid]
      exact hf
    have hf2 := callback_start_find w j.debug (if j.debug = true then s0.logmask else 0) j _ hf0
    rw [← he, hid] at hf2
    have hlt := short_interval_lt id _ _ j _ hgap hf hf2
    have hs := job_start_jobs w j
      (if j.debug = true then (sys_setlogmask LOG_UPTO_DEBUG s0).2 else s0)
    exact ⟨_, hf2, hs.1.2.1.trans hldj, hs.1.2.2.1.trans hfb,
      (job_start_counter_gap w j _ hlt).trans hk⟩
  · have he : rerun_if_idle w id s = s := by
      unfold rerun_if_idle
      rw [hf]
      simp only [hp, if_false]
    rw [he]
    exact ⟨j, hf, hldj, hfb, hk⟩

theorem exit_counted_gap (w : World) (id : Nat) (ldj : launch_data) (k : Nat) (s : State)
    (hbad : ∀ n, ∃ x, reap_status w n = some x ∧ bad_exit x = true)
    (hipc : job_get_bool ldj LAUNCH_JOBKEY_SERVICEIPC = false) (hle : k < 10)
    (hgap : short_interval id s (step w s (child_exit_event s id)) = true)
    (hc : Counted id ldj k s) :
    Counted id ldj (k + 1) (step w s (child_exit_event s id)) := by
  obtain ⟨j, hf, hldj, hfb, hk⟩ := hc
  obtain ⟨kev, hev, hkev⟩ := exit_event_filter s id
  obtain ⟨s0, hstep, hjobs⟩ := step_job_eq w s id kev j hf
  have hid : j.id = id := (find_job_mem hf).2
  subst hid
  subst hldj
  have hf0 : find_job (if j.debug = true then (sys_setlogmask LOG_UPTO_DEBUG s0).2 else s0)
      j.id = some j := by
    rw [job_callback_prologue_find, find_job_congr hjobs]
    exact hf
  obtain ⟨j1, s1, hr, hid1, hldj1, hfb1, hcnt, hp, hst, hfind⟩ := job_reap_bad_facts w j
    (if j.debug = true then (sys_setlogmask LOG_UPTO_DEBUG s0).2 else s0) hbad
  have hsucc : j1.failed_exits = k + 1 := by
    rw [hcnt, hk]
    exact size_t_succ_small k (by omega)
  have hf1 := hfind hf0
  rw [← hid1] at hf1
  have hnot : ¬ k + 1 > LAUNCHD_FAILED_EXITS_THRESHOLD := by
    unfold LAUNCHD_FAILED_EXITS_THRESHOLD
    omega
  have hbody : step w s (child_exit_event s j.id) =
      if job_get_bool j.ldj LAUNCH_JOBKEY_ONDEMAND = true then
        job_callback_out j.debug (if j.debug = true then s0.logmask else 0)
          (job_watch_fds w j1.ldj (kq_callback.job j.id) s1)
      else job_callback_start w j.debug (if j.debug = true then s0.logmask else 0) (j1, s1) := by
    rw [hev, hstep]
    unfold job_callback_body
    simp only [hkev, if_true, hr, hfb1, hfb, hldj1, hipc, hsucc, hnot, Bool.false_eq_true,
      if_false, Bool.false_and]
  rw [hbody] at hgap ⊢
  by_cases hod : job_get_bool j.ldj LAUNCH_JOBKEY_ONDEMAND = true
  · rw [if_pos hod]
    refine ⟨j1, ?_, hldj1, hfb1.trans hfb, hsucc⟩
    rw [← hid1, ← hf1]
    apply find_job_congr
    simp
  · rw [if_neg hod] at hgap ⊢
    have hf2 := callback_start_find w j.debug (if j.debug = true then s0.logmask else 0)
      j1 s1 hf1
    rw [hid1] at hf2
    have hlt := short_interval_lt j.id _ _ j _ hgap hf hf2
    rw [← hst] at hlt
    have hs := job_start_jobs w j1 s1
    exact ⟨_, hf2, hs.1.2.1.trans hldj1, hs.1.2.2.1.trans (hfb1.trans hfb),
      (job_start_counter_gap w j1 s1 hlt).trans hsucc⟩

theorem exit_gone_counted (w : World) (id : Nat) (ldj : launch_data) (s : State)
    (hbad : ∀ n, ∃ x, reap_status w n = some x ∧ bad_exit x = true)
    (hipc : job_get_bool ldj LAUNCH_JOBKEY_SERVICEIPC = false)
    (hc : Counted id ldj 10 s) :
    find_job (step w s (child_exit_event s id)) id = none := by
  obtain ⟨j, hf, hldj, hfb, hk⟩ := hc
  obtain ⟨kev, hev, hkev⟩ := exit_event_filter s id
  obtain ⟨s0, hstep, hjobs⟩ := step_job_eq w s id kev j hf
  have hid : j.id = id := (find_job_mem hf).2
  rw [hev, hstep]
  subst hid
  subst hldj
  exact exit_body_gone w j kev _ _ _ hbad hkev hfb hipc hk

theorem after_exits_counted_gap (w : World) (id : Nat) (ldj : launch_data) (st : State)
    (hbad : ∀ n, ∃ x, reap_status w n = some x ∧ bad_exit x = true)
    (hipc : job_get_bool ldj LAUNCH_JOBKEY_SERVICEIPC = false)
    (hgap : ∀ n, n < 11 →
      short_interval id (after_exits w id n st) (rerun_if_idle w id (after_exits w id n st)) =
        true ∧
      short_interval id (rerun_if_idle w id (after_exits w id n st))
        (after_exits w id (n + 1) st) = true)
    (h0 : Counted id ldj 0 st) (k : Nat) (hk : k ≤ 10) :
    Counted id ldj k (after_exits w id k st) := by
  induction k with
  | zero => exact h0
  | succ k ih =>
    have hg := hgap k (by omega)
    have h2 : after_exits w id (k + 1) st =
        step w (rerun_if_idle w id (after_exits w id k st))
          (child_exit_event (rerun_if_idle w id (after_exits w id k st)) id) := rfl
    rw [h2] at hg ⊢
    exact exit_counted_gap w id ldj k _ hbad hipc (by omega) hg.2
      (rerun_counted_gap w id ldj k _ hg.1 (ih (by omega)))

theorem short_interval_absent (id : Nat) (a b : State) (h : find_job b id = none) :
    short_interval id a b = true := by
  unfold short_interval start_interval
  rw [h]
  cases find_job a id <;> rfl

theorem after_exit_absent (w : World) (id : Nat) (s : State) (h : find_job s id = none) :
    find_job (step w (rerun_if_idle w id s) (child_exit_event (rerun_if_idle w id s) id)) id =
      none := by
  have he : rerun_if_idle w id s = s := by
    unfold rerun_if_idle
    rw [h]
  rw [he]
  unfold child_exit_event
  rw [h]
  have h2 : find_job { s with kq := kq_remove 0 kq_filter.EVFILT_PROC s.kq } id = none := h
  simp only [step, if_true, h2]

theorem after_exits_settled (w : World) (id : Nat) (ldj : launch_data) (st : State) (c0 : Nat)
    (hbad : ∀ n, ∃ x, reap_status w n = some x ∧ bad_exit x = true)
    (hipc : job_get_bool ldj LAUNCH_JOBKEY_SERVICEIPC = false)
    (hgap : ∀ n, n < 11 →
      short_interval id (after_exits w id n st) (rerun_if_idle w id (after_exits w id n st)) =
        true ∧
      short_interval id (rerun_if_idle w id (after_exits w id n st))
        (after_exits w id (n + 1) st) = true)
    (h0 : Counted id ldj c0 st) (hc0 : c0 ≤ 10) (k : Nat) (hk : k ≤ 11) :
    (c0 + k ≤ 10 ∧ Counted id ldj (c0 + k) (after_exits w id k st)) ∨
      find_job (after_exits w id k st) id = none := by
  induction k with
  | zero =>
    exact Or.inl ⟨hc0, h0⟩
  | succ k ih =>
    have hg := hgap k (by omega)
    have h2 : after_exits w id (k + 1) st =
        step w (rerun_if_idle w id (after_exits w id k st))
          (child_exit_event (rerun_if_idle w id (after_exits w id k st)) id) := rfl
    rw [h2] at hg ⊢
    rcases ih (by omega) with ⟨hle, hc⟩ | hnone
    · have hB := rerun_counted_gap w id ldj (c0 + k) _ hg.1 hc
      by_cases h10 : c0 + k < 10
      · exact Or.inl ⟨by omega, exit_counted_gap w id ldj (c0 + k) _ hbad hipc h10 hg.2 hB⟩
      · have he : c0 + k = 10 := by omega
        rw [he] at hB
        exact Or.inr (exit_gone_counted w id ldj _ hbad hipc hB)
    · exact Or.inr (after_exit_absent w id _ hnone)

theorem flapping_state_ok : RegistryOk flapping_state :=
  load_job_ok World.calm _ State.init init_ok

theorem flapping_gaps (n : Nat) (hn : n < 11) :
    short_interval 0 (after_exits World.calm 0 n flapping_state)
        (rerun_if_idle World.calm 0 (after_exits World.calm 0 n flapping_state)) = true ∧
    short_interval 0 (rerun_if_idle World.calm 0 (after_exits World.calm 0 n flapping_state))
        (after_exits World.calm 0 (n + 1) flapping_state) = true :=
  match n, hn with
  | 0, _ => ⟨rfl, rfl⟩
  | 1, _ => ⟨rfl, rfl⟩
  | 2, _ => ⟨rfl, rfl⟩
  | 3, _ => ⟨rfl, rfl⟩
  | 4, _ => ⟨rfl, rfl⟩
  | 5, _ => ⟨rfl, rfl⟩
  | 6, _ => ⟨rfl, rfl⟩
  | 7, _ => ⟨rfl, rfl⟩
  | 8, _ => ⟨rfl, rfl⟩
  | 9, _ => ⟨rfl, rfl⟩
  | 10, _ =>
    ⟨rfl, short_interval_absent 0 _ _
      (exit_gone_counted World.calm 0 flapping_job.ldj _
        (fun _ => ⟨wait_status.exited 1, rfl, rfl⟩) rfl
        ⟨{ flapping_job with p := 141, start_time := { tv_sec := 1000000040, tv_usec := 0 },
                             failed_exits := 10 }, rfl, rfl, rfl, rfl⟩)⟩
  | n + 11, h => absurd h (by omega)

/-! ## Theorems -/

/-- C1: submitting a configuration whose Label is the label of a registered
job is answered with EEXIST and leaves the whole engine state as it was (same
jobs in the same order with the same contents, same child count, nothing
forked), both in `load_job` and through the `SubmitJob` command. -/
theorem load_job_existing_label (w : World) (st : State) (pload : launch_data) (l : String)
    (rmc : readmsg_context)
    (hp : launch_data_dict_lookup pload LAUNCH_JOBKEY_LABEL = some (launch_data.string l))
    (hj : ∃ j ∈ st.jobs, job_label j = some l) (hr : rmc.resp = none) :
    load_job w pload st = (launch_data_new_errno EEXIST, pload, st) ∧
    ipc_readmsg2 w (some pload) LAUNCH_KEY_SUBMITJOB rmc st =
      (some pload, { rmc with resp := some (launch_data_new_errno EEXIST) }, st) := by
  have hany : st.jobs.any (label_is (some l)) = true := (any_label_is_iff l st.jobs).2 hj
  have h1 : load_job w pload st = (launch_data_new_errno EEXIST, pload, st) := by
    unfold load_job
    rw [hp]
    simp only [launch_data_get_string, hany, if_true]
  refine ⟨h1, ?_⟩
  cases pload with
  | array xs => simp [lookup_array_none] at hp
  | _ =>
    simp [ipc_readmsg2, hr, h1, LAUNCH_KEY_SUBMITJOB, LAUNCH_KEY_STARTJOB,
      LAUNCH_KEY_STOPJOB, LAUNCH_KEY_REMOVEJOB]

theorem load_job_existing_label_witness :
    load_job World.calm (sample_config "a" []) sample_state =
        (launch_data_new_errno EEXIST, sample_config "a" [], sample_state) ∧
    ipc_readmsg2 World.calm (some (sample_config "a" [])) LAUNCH_KEY_SUBMITJOB
        { c := sample_conn, resp := none } sample_state =
      (some (sample_config "a" []),
        { c := sample_conn, resp := some (launch_data_new_errno EEXIST) }, sample_state) :=
  load_job_existing_label World.calm sample_state (sample_config "a" []) "a"
    { c := sample_conn, resp := none } rfl
    ⟨_, List.mem_singleton.2 rfl, rfl⟩ rfl

/-- C3 (as stated, refuted): a configuration without ProgramArguments whose
Label is that of a registered job is answered with EEXIST, not EINVAL. -/
theorem load_job_no_program_arguments_eexist :
    launch_data_dict_lookup
        (launch_data.dictionary [(LAUNCH_JOBKEY_LABEL, launch_data.string "a")])
        LAUNCH_JOBKEY_PROGRAMARGUMENTS = none ∧
    (load_job World.calm
        (launch_data.dictionary [(LAUNCH_JOBKEY_LABEL, launch_data.string "a")])
        sample_state).1 = launch_data_new_errno EEXIST ∧
    (load_job World.calm
        (launch_data.dictionary [(LAUNCH_JOBKEY_LABEL, launch_data.string "a")])
        sample_state).1 ≠ launch_data_new_errno EINVAL := by
  refine ⟨rfl, rfl, ?_⟩
  have h : (load_job World.calm
      (launch_data.dictionary [(LAUNCH_JOBKEY_LABEL, launch_data.string "a")])
      sample_state).1 = launch_data.errno 17 := rfl
  rw [h]
  simp [launch_data_new_errno, EINVAL]

/-- C3 (amended): for a configuration without ProgramArguments, `load_job`
changes nothing in the engine state (no job added, no child started) and
replies EEXIST when the configuration has a Label that a registered job
carries, EINVAL in every other case. -/
theorem load_job_no_program_arguments (w : World) (st : State) (pload : launch_data)
    (h : launch_data_dict_lookup pload LAUNCH_JOBKEY_PROGRAMARGUMENTS = none) :
    (load_job w pload st).2.2 = st ∧
    (load_job w pload st).2.1 = pload ∧
    (load_job w pload st).1 =
      (if ((launch_data_dict_lookup pload LAUNCH_JOBKEY_LABEL).any
            (fun label => st.jobs.any (label_is (launch_data_get_string label)))) = true
        then launch_data_new_errno EEXIST else launch_data_new_errno EINVAL) := by
  unfold load_job
  cases hl : launch_data_dict_lookup pload LAUNCH_JOBKEY_LABEL with
  | none => simp
  | some label =>
    by_cases ha : st.jobs.any (label_is (launch_data_get_string label)) = true
    · simp [ha]
    · simp [ha, h]

theorem load_job_no_program_arguments_witness :
    (load_job World.calm (launch_data.dictionary []) sample_state).2.2 = sample_state ∧
    (load_job World.calm (launch_data.dictionary []) sample_state).2.1 =
      launch_data.dictionary [] ∧
    (load_job World.calm (launch_data.dictionary []) sample_state).1 =
      (if ((launch_data_dict_lookup (launch_data.dictionary []) LAUNCH_JOBKEY_LABEL).any
            (fun label => sample_state.jobs.any (label_is (launch_data_get_string label)))) = true
        then launch_data_new_errno EEXIST else launch_data_new_errno EINVAL) :=
  load_job_no_program_arguments World.calm sample_state (launch_data.dictionary []) rfl

/-- C4: an array payload of `SubmitJob` is answered with an array holding, at
each index, the code `load_job` gives for that configuration in the registry
left by the configurations before it, so the reply is as long as the payload,
and the state afterwards is the registry left by all of them; a dictionary
payload is answered with the bare code of `load_job`, which is an errno node,
while the same dictionary wrapped in a one-element array is answered with a
one-element array. -/
theorem submit_array_reply (w : World) (st : State) (c : conncb) (xs : List launch_data)
    (kvs : List (String × launch_data)) :
    (ipc_readmsg2 w (some (launch_data.array xs)) LAUNCH_KEY_SUBMITJOB
        { c := c, resp := none } st).2.1.resp =
      some (launch_data.array (xs.enum.map
        (fun ix => (load_job w ix.2 (registry_after w st (xs.take ix.1))).1))) ∧
    (xs.enum.map
        (fun ix => (load_job w ix.2 (registry_after w st (xs.take ix.1))).1)).length =
      xs.length ∧
    (ipc_readmsg2 w (some (launch_data.array xs)) LAUNCH_KEY_SUBMITJOB
        { c := c, resp := none } st).2.2 = registry_after w st xs ∧
    (ipc_readmsg2 w (some (launch_data.dictionary kvs)) LAUNCH_KEY_SUBMITJOB
        { c := c, resp := none } st).2.1.resp =
      some (load_job w (launch_data.dictionary kvs) st).1 ∧
    (∃ e, (load_job w (launch_data.dictionary kvs) st).1 = launch_data.errno e) ∧
    (ipc_readmsg2 w (some (launch_data.array [launch_data.dictionary kvs]))
        LAUNCH_KEY_SUBMITJOB { c := c, resp := none } st).2.1.resp =
      some (launch_data.array [(load_job w (launch_data.dictionary kvs) st).1]) := by
  have hresp := load_jobs_resp w st xs []
  simp only [registry_after, List.foldl_nil, List.length_nil, List.nil_append] at hresp
  have hst := load_jobs_state w xs st
  refine ⟨?_, by simp, ?_, ?_, ?_, ?_⟩
  · simp [ipc_readmsg2, LAUNCH_KEY_SUBMITJOB, LAUNCH_KEY_STARTJOB, LAUNCH_KEY_STOPJOB,
      LAUNCH_KEY_REMOVEJOB, List.enum, hresp, registry_after]
  · simp [ipc_readmsg2, LAUNCH_KEY_SUBMITJOB, LAUNCH_KEY_STARTJOB, LAUNCH_KEY_STOPJOB,
      LAUNCH_KEY_REMOVEJOB, hst]
  · simp [ipc_readmsg2, LAUNCH_KEY_SUBMITJOB, LAUNCH_KEY_STARTJOB, LAUNCH_KEY_STOPJOB,
      LAUNCH_KEY_REMOVEJOB]
  · unfold load_job
    cases launch_data_dict_lookup (launch_data.dictionary kvs) LAUNCH_JOBKEY_LABEL with
    | none => exact ⟨_, rfl⟩
    | some label =>
      simp only [launch_data_new_errno]
      split
      · exact ⟨_, rfl⟩
      · split
        · exact ⟨_, rfl⟩
        · exact ⟨_, rfl⟩
  · simp [ipc_readmsg2, LAUNCH_KEY_SUBMITJOB, LAUNCH_KEY_STARTJOB, LAUNCH_KEY_STOPJOB,
      LAUNCH_KEY_REMOVEJOB, load_jobs]

/-- C5: `StartJob`, `StopJob` and `RemoveJob` with a label string reply 0 when
a registered job carries the label and ESRCH otherwise; a reply of ESRCH comes
with an engine state that is unchanged altogether; and `StopJob` never changes
anything but the trace of signals sent, so the job stays registered with the
pid it had. -/
theorem start_stop_remove_reply (w : World) (st : State) (c : conncb) (l cmd : String)
    (hcmd : cmd = LAUNCH_KEY_STARTJOB ∨ cmd = LAUNCH_KEY_STOPJOB ∨ cmd = LAUNCH_KEY_REMOVEJOB) :
    ((∃ j ∈ st.jobs, job_label j = some l) →
      (ipc_readmsg2 w (some (launch_data.string l)) cmd { c := c, resp := none } st).2.1.resp =
        some (launch_data_new_errno 0)) ∧
    ((¬ ∃ j ∈ st.jobs, job_label j = some l) →
      (ipc_readmsg2 w (some (launch_data.string l)) cmd { c := c, resp := none } st).2.1.resp =
        some (launch_data_new_errno ESRCH) ∧
      (ipc_readmsg2 w (some (launch_data.string l)) cmd { c := c, resp := none } st).2.2 = st) ∧
    (∃ ks, (ipc_readmsg2 w (some (launch_data.string l)) LAUNCH_KEY_STOPJOB
          { c := c, resp := none } st).2.2 = { st with kills := ks }) := by
  refine ⟨?_, ?_, ?_⟩
  · intro hj
    have hany := (any_label_is_iff l st.jobs).2 hj
    rcases hcmd with h | h | h <;> subst h <;>
      simp [ipc_readmsg2, found_or_esrch, hany, launch_data_get_string, LAUNCH_KEY_STARTJOB,
        LAUNCH_KEY_STOPJOB, LAUNCH_KEY_REMOVEJOB]
  · intro hj
    have hno := no_label_is l st.jobs hj
    have hany : st.jobs.any (label_is (some l)) = false := by
      rw [List.any_eq_false]
      intro j hjm
      simp [hno j hjm]
    rcases hcmd with h | h | h <;> subst h
    · simp [ipc_readmsg2, found_or_esrch, hany, launch_data_get_string, LAUNCH_KEY_STARTJOB,
        start_matching, foldl_no_match _ _ st.jobs st hno]
    · simp [ipc_readmsg2, found_or_esrch, hany, launch_data_get_string, LAUNCH_KEY_STARTJOB,
        LAUNCH_KEY_STOPJOB, stop_matching, foldl_no_match _ _ st.jobs st hno]
    · simp [ipc_readmsg2, found_or_esrch, hany, launch_data_get_string, LAUNCH_KEY_STARTJOB,
        LAUNCH_KEY_STOPJOB, LAUNCH_KEY_REMOVEJOB, remove_matching,
        foldl_no_match _ _ st.jobs st hno]
  · have h := stop_fold_frame (some l) st.jobs st
    simpa [ipc_readmsg2, launch_data_get_string, LAUNCH_KEY_STARTJOB, LAUNCH_KEY_STOPJOB,
      stop_matching] using h

theorem start_stop_remove_reply_witness :
    ((∃ j ∈ sample_state.jobs, job_label j = some "a") →
      (ipc_readmsg2 World.calm (some (launch_data.string "a")) LAUNCH_KEY_REMOVEJOB
        { c := sample_conn, resp := none } sample_state).2.1.resp =
        some (launch_data_new_errno 0)) ∧
    ((¬ ∃ j ∈ sample_state.jobs, job_label j = some "a") →
      (ipc_readmsg2 World.calm (some (launch_data.string "a")) LAUNCH_KEY_REMOVEJOB
        { c := sample_conn, resp := none } sample_state).2.1.resp =
        some (launch_data_new_errno ESRCH) ∧
      (ipc_readmsg2 World.calm (some (launch_data.string "a")) LAUNCH_KEY_REMOVEJOB
        { c := sample_conn, resp := none } sample_state).2.2 = sample_state) ∧
    (∃ ks, (ipc_readmsg2 World.calm (some (launch_data.string "a")) LAUNCH_KEY_STOPJOB
          { c := sample_conn, resp := none } sample_state).2.2 =
        { sample_state with kills := ks }) :=
  start_stop_remove_reply World.calm sample_state sample_conn "a" LAUNCH_KEY_REMOVEJOB
    (Or.inr (Or.inr rfl))

/-- C6 (as stated, refuted): the configuration with label `b` and no OnDemand
entry is accepted, and the `GetJob` reply that follows carries an `OnDemand`
entry that the submitted configuration does not have, so it is not the
submitted configuration with its descriptors stripped. -/
theorem submit_then_get_job_adds_ondemand :
    (load_job World.calm (sample_config "b" []) State.init).1 = launch_data_new_errno 0 ∧
    get_job_reply World.calm sample_conn "b"
        (load_job World.calm (sample_config "b" []) State.init).2.2 =
      some (launch_data.dictionary
        [(LAUNCH_JOBKEY_LABEL, launch_data.string "b"),
         (LAUNCH_JOBKEY_PROGRAMARGUMENTS, launch_data.array [launch_data.string "/bin/false"]),
         (LAUNCH_JOBKEY_ONDEMAND, launch_data.bool true)]) ∧
    launch_data_dict_lookup (sample_config "b" []) LAUNCH_JOBKEY_ONDEMAND = none ∧
    ¬ ∃ r, get_job_reply World.calm sample_conn "b"
        (load_job World.calm (sample_config "b" []) State.init).2.2 = some r ∧
      Stripped (sample_config "b" []) r := by
  have h2 : get_job_reply World.calm sample_conn "b"
        (load_job World.calm (sample_config "b" []) State.init).2.2 =
      some (launch_data.dictionary
        [(LAUNCH_JOBKEY_LABEL, launch_data.string "b"),
         (LAUNCH_JOBKEY_PROGRAMARGUMENTS, launch_data.array [launch_data.string "/bin/false"]),
         (LAUNCH_JOBKEY_ONDEMAND, launch_data.bool true)]) := rfl
  refine ⟨rfl, h2, rfl, ?_⟩
  rintro ⟨r, hr, hs⟩
  rw [h2] at hr
  cases hr
  have hc : sample_config "b" [] = launch_data.dictionary
        [(LAUNCH_JOBKEY_LABEL, launch_data.string "b"),
         (LAUNCH_JOBKEY_PROGRAMARGUMENTS, launch_data.array [launch_data.string "/bin/false"])] :=
    rfl
  rw [hc] at hs
  cases hs with
  | dictionary hd =>
    cases hd with
    | cons _ hd2 =>
      cases hd2 with
      | cons _ hd3 => cases hd3

/-- C6 (amended): when `load_job` accepts a configuration whose Label is the
string `l`, `GetJob` on `l`, in any state whose registry is the one `load_job`
left, replies with the stored configuration with its descriptors stripped,
where the stored configuration is the submitted one when that has an OnDemand
entry, and the submitted one followed by `OnDemand = true` when it has
none. -/
theorem submit_then_get_job (w : World) (st st2 : State) (c : conncb) (pload : launch_data)
    (l : String)
    (hl : launch_data_dict_lookup pload LAUNCH_JOBKEY_LABEL = some (launch_data.string l))
    (hacc : (load_job w pload st).1 = launch_data_new_errno 0)
    (hst : st2.jobs = (load_job w pload st).2.2.jobs) :
    get_job_reply w c l st2 = some (launch_data_revoke_fds none (stored_config pload)) ∧
    Stripped (stored_config pload) (launch_data_revoke_fds none (stored_config pload)) ∧
    (launch_data_dict_lookup pload LAUNCH_JOBKEY_ONDEMAND ≠ none → stored_config pload = pload) ∧
    (∀ kvs, pload = launch_data.dictionary kvs →
      dict_lookup_kvs LAUNCH_JOBKEY_ONDEMAND kvs = none →
      stored_config pload =
        launch_data.dictionary (kvs ++ [(LAUNCH_JOBKEY_ONDEMAND, launch_data.bool true)])) := by
  obtain ⟨label, hlab, _, _, heq⟩ := load_job_accepted w st pload hacc
  obtain ⟨pre, j, hjobs, hldj, _, _⟩ := load_job_insert_jobs w st pload label
  rw [heq] at hst
  simp only at hst
  have hjl : job_label j = some l := by
    unfold job_label job_get_string
    rw [hldj, stored_config_label, hl]
    rfl
  refine ⟨?_, revoke_all_stripped _, ?_, ?_⟩
  · rw [get_job_reply_eq, get_jobs_last l pre j st2 (hst.trans hjobs) hjl, hldj]
  · intro hne
    unfold stored_config launch_data_copy
    cases hod : launch_data_dict_lookup pload LAUNCH_JOBKEY_ONDEMAND with
    | none => exact absurd hod hne
    | some v => simp
  · intro kvs hk hnone
    subst hk
    unfold stored_config launch_data_copy
    simp only [launch_data_dict_lookup, hnone, Option.isNone_none, if_true,
      launch_data_dict_insert]
    rw [dict_insert_absent _ _ _ hnone]

theorem submit_then_get_job_witness :
    get_job_reply World.calm sample_conn "b"
        (load_job World.calm (sample_config "b" []) State.init).2.2 =
      some (launch_data_revoke_fds none (stored_config (sample_config "b" []))) ∧
    Stripped (stored_config (sample_config "b" []))
      (launch_data_revoke_fds none (stored_config (sample_config "b" []))) ∧
    (launch_data_dict_lookup (sample_config "b" []) LAUNCH_JOBKEY_ONDEMAND ≠ none →
      stored_config (sample_config "b" []) = sample_config "b" []) ∧
    (∀ kvs, sample_config "b" [] = launch_data.dictionary kvs →
      dict_lookup_kvs LAUNCH_JOBKEY_ONDEMAND kvs = none →
      stored_config (sample_config "b" []) =
        launch_data.dictionary (kvs ++ [(LAUNCH_JOBKEY_ONDEMAND, launch_data.bool true)])) :=
  submit_then_get_job World.calm State.init
    (load_job World.calm (sample_config "b" []) State.init).2.2 sample_conn
    (sample_config "b" []) "b" rfl rfl rfl

/-- C7: for a label carried by a registered job (labels being unique in the
registry), `GetJob` replies with that job's stored configuration with every
descriptor node, at any depth, replaced by -1 and everything else identical,
and `GetJobWithHandles` replies with the stored configuration itself; for a
label no registered job carries both reply ESRCH; neither command changes the
engine state, so the stored configuration stays as it was. -/
theorem get_job_replies (w : World) (st : State) (c : conncb) (l : String) :
    (∀ j ∈ st.jobs, job_label j = some l → (st.jobs.filterMap job_label).Nodup →
      get_job_reply w c l st = some (launch_data_revoke_fds none j.ldj) ∧
      Stripped j.ldj (launch_data_revoke_fds none j.ldj) ∧
      get_job_with_handles_reply w c l st = some j.ldj) ∧
    ((¬ ∃ j ∈ st.jobs, job_label j = some l) →
      get_job_reply w c l st = some (launch_data_new_errno ESRCH) ∧
      get_job_with_handles_reply w c l st = some (launch_data_new_errno ESRCH)) ∧
    (ipc_readmsg2 w (some (launch_data.string l)) LAUNCH_KEY_GETJOB
      { c := c, resp := none } st).2.2 = st ∧
    (ipc_readmsg2 w (some (launch_data.string l)) LAUNCH_KEY_GETJOBWITHHANDLES
      { c := c, resp := none } st).2.2 = st := by
  refine ⟨?_, ?_, ?_, ?_⟩
  · intro j hj hl hu
    have hg := get_jobs_unique l j st hj hl hu
    exact ⟨by rw [get_job_reply_eq, hg], revoke_all_stripped _,
      by rw [get_job_with_handles_reply_eq, hg]⟩
  · intro hno
    have hg := get_jobs_absent l st hno
    refine ⟨by rw [get_job_reply_eq, hg]; rfl, by rw [get_job_with_handles_reply_eq, hg]⟩
  · rw [ipc_readmsg2_getjob]
  · rw [ipc_readmsg2_getjobwithhandles]

/-- C9: `CheckIn` on a connection bound to no job replies EACCES and leaves
the engine state as it was; on a connection bound to the registered job `j`
it replies with the job's configuration when that has a TimeOut entry and
with the configuration followed by `TimeOut = 10` when it has none, and the
only change to the state is that the record of `j` now has its checked-in
flag set, its stored configuration being the same as before. -/
theorem checkin_reply (w : World) (st : State) (c : conncb) (data : Option launch_data) :
    (c.j = none →
      ipc_readmsg2 w data LAUNCH_KEY_CHECKIN { c := c, resp := none } st =
        (data, { c := c, resp := some (launch_data_new_errno EACCES) }, st)) ∧
    (∀ id j kvs, c.j = some id → find_job st id = some j → j.ldj = launch_data.dictionary kvs →
      (ipc_readmsg2 w data LAUNCH_KEY_CHECKIN { c := c, resp := none } st).2.1.resp =
        some (if (dict_lookup_kvs LAUNCH_JOBKEY_TIMEOUT kvs).isNone then
          launch_data.dictionary (kvs ++ [(LAUNCH_JOBKEY_TIMEOUT, launch_data.integer 10)])
          else launch_data.dictionary kvs) ∧
      (ipc_readmsg2 w data LAUNCH_KEY_CHECKIN { c := c, resp := none } st).2.2 =
        set_job { j with checkedin := true } st ∧
      find_job (ipc_readmsg2 w data LAUNCH_KEY_CHECKIN { c := c, resp := none } st).2.2 id =
        some { j with checkedin := true } ∧
      ({ j with checkedin := true } : jobcb).ldj = launch_data.dictionary kvs) := by
  refine ⟨?_, ?_⟩
  · intro hc
    rw [ipc_readmsg2_checkin, hc]
    rfl
  · intro id j kvs hc hf hd
    have hid : j.id = id := by
      unfold find_job at hf
      have := List.find?_some hf
      simpa using this
    have hb : c.j.bind (find_job st) = some j := by rw [hc]; exact hf
    rw [ipc_readmsg2_checkin, hb]
    simp only
    refine ⟨?_, trivial, find_job_set_job st id j _ hf hid, hd⟩
    simp only [launch_data_copy, hd, launch_data_dict_lookup, launch_data_dict_insert,
      launch_data_new_integer, LAUNCHD_MIN_JOB_RUN_TIME]
    cases hto : dict_lookup_kvs LAUNCH_JOBKEY_TIMEOUT kvs with
    | none => simp [dict_insert_absent _ _ _ hto]
    | some v => simp

theorem get_job_replies_witness :
    get_job_reply World.calm sample_conn "a" sample_state =
      some (launch_data_revoke_fds none (stored_config (sample_config "a" []))) ∧
    Stripped (stored_config (sample_config "a" []))
      (launch_data_revoke_fds none (stored_config (sample_config "a" []))) ∧
    get_job_with_handles_reply World.calm sample_conn "a" sample_state =
      some (stored_config (sample_config "a" [])) :=
  (get_job_replies World.calm sample_state sample_conn "a").1
    (new_job 0 (sample_config "a" [])) (List.mem_singleton.2 rfl) rfl
    (List.nodup_singleton _)

theorem checkin_reply_witness :
    (ipc_readmsg2 World.calm none LAUNCH_KEY_CHECKIN
        { c := { fd := 8, j := some 0, disabled_batch := false }, resp := none }
        sample_state).2.1.resp =
      some (launch_data.dictionary
        [(LAUNCH_JOBKEY_LABEL, launch_data.string "a"),
         (LAUNCH_JOBKEY_PROGRAMARGUMENTS, launch_data.array [launch_data.string "/bin/false"]),
         (LAUNCH_JOBKEY_ONDEMAND, launch_data.bool true),
         (LAUNCH_JOBKEY_TIMEOUT, launch_data.integer 10)]) :=
  ((checkin_reply World.calm sample_state
      { fd := 8, j := some 0, disabled_batch := false } none).2
    0 (new_job 0 (sample_config "a" [])) _ rfl rfl rfl).1

/-- C8: a request that is neither a dictionary nor a string is answered with
EINVAL; a string that is no recognised command, and a dictionary none of whose
keys is a recognised command, are answered with ENOSYS; in each case computing
the response changes nothing in the engine state, and after the one response
has been handed to the transport the registry, the child count and the trace
of forks are what they were. -/
theorem unknown_request_reply (w : World) (st : State) (c : conncb) (msg : launch_data) :
    ((∀ kvs, msg ≠ launch_data.dictionary kvs) → (∀ s, msg ≠ launch_data.string s) →
      ipc_readmsg_resp w c msg st =
        (msg, { c := c, resp := some (launch_data_new_errno EINVAL) }, st) ∧
      (ipc_readmsg w c msg st).1 = launch_data_new_errno EINVAL ∧
      (ipc_readmsg w c msg st).2.core = st.core) ∧
    (∀ s, msg = launch_data.string s → s ∉ recognised_commands →
      ipc_readmsg_resp w c msg st =
        (msg, { c := c, resp := some (launch_data_new_errno ENOSYS) }, st) ∧
      (ipc_readmsg w c msg st).1 = launch_data_new_errno ENOSYS ∧
      (ipc_readmsg w c msg st).2.core = st.core) ∧
    (∀ kvs, msg = launch_data.dictionary kvs → (∀ kv ∈ kvs, kv.1 ∉ recognised_commands) →
      ipc_readmsg_resp w c msg st =
        (msg, { c := c, resp := some (launch_data_new_errno ENOSYS) }, st) ∧
      (ipc_readmsg w c msg st).1 = launch_data_new_errno ENOSYS ∧
      (ipc_readmsg w c msg st).2.core = st.core) := by
  have finish : ∀ e, ipc_readmsg_resp w c msg st =
        (msg, { c := c, resp := some (launch_data_new_errno e) }, st) →
      ipc_readmsg_resp w c msg st =
        (msg, { c := c, resp := some (launch_data_new_errno e) }, st) ∧
      (ipc_readmsg w c msg st).1 = launch_data_new_errno e ∧
      (ipc_readmsg w c msg st).2.core = st.core := by
    intro e he
    refine ⟨he, ?_, ?_⟩
    · have := ipc_readmsg_reply w c msg st
      rw [he] at this
      exact Option.some.inj this
    · rw [ipc_readmsg_core, he]
  refine ⟨?_, ?_, ?_⟩
  · intro hd hs
    apply finish
    unfold ipc_readmsg_resp
    cases msg with
    | dictionary kvs => exact absurd rfl (hd kvs)
    | string s => exact absurd rfl (hs s)
    | _ => rfl
  · intro s hm hs
    subst hm
    apply finish
    unfold ipc_readmsg_resp
    simp only [ipc_readmsg2_unknown w none s _ st hs]
  · intro kvs hm hk
    subst hm
    apply finish
    unfold ipc_readmsg_resp
    simp only [ipc_readmsg_dict_unknown w kvs _ st hk]

theorem unknown_request_reply_witness :
    (ipc_readmsg_resp World.calm sample_conn (launch_data.integer 5) sample_state =
        (launch_data.integer 5,
          { c := sample_conn, resp := some (launch_data_new_errno EINVAL) }, sample_state) ∧
      (ipc_readmsg World.calm sample_conn (launch_data.integer 5) sample_state).1 =
        launch_data_new_errno EINVAL ∧
      (ipc_readmsg World.calm sample_conn (launch_data.integer 5) sample_state).2.core =
        sample_state.core) ∧
    (ipc_readmsg_resp World.calm sample_conn (launch_data.string "Frobnicate") sample_state =
        (launch_data.string "Frobnicate",
          { c := sample_conn, resp := some (launch_data_new_errno ENOSYS) }, sample_state) ∧
      (ipc_readmsg World.calm sample_conn (launch_data.string "Frobnicate") sample_state).1 =
        launch_data_new_errno ENOSYS ∧
      (ipc_readmsg World.calm sample_conn (launch_data.string "Frobnicate") sample_state).2.core =
        sample_state.core) :=
  ⟨(unknown_request_reply World.calm sample_state sample_conn (launch_data.integer 5)).1
      (fun _ h => by cases h) (fun _ h => by cases h),
    (unknown_request_reply World.calm sample_state sample_conn
      (launch_data.string "Frobnicate")).2.1 "Frobnicate" rfl (by decide)⟩

/-- C2: in every state the event loop reaches from the start of `main`, by
any sequence of requests on connections, job events, signals, accepted and
closed connections, the label strings of the registered jobs are pairwise
distinct: the list of labels has no duplicate, and no two records at different
places of the registry carry the same label. -/
theorem reachable_labels_unique (w : World) (st : State) (h : Reachable w st) :
    (st.jobs.filterMap job_label).Nodup ∧
    st.jobs.Pairwise (fun a b => ∀ l, job_label a = some l → job_label b ≠ some l) := by
  obtain ⟨argv, evs, rfl⟩ := h
  have hok := run_ok w evs _ (main_start_ok w argv)
  refine ⟨hok.2.1, ?_⟩
  have hp := hok.2.1
  unfold List.Nodup at hp
  rw [List.pairwise_filterMap] at hp
  refine hp.imp ?_
  intro a b hab l hla hlb
  exact hab l (by simp [hla]) l (by simp [hlb]) rfl

theorem reachable_labels_unique_witness :
    Reachable World.calm
      (run World.calm (main_start World.calm ["/bin/sh"])
        [Event.accept 7,
         Event.request 7 (launch_data.dictionary [(LAUNCH_KEY_SUBMITJOB, sample_config "a" [])]),
         Event.request 7
           (launch_data.dictionary [(LAUNCH_KEY_SUBMITJOB, sample_config "a" [])])]) ∧
    ((run World.calm (main_start World.calm ["/bin/sh"])
        [Event.accept 7,
         Event.request 7 (launch_data.dictionary [(LAUNCH_KEY_SUBMITJOB, sample_config "a" [])]),
         Event.request 7
           (launch_data.dictionary [(LAUNCH_KEY_SUBMITJOB, sample_config "a" [])])]).jobs.filterMap
        job_label).Nodup ∧
    (run World.calm (main_start World.calm ["/bin/sh"])
        [Event.accept 7,
         Event.request 7 (launch_data.dictionary [(LAUNCH_KEY_SUBMITJOB, sample_config "a" [])]),
         Event.request 7
           (launch_data.dictionary [(LAUNCH_KEY_SUBMITJOB, sample_config "a" [])])]).jobs.Pairwise
      (fun a b => ∀ l, job_label a = some l → job_label b ≠ some l) :=
  ⟨⟨["/bin/sh"], _, rfl⟩,
    reachable_labels_unique World.calm _ ⟨["/bin/sh"], _, rfl⟩⟩

/-- C10 (as stated, refuted): the job `f` is not firstborn, has no ServiceIPC
entry and is not on-demand; under `World.calm` every exit of its child is a
failed exit (status 1) and the job is restarted 4 seconds after its previous
start, ten times over 40 seconds.  After the tenth exit event has been handled
the job is still registered, with 10 failed exits counted and a new child
running, and `GetJob` on its label replies with its configuration, not with
ESRCH. -/
theorem ten_failed_exits_keep_job :
    (find_job flapping_state 0).map
        (fun j => (j.firstborn, job_get_bool j.ldj LAUNCH_JOBKEY_SERVICEIPC, j.failed_exits,
          j.start_time.tv_sec)) = some (false, false, 0, 1000000000) ∧
    bad_exit (wait_status.exited 1) = true ∧
    (find_job (after_exits World.calm 0 10 flapping_state) 0).map
        (fun j => (j.failed_exits, j.p, j.start_time.tv_sec)) = some (10, 141, 1000000040) ∧
    get_job_reply World.calm sample_conn "f" (after_exits World.calm 0 10 flapping_state) =
      some (sample_config "f" [(LAUNCH_JOBKEY_ONDEMAND, launch_data.bool false)]) ∧
    get_job_reply World.calm sample_conn "f" (after_exits World.calm 0 10 flapping_state) ≠
      some (launch_data_new_errno ESRCH) := by
  have h : get_job_reply World.calm sample_conn "f"
      (after_exits World.calm 0 10 flapping_state) =
      some (sample_config "f" [(LAUNCH_JOBKEY_ONDEMAND, launch_data.bool false)]) := by
    rw [get_job_reply_eq]
    rfl
  refine ⟨rfl, rfl, rfl, h, ?_⟩
  rw [h]
  simp [sample_config, launch_data_new_errno]

/-- C10 (amended): for a registered job that is not firstborn and has no
ServiceIPC, whose counter of failed exits is not above the threshold, when
every exit of its child is a failed exit and no interval between consecutive
starts of the job reaches 60 seconds during the run: after the eleventh exit
event the job is absent from the registry and `GetJob` on its label replies
ESRCH; and if no failed exit was counted before the run, then after each of
the first ten exit events the job is still registered, with as many failed
exits counted as there were exits, and `GetJob` on its label replies with its
configuration. -/
theorem eleven_failed_exits_remove_job (w : World) (st : State) (c : conncb) (j : jobcb)
    (l : String) (hok : RegistryOk st) (hj : find_job st j.id = some j)
    (hfb : j.firstborn = false)
    (hipc : job_get_bool j.ldj LAUNCH_JOBKEY_SERVICEIPC = false)
    (hcnt : j.failed_exits ≤ LAUNCHD_FAILED_EXITS_THRESHOLD) (hl : job_label j = some l)
    (hbad : ∀ n, ∃ x, reap_status w n = some x ∧ bad_exit x = true)
    (hgap : ∀ n, n < 11 →
      short_interval j.id (after_exits w j.id n st)
        (rerun_if_idle w j.id (after_exits w j.id n st)) = true ∧
      short_interval j.id (rerun_if_idle w j.id (after_exits w j.id n st))
        (after_exits w j.id (n + 1) st) = true) :
    (j.failed_exits = 0 → ∀ k, k ≤ 10 →
      (∃ j2, find_job (after_exits w j.id k st) j.id = some j2 ∧ j2.failed_exits = k ∧
        j2.ldj = j.ldj) ∧
      get_job_reply w c l (after_exits w j.id k st) =
        some (launch_data_revoke_fds none j.ldj)) ∧
    find_job (after_exits w j.id 11 st) j.id = none ∧
    (∀ x ∈ (after_exits w j.id 11 st).jobs, job_label x ≠ some l) ∧
    get_job_reply w c l (after_exits w j.id 11 st) = some (launch_data_new_errno ESRCH) := by
  have h0 : Counted j.id j.ldj j.failed_exits st := ⟨j, hj, rfl, hfb, rfl⟩
  have hgone : find_job (after_exits w j.id 11 st) j.id = none := by
    rcases after_exits_settled w j.id j.ldj st j.failed_exits hbad hipc hgap h0 hcnt 11
      (le_refl _) with ⟨hle, _⟩ | h
    · omega
    · exact h
  have habs : ∀ x ∈ (after_exits w j.id 11 st).jobs, job_label x ≠ some l := by
    intro x hx hlx
    have hsub := after_exits_keysSub w j.id 11 st hok
    have hkx : job_key x ∈ st.jobs.map job_key := hsub.1.subset (List.mem_map_of_mem _ hx)
    obtain ⟨y, hy, hyk⟩ := List.mem_map.1 hkx
    have hyl : job_label y = some l := (congrArg Prod.snd hyk).trans hlx
    have hyj : y = j := label_unique_mem st.jobs l y j hok.2.1 hy (find_job_mem hj).1 hyl hl
    have hxid : x.id = j.id := by
      rw [← hyj]
      exact (congrArg Prod.fst hyk).symm
    unfold find_job at hgone
    rw [List.find?_eq_none] at hgone
    exact hgone x hx (by simpa using hxid)
  refine ⟨?_, hgone, habs, ?_⟩
  · intro hzero k hk
    have h00 : Counted j.id j.ldj 0 st := ⟨j, hj, rfl, hfb, hzero⟩
    obtain ⟨j2, hf2, hldj2, _, hk2⟩ :=
      after_exits_counted_gap w j.id j.ldj st hbad hipc hgap h00 k hk
    refine ⟨⟨j2, hf2, hk2, hldj2⟩, ?_⟩
    have hokk := hok.ok_of_keysSub (after_exits_keysSub w j.id k st hok)
    have hl2 : job_label j2 = some l := by
      unfold job_label at hl ⊢
      rw [hldj2]
      exact hl
    rw [get_job_reply_eq, get_jobs_unique l j2 _ (find_job_mem hf2).1 hl2 hokk.2.1, hldj2]
  · rw [get_job_reply_eq, get_jobs_absent l _ (fun ⟨x, hx, hlx⟩ => habs x hx hlx)]
    rfl

/-- C10 (amended) at the run of the counterexample: the job `f` under
`World.calm`, where every exit is a failed exit and the job is restarted 4
seconds after its previous start.  After the tenth exit the job is registered
with 10 failed exits counted, after the eleventh it is absent and `GetJob`
replies ESRCH. -/
theorem eleven_failed_exits_remove_job_witness :
    find_job flapping_state 0 = some flapping_job ∧
    (find_job (after_exits World.calm 0 10 flapping_state) 0).map
        (fun j => (j.failed_exits, j.start_time.tv_sec)) = some (10, 1000000040) ∧
    (∃ j2, find_job (after_exits World.calm 0 10 flapping_state) 0 = some j2 ∧
      j2.failed_exits = 10 ∧ j2.ldj = flapping_job.ldj) ∧
    find_job (after_exits World.calm 0 11 flapping_state) 0 = none ∧
    get_job_reply World.calm sample_conn "f" (after_exits World.calm 0 11 flapping_state) =
      some (launch_data_new_errno ESRCH) :=
  have h := eleven_failed_exits_remove_job World.calm flapping_state sample_conn flapping_job
    "f" flapping_state_ok rfl rfl rfl (by decide) rfl
    (fun _ => ⟨wait_status.exited 1, rfl, rfl⟩) flapping_gaps
  ⟨rfl, rfl, ((h.1 rfl) 10 (le_refl _)).1, h.2.1, h.2.2.2⟩

/-- C11: whenever `job_reap` obtains a wait status, the exit counts as failed
exactly when the child exited with a non-zero status or was terminated by a
signal other than SIGTERM and SIGKILL; in that case the counter of failed
exits becomes its successor as a `size_t` (the old value plus one whenever
that fits), otherwise it becomes zero, and the registry record takes the
update.  Consequently, for a registered job that is not firstborn and has no
ServiceIPC, in a world where every exit of its child has status 0: after any
number of exit events in a row the job is still registered under its
configuration, with zero failed exits counted, and `GetJob` on its label
replies with its configuration. -/
theorem job_reap_failed_exits (w : World) :
    (∀ (j : jobcb) (st : State) (s : wait_status), reap_status w st.calls = some s →
      (bad_exit s = true ↔
        (∃ code, s = wait_status.exited code ∧ code ≠ 0) ∨
        (∃ sig, s = wait_status.signaled sig ∧ sig ≠ SIGTERM ∧ sig ≠ SIGKILL)) ∧
      (bad_exit s = true →
        (job_reap w j st).1.failed_exits = size_t_succ j.failed_exits ∧
        (j.failed_exits + 1 < SIZE_T_MOD →
          (job_reap w j st).1.failed_exits = j.failed_exits + 1)) ∧
      (bad_exit s = false → (job_reap w j st).1.failed_exits = 0) ∧
      (find_job st j.id = some j →
        find_job (job_reap w j st).2 j.id = some (job_reap w j st).1)) ∧
    (∀ (st : State) (c : conncb) (j : jobcb) (l : String), RegistryOk st →
      find_job st j.id = some j → j.firstborn = false →
      job_get_bool j.ldj LAUNCH_JOBKEY_SERVICEIPC = false → job_label j = some l →
      (∀ n, reap_status w n = some (wait_status.exited 0)) →
      ∀ k, (∃ j2, find_job (after_exits w j.id k st) j.id = some j2 ∧ j2.ldj = j.ldj ∧
          (0 < k → j2.failed_exits = 0)) ∧
        get_job_reply w c l (after_exits w j.id k st) =
          some (launch_data_revoke_fds none j.ldj)) := by
  refine ⟨?_, ?_⟩
  · intro j st s hs
    have hr := job_reap_some w j st s hs
    refine ⟨bad_exit_iff s, ?_, ?_, ?_⟩
    · intro hb
      have h1 : (job_reap w j st).1.failed_exits = size_t_succ j.failed_exits := by
        rw [hr]
        simp [hb]
      refine ⟨h1, fun hlt => ?_⟩
      rw [h1]
      unfold size_t_succ
      rw [if_neg (Nat.ne_of_lt hlt)]
    · intro hb
      rw [hr]
      simp [hb]
    · intro hf
      rw [hr]
      exact find_set_of_jobs j _ st _ hf rfl (by simp)
  · intro st c j l hok hj hfb hipc hl hzero k
    have hgood : ∀ n, ∃ x, reap_status w n = some x ∧ bad_exit x = false :=
      fun n => ⟨_, hzero n, rfl⟩
    obtain ⟨j2, hf2, hldj2, _, hk2⟩ :=
      after_exits_kept w j.id j.ldj st hgood hipc ⟨j, hj, rfl, hfb⟩ k
    refine ⟨⟨j2, hf2, hldj2, hk2⟩, ?_⟩
    have hokk := hok.ok_of_keysSub (after_exits_keysSub w j.id k st hok)
    have hl2 : job_label j2 = some l := by
      unfold job_label at hl ⊢
      rw [hldj2]
      exact hl
    rw [get_job_reply_eq, get_jobs_unique l j2 _ (find_job_mem hf2).1 hl2 hokk.2.1, hldj2]

theorem job_reap_failed_exits_witness :
    (job_reap World.calm flapping_job frozen_state).1.failed_exits = 1 ∧
    (job_reap World.clean { flapping_job with failed_exits := 7 } frozen_state).1.failed_exits
      = 0 ∧
    (∃ j2, find_job (after_exits World.clean 0 25 frozen_state) 0 = some j2 ∧
      j2.ldj = flapping_job.ldj ∧ (0 < 25 → j2.failed_exits = 0)) ∧
    get_job_reply World.clean sample_conn "f" (after_exits World.clean 0 25 frozen_state) =
      some (launch_data_revoke_fds none flapping_job.ldj) :=
  ⟨((job_reap_failed_exits World.calm).1 flapping_job frozen_state (wait_status.exited 1)
      rfl).2.1 rfl |>.2 (by decide),
    ((job_reap_failed_exits World.clean).1 { flapping_job with failed_exits := 7 } frozen_state
      (wait_status.exited 0) rfl).2.2.1 rfl,
    (job_reap_failed_exits World.clean).2 frozen_state sample_conn flapping_job "f"
      frozen_state_ok rfl rfl rfl rfl (fun _ => rfl) 25⟩

/-- C12: for a registered job that is not firstborn and declares ServiceIPC,
when the exit of its child is handled while its checked-in flag is false, the
job is absent from the registry afterwards, no registered job carries its
label and `GetJob` on the label replies ESRCH, whatever the wait status (or
the failure of `waitpid`) and whatever the counter of failed exits; when the
flag is true at that time, the job is absent afterwards exactly when the
counter of failed exits left by `job_reap` exceeds the threshold of 10, so it
is not removed for not having checked in. -/
theorem unchecked_service_exit_removes (w : World) (st : State) (c : conncb) (j : jobcb)
    (l : String) (hok : RegistryOk st) (hj : find_job st j.id = some j)
    (hfb : j.firstborn = false)
    (hipc : job_get_bool j.ldj LAUNCH_JOBKEY_SERVICEIPC = true) (hl : job_label j = some l) :
    (j.checkedin = false →
      find_job (step w st (child_exit_event st j.id)) j.id = none ∧
      (∀ x ∈ (step w st (child_exit_event st j.id)).jobs, job_label x ≠ some l) ∧
      get_job_reply w c l (step w st (child_exit_event st j.id)) =
        some (launch_data_new_errno ESRCH)) ∧
    (j.checkedin = true →
      (find_job (step w st (child_exit_event st j.id)) j.id = none ↔
        (job_reap w j st).1.failed_exits > LAUNCHD_FAILED_EXITS_THRESHOLD)) := by
  obtain ⟨kev, s0, hkev, hjobs, hcalls, hf0, hstep, hcalls2, hf2⟩ := step_exit_eq w st j hj
  refine ⟨fun hci => ?_, fun hci => ?_⟩
  · have hgone : find_job (step w st (child_exit_event st j.id)) j.id = none := by
      rw [hstep]
      exact exit_body_unchecked w j kev _ _ _ hkev hfb hipc hci
    have hsub : KeysSub st (step w st (child_exit_event st j.id)) :=
      step_job_keysSub w st j.id _ hok
    have habs := gone_label_absent st _ j l hok hsub hj hl hgone
    refine ⟨hgone, habs, ?_⟩
    rw [get_job_reply_eq, get_jobs_absent l _ (fun ⟨x, hx, hlx⟩ => habs x hx hlx)]
    rfl
  · rw [hstep, job_reap_fst_congr w j st _ hcalls2.symm]
    exact exit_body_checked w j kev _ _ _ hkev hfb hci hf2

theorem unchecked_service_exit_removes_witness :
    get_job_reply World.calm sample_conn "s"
        (step World.calm (service_state false) (child_exit_event (service_state false) 0)) =
      some (launch_data_new_errno ESRCH) ∧
    find_job (step World.calm (service_state true) (child_exit_event (service_state true) 0)) 0
      ≠ none :=
  ⟨((unchecked_service_exit_removes World.calm (service_state false) sample_conn
      (service_job false) "s" (service_state_ok false) rfl rfl rfl rfl).1 rfl).2.2,
    fun h =>
      absurd (((unchecked_service_exit_removes World.calm (service_state true) sample_conn
        (service_job true) "s" (service_state_ok true) rfl rfl rfl rfl).2 rfl).1 h)
        (by decide)⟩

/-- C13: for a registered job that carries the firstborn flag, handling the
exit of its child sets the shutdown flag and applies `do_shutdown` to the
registry as `job_reap` left it: every registered job has its OnDemand value
set to false and every job that still has a child is sent SIGTERM.  No record
is removed or added, the firstborn job stays registered with the pid
`job_reap` left (0 once reaped), and no child is forked; none of this depends
on the job's ServiceIPC entry, counter of failed exits or OnDemand value. -/
theorem firstborn_exit_shutdown (w : World) (st : State) (j : jobcb)
    (hj : find_job st j.id = some j) (hfb : j.firstborn = true) :
    (step w st (child_exit_event st j.id)).shutdown_in_progress = true ∧
    (step w st (child_exit_event st j.id)).jobs =
      (job_reap w j st).2.jobs.map (fun x => { x with ldj := ondemand_off x.ldj }) ∧
    (∀ x ∈ (step w st (child_exit_event st j.id)).jobs,
      job_get_bool x.ldj LAUNCH_JOBKEY_ONDEMAND = false) ∧
    (step w st (child_exit_event st j.id)).kills =
      st.kills ++ ((job_reap w j st).2.jobs.filter (fun x => x.p != 0)).map
        (fun x => (x.p, SIGTERM)) ∧
    (step w st (child_exit_event st j.id)).forked = st.forked ∧
    (∃ j2, find_job (step w st (child_exit_event st j.id)) j.id = some j2 ∧
      j2.firstborn = true ∧ j2.p = (job_reap w j st).1.p) ∧
    (step w st (child_exit_event st j.id)).jobs.map (fun x => x.id) =
      st.jobs.map (fun x => x.id) := by
  obtain ⟨kev, s0, hkev, hjobs, hcalls, hkills, hforked, _, hf0, hstep⟩ := step_exit_pre w st j hj
  obtain ⟨d1, d2, d3, _, d5⟩ := do_shutdown_fields (job_reap w j s0).2
  obtain ⟨r1, r2, _⟩ := job_reap_traces w j s0
  obtain ⟨o1, o2⟩ := job_callback_out_traces j.debug (if j.debug = true then st.logmask else 0)
    (do_shutdown (job_reap w j s0).2)
  obtain ⟨f1, _, f3, _, f5⟩ := job_reap_fields w j s0
  have hcongr := job_reap_jobs_congr w j s0 st hjobs hcalls
  have hjobs2 : (step w st (child_exit_event st j.id)).jobs =
      (job_reap w j st).2.jobs.map (fun x => { x with ldj := ondemand_off x.ldj }) := by
    rw [hstep, firstborn_body w j kev _ _ s0 hkev hfb, job_callback_out_jobs, d2, hcongr]
  refine ⟨?_, hjobs2, ?_, ?_, ?_, ?_, ?_⟩
  · rw [hstep, firstborn_body w j kev _ _ s0 hkev hfb, o2, d1]
  · intro x hx
    rw [hjobs2] at hx
    obtain ⟨y, _, hy⟩ := List.mem_map.1 hx
    rw [← hy]
    exact ondemand_off_get_bool y.ldj
  · rw [hstep, firstborn_body w j kev _ _ s0 hkev hfb, o1, d5, r1, hkills, hcongr]
  · rw [hstep, firstborn_body w j kev _ _ s0 hkev hfb]
    have := core_forked (job_callback_out_core j.debug (if j.debug = true then st.logmask else 0)
      (do_shutdown (job_reap w j s0).2))
    rw [this, d3, r2, hforked]
  · refine ⟨{ (job_reap w j s0).1 with ldj := ondemand_off (job_reap w j s0).1.ldj }, ?_,
      f3.trans hfb, ?_⟩
    · have hfr := f5 hf0
      unfold find_job at hfr ⊢
      rw [hstep, firstborn_body w j kev _ _ s0 hkev hfb, job_callback_out_jobs, d2]
      exact find_job_ondemand_off _ _ _ hfr
    · have hp : (job_reap w j s0).1.p = (job_reap w j st).1.p :=
        congrArg jobcb.p (job_reap_fst_congr w j s0 st hcalls)
      exact hp
  · rw [hjobs2, List.map_map]
    exact (job_reap_ids w j st)

theorem firstborn_exit_shutdown_witness :
    (step World.calm firstborn_state (child_exit_event firstborn_state 0)).shutdown_in_progress
      = true ∧
    (step World.calm firstborn_state (child_exit_event firstborn_state 0)).kills =
      [(102, SIGTERM)] ∧
    (step World.calm firstborn_state (child_exit_event firstborn_state 0)).forked = [101, 102] ∧
    (∃ j2, find_job (step World.calm firstborn_state (child_exit_event firstborn_state 0)) 0 =
      some j2 ∧ j2.firstborn = true ∧ j2.p = 0) :=
  have h := firstborn_exit_shutdown World.calm firstborn_state firstborn_job rfl rfl
  ⟨h.1, h.2.2.2.1, h.2.2.2.2.1, h.2.2.2.2.2.1⟩

/-- C14: `job_start` on a record whose pid is not 0 returns the record and the
whole engine state as they were: no child is forked, the pid, the start time
and the counter of failed exits of the job, the child count and the event
registrations are unchanged.  So `StartJob` with the label of a registered job
whose child is running replies 0 and leaves the engine state unchanged. -/
theorem job_start_running_noop (w : World) (st : State) (j : jobcb) (hp : j.p ≠ 0) :
    job_start w j st = (j, st) ∧
    (job_start w j st).2.forked = st.forked ∧
    (job_start w j st).1.p = j.p ∧
    (job_start w j st).1.start_time = j.start_time ∧
    (job_start w j st).1.failed_exits = j.failed_exits ∧
    (job_start w j st).2.total_children = st.total_children ∧
    (job_start w j st).2.kq = st.kq ∧
    (∀ (c : conncb) (l : String), (∃ x ∈ st.jobs, job_label x = some l) →
      (∀ x ∈ st.jobs, job_label x = some l → x.p ≠ 0) →
      ipc_readmsg2 w (some (launch_data.string l)) LAUNCH_KEY_STARTJOB
          { c := c, resp := none } st =
        (some (launch_data.string l), { c := c, resp := some (launch_data_new_errno 0) }, st)) := by
  have h : job_start w j st = (j, st) := by
    unfold job_start
    rw [if_pos hp]
  refine ⟨h, ?_, ?_, ?_, ?_, ?_, ?_, ?_⟩
  · rw [h]
  · rw [h]
  · rw [h]
  · rw [h]
  · rw [h]
  · rw [h]
  · intro c l hex hrun
    have hany := (any_label_is_iff l st.jobs).2 hex
    have hfold := start_running_fold w (some l) st.jobs st
      (fun x hx hl => hrun x hx ((label_is_iff l x).1 hl))
    simp [ipc_readmsg2, found_or_esrch, hany, launch_data_get_string, LAUNCH_KEY_STARTJOB,
      start_matching, hfold]

theorem job_start_running_noop_witness :
    job_start World.calm flapping_job frozen_state = (flapping_job, frozen_state) ∧
    ipc_readmsg2 World.calm (some (launch_data.string "f")) LAUNCH_KEY_STARTJOB
        { c := sample_conn, resp := none } frozen_state =
      (some (launch_data.string "f"),
        { c := sample_conn, resp := some (launch_data_new_errno 0) }, frozen_state) :=
  have h := job_start_running_noop World.calm frozen_state flapping_job (by decide)
  ⟨h.1, h.2.2.2.2.2.2.2 sample_conn "f" ⟨flapping_job, List.mem_singleton.2 rfl, rfl⟩
    (fun x hx _ => by rw [List.mem_singleton.1 hx]; decide)⟩

/-- C15 (the code at the failing input): a per-user supervisor has the three
running jobs `a`, `b` and `c`, none of them on-demand, and `Shutdown` is
requested: the shutdown flag is set, each child is sent SIGTERM and the child
count is 3.  When the exit of the child of `a` (terminated by SIGTERM) has been
handled, a new child has been forked for `a` and the child count is 3 again;
after the exits of all three children have been handled, three new children
run, the child count is still 3 and the test of the main loop that ends the
process does not hold. -/
theorem shutdown_restarts_children :
    World.term.pid ≠ 1 ∧
    shutdown_state.shutdown_in_progress = true ∧
    shutdown_state.total_children = 3 ∧
    shutdown_state.jobs.map (fun j => j.p) = [101, 104, 107] ∧
    shutdown_state.kills = [(101, SIGTERM), (104, SIGTERM), (107, SIGTERM)] ∧
    shutdown_state.forked = [101, 104, 107] ∧
    (handle_exits World.term shutdown_state [0]).total_children = 3 ∧
    (handle_exits World.term shutdown_state [0]).forked = [101, 104, 107, 113] ∧
    (handle_exits World.term shutdown_state [0, 1, 2]).total_children = 3 ∧
    (handle_exits World.term shutdown_state [0, 1, 2]).forked =
      [101, 104, 107, 113, 117, 121] ∧
    (handle_exits World.term shutdown_state [0, 1, 2]).jobs.map (fun j => j.p) =
      [113, 117, 121] ∧
    main_loop_exits World.term (handle_exits World.term shutdown_state [0, 1, 2]) = false := by
  refine ⟨by decide, rfl, rfl, rfl, rfl, rfl, rfl, rfl, rfl, rfl, rfl, rfl⟩

/-- C17 (the code at the failing input): a per-user supervisor is given the
job `f`, which is started at once (child 103), and is then asked to remove it.
After the removal the child count is 1, no registered job runs and one
one-shot reap registration is pending, so the equation holds.  After that
registration has fired and `simple_zombie_reaper` has reaped child 103, the
state is still reachable, no registered job runs and no reap registration is
pending, but the child count is still 1. -/
theorem zombie_reap_keeps_child_count :
    Reachable World.calm removed_running_state ∧
    removed_running_state.total_children = 1 ∧
    running_jobs removed_running_state = 0 ∧
    zombie_registrations removed_running_state = 1 ∧
    Reachable World.calm (step World.calm removed_running_state (Event.zombie 103)) ∧
    (step World.calm removed_running_state (Event.zombie 103)).total_children = 1 ∧
    running_jobs (step World.calm removed_running_state (Event.zombie 103)) = 0 ∧
    zombie_registrations (step World.calm removed_running_state (Event.zombie 103)) = 0 ∧
    (step World.calm removed_running_state (Event.zombie 103)).total_children ≠
      running_jobs (step World.calm removed_running_state (Event.zombie 103)) +
        zombie_registrations (step World.calm removed_running_state (Event.zombie 103)) := by
  refine ⟨⟨[], remove_running_events, rfl⟩, rfl, rfl, rfl,
    ⟨[], remove_running_events ++ [Event.zombie 103], ?_⟩, rfl, rfl, rfl, by decide⟩
  unfold removed_running_state run
  rw [List.foldl_append]
  rfl

/-- C19: in every state reached by `BatchControl` and `BatchQuery` requests
and by connections being accepted and closed, the batch disabler count equals
the number of open connections whose `disabled_batch` flag is set, and
`BatchQuery` replies with the boolean that is true exactly when no open
connection holds batch disabled.  For an open connection: `BatchControl(false)`
raises the count by one only if the connection did not hold batch disabled,
and a second `BatchControl(false)` changes nothing; `BatchControl(true)` on a
connection that does not hold batch disabled changes nothing; closing a
connection that holds batch disabled lowers the count by one, and the count
again equals the number of disabling connections that remain. -/
theorem batch_count_invariant (w : World) (st : State) (h : BatchReachable w st) :
    st.batch_disabler_count = (batch_disablers st : Int) ∧
    (∀ c, (ipc_readmsg w c batch_query_msg st).1 =
      launch_data.bool (st.batch_disabler_count == 0)) ∧
    ((st.batch_disabler_count == 0) = true ↔
      ∀ x ∈ st.connections, x.disabled_batch = false) ∧
    (∀ c ∈ st.connections,
      (batch_job_enable false c st).2.batch_disabler_count =
        st.batch_disabler_count + (if c.disabled_batch then 0 else 1) ∧
      batch_job_enable false (batch_job_enable false c st).1 (batch_job_enable false c st).2 =
        batch_job_enable false c st ∧
      (c.disabled_batch = false → batch_job_enable true c st = (c, st)) ∧
      (c.disabled_batch = true →
        (ipc_close c st).batch_disabler_count = st.batch_disabler_count - 1 ∧
        (ipc_close c st).batch_disabler_count = (batch_disablers (ipc_close c st) : Int))) := by
  have hok := batch_reachable_ok w st h
  refine ⟨hok.1, ?_, ?_, ?_⟩
  · intro c
    have hr := ipc_readmsg_reply w c batch_query_msg st
    rw [ipc_readmsg_resp_batchquery] at hr
    exact Option.some.inj hr
  · rw [← batch_disablers_zero_iff, hok.1]
    simp
  · intro c hc
    obtain ⟨h1, h2⟩ := batch_disable_fields c st
    refine ⟨h2, batch_disable_again _ _ h1, batch_enable_idle c st, fun hd => ?_⟩
    exact ⟨ipc_close_count c st hd, (ipc_close_ok c st hok hc).1⟩

theorem batch_count_invariant_witness :
    BatchReachable World.calm batch_sample ∧
    batch_sample.connections.map (fun c => (c.fd, c.disabled_batch)) = [(7, true)] ∧
    batch_sample.batch_disabler_count = 1 ∧
    (ipc_readmsg World.calm sample_conn batch_query_msg batch_sample).1 =
      launch_data.bool false ∧
    (step World.calm batch_sample (Event.hangup 7)).batch_disabler_count = 0 :=
  have hr : BatchReachable World.calm batch_sample :=
    BatchReachable.control _ 7 false
      (BatchReachable.control _ 7 false
        (BatchReachable.accept _ 7 (BatchReachable.start State.init rfl rfl)
          (fun c hc => by cases hc)))
  have h := batch_count_invariant World.calm batch_sample hr
  ⟨hr, rfl, h.1.trans rfl, h.2.1 sample_conn,
    ((h.2.2.2 { fd := 7, j := none, disabled_batch := true } (List.mem_singleton.2 rfl)).2.2.2
      rfl).1⟩

/-- C20: when `launchd_msg_recv` has read at least one byte (and the control
data was not truncated) and the receive buffer then holds at least 16 bytes:
if its first 8 bytes, read in network byte order, differ from
0xD2FEA02366B39A41, or its next 8 bytes, read in network byte order, give a
length of 16 or less, the call returns -1 with `errno` EBADRPC, the callback
has been invoked on no message and its context is as before.  On a read event
`ipc_callback` then closes the connection: it is unlinked from the open
connections and its descriptor is closed. -/
theorem msg_recv_bad_header {σ : Type}
    (unpack : List Nat → List Int → Option (launch_data × Nat × Nat)) (lh : launch)
    (bytes : List Nat) (fds : List Int) (hfd : lh.fd2use ≠ -1) (hbytes : bytes ≠ [])
    (hlen : 16 ≤ (lh.recvbuf ++ bytes).length)
    (hbad : header_magic (lh.recvbuf ++ bytes) ≠ 0xD2FEA02366B39A41 ∨
      header_len (lh.recvbuf ++ bytes) ≤ 16) :
    (∀ (cb : launch_data → σ → σ × Bool) (ctx : σ),
      launchd_msg_recv unpack lh (recvmsg_result.received bytes fds false) cb ctx =
        some { ret := -1, errno := some EBADRPC,
               lh := { lh with recvbuf := lh.recvbuf ++ bytes, recvfds := lh.recvfds ++ fds },
               ctx := ctx, delivered := [] }) ∧
    (∀ (w : World) (c : conncb) (kev : kevent) (st : State),
      kev.filter = kq_filter.EVFILT_READ →
      st.connections.find? (fun x => x.fd == c.fd) = some c →
      ipc_callback w unpack lh c.fd kev (recvmsg_result.received bytes fds false) st =
        some ({ lh with recvbuf := lh.recvbuf ++ bytes, recvfds := lh.recvfds ++ fds },
          ipc_close c st) ∧
      (∀ x ∈ (ipc_close c st).connections, x.fd ≠ c.fd) ∧
      c.fd ∈ (ipc_close c st).closed) := by
  have hrecv : ∀ (τ : Type) (cb : launch_data → τ → τ × Bool) (ctx : τ),
      launchd_msg_recv unpack lh (recvmsg_result.received bytes fds false) cb ctx =
        some { ret := -1, errno := some EBADRPC,
               lh := { lh with recvbuf := lh.recvbuf ++ bytes, recvfds := lh.recvfds ++ fds },
               ctx := ctx, delivered := [] } := by
    intro τ cb ctx
    have hb : ¬ bytes.length = 0 := fun h => hbytes (List.length_eq_zero.1 h)
    unfold launchd_msg_recv
    simp only [hfd, hb, if_false, Bool.false_eq_true]
    exact msg_recv_loop_bad unpack cb _ _ ctx [] hlen hbad
  refine ⟨hrecv σ, ?_⟩
  intro w c kev st hkev hfind
  refine ⟨?_, ipc_close_gone c st⟩
  unfold ipc_callback
  rw [if_pos hkev, hrecv State]
  simp only [ipc_close_fd, hfind]
  rw [if_pos]
  refine ⟨trivial, ?_⟩
  simp [EBADRPC, EAGAIN]

theorem msg_recv_bad_header_witness :
    header_magic empty_frame = LAUNCH_MSG_HEADER_MAGIC ∧
    header_len empty_frame = 16 ∧
    launchd_msg_recv (fun _ _ => none) idle_handle
        (recvmsg_result.received empty_frame [] false)
        (fun (_ : launch_data) (n : Nat) => (n + 1, false)) 0 =
      some { ret := -1, errno := some EBADRPC,
             lh := { fd2use := 7, recvbuf := empty_frame, recvfds := [] },
             ctx := 0, delivered := [] } ∧
    ipc_callback World.calm (fun _ _ => none) idle_handle 7
        { ident := 7, filter := kq_filter.EVFILT_READ, eof := false, data := 16 }
        (recvmsg_result.received empty_frame [] false) open_state =
      some ({ fd2use := 7, recvbuf := empty_frame, recvfds := [] },
        ipc_close sample_conn open_state) ∧
    (ipc_close sample_conn open_state).connections = [] :=
  have h := @msg_recv_bad_header Nat (fun _ _ => none) idle_handle empty_frame []
    (by decide) (by decide) (by decide) (Or.inr (by decide))
  ⟨by decide, by decide, h.1 _ 0,
    (h.2 World.calm sample_conn
      { ident := 7, filter := kq_filter.EVFILT_READ, eof := false, data := 16 } open_state
      rfl rfl).1, rfl⟩

/-- C18: the supervisor starts with child count 0 and the wrap-around marker
clear.  Along every sequence of commands and events from the start of `main`
in which the kernel delivers an event only through a registration (and
process 1 hands a reaped pid to the first job that has it), and in which
fewer than `2^64` children were forked, the decrement of `job_reap` was never
executed while the child count was 0: the marker of a wrap-around is still
clear, and the count is at least the number of registered jobs that run. -/
theorem child_count_never_wraps (w : World) (argv : List String) (evs : List Event)
    (hd : Deliverable w (main_start w argv) evs)
    (hb : (run w (main_start w argv) evs).forked.length < SIZE_T_MOD) :
    State.init.total_children = 0 ∧ State.init.child_count_wrapped = false ∧
    (run w (main_start w argv) evs).child_count_wrapped = false ∧
    running_jobs (run w (main_start w argv) evs) ≤
      (run w (main_start w argv) evs).total_children := by
  have h := (run_children w evs _ (main_start_ok w argv) (main_start_children w argv) hd).2 hb
  exact ⟨rfl, rfl, h.2.2, h.1⟩

/-- C18 at a concrete trajectory: a job is submitted and started, and twice
its child exits, is reaped, and the job is restarted. -/
theorem child_count_never_wraps_witness :
    Deliverable World.calm (main_start World.calm []) two_exits_events ∧
    (run World.calm (main_start World.calm []) two_exits_events).forked.length <
      SIZE_T_MOD ∧
    (State.init.total_children = 0 ∧ State.init.child_count_wrapped = false ∧
    (run World.calm (main_start World.calm []) two_exits_events).child_count_wrapped =
      false ∧
    running_jobs (run World.calm (main_start World.calm []) two_exits_events) ≤
      (run World.calm (main_start World.calm []) two_exits_events).total_children) :=
  have hd : Deliverable World.calm (main_start World.calm []) two_exits_events :=
    ⟨rfl, rfl, rfl, rfl, trivial⟩
  have hb : (run World.calm (main_start World.calm []) two_exits_events).forked.length <
      SIZE_T_MOD := by
    have h2 : (run World.calm (main_start World.calm []) two_exits_events).forked.length =
        3 := rfl
    rw [h2]
    unfold SIZE_T_MOD
    norm_num
  ⟨hd, hb, child_count_never_wraps World.calm [] two_exits_events hd hb⟩

/-- C30: for a dictionary request whose keys before `k` are no recognised
commands and whose key `k` is one: the iteration leaves the earlier entries
alone, runs `ipc_readmsg2` for `k` on the state as it was, and leaves the
later entries alone, so context and state are those left by the command `k`;
that command yields a reply; the one reply handed to the transport is that
reply; and computing the response changes the engine state as the command
`k` alone does. -/
theorem first_command_answers (w : World) (st : State) (c : conncb)
    (pre post : List (String × launch_data)) (k : String) (v : launch_data)
    (hpre : ∀ kv ∈ pre, kv.1 ∉ recognised_commands) (hk : k ∈ recognised_commands) :
    ipc_readmsg_dict w (pre ++ (k, v) :: post) { c := c, resp := none } st =
      (pre ++ (k, (ipc_readmsg2 w (some v) k { c := c, resp := none } st).1.getD v) :: post,
        (ipc_readmsg2 w (some v) k { c := c, resp := none } st).2.1,
        (ipc_readmsg2 w (some v) k { c := c, resp := none } st).2.2) ∧
    (ipc_readmsg2 w (some v) k { c := c, resp := none } st).2.1.resp.isSome = true ∧
    some (ipc_readmsg w c (launch_data.dictionary (pre ++ (k, v) :: post)) st).1 =
      (ipc_readmsg2 w (some v) k { c := c, resp := none } st).2.1.resp ∧
    (ipc_readmsg_resp w c (launch_data.dictionary (pre ++ (k, v) :: post)) st).2.2 =
      (ipc_readmsg2 w (some v) k { c := c, resp := none } st).2.2 := by
  have h1 := ipc_readmsg_dict_first w pre post k v { c := c, resp := none } st hpre rfl hk
  have h2 := ipc_readmsg2_recognised w (some v) k { c := c, resp := none } st rfl hk
  have h3 : ipc_readmsg_resp w c (launch_data.dictionary (pre ++ (k, v) :: post)) st =
      (launch_data.dictionary
        (pre ++ (k, (ipc_readmsg2 w (some v) k { c := c, resp := none } st).1.getD v) :: post),
        (ipc_readmsg2 w (some v) k { c := c, resp := none } st).2.1,
        (ipc_readmsg2 w (some v) k { c := c, resp := none } st).2.2) := by
    obtain ⟨r, hr⟩ := Option.isSome_iff_exists.1 h2
    unfold ipc_readmsg_resp
    simp only [h1, hr]
  refine ⟨h1, h2, ?_, ?_⟩
  · rw [ipc_readmsg_reply, h3]
  · rw [h3]

/-- C30 at a concrete request: the unknown key is skipped, `GetJobs` is
answered with the dictionary of the one registered job, and `Shutdown`, which
comes after it, is not executed. -/
theorem first_command_answers_witness :
    (∀ kv ∈ [("NoSuchCommand", launch_data.string "x")], kv.1 ∉ recognised_commands) ∧
    LAUNCH_KEY_GETJOBS ∈ recognised_commands ∧
    (ipc_readmsg World.calm sample_conn several_keys_msg sample_state).1 =
      launch_data_revoke_fds none (get_jobs none sample_state) ∧
    (ipc_readmsg_resp World.calm sample_conn several_keys_msg sample_state).2.2 =
      sample_state ∧
    (ipc_readmsg World.calm sample_conn several_keys_msg sample_state).2.shutdown_in_progress =
      false :=
  have hpre : ∀ kv ∈ [("NoSuchCommand", launch_data.string "x")],
      kv.1 ∉ recognised_commands := by
    intro kv hkv
    rw [List.mem_singleton] at hkv
    subst hkv
    decide
  have hk : LAUNCH_KEY_GETJOBS ∈ recognised_commands := by decide
  have h := first_command_answers World.calm sample_state sample_conn
    [("NoSuchCommand", launch_data.string "x")] [(LAUNCH_KEY_SHUTDOWN, launch_data.string "")]
    LAUNCH_KEY_GETJOBS (launch_data.string "") hpre hk
  ⟨hpre, hk, Option.some.inj (h.2.2.1.trans rfl), h.2.2.2.trans rfl, rfl⟩

/-- C29: the claim fails at both removal branches of `job_callback`. First, the child 101
of a ServiceIPC job that never checked in exits: the job is removed from the
registry, and then `job_start` runs on the removed record, forks the child 103
and registers a process watch tagged with the removed job, so the child count
is 1 after the event as it was before. Second, the child 101 of a job with ten
failed exits exits with a failure: the counter passes the threshold, the job
is removed, and the removed record is started again as child 102, the child
count being 1 before and after. -/
theorem removed_job_started_again :
    (service_state false).total_children = 1 ∧
    (service_state false).forked = [101] ∧
    (step World.calm (service_state false)
      (child_exit_event (service_state false) 0)).jobs = [] ∧
    (step World.calm (service_state false)
      (child_exit_event (service_state false) 0)).forked = [101, 103] ∧
    (step World.calm (service_state false)
      (child_exit_event (service_state false) 0)).total_children = 1 ∧
    (step World.calm (service_state false)
      (child_exit_event (service_state false) 0)).kq =
      [{ ident := 1002, filter := kq_filter.EVFILT_READ, udata := kq_callback.conn 1002 },
       { ident := 103, filter := kq_filter.EVFILT_PROC, udata := kq_callback.job 0 }] ∧
    threshold_state.total_children = 1 ∧
    threshold_state.forked = [101] ∧
    (step World.frozen threshold_state (child_exit_event threshold_state 0)).jobs = [] ∧
    (step World.frozen threshold_state (child_exit_event threshold_state 0)).forked =
      [101, 102] ∧
    (step World.frozen threshold_state (child_exit_event threshold_state 0)).total_children =
      1 ∧
    (step World.frozen threshold_state (child_exit_event threshold_state 0)).kq =
      [{ ident := 102, filter := kq_filter.EVFILT_PROC, udata := kq_callback.job 0 }] :=
  ⟨rfl, rfl, rfl, rfl, rfl, rfl, rfl, rfl, rfl, rfl, rfl, rfl⟩

/-- C23: at an iteration of the main loop, if the supervisor is not process 1
and the registry is empty, the wait has the timeout of 30 seconds and a return
of `kevent` with no event ends the process with `EXIT_SUCCESS`; if the
supervisor is process 1 or the registry is not empty, every wait of the
iteration has no timeout and a return with no event goes on to the next
iteration with the state unchanged, and the iteration does wait unless the
supervisor is not process 1, shutdown is in progress and no child is left. -/
theorem main_loop_idle_timeout (w : World) (pre : State → State) (st : State) (ev : Event) :
    (w.pid ≠ 1 → st.jobs = [] →
      main_loop_head w pre st =
        loop_wait.waits (some { tv_sec := 30, tv_nsec := 0 }) st ∧
      main_loop_turn w pre st 0 ev = loop_turn.exited EXIT_SUCCESS) ∧
    (w.pid = 1 ∨ st.jobs ≠ [] →
      (∀ t st1, main_loop_head w pre st = loop_wait.waits t st1 →
        t = none ∧ main_loop_switch w t st1 0 ev = loop_turn.next st1 ∧
        main_loop_turn w pre st 0 ev = loop_turn.next st1) ∧
      ((∃ st1, main_loop_head w pre st = loop_wait.waits none st1) ∨
        (w.pid ≠ 1 ∧ st.shutdown_in_progress = true ∧ st.total_children = 0 ∧
          main_loop_head w pre st = loop_wait.exits EXIT_SUCCESS))) := by
  refine ⟨fun hp hj => ?_, fun h => ?_⟩
  · have hp1 : (w.pid == 1) = false := by simpa using hp
    simp [main_loop_turn, main_loop_head, main_loop_switch, hp1, hj]
  · by_cases hp : w.pid = 1
    · have hp1 : (w.pid == 1) = true := by simpa using hp
      by_cases hr : (st.readcfg_pid == 0) = true
      · have hh : main_loop_head w pre st = loop_wait.waits none (pre st) := by
          simp [main_loop_head, hp1, hr]
        refine ⟨fun t st1 e => ?_, Or.inl ⟨_, hh⟩⟩
        rw [hh] at e
        injection e with e1 e2
        subst e1 e2
        simp [main_loop_turn, hh, main_loop_switch]
      · have hh : main_loop_head w pre st = loop_wait.waits none st := by
          simp [main_loop_head, hp1, hr]
        refine ⟨fun t st1 e => ?_, Or.inl ⟨_, hh⟩⟩
        rw [hh] at e
        injection e with e1 e2
        subst e1 e2
        simp [main_loop_turn, hh, main_loop_switch]
    · have hp1 : (w.pid == 1) = false := by simpa using hp
      have hj : st.jobs ≠ [] := h.resolve_left hp
      have hj1 : st.jobs.isEmpty = false := by
        cases hjj : st.jobs with
        | nil => exact absurd hjj hj
        | cons a l => rfl
      by_cases hs : (st.shutdown_in_progress && st.total_children == 0) = true
      · have hh : main_loop_head w pre st = loop_wait.exits EXIT_SUCCESS := by
          simp only [main_loop_head, hp1, hj1, hs, if_true]
          rfl
        refine ⟨fun t st1 e => ?_, Or.inr ⟨hp, ?_, ?_, hh⟩⟩
        · rw [hh] at e
          cases e
        · simp at hs
          exact hs.1
        · simp at hs
          exact hs.2
      · have hh : main_loop_head w pre st = loop_wait.waits none st := by
          simp only [main_loop_head, hp1, hj1, hs]
          rfl
        refine ⟨fun t st1 e => ?_, Or.inl ⟨_, hh⟩⟩
        rw [hh] at e
        injection e with e1 e2
        subst e1 e2
        simp [main_loop_turn, hh, main_loop_switch]

/-- C23 at concrete states of a per-user supervisor: with the empty registry a
return of `kevent` with no event ends the process, with the sample registry it
does not. -/
theorem main_loop_idle_timeout_witness :
    World.calm.pid ≠ 1 ∧ State.init.jobs = [] ∧ sample_state.jobs ≠ [] ∧
    main_loop_turn World.calm id State.init 0 (Event.signal 0) =
      loop_turn.exited EXIT_SUCCESS ∧
    (∀ t st1, main_loop_head World.calm id sample_state = loop_wait.waits t st1 →
      t = none ∧ main_loop_switch World.calm t st1 0 (Event.signal 0) = loop_turn.next st1 ∧
      main_loop_turn World.calm id sample_state 0 (Event.signal 0) = loop_turn.next st1) ∧
    main_loop_head World.calm id sample_state = loop_wait.waits none sample_state :=
  ⟨by decide, rfl, fun h => List.noConfusion h,
    ((main_loop_idle_timeout World.calm id State.init (Event.signal 0)).1
      (by decide) rfl).2,
    ((main_loop_idle_timeout World.calm id sample_state (Event.signal 0)).2
      (Or.inr (fun h => List.noConfusion h))).1,
    rfl⟩

/-- C25: for a call of `job_start` on a job that is not running, with `e` the
whole seconds of `tvd`: the failed-exits counter of the record afterwards is 0
if `e ≥ 60` and is the counter before if `e < 60`; and for `10 ≤ e < 60` the
counter is the one before and the forked child does not sleep. -/
theorem job_start_reward (w : World) (j : jobcb) (st : State) (hp : j.p = 0) :
    (60 ≤ (job_start_tvd w j st).tv_sec → (job_start w j st).1.failed_exits = 0) ∧
    ((job_start_tvd w j st).tv_sec < 60 →
      (job_start w j st).1.failed_exits = j.failed_exits) ∧
    (10 ≤ (job_start_tvd w j st).tv_sec → (job_start_tvd w j st).tv_sec < 60 →
      (job_start w j st).1.failed_exits = j.failed_exits ∧
      job_start_child_sleep w j st = none) := by
  have h := job_start_failed_exits w j st hp
  simp only [LAUNCHD_REWARD_JOB_RUN_TIME] at h
  refine ⟨fun h1 => ?_, fun h1 => ?_, fun h1 h2 => ⟨?_, ?_⟩⟩
  · rw [h, if_pos h1]
  · rw [h, if_neg (by omega)]
  · rw [h, if_neg (by omega)]
  · unfold job_start_child_sleep
    rw [if_neg (by simp [hp])]
    simp only [LAUNCHD_MIN_JOB_RUN_TIME]
    rw [if_neg]
    simp only [Bool.and_eq_true, decide_eq_true_eq, not_and, not_lt]
    exact fun _ => h1

/-- C25 at concrete starts under the frozen clock: a job with one failed exit
last started 30 seconds ago keeps its counter and its child does not sleep; the
same job last started 60 seconds ago has its counter reset. -/
theorem job_start_reward_witness :
    (idle_failed_job 30).p = 0 ∧ (idle_failed_job 30).failed_exits = 1 ∧
    (job_start_tvd World.frozen (idle_failed_job 30) State.init).tv_sec = 30 ∧
    (job_start World.frozen (idle_failed_job 30) State.init).1.failed_exits = 1 ∧
    job_start_child_sleep World.frozen (idle_failed_job 30) State.init = none ∧
    (job_start_tvd World.frozen (idle_failed_job 60) State.init).tv_sec = 60 ∧
    (job_start World.frozen (idle_failed_job 60) State.init).1.failed_exits = 0 :=
  ⟨rfl, rfl, rfl,
    ((job_start_reward World.frozen (idle_failed_job 30) State.init rfl).2.2
      (by decide) (by decide)).1,
    ((job_start_reward World.frozen (idle_failed_job 30) State.init rfl).2.2
      (by decide) (by decide)).2,
    rfl,
    (job_start_reward World.frozen (idle_failed_job 60) State.init rfl).1 (by decide)⟩

/-- C26: for a start of a job (a call of `job_start` on a job that is not
running), with `e ≥ 0` the whole seconds of `tvd`: the forked child sleeps if
and only if the job is not on-demand, `e < 10` and the failed-exits counter is
positive, and then the argument of `sleep` is `10 - e`, between 1 and 10. -/
theorem child_sleep_throttle (w : World) (j : jobcb) (st : State) (hp : j.p = 0)
    (he : 0 ≤ (job_start_tvd w j st).tv_sec) :
    ((job_start_child_sleep w j st).isSome = true ↔
      on_demand j = false ∧ (job_start_tvd w j st).tv_sec < 10 ∧ 0 < j.failed_exits) ∧
    (job_start_child_sleep w j st = none ↔
      ¬ (on_demand j = false ∧ (job_start_tvd w j st).tv_sec < 10 ∧ 0 < j.failed_exits)) ∧
    (∀ s, job_start_child_sleep w j st = some s →
      (s : Int) = 10 - (job_start_tvd w j st).tv_sec ∧ 1 ≤ s ∧ s ≤ 10) := by
  unfold job_start_child_sleep on_demand
  rw [if_neg (by simp [hp])]
  simp only [LAUNCHD_MIN_JOB_RUN_TIME, LAUNCHD_REWARD_JOB_RUN_TIME]
  generalize (job_start_tvd w j st).tv_sec = e at he
  by_cases h1 : job_get_bool j.ldj LAUNCH_JOBKEY_ONDEMAND = true
  · simp [h1]
  · have h1f : job_get_bool j.ldj LAUNCH_JOBKEY_ONDEMAND = false := by simpa using h1
    by_cases h2 : e < 10
    · have h3 : ¬ e ≥ 60 := by omega
      by_cases h4 : 0 < j.failed_exits
      · simp only [h1f, h2, h3, h4, Bool.not_false, decide_True, Bool.and_self, if_true,
          if_false, gt_iff_lt, Option.isSome_some, and_self, not_true_eq_false,
          Option.some.injEq, forall_eq', true_and, iff_self]
        have h5 : (10 - e) % 2 ^ 32 = 10 - e := Int.emod_eq_of_lt (by omega) (by omega)
        rw [h5]
        refine ⟨by simp, ?_, ?_, ?_⟩ <;> omega
      · simp [h1f, h2, h3, h4]
    · simp [h1f, h2]

/-- C26 at concrete starts under the frozen clock: the child of a job with one
failed exit last started 3 seconds ago sleeps 7 seconds; last started 10
seconds ago, it does not sleep. -/
theorem child_sleep_throttle_witness :
    (idle_failed_job 3).p = 0 ∧ on_demand (idle_failed_job 3) = false ∧
    (job_start_tvd World.frozen (idle_failed_job 3) State.init).tv_sec = 3 ∧
    job_start_child_sleep World.frozen (idle_failed_job 3) State.init = some 7 ∧
    job_start_child_sleep World.frozen (idle_failed_job 10) State.init = none ∧
    ((job_start_child_sleep World.frozen (idle_failed_job 3) State.init).isSome = true ↔
      on_demand (idle_failed_job 3) = false ∧
      (job_start_tvd World.frozen (idle_failed_job 3) State.init).tv_sec < 10 ∧
      0 < (idle_failed_job 3).failed_exits) :=
  ⟨rfl, rfl, rfl, rfl, rfl,
    (child_sleep_throttle World.frozen (idle_failed_job 3) State.init rfl (by decide)).1⟩

/-- C28: the claim fails, and the code differs from its sibling steps, which
test that a key is present before they use its value.  For the configuration
`nofile_config`, whose soft limits provide a bound for open files only, the
soft bound of every other kind is written back as 0 instead of the current
soft bound 256, while the hard bounds stay 4096; in general, when the
dictionary of soft limits is present, the soft bound written for a key is the
value of `job_get_integer`, which is 0 for a key the dictionary lacks. -/
theorem missing_limit_written_zero :
    launch_data_dict_lookup nofile_config LAUNCH_JOBKEY_HARDRESOURCELIMITS = none ∧
    (launch_data_dict_lookup nofile_config LAUNCH_JOBKEY_SOFTRESOURCELIMITS).bind
      (fun s => launch_data_dict_lookup s LAUNCH_JOBKEY_RESOURCELIMIT_CPU) = none ∧
    job_start_child_limits nofile_config sample_getrlimit =
      [(rlimit_kind.RLIMIT_CORE, { rlim_cur := 0, rlim_max := 4096 }),
       (rlimit_kind.RLIMIT_CPU, { rlim_cur := 0, rlim_max := 4096 }),
       (rlimit_kind.RLIMIT_DATA, { rlim_cur := 0, rlim_max := 4096 }),
       (rlimit_kind.RLIMIT_FSIZE, { rlim_cur := 0, rlim_max := 4096 }),
       (rlimit_kind.RLIMIT_MEMLOCK, { rlim_cur := 0, rlim_max := 4096 }),
       (rlimit_kind.RLIMIT_NOFILE, { rlim_cur := 1024, rlim_max := 4096 }),
       (rlimit_kind.RLIMIT_NPROC, { rlim_cur := 0, rlim_max := 4096 }),
       (rlimit_kind.RLIMIT_RSS, { rlim_cur := 0, rlim_max := 4096 }),
       (rlimit_kind.RLIMIT_STACK, { rlim_cur := 0, rlim_max := 4096 })] ∧
    (∀ (s : launch_data) (hrl : Option launch_data) (key : String) (rl : rlimit),
      launch_data_dict_lookup s key = none →
      (job_start_child_limit (some s) hrl key rl).rlim_cur = 0) ∧
    (∀ (h : launch_data) (srl : Option launch_data) (key : String) (rl : rlimit),
      launch_data_dict_lookup h key = none →
      (job_start_child_limit srl (some h) key rl).rlim_max = 0) := by
  refine ⟨rfl, rfl, by decide, ?_, ?_⟩
  · intro s hrl key rl h
    simp [job_start_child_limit, job_get_integer, h, to_rlim_t]
  · intro h srl key rl hk
    cases srl <;> simp [job_start_child_limit, job_get_integer, hk, to_rlim_t]

/-- C24: for a payload that `load_job` accepts, in a state `st`, with the
kernel accepting registrations: the value of `OnDemand` in the stored
configuration is true when the payload has no `OnDemand` key; if it is true,
the registry afterwards is the registry before followed by the new record,
whose pid is 0, the list of forked children and the child count are unchanged,
and a read watch tagged with the job is registered for every descriptor of its
configuration other than -1; if it is false, the state afterwards is the one
`job_start` leaves for the new record linked into the registry, up to the
pointer to the helper job. -/
theorem submit_watches_or_starts (w : World) (hk : ∀ n, w.kevent n = true) (st : State)
    (pload : launch_data) (h : (load_job w pload st).1 = launch_data_new_errno 0) :
    (launch_data_dict_lookup pload LAUNCH_JOBKEY_ONDEMAND = none →
      on_demand (new_job st.next_id pload) = true) ∧
    (on_demand (new_job st.next_id pload) = true →
      (load_job w pload st).2.2.jobs = st.jobs ++ [new_job st.next_id pload] ∧
      (new_job st.next_id pload).p = 0 ∧
      (load_job w pload st).2.2.forked = st.forked ∧
      (load_job w pload st).2.2.total_children = st.total_children ∧
      ∀ fd ∈ live_fds (new_job st.next_id pload).ldj,
        job_watch st.next_id fd ∈ (load_job w pload st).2.2.kq) ∧
    (on_demand (new_job st.next_id pload) = false →
      ∃ hd, (load_job w pload st).2.2 =
        { (job_start w (new_job st.next_id pload)
            (link_job (new_job st.next_id pload) st)).2 with helperd := hd }) := by
  obtain ⟨label, hl, -, -, he⟩ := load_job_accepted w st pload h
  rw [he]
  refine ⟨fun h0 => stored_config_default pload label hl h0, fun hod => ?_, fun hod => ?_⟩
  · have := load_job_insert_on_demand w hk pload label st hod
    exact ⟨this.1, rfl, this.2.1, this.2.2.1, this.2.2.2⟩
  · have hod2 : job_get_bool (new_job st.next_id pload).ldj LAUNCH_JOBKEY_ONDEMAND = false := hod
    simp only [load_job_insert, hod2]
    split
    · exact ⟨_, rfl⟩
    · exact ⟨_, rfl⟩

/-- C24 at concrete payloads submitted to the empty registry: without an
`OnDemand` key the job with the listeners 50 and 51 is registered idle, no
child is forked and both listeners are watched; with `OnDemand` false the job
is started, as child 101. -/
theorem submit_watches_or_starts_witness :
    (∀ n, World.calm.kevent n = true) ∧
    (load_job World.calm (listeners_config []) State.init).1 = launch_data_new_errno 0 ∧
    launch_data_dict_lookup (listeners_config []) LAUNCH_JOBKEY_ONDEMAND = none ∧
    live_fds (new_job State.init.next_id (listeners_config [])).ldj = [50, 51] ∧
    ((load_job World.calm (listeners_config []) State.init).2.2.jobs =
        State.init.jobs ++ [new_job State.init.next_id (listeners_config [])] ∧
      (new_job State.init.next_id (listeners_config [])).p = 0 ∧
      (load_job World.calm (listeners_config []) State.init).2.2.forked = State.init.forked ∧
      (load_job World.calm (listeners_config []) State.init).2.2.total_children =
        State.init.total_children ∧
      ∀ fd ∈ live_fds (new_job State.init.next_id (listeners_config [])).ldj,
        job_watch State.init.next_id fd ∈
          (load_job World.calm (listeners_config []) State.init).2.2.kq) ∧
    on_demand (new_job State.init.next_id
      (listeners_config [(LAUNCH_JOBKEY_ONDEMAND, launch_data.bool false)])) = false ∧
    (load_job World.calm
      (listeners_config [(LAUNCH_JOBKEY_ONDEMAND, launch_data.bool false)])
      State.init).2.2.forked = [101] ∧
    (load_job World.calm
      (listeners_config [(LAUNCH_JOBKEY_ONDEMAND, launch_data.bool false)])
      State.init).2.2.total_children = 1 ∧
    (load_job World.calm
      (listeners_config [(LAUNCH_JOBKEY_ONDEMAND, launch_data.bool false)])
      State.init).2.2.jobs.map (fun j => j.p) = [101] :=
  ⟨fun _ => rfl, rfl, rfl, rfl,
    (submit_watches_or_starts World.calm (fun _ => rfl) State.init (listeners_config [])
      rfl).2.1 ((submit_watches_or_starts World.calm (fun _ => rfl) State.init
        (listeners_config []) rfl).1 rfl),
    rfl, rfl, rfl, rfl⟩

/-- C27: for a registered idle job `j` that is on demand, not the firstborn
job, without ServiceIPC and with fewer failed exits than the threshold, when
`kevent` and `fork` succeed: the end-of-file read event on `d` leaves the job
registered with the configuration in which the entries equal to `d` are
revoked (its live descriptors are those of the old configuration other than
`d`, in the same order) and with a child, the one child forked by the event,
which is counted; the exit event of that child forks nothing, keeps the
revoked configuration, leaves no watch of `d` tagged with the job and leaves a
watch tagged with the job for every other live descriptor of the job. -/
theorem eof_revokes_listener (w : World) (hk : ∀ n, w.kevent n = true)
    (hfork : ∀ n, w.fork n ≠ -1 ∧ w.fork n ≠ 0) (st : State) (j : jobcb) (d : Int)
    (hf : find_job st j.id = some j) (hp : j.p = 0) (hod : on_demand j = true)
    (hfb : j.firstborn = false)
    (hipc : job_get_bool j.ldj LAUNCH_JOBKEY_SERVICEIPC = false)
    (hfe : j.failed_exits < LAUNCHD_FAILED_EXITS_THRESHOLD) :
    (∃ j1, find_job (step w st (eof_event j.id d)) j.id = some j1 ∧
      j1.ldj = launch_data_revoke_fds (some d) j.ldj ∧ j1.p ≠ 0 ∧
      (step w st (eof_event j.id d)).forked = st.forked ++ [j1.p]) ∧
    (step w st (eof_event j.id d)).total_children = size_t_succ st.total_children ∧
    live_fds (launch_data_revoke_fds (some d) j.ldj) =
      (live_fds j.ldj).filter (fun fd => fd != d) ∧
    (step w (step w st (eof_event j.id d))
      (child_exit_event (step w st (eof_event j.id d)) j.id)).forked =
      (step w st (eof_event j.id d)).forked ∧
    (∃ j2, find_job (step w (step w st (eof_event j.id d))
        (child_exit_event (step w st (eof_event j.id d)) j.id)) j.id = some j2 ∧
      j2.ldj = launch_data_revoke_fds (some d) j.ldj) ∧
    job_watch j.id d ∉ (step w (step w st (eof_event j.id d))
      (child_exit_event (step w st (eof_event j.id d)) j.id)).kq ∧
    (∀ fd ∈ live_fds j.ldj, fd ≠ d →
      job_watch j.id fd ∈ (step w (step w st (eof_event j.id d))
        (child_exit_event (step w st (eof_event j.id d)) j.id)).kq) := by
  obtain ⟨hco, hkq⟩ := step_eof_eq w st j d hf
  obtain ⟨e1, e2, e3, e4, e5, e6, e7, e8, e9⟩ := eof_start_facts w hk hfork st j d hf hp
  have hf1 : find_job (step w st (eof_event j.id d)) (eof_start w j d st).1.id =
      some (eof_start w j d st).1 := by
    rw [e4, find_job_congr (core_jobs hco)]
    exact e1
  have hx := exit_rearms w hk (step w st (eof_event j.id d)) (eof_start w j d st).1 hf1
    (e5.trans hfb) (by rw [e3, revoke_job_get_bool]; exact hipc)
    (Nat.lt_of_le_of_lt e6 hfe) (by rw [e3, revoke_job_get_bool]; exact hod)
  rw [e4, e3] at hx
  rw [e4] at hf1
  refine ⟨⟨_, hf1, e3, e2, ?_⟩, ?_, live_fds_revoke_some d j.ldj, hx.1, hx.2.1, ?_, ?_⟩
  · rw [core_forked hco]
    exact e7
  · rw [core_total_children hco]
    exact e8
  · intro hmem
    rcases hx.2.2.2 _ hmem with h | h
    · rw [hkq] at h
      exact e9 _ h rfl ⟨_, rfl⟩ rfl
    · have h3 : d ∈ live_fds (launch_data_revoke_fds (some d) j.ldj) := h.2.2
      rw [mem_live_fds_revoke] at h3
      exact h3.2 rfl
  · intro fd hfd hne
    exact hx.2.2.1 fd ((mem_live_fds_revoke d j.ldj fd).2 ⟨hfd, hne⟩)

/-- C27 at the idle job with the listeners 50 and 51, on the end-of-file event
for 50 and the exit of the child 103 it starts: the hypotheses hold, the
watches before are those of 50 and 51, and after the exit the only
registration is the watch of 51. -/
theorem eof_revokes_listener_witness :
    (∀ n, World.calm.kevent n = true) ∧
    (∀ n, World.calm.fork n ≠ -1 ∧ World.calm.fork n ≠ 0) ∧
    find_job listeners_state 0 = some (new_job 0 (listeners_config [])) ∧
    live_fds (new_job 0 (listeners_config [])).ldj = [50, 51] ∧
    listeners_state.kq = [job_watch 0 50, job_watch 0 51] ∧
    (step World.calm listeners_state (eof_event 0 50)).forked = [103] ∧
    (step World.calm (step World.calm listeners_state (eof_event 0 50))
      (child_exit_event (step World.calm listeners_state (eof_event 0 50)) 0)).kq =
      [job_watch 0 51] ∧
    job_watch 0 50 ∉ (step World.calm (step World.calm listeners_state (eof_event 0 50))
      (child_exit_event (step World.calm listeners_state (eof_event 0 50)) 0)).kq ∧
    (∀ fd ∈ live_fds (new_job 0 (listeners_config [])).ldj, fd ≠ 50 →
      job_watch 0 fd ∈ (step World.calm (step World.calm listeners_state (eof_event 0 50))
        (child_exit_event (step World.calm listeners_state (eof_event 0 50)) 0)).kq) :=
  have hfork : ∀ n, World.calm.fork n ≠ -1 ∧ World.calm.fork n ≠ 0 := by
    intro n
    simp only [World.calm]
    constructor <;> omega
  have h := eof_revokes_listener World.calm (fun _ => rfl) hfork listeners_state
    (new_job 0 (listeners_config [])) 50 rfl rfl rfl rfl rfl (by decide)
  ⟨fun _ => rfl, hfork, rfl, rfl, rfl, rfl, rfl, h.2.2.2.2.2.1, h.2.2.2.2.2.2⟩

/-- C21: the claim fails where it speaks of a write that accepts part of a
reply while the next request of the same read is dispatched.  In general, a
reply handed to `launchd_msg_send` while bytes are pending fails the assertion
of the function and nothing is written; and a write that accepts the header
and part of the payload ends with `EAGAIN` and leaves bytes pending.  At the
failing input, one read brings two `GetJobs` requests on a connection whose
socket is congested: `launchd_msg_recv` hands both to `ipc_readmsg` in the same
call, each is answered with the empty dictionary, the write of the first reply
accepts 16 of its 17 bytes and leaves one byte pending, and the second reply
fails the assertion, so that the bytes written are the first 16 bytes of the
first reply and not the two framed replies. -/
theorem pending_reply_aborts :
    (∀ (pack : launch_data → List Nat × List Int) (lh : launch_out) (d : launch_data)
      (sm : sendmsg_result), lh.fd2use ≠ -1 → lh.sendbuf ≠ [] →
      launchd_msg_send pack lh (some d) sm =
        { status := send_end.assertion_failed, lh := lh, written := [], passed := [] }) ∧
    (∀ (pack : launch_data → List Nat × List Int) (lh : launch_out) (d : launch_data)
      (r : Nat), lh.fd2use ≠ -1 → lh.sendbuf = [] → 16 ≤ r → r < 16 + (pack d).1.length →
      (launchd_msg_send pack lh (some d) (sendmsg_result.accepted r true)).status =
        send_end.returned (-1) (some EAGAIN) ∧
      (launchd_msg_send pack lh (some d) (sendmsg_result.accepted r true)).written =
        (framed pack d).take r ∧
      (launchd_msg_send pack lh (some d) (sendmsg_result.accepted r true)).lh.sendbuf ≠ []) ∧
    (launchd_msg_recv sample_unpack idle_handle
      (recvmsg_result.received (getjobs_frame ++ getjobs_frame) [] false)
      (ipc_readmsg_cb World.congested 7) open_state).map (fun r => (r.ret, r.delivered)) =
      some (0, [launch_data.string LAUNCH_KEY_GETJOBS, launch_data.string LAUNCH_KEY_GETJOBS]) ∧
    (ipc_readmsg World.congested sample_conn (launch_data.string LAUNCH_KEY_GETJOBS)
      open_state).1 = launch_data.dictionary [] ∧
    framed sample_pack (launch_data.dictionary []) =
      [0xD2, 0xFE, 0xA0, 0x23, 0x66, 0xB3, 0x9A, 0x41, 0, 0, 0, 0, 0, 0, 0, 17, 0] ∧
    first_reply_send.status = send_end.returned (-1) (some EAGAIN) ∧
    first_reply_send.written =
      [0xD2, 0xFE, 0xA0, 0x23, 0x66, 0xB3, 0x9A, 0x41, 0, 0, 0, 0, 0, 0, 0, 17] ∧
    first_reply_send.lh.sendbuf = [0] ∧
    (∀ sm, (launchd_msg_send sample_pack first_reply_send.lh (some (launch_data.dictionary []))
      sm).status = send_end.assertion_failed ∧
      (launchd_msg_send sample_pack first_reply_send.lh (some (launch_data.dictionary []))
        sm).written = []) ∧
    (∀ sm, first_reply_send.written ++
      (launchd_msg_send sample_pack first_reply_send.lh (some (launch_data.dictionary []))
        sm).written ≠
      framed sample_pack (launch_data.dictionary []) ++
        framed sample_pack (launch_data.dictionary [])) := by
  have hp : ∀ sm, launchd_msg_send sample_pack first_reply_send.lh
      (some (launch_data.dictionary [])) sm =
      { status := send_end.assertion_failed, lh := first_reply_send.lh, written := [],
        passed := [] } :=
    fun sm => msg_send_pending sample_pack first_reply_send.lh _ sm (by decide) (by decide)
  refine ⟨fun pack lh d sm h1 h2 => msg_send_pending pack lh d sm h1 h2, ?_, rfl, rfl, rfl, rfl,
    rfl, rfl, fun sm => ?_, fun sm => ?_⟩
  · intro pack lh d r h1 h2 h3 h4
    have h := msg_send_partial pack lh d r h1 h2 h3 h4
    exact ⟨h.1, h.2.1, h.2.2.2⟩
  · rw [hp sm]
    exact ⟨rfl, rfl⟩
  · rw [hp sm]
    decide

/-- C22 (the claim as stated fails): one read brings two complete valid frames,
each the request `GetJobs`, on a connection whose peer has gone.  The callback
`ipc_readmsg` answers the first request, the send fails and it closes the
connection; `launchd_msg_recv` then returns 0 although the callback has been
invoked on the first frame only and no byte of the buffer has been
consumed. -/
theorem recv_stops_on_close :
    ValidFrame sample_unpack getjobs_request ∧
    stream_bytes [getjobs_request, getjobs_request] = getjobs_frame ++ getjobs_frame ∧
    (launchd_msg_recv sample_unpack idle_handle
      (recvmsg_result.received (getjobs_frame ++ getjobs_frame) [] false)
      (ipc_readmsg_cb World.broken 7) open_state).map
        (fun r => (r.ret, r.errno, r.delivered, r.lh.recvbuf, r.ctx.connections.length)) =
      some (0, none, [launch_data.string LAUNCH_KEY_GETJOBS],
        getjobs_frame ++ getjobs_frame, 0) :=
  ⟨getjobs_request_valid, rfl, rfl⟩

/-- C22, amended: with a callback that does not close the connection.  One
call: if the buffer after `recvmsg` holds the complete valid frames `gs`
followed by `P`, which is empty or a proper start of a valid frame, and the
descriptor buffer holds the descriptors of `gs` followed by `Q`, the call
invokes the callback on the messages of `gs` in order, keeps exactly `P` and
`Q`, and returns 0 if `P` is empty and -1 with `EAGAIN` otherwise.  Several
reads: if the reads, none empty, bring the bytes and the descriptors of the
valid frames `fs`, cut anywhere, and the descriptors of a frame come no later
than its last byte, then the calls together invoke the callback on the
messages of `fs` in order, once each, every call returns 0 or -1 with `EAGAIN`,
and both buffers are empty at the end. -/
theorem recv_split_reads {σ : Type}
    (unpack : List Nat → List Int → Option (launch_data × Nat × Nat))
    (cb : launch_data → σ → σ × Bool) (hcb : ∀ m c, (cb m c).2 = false) :
    (∀ (lh : launch) (bytes : List Nat) (fds : List Int) (gs : List frame) (P : List Nat)
      (Q : List Int) (ctx : σ), lh.fd2use ≠ -1 → bytes ≠ [] →
      (∀ g ∈ gs, ValidFrame unpack g) →
      (P = [] ∨ ∃ h t, ValidFrame unpack h ∧ t ≠ [] ∧ h.bytes = P ++ t) →
      lh.recvbuf ++ bytes = stream_bytes gs ++ P →
      lh.recvfds ++ fds = stream_fds gs ++ Q →
      launchd_msg_recv unpack lh (recvmsg_result.received bytes fds false) cb ctx =
        some { ret := if P = [] then 0 else -1,
               errno := if P = [] then none else some EAGAIN,
               lh := { fd2use := lh.fd2use, recvbuf := P, recvfds := Q },
               ctx := gs.foldl (fun c g => (cb g.msg c).1) ctx,
               delivered := gs.map (fun g => g.msg) }) ∧
    (∀ (fs : List frame) (cs : List (List Nat × List Int)) (fd : Int) (ctx : σ), fd ≠ -1 →
      (∀ f ∈ fs, ValidFrame unpack f) → (∀ c ∈ cs, c.1 ≠ []) →
      reads_bytes cs = stream_bytes fs → reads_fds cs = stream_fds fs →
      (∀ n ≤ cs.length, ∀ k ≤ fs.length,
        (stream_bytes (fs.take k)).length ≤ (reads_bytes (cs.take n)).length →
        (stream_fds (fs.take k)).length ≤ (reads_fds (cs.take n)).length) →
      ∃ q, recv_reads unpack cb { fd2use := fd, recvbuf := [], recvfds := [] } ctx cs = some q ∧
        q.delivered = fs.map (fun f => f.msg) ∧
        q.ctx = fs.foldl (fun c f => (cb f.msg c).1) ctx ∧
        q.lh = { fd2use := fd, recvbuf := [], recvfds := [] } ∧
        q.returns.length = cs.length ∧
        ∀ x ∈ q.returns, x = (0, none) ∨ x = (-1, some EAGAIN)) := by
  refine ⟨?_, ?_⟩
  · intro lh bytes fds gs P Q ctx hfd hb hv hP h1 h2
    exact launchd_msg_recv_frames unpack cb hcb lh hfd bytes fds hb gs hv P Q hP h1 h2 ctx
  · intro fs cs fd ctx hfd hv hne hb hf htime
    refine recv_reads_frames unpack cb hcb cs fs { fd2use := fd, recvbuf := [], recvfds := [] }
      ctx hfd hv hne hb hf ?_ ?_
    · intro f hf1
      have h16 : LAUNCH_MSG_HEADER_SIZE = 16 := rfl
      have hm : f ∈ fs := by
        cases fs with
        | nil => simp at hf1
        | cons a l =>
          simp only [List.head?_cons, Option.mem_def, Option.some.injEq] at hf1
          rw [← hf1]
          exact List.mem_cons_self _ _
      have := (hv f hm).1
      simp only [List.length_nil]
      omega
    · intro cs1 cs2 hcs k hk
      have h1 : cs.take cs1.length = cs1 := by
        rw [hcs]
        exact List.take_left _ _
      have h2 : cs1.length ≤ cs.length := by
        rw [hcs, List.length_append]
        exact Nat.le_add_right _ _
      have h3 : fs.take k = fs.take (min k fs.length) := by
        rcases Nat.le_total k fs.length with h | h
        · rw [Nat.min_eq_left h]
        · rw [Nat.min_eq_right h, List.take_of_length_le h, List.take_of_length_le (Nat.le_refl _)]
      have h4 := htime cs1.length h2 (min k fs.length) (Nat.min_le_right _ _)
      rw [h1, ← h3] at h4
      simp only [List.length_nil, Nat.zero_add] at hk ⊢
      exact h4 hk

/-- C22, amended, at a concrete stream: the request `GetJobs` followed by the
descriptor message, cut into reads of 10, 20 and 12 bytes and fed to a callback
that counts.  The first two calls return -1 with `EAGAIN`, the third 0; the
callback is invoked on the two messages in order, as it is when one read
brings the whole stream. -/
theorem recv_split_reads_witness :
    (∀ (m : launch_data) (c : Nat),
      ((fun (_ : launch_data) (n : Nat) => (n + 1, false)) m c).2 = false) ∧
    (∀ f ∈ [getjobs_request, fd_request], ValidFrame sample_unpack f) ∧
    sample_reads.map (fun c => c.1.length) = [10, 20, 12] ∧
    (∃ q, recv_reads sample_unpack (fun (_ : launch_data) (n : Nat) => (n + 1, false))
        { fd2use := 7, recvbuf := [], recvfds := [] } 0 sample_reads = some q ∧
      q.delivered = [getjobs_request, fd_request].map (fun f => f.msg) ∧
      q.ctx = [getjobs_request, fd_request].foldl (fun c _ => c + 1) 0 ∧
      q.lh = { fd2use := 7, recvbuf := [], recvfds := [] } ∧
      q.returns.length = sample_reads.length ∧
      ∀ x ∈ q.returns, x = (0, none) ∨ x = (-1, some EAGAIN)) ∧
    (recv_reads sample_unpack (fun (_ : launch_data) (n : Nat) => (n + 1, false))
      idle_handle 0 sample_reads).map (fun q => (q.delivered, q.ctx, q.returns)) =
      some ([launch_data.string LAUNCH_KEY_GETJOBS, launch_data.fd 50], 2,
        [(-1, some EAGAIN), (-1, some EAGAIN), (0, none)]) ∧
    (recv_reads sample_unpack (fun (_ : launch_data) (n : Nat) => (n + 1, false))
      idle_handle 0 [(stream_bytes [getjobs_request, fd_request], [50])]).map
        (fun q => (q.delivered, q.ctx, q.returns)) =
      some ([launch_data.string LAUNCH_KEY_GETJOBS, launch_data.fd 50], 2, [(0, none)]) :=
  have hv : ∀ f ∈ [getjobs_request, fd_request], ValidFrame sample_unpack f := by
    intro f hf
    rcases List.mem_cons.1 hf with h | h
    · rw [h]
      exact getjobs_request_valid
    · rw [List.mem_singleton.1 h]
      exact fd_request_valid
  ⟨fun _ _ => rfl, hv, rfl,
    (recv_split_reads sample_unpack (fun (_ : launch_data) (n : Nat) => (n + 1, false))
      (fun _ _ => rfl)).2 [getjobs_request, fd_request] sample_reads 7 0 (by decide) hv
      (by decide) rfl rfl (by decide),
    rfl, rfl⟩

end Launchd
